import Mathlib

/-!
AMReX linear-operator core: shallow embedding and verified properties.

The development embeds, from the C++ sources,

* `AMReX_BCRec.H`: the boundary-condition record `BCRec`, its constructors, setters and
  equality, and the free function `setBC`;
* `AMReX_MLMGBndry.H`: `MLMGBndryT::setBoxBC`;
* `AMReX_MLALap_2D_K.H`: the kernels `mlalap_adotx`, `mlalap_normalize`, `mlalap_flux_x`,
  `mlalap_flux_y`, their face and metric variants, `mlalap_gsrb` and `mlalap_gsrb_m`;
* `AMReX_MLEBABecLap.cpp`: the coefficient setters, the EB Dirichlet setters, the
  averaging-down driver, `prepareForSolve`, `update`, `restriction`, `interpolation`,
  `applyBC` and `compGrad`.

Conventions.  C++ `int` values are `Int` (no index of a grid comes near the limits of the
machine type).  The kernels are templates over the number type `RT`; they are embedded over an
arbitrary field `RT`, and `Real` is instantiated with the rationals `ℚ`, so arithmetic is
exact.  An `Array4` is a total map from `(i, j, k, n)` to a value, an in-place write is a
`Function.update`, and a fatal abort is the `error` case of `Except`.
-/

namespace amrex

/-! ## Boxes and boundary-condition records (`AMReX_BCRec.H`) -/

/-- Index box in `D` dimensions: `smallend` is what `loVect()` returns and `bigend` what
`hiVect()` returns. -/
structure Box (D : Nat) where
  smallend : Fin D → Int
  bigend : Fin D → Int

/-- Boundary condition record: the member `int bc[2*AMREX_SPACEDIM]`, with `D` standing for
`AMREX_SPACEDIM`. -/
structure BCRec (D : Nat) where
  bc : Fin (2 * D) → Int

namespace BCRec

variable {D : Nat}

/-- Array index `dir` of the low face in direction `dir`. -/
def ilo (dir : Fin D) : Fin (2 * D) := ⟨dir.val, by omega⟩

/-- Array index `dir + AMREX_SPACEDIM` of the high face in direction `dir`. -/
def ihi (dir : Fin D) : Fin (2 * D) := ⟨dir.val + D, by omega⟩

/-- Member `lo(int dir)`: returns `bc[dir]`. -/
def lo (r : BCRec D) (dir : Fin D) : Int := r.bc (ilo dir)

/-- Member `hi(int dir)`: returns `bc[AMREX_SPACEDIM+dir]`. -/
def hi (r : BCRec D) (dir : Fin D) : Int := r.bc (ihi dir)

/-- Member `setLo(dir, bc_val)`: `bc[dir] = bc_val`. -/
def setLo (r : BCRec D) (dir : Fin D) (bc_val : Int) : BCRec D :=
  ⟨Function.update r.bc (ilo dir) bc_val⟩

/-- Member `setHi(dir, bc_val)`: `bc[AMREX_SPACEDIM+dir] = bc_val`. -/
def setHi (r : BCRec D) (dir : Fin D) (bc_val : Int) : BCRec D :=
  ⟨Function.update r.bc (ihi dir) bc_val⟩

/-- One pass through the body of the loop of the constructor `BCRec(bx, domain, bc_domain)`.
The argument `int_dir` is the integer code of `BCType::int_dir`, whose header
(`AMReX_BC_TYPES.H`) is not among the sources. -/
def ofBoxStep (int_dir : Int) (bx domain : Box D) (bc_domain : BCRec D)
    (r : BCRec D) (dir : Fin D) : BCRec D :=
  let r1 : BCRec D := ⟨Function.update r.bc (ilo dir)
    (if bx.smallend dir ≤ domain.smallend dir then bc_domain.bc (ilo dir) else int_dir)⟩
  ⟨Function.update r1.bc (ihi dir)
    (if bx.bigend dir ≥ domain.bigend dir then bc_domain.bc (ihi dir) else int_dir)⟩

/-- Constructor `BCRec(bx, domain, bc_domain)`: the loop over `dir = 0, ..., AMREX_SPACEDIM-1`.
The member array is not initialised before the loop; `uninit` stands for its indeterminate
contents. -/
def ofBox (int_dir : Int) (uninit : BCRec D) (bx domain : Box D) (bc_domain : BCRec D) :
    BCRec D :=
  (List.finRange D).foldl (ofBoxStep int_dir bx domain bc_domain) uninit

end BCRec

/-- One pass through the body of the loop of the free function `setBC`. -/
def setBCStep {D : Nat} (int_dir : Int) (bx domain : Box D) (bc_dom : BCRec D)
    (bcr : BCRec D) (dir : Fin D) : BCRec D :=
  let bcr1 := bcr.setLo dir
    (if bx.smallend dir ≤ domain.smallend dir then bc_dom.lo dir else int_dir)
  bcr1.setHi dir
    (if bx.bigend dir ≥ domain.bigend dir then bc_dom.hi dir else int_dir)

/-- Free function `setBC(bx, domain, bc_dom, bcr)`; the result is the new value of the in/out
argument `bcr`. -/
def setBC {D : Nat} (int_dir : Int) (bx domain : Box D) (bc_dom : BCRec D) (bcr : BCRec D) :
    BCRec D :=
  (List.finRange D).foldl (setBCStep int_dir bx domain bc_dom) bcr

/-- The one-dimensional box `[lo, hi]`. -/
def Box.interval (lo hi : Int) : Box 1 := ⟨fun _ => lo, fun _ => hi⟩

/-- The one-dimensional record with low code `l` and high code `h`:
the constructor `BCRec(loX, hiX)`. -/
def BCRec.ofCodes1 (l h : Int) : BCRec 1 := ⟨fun i => if i.val = 0 then l else h⟩

/-! ## Boundary data manager (`AMReX_MLMGBndry.H`) -/

/-- Modelled from the spec: the enumeration `LinOpBCType` of the declared boundary types
(`AMReX_LO_BCTYPES.H` is not among the sources).  The three enumerators that the sources name
are kept; `unsupported code` stands for every other enumerator. -/
inductive LinOpBCType where
  | Dirichlet
  | Neumann
  | reflect_odd
  | unsupported (code : Int)
  deriving DecidableEq, Repr

/-- The two sides of a box in one direction (`Orientation::low`, `Orientation::high`). -/
inductive Side where
  | low
  | high
  deriving DecidableEq, Repr

/-- Modelled from the spec: a face of a box, the class `Orientation` (`AMReX_Orientation.H` is
not among the sources): a coordinate direction and a side. -/
structure Orientation (D : Nat) where
  coordDir : Fin D
  side : Side
  deriving DecidableEq

/-- Member `isLow()` of `Orientation`. -/
def Orientation.isLow {D : Nat} (face : Orientation D) : Bool :=
  match face.side with
  | Side.low => true
  | Side.high => false

/-- The faces in the order in which `OrientationIter` visits them: the low faces of all
directions, then the high faces. -/
def orientations (D : Nat) : List (Orientation D) :=
  (List.finRange D).map (fun d => ⟨d, Side.low⟩) ++
    (List.finRange D).map (fun d => ⟨d, Side.high⟩)

/-- Member `Box::operator[](Orientation)`: the bound of the box on the given face. -/
def Box.face {D : Nat} (b : Box D) (face : Orientation D) : Int :=
  if face.isLow then b.smallend face.coordDir else b.bigend face.coordDir

/-- Integer codes of the tag macros `AMREX_LO_DIRICHLET`, `AMREX_LO_NEUMANN` and
`AMREX_LO_REFLECT_ODD`; their header is not among the sources, so they are parameters. -/
structure LOTags where
  AMREX_LO_DIRICHLET : Int
  AMREX_LO_NEUMANN : Int
  AMREX_LO_REFLECT_ODD : Int

/-- The type `RealTuple`: one location per face. -/
abbrev RealTuple (D : Nat) := Orientation D → ℚ

/-- The type `BCTuple`: one tag per face. -/
abbrev BCTuple (D : Nat) := Orientation D → Int

/-- The read-only arguments of `MLMGBndryT::setBoxBC`. -/
structure BoxBCArgs (D : Nat) where
  bx : Box D
  domain : Box D
  lo : Fin D → LinOpBCType
  hi : Fin D → LinOpBCType
  dx : Fin D → ℚ
  ratio : Int
  interior_bloc : Fin D → ℚ
  domain_bloc_lo : Fin D → ℚ
  domain_bloc_hi : Fin D → ℚ
  is_periodic : Fin D → Int

/-- Body of the loop over faces of `MLMGBndryT::setBoxBC`, acting on the in/out arguments
`(bloc, bctag)`; `amrex::Abort` is the `error` result. -/
def setBoxBCFace {D : Nat} (tags : LOTags) (a : BoxBCArgs D)
    (st : RealTuple D × BCTuple D) (face : Orientation D) :
    Except String (RealTuple D × BCTuple D) :=
  let dir := face.coordDir
  if a.domain.face face = a.bx.face face ∧ a.is_periodic dir = 0 then
    let bloc := Function.update st.1 face
      (if face.isLow then a.domain_bloc_lo dir else a.domain_bloc_hi dir)
    let linop_bc := if face.isLow then a.lo dir else a.hi dir
    if linop_bc = LinOpBCType.Dirichlet then
      .ok (bloc, Function.update st.2 face tags.AMREX_LO_DIRICHLET)
    else if linop_bc = LinOpBCType.Neumann then
      .ok (bloc, Function.update st.2 face tags.AMREX_LO_NEUMANN)
    else if linop_bc = LinOpBCType.reflect_odd then
      .ok (bloc, Function.update st.2 face tags.AMREX_LO_REFLECT_ODD)
    else
      .error "MLMGBndry::setBoxBC: Unknown LinOpBCType"
  else
    let bctag := Function.update st.2 face tags.AMREX_LO_DIRICHLET
    .ok (Function.update st.1 face
          (if a.ratio > 0 then (1 / 2 : ℚ) * (a.ratio : ℚ) * a.dx dir else a.interior_bloc dir),
         bctag)

/-- The static member `MLMGBndryT::setBoxBC`: the loop over all faces. -/
def setBoxBC {D : Nat} (tags : LOTags) (a : BoxBCArgs D) (bloc : RealTuple D)
    (bctag : BCTuple D) : Except String (RealTuple D × BCTuple D) :=
  (orientations D).foldlM (setBoxBCFace tags a) (bloc, bctag)

/-- The face of the box coincides with the same face of the domain and the direction is not
periodic: the condition `domain[face] == bx[face] && !is_periodic[dir]`. -/
def BoxBCArgs.onDomainFace {D : Nat} (a : BoxBCArgs D) (face : Orientation D) : Prop :=
  a.domain.face face = a.bx.face face ∧ a.is_periodic face.coordDir = 0

instance {D : Nat} (a : BoxBCArgs D) (face : Orientation D) : Decidable (a.onDomainFace face) := by
  unfold BoxBCArgs.onDomainFace; infer_instance

/-- The type the caller declared for the side and direction of a face:
`face.isLow() ? lo[dir] : hi[dir]`. -/
def BoxBCArgs.declared {D : Nat} (a : BoxBCArgs D) (face : Orientation D) : LinOpBCType :=
  if face.isLow then a.lo face.coordDir else a.hi face.coordDir

/-- The declared types that `setBoxBC` accepts on a domain face. -/
def LinOpBCType.supported : LinOpBCType → Bool
  | .Dirichlet => true
  | .Neumann => true
  | .reflect_odd => true
  | .unsupported _ => false

/-- The tag written for an accepted declared type. -/
def LOTags.ofType (tags : LOTags) : LinOpBCType → Int
  | .Dirichlet => tags.AMREX_LO_DIRICHLET
  | .Neumann => tags.AMREX_LO_NEUMANN
  | .reflect_odd => tags.AMREX_LO_REFLECT_ODD
  | .unsupported _ => 0

/-- The location that the loop of `setBoxBC` leaves on a face. -/
def BoxBCArgs.blocOf {D : Nat} (a : BoxBCArgs D) (face : Orientation D) : ℚ :=
  if a.onDomainFace face then
    (if face.isLow then a.domain_bloc_lo face.coordDir else a.domain_bloc_hi face.coordDir)
  else (if a.ratio > 0 then (1 / 2 : ℚ) * (a.ratio : ℚ) * a.dx face.coordDir
        else a.interior_bloc face.coordDir)

/-- The tag that the loop of `setBoxBC` leaves on a face when it does not abort. -/
def BoxBCArgs.tagOf {D : Nat} (tags : LOTags) (a : BoxBCArgs D) (face : Orientation D) : Int :=
  if a.onDomainFace face then tags.ofType (a.declared face) else tags.AMREX_LO_DIRICHLET

/-- Tag codes used in the worked instances. -/
def LOTags.sample : LOTags := ⟨101, 102, 103⟩

/-- Example arguments in one dimension: the box `[0, 3]` in the domain `[0, 7]`, not periodic,
low side declared Neumann, high side declared with an enumerator `setBoxBC` does not know,
mesh spacing `1/4`, ratio `2`. -/
def BoxBCArgs.sample : BoxBCArgs 1 where
  bx := Box.interval 0 3
  domain := Box.interval 0 7
  lo := fun _ => LinOpBCType.Neumann
  hi := fun _ => LinOpBCType.unsupported 104
  dx := fun _ => 1 / 4
  ratio := 2
  interior_bloc := fun _ => 0
  domain_bloc_lo := fun _ => 0
  domain_bloc_hi := fun _ => 0
  is_periodic := fun _ => 0

/-! ## Two-dimensional kernels (`AMReX_MLALap_2D_K.H`) -/

/-- The struct `Dim3` returned by `amrex::lbound` and `amrex::ubound`. -/
structure Dim3 where
  x : Int
  y : Int
  z : Int

/-- Function `amrex::lbound(box)` in two dimensions. -/
def lbound (box : Box 2) : Dim3 := ⟨box.smallend 0, box.smallend 1, 0⟩

/-- Function `amrex::ubound(box)` in two dimensions. -/
def ubound (box : Box 2) : Dim3 := ⟨box.bigend 0, box.bigend 1, 0⟩

/-- An `Array4<T>`: the value at `(i, j, k, n)`. -/
abbrev Array4 (RT : Type) := Int × Int × Int × Int → RT

/-- The values `lo, lo+1, ..., hi` taken by the counter of `for (int i = lo; i <= hi; ++i)`. -/
def intRange (lo hi : Int) : List Int :=
  (List.range (hi + 1 - lo).toNat).map (fun (k : Nat) => lo + (k : Int))

/-- The loop nest shared by all kernels:
`for (n = 0; n < ncomp; ++n) for (j = lo.y; j <= hi.y; ++j) for (i = lo.x; i <= hi.x; ++i)`,
threading the state `s` through the body. -/
def loopNest {σ : Type} (lo hi : Dim3) (ncomp : Int) (body : Int → Int → Int → σ → σ)
    (s : σ) : σ :=
  (intRange 0 (ncomp - 1)).foldl (fun s n =>
    (intRange lo.y hi.y).foldl (fun s j =>
      (intRange lo.x hi.x).foldl (fun s i => body i j n s) s) s) s

/-- The cells `(i, j, 0, n)` visited by the loop nest, in visiting order. -/
def loopCells (lo hi : Dim3) (ncomp : Int) : List (Int × Int × Int × Int) :=
  (intRange 0 (ncomp - 1)).flatMap (fun n =>
    (intRange lo.y hi.y).flatMap (fun j =>
      (intRange lo.x hi.x).map (fun i => (i, j, 0, n))))

section Kernels

variable {RT : Type} [Field RT]

/-- Kernel `mlalap_adotx`; the result is the output array `y` after the call. -/
def mlalap_adotx (box : Box 2) (y : Array4 RT) (x : Array4 RT) (a : Array4 RT)
    (dxinv : Fin 2 → RT) (alpha beta : RT) (ncomp : Int) : Array4 RT :=
  let dhx := beta * dxinv 0 * dxinv 0
  let dhy := beta * dxinv 1 * dxinv 1
  let lo := lbound box
  let hi := ubound box
  loopNest lo hi ncomp (fun i j n y =>
    Function.update y (i, j, 0, n)
      (alpha * a (i, j, 0, n) * x (i, j, 0, n)
        - dhx * (x (i - 1, j, 0, n) - 2 * x (i, j, 0, n) + x (i + 1, j, 0, n))
        - dhy * (x (i, j - 1, 0, n) - 2 * x (i, j, 0, n) + x (i, j + 1, 0, n)))) y

/-- Kernel `mlalap_adotx_m` (radial metric); the result is the output array `y` after the
call. -/
def mlalap_adotx_m (box : Box 2) (y : Array4 RT) (x : Array4 RT) (a : Array4 RT)
    (dxinv : Fin 2 → RT) (alpha beta dx probxlo : RT) (ncomp : Int) : Array4 RT :=
  let dhx := beta * dxinv 0 * dxinv 0
  let dhy := beta * dxinv 1 * dxinv 1
  let lo := lbound box
  let hi := ubound box
  loopNest lo hi ncomp (fun i j n y =>
    let rel := probxlo + (i : RT) * dx
    let rer := probxlo + ((i : RT) + 1) * dx
    let rc := probxlo + ((i : RT) + 1 / 2) * dx
    Function.update y (i, j, 0, n)
      (alpha * a (i, j, 0, n) * x (i, j, 0, n) * rc
        - dhx * (rer * (x (i + 1, j, 0, n) - x (i, j, 0, n))
               - rel * (x (i, j, 0, n) - x (i - 1, j, 0, n)))
        - dhy * rc * (x (i, j - 1, 0, n) - 2 * x (i, j, 0, n) + x (i, j + 1, 0, n)))) y

/-- Kernel `mlalap_gsrb`; the result is the array `phi` after the in-place sweep.  The C++
test `(i+j+redblack)%2 == 0` uses the truncating remainder, `Int.tmod`. -/
def mlalap_gsrb (box : Box 2) (phi : Array4 RT) (rhs : Array4 RT) (alpha dhx dhy : RT)
    (a : Array4 RT)
    (f0 : Array4 RT) (m0 : Array4 Int) (f1 : Array4 RT) (m1 : Array4 Int)
    (f2 : Array4 RT) (m2 : Array4 Int) (f3 : Array4 RT) (m3 : Array4 Int)
    (vbox : Box 2) (redblack : Int) (ncomp : Int) : Array4 RT :=
  let lo := lbound box
  let hi := ubound box
  let vlo := lbound vbox
  let vhi := ubound vbox
  loopNest lo hi ncomp (fun i j n phi =>
    if (i + j + redblack).tmod 2 = 0 then
      let cf0 : RT := if i = vlo.x ∧ m0 (vlo.x - 1, j, 0, 0) > 0 then f0 (vlo.x, j, 0, n) else 0
      let cf1 : RT := if j = vlo.y ∧ m1 (i, vlo.y - 1, 0, 0) > 0 then f1 (i, vlo.y, 0, n) else 0
      let cf2 : RT := if i = vhi.x ∧ m2 (vhi.x + 1, j, 0, 0) > 0 then f2 (vhi.x, j, 0, n) else 0
      let cf3 : RT := if j = vhi.y ∧ m3 (i, vhi.y + 1, 0, 0) > 0 then f3 (i, vhi.y, 0, n) else 0
      let delta := dhx * (cf0 + cf2) + dhy * (cf1 + cf3)
      let gamma := alpha * a (i, j, 0, n) + 2 * (dhx + dhy)
      let rho := dhx * (phi (i - 1, j, 0, n) + phi (i + 1, j, 0, n))
        + dhy * (phi (i, j - 1, 0, n) + phi (i, j + 1, 0, n))
      Function.update phi (i, j, 0, n)
        ((rhs (i, j, 0, n) + rho - phi (i, j, 0, n) * delta) / (gamma - delta))
    else phi) phi

/-- Value of the local `delta` of `mlalap_gsrb` at cell `(i, j)`, component `n`. -/
def gsrbDelta (dhx dhy : RT)
    (f0 : Array4 RT) (m0 : Array4 Int) (f1 : Array4 RT) (m1 : Array4 Int)
    (f2 : Array4 RT) (m2 : Array4 Int) (f3 : Array4 RT) (m3 : Array4 Int)
    (vbox : Box 2) (i j n : Int) : RT :=
  dhx * ((if i = (lbound vbox).x ∧ m0 ((lbound vbox).x - 1, j, 0, 0) > 0
            then f0 ((lbound vbox).x, j, 0, n) else 0)
        + (if i = (ubound vbox).x ∧ m2 ((ubound vbox).x + 1, j, 0, 0) > 0
            then f2 ((ubound vbox).x, j, 0, n) else 0))
  + dhy * ((if j = (lbound vbox).y ∧ m1 (i, (lbound vbox).y - 1, 0, 0) > 0
            then f1 (i, (lbound vbox).y, 0, n) else 0)
        + (if j = (ubound vbox).y ∧ m3 (i, (ubound vbox).y + 1, 0, 0) > 0
            then f3 (i, (ubound vbox).y, 0, n) else 0))

/-- Value of the local `gamma` of `mlalap_gsrb` at cell `(i, j)`, component `n`. -/
def gsrbGamma (alpha dhx dhy : RT) (a : Array4 RT) (i j n : Int) : RT :=
  alpha * a (i, j, 0, n) + 2 * (dhx + dhy)

/-- Value of the local `rho` of `mlalap_gsrb` at cell `(i, j)`, component `n`, for the
current contents `phi`. -/
def gsrbRho (dhx dhy : RT) (phi : Array4 RT) (i j n : Int) : RT :=
  dhx * (phi (i - 1, j, 0, n) + phi (i + 1, j, 0, n))
    + dhy * (phi (i, j - 1, 0, n) + phi (i, j + 1, 0, n))

end Kernels

/-- The two-dimensional box `[x0, x1] × [y0, y1]`. -/
def Box.rect (x0 y0 x1 y1 : Int) : Box 2 :=
  ⟨fun d => if d.val = 0 then x0 else y0, fun d => if d.val = 0 then x1 else y1⟩

/-! ### The four-cell Dirichlet scenario

A row of four cells `i = 0, ..., 3` at `j = 0` with spacing `h = 1/4`, so `dxinv[0] = 4`; the
inverse spacing in `y` is `0`, which removes the `y` differences and leaves the one-dimensional
operator.  `alpha = 0`, `beta = 1`, so `dhx = 16` and `dhy = 0`. -/

/-- The row of four cells. -/
def scenarioBox : Box 2 := Box.rect 0 0 3 0

/-- Inverse mesh spacings of the scenario. -/
def scenarioDxinv : Fin 2 → ℚ := fun d => if d.val = 0 then 4 else 0

/-- Right-hand side of the scenario: `1` everywhere. -/
def scenarioRhs : Array4 ℚ := fun _ => 1

/-- The `A` coefficient of the scenario; it is multiplied by `alpha = 0`. -/
def scenarioA : Array4 ℚ := fun _ => 0

/-- Initial guess of the scenario: `phi = 0`. -/
def scenarioPhi0 : Array4 ℚ := fun _ => 0

/-- Modelled from the spec: boundary application (§4.8) for the homogeneous Dirichlet
condition located on the two `x` faces of the row; the kernel that fills the ghost cells is
not among the sources.  The ghost value is obtained by linear extrapolation through the
boundary value `0` on the face and the first interior cell: `ghost = -interior`. -/
def scenarioApplyBC (phi : Array4 ℚ) : Array4 ℚ :=
  Function.update (Function.update phi (-1, 0, 0, 0) (-(phi (0, 0, 0, 0))))
    (4, 0, 0, 0) (-(phi (3, 0, 0, 0)))

/-- Correction factor on the `x` faces matching `scenarioApplyBC`: the derivative `-1` of the
ghost value with respect to the adjacent interior value. -/
def scenarioFx : Array4 ℚ := fun _ => -1

/-- Masks of the `x` faces: positive, the ghost cell lies outside the domain. -/
def scenarioMaskX : Array4 Int := fun _ => 1

/-- Correction factor of the `y` faces: none. -/
def scenarioFy : Array4 ℚ := fun _ => 0

/-- Masks of the `y` faces: not positive, no correction. -/
def scenarioMaskY : Array4 Int := fun _ => 0

/-- One `mlalap_gsrb` sweep of colour `redblack` in the scenario, after boundary
application. -/
def scenarioSmooth (redblack : Int) (phi : Array4 ℚ) : Array4 ℚ :=
  mlalap_gsrb scenarioBox (scenarioApplyBC phi) scenarioRhs 0 16 0 scenarioA
    scenarioFx scenarioMaskX scenarioFy scenarioMaskY
    scenarioFx scenarioMaskX scenarioFy scenarioMaskY scenarioBox redblack 1

/-- A full red-black sweep pair: colour `0`, then colour `1`. -/
def scenarioSweepPair (phi : Array4 ℚ) : Array4 ℚ :=
  scenarioSmooth 1 (scenarioSmooth 0 phi)

/-- The residual `rhs - adotx(phi)` of the scenario, after boundary application. -/
def scenarioResidual (phi : Array4 ℚ) : Array4 ℚ :=
  fun p => scenarioRhs p -
    mlalap_adotx scenarioBox (fun _ => 0) (scenarioApplyBC phi) scenarioA scenarioDxinv 0 1 1 p

/-- The residual norm `max |rhs - adotx(phi)|` over the four cells. -/
def scenarioResidualMax (phi : Array4 ℚ) : ℚ :=
  ((loopCells (lbound scenarioBox) (ubound scenarioBox) 1).map
    (fun p => |scenarioResidual phi p|)).foldl max 0

/-- The sum of `|rhs - adotx(phi)|` over the four cells. -/
def scenarioResidualSum (phi : Array4 ℚ) : ℚ :=
  ((loopCells (lbound scenarioBox) (ubound scenarioBox) 1).map
    (fun p => |scenarioResidual phi p|)).sum

/-! ## The operator (`AMReX_MLEBABecLap.cpp`) -/

/-- Modelled from the spec: the field container `MultiFab`, whose class is not among the
sources: the valid cells of its boxes, its number of components, and a value for every cell
(valid or ghost) and component. -/
structure MultiFab where
  cells : List (Int × Int × Int)
  nComp : Nat
  val : Int × Int × Int → Nat → ℚ

/-- Modelled from the spec: the one-argument `setVal(val)` of the field container, which is not
among the sources.  It assigns `val` to every component of every cell; `define` relies on this
to zero all `ncomp` components of a face coefficient, and the scalar overload of `setBCoeffs`
to set all of them to `beta`. -/
def MultiFab.setVal (mf : MultiFab) (v : ℚ) : MultiFab :=
  { mf with val := fun _ _ => v }

/-- Modelled from the spec: the bulk reduction `sum()` of the field container: the sum of
component `0` over the valid cells. -/
def MultiFab.sum (mf : MultiFab) : ℚ :=
  (mf.cells.map (fun c => mf.val c 0)).sum

/-- Modelled from the spec: the bulk reduction `norm0()` of the field container: the max-norm
of component `0` over the valid cells. -/
def MultiFab.norm0 (mf : MultiFab) : ℚ :=
  (mf.cells.map (fun c => |mf.val c 0|)).foldl max 0

/-- The enumeration `Location` of where `phi` and the `beta` coefficients live. -/
inductive Location where
  | FaceCenter
  | FaceCentroid
  | CellCenter
  | CellCentroid
  deriving DecidableEq, Repr

/-- The data members of `MLEBABecLap` (its own and those of its base classes) that the
embedded member functions read or write.  Vectors are total maps from the index; their sizes
are `m_num_amr_levels` and `m_num_mg_levels`.  A `unique_ptr<MultiFab>` is an `Option`. -/
structure MLEBABecLap (D : Nat) where
  m_ncomp : Nat
  m_num_amr_levels : Nat
  m_num_mg_levels : Nat → Nat
  m_a_scalar : ℚ
  m_b_scalar : ℚ
  m_a_coeffs : Nat → Nat → MultiFab
  m_b_coeffs : Nat → Nat → Fin D → MultiFab
  m_eb_phi : Nat → Option MultiFab
  m_eb_b_coeffs : Nat → Nat → Option MultiFab
  m_lobc : Nat → Fin D → LinOpBCType
  m_hibc : Nat → Fin D → LinOpBCType
  m_domain_covered : Nat → Bool
  m_is_singular : List Bool
  m_needs_update : Bool
  m_beta_loc : Location
  m_phi_loc : Location

/-- Parts of the repository that the embedded member functions call and that are not among
the sources; they are parameters of the embedding. -/
structure Collaborators (D : Nat) where
  /-- Routine `amrex::EB_average_down(S_fine, S_crse, scomp, ncomp, ratio)`: the new coarse field. -/
  EB_average_down : MultiFab → MultiFab → Nat → Nat → (Fin D → Int) → MultiFab
  /-- Routine `amrex::EB_average_down_faces(fine, crse, ratio, ngcrse)`: the new coarse fields. -/
  EB_average_down_faces :
    (Fin D → MultiFab) → (Fin D → MultiFab) → (Fin D → Int) → Int → (Fin D → MultiFab)
  /-- Routine `amrex::EB_average_down_faces(fine, crse, ratio, crse_geom)`, the geometry being
  `m_geom[amrlev][mglev]`: the new coarse fields. -/
  EB_average_down_faces_geom :
    (Fin D → MultiFab) → (Fin D → MultiFab) → (Fin D → Int) → Nat → Nat → (Fin D → MultiFab)
  /-- Routine `amrex::EB_average_down_boundaries(fine, crse, ratio, ngcrse)`: the new coarse field. -/
  EB_average_down_boundaries : MultiFab → MultiFab → (Fin D → Int) → Int → MultiFab
  /-- Call `FillBoundary(m_geom[amrlev][mglev].periodicity())` on a field of that level. -/
  FillBoundary : Nat → Nat → MultiFab → MultiFab
  /-- The constant `mg_coarsen_ratio`. -/
  mg_coarsen_ratio : Int
  /-- The member `mg_coarsen_ratio_vec`. -/
  mg_coarsen_ratio_vec : Nat → Fin D → Int
  /-- The base-class member `MLCellABecLap::prepareForSolve()`. -/
  MLCellABecLap_prepareForSolve : MLEBABecLap D → MLEBABecLap D
  /-- The base-class member `MLCellABecLap::needsUpdate()`. -/
  MLCellABecLap_needsUpdate : MLEBABecLap D → Bool
  /-- The base-class member `MLCellABecLap::update()`. -/
  MLCellABecLap_update : MLEBABecLap D → MLEBABecLap D
  /-- The base-class member `MLCellABecLap::define(a_geom, a_grids, a_dmap, a_info,
  a_factory)`, with its arguments. -/
  MLCellABecLap_define : MLEBABecLap D → MLEBABecLap D
  /-- The base-class member `AMRRefRatio(amrlev)`. -/
  AMRRefRatio : Nat → Fin D → Int

namespace MLEBABecLap

variable {D : Nat}

/-- Member `getNComp()`. -/
def getNComp (op : MLEBABecLap D) : Nat := op.m_ncomp

/-- Modelled from the spec: member `isEBDirichlet()`, declared in a header that is not among
the sources: EB-Dirichlet is active once the EB Dirichlet-value field of level `0` has been
allocated. -/
def isEBDirichlet (op : MLEBABecLap D) : Bool := (op.m_eb_phi 0).isSome

/-- Overload `setBCoeffs(int amrlev, Vector<Real> const& beta)`.  An index of `beta` past its
end reads `0`. -/
def setBCoeffsVector (op : MLEBABecLap D) (amrlev : Nat) (beta : List ℚ) : MLEBABecLap D :=
  let ncomp := op.getNComp
  let b := (List.finRange D).foldl (fun b idim =>
    (List.range ncomp).foldl (fun b icomp =>
      Function.update b idim ((b idim).setVal (beta.getD icomp 0))) b) (op.m_b_coeffs amrlev 0)
  { op with
    m_b_coeffs := Function.update op.m_b_coeffs amrlev
      (Function.update (op.m_b_coeffs amrlev) 0 b)
    m_needs_update := true
    m_beta_loc := Location.FaceCenter }

/-- One pass of the loop of `averageDownCoeffsSameAmrLevel` (the body for one `mglev`,
lines 630-650).  The source tests `b_eb[mglev]` only and dereferences `b_eb[mglev-1]` without
a test: a null finer pointer next to a non-null coarser one is the `error` result. -/
def averageDownCoeffsSameAmrLevelPass (K : Collaborators D) (amrlev : Nat)
    (op : MLEBABecLap D) (mglev : Nat) : Except String (MLEBABecLap D) :=
  let ratio : Fin D → Int :=
    if amrlev > 0 then (fun _ => K.mg_coarsen_ratio) else K.mg_coarsen_ratio_vec (mglev - 1)
  let a := op.m_a_coeffs amrlev
  let a1 :=
    if op.m_a_scalar = 0 then Function.update a mglev ((a mglev).setVal 0)
    else Function.update a mglev (K.EB_average_down (a (mglev - 1)) (a mglev) 0 1 ratio)
  let b := op.m_b_coeffs amrlev
  let b1 := Function.update b mglev (K.EB_average_down_faces (b (mglev - 1)) (b mglev) ratio 0)
  let b_eb := op.m_eb_b_coeffs amrlev
  let b_eb1 : Except String (Nat → Option MultiFab) :=
    match b_eb mglev, b_eb (mglev - 1) with
    | some crse, some fine =>
      .ok (Function.update b_eb mglev (some (K.EB_average_down_boundaries fine crse ratio 0)))
    | some _, none => .error "null pointer dereferenced: b_eb[mglev-1]"
    | none, _ => .ok b_eb
  match b_eb1 with
  | .error e => .error e
  | .ok b_eb2 =>
    .ok { op with
      m_a_coeffs := Function.update op.m_a_coeffs amrlev a1
      m_b_coeffs := Function.update op.m_b_coeffs amrlev b1
      m_eb_b_coeffs := Function.update op.m_eb_b_coeffs amrlev b_eb2 }

/-- Member `averageDownCoeffsSameAmrLevel(amrlev, a, b, b_eb)`.  Its callers pass
`m_a_coeffs[amrlev]`, `m_b_coeffs[amrlev]` and the pointers of `m_eb_b_coeffs[amrlev]` for the
reference arguments, so the embedding works on these members.  The loop runs over
`mglev = 1, ..., nmglevs - 1`; a null pointer dereferenced in a pass ends it with the `error`
result. -/
def averageDownCoeffsSameAmrLevel (K : Collaborators D) (op : MLEBABecLap D) (amrlev : Nat) :
    Except String (MLEBABecLap D) :=
  let nmglevs := op.m_num_mg_levels amrlev
  ((List.range (nmglevs - 1)).map (fun m => m + 1)).foldlM
    (averageDownCoeffsSameAmrLevelPass K amrlev) op

/-- Member `averageDownCoeffsToCoarseAmrLevel(flev)`: `back()` is the multigrid level
`m_num_mg_levels[flev] - 1` and `front()` the multigrid level `0`.  The source tests
`fine_eb_b_coeffs` only and dereferences `crse_eb_b_coeffs` without a test: a null coarse
pointer next to a non-null fine one is the `error` result. -/
def averageDownCoeffsToCoarseAmrLevel (K : Collaborators D) (op : MLEBABecLap D) (flev : Nat) :
    Except String (MLEBABecLap D) :=
  let back := op.m_num_mg_levels flev - 1
  let fine_a_coeffs := op.m_a_coeffs flev back
  let fine_b_coeffs := op.m_b_coeffs flev back
  let crse_a_coeffs := op.m_a_coeffs (flev - 1) 0
  let crse_b_coeffs := op.m_b_coeffs (flev - 1) 0
  let fine_eb_b_coeffs := op.m_eb_b_coeffs flev back
  let crse_eb_b_coeffs := op.m_eb_b_coeffs (flev - 1) 0
  let ratio : Fin D → Int := fun _ => K.mg_coarsen_ratio
  let crse_a1 :=
    if op.m_a_scalar ≠ 0 then K.EB_average_down fine_a_coeffs crse_a_coeffs 0 1 ratio
    else crse_a_coeffs
  let crse_b1 := K.EB_average_down_faces_geom fine_b_coeffs crse_b_coeffs ratio (flev - 1) 0
  let crse_eb1 : Except String (Option MultiFab) :=
    match fine_eb_b_coeffs, crse_eb_b_coeffs with
    | some fine, some crse => .ok (some (K.EB_average_down_boundaries fine crse ratio 0))
    | some _, none => .error "null pointer dereferenced: crse_eb_b_coeffs"
    | none, crse => .ok crse
  match crse_eb1 with
  | .error e => .error e
  | .ok crse_eb2 =>
    .ok { op with
      m_a_coeffs := Function.update op.m_a_coeffs (flev - 1)
        (Function.update (op.m_a_coeffs (flev - 1)) 0 crse_a1)
      m_b_coeffs := Function.update op.m_b_coeffs (flev - 1)
        (Function.update (op.m_b_coeffs (flev - 1)) 0 crse_b1)
      m_eb_b_coeffs := Function.update op.m_eb_b_coeffs (flev - 1)
        (Function.update (op.m_eb_b_coeffs (flev - 1)) 0 crse_eb2) }

/-- The AMR levels `m_num_amr_levels-1, ..., 1` of a loop
`for (amrlev = m_num_amr_levels-1; amrlev > 0; --amrlev)`. -/
def fineLevelsDown (n : Nat) : List Nat :=
  ((List.range (n - 1)).map (fun m => m + 1)).reverse

/-- Member `averageDownCoeffs()`; a null pointer dereferenced on the way is the `error`
result. -/
def averageDownCoeffs (K : Collaborators D) (op : MLEBABecLap D) :
    Except String (MLEBABecLap D) :=
  match (fineLevelsDown op.m_num_amr_levels).foldlM (fun op amrlev =>
      match averageDownCoeffsSameAmrLevel K op amrlev with
      | .error e => Except.error e
      | .ok op1 => averageDownCoeffsToCoarseAmrLevel K op1 amrlev) op with
  | .error e => .error e
  | .ok op1 =>
    match averageDownCoeffsSameAmrLevel K op1 0 with
    | .error e => .error e
    | .ok op2 =>
      .ok ((List.range op2.m_num_amr_levels).foldl (fun op amrlev =>
        (List.range (op.m_num_mg_levels amrlev)).foldl (fun op mglev =>
          (List.finRange D).foldl (fun op idim =>
            { op with
              m_b_coeffs := Function.update op.m_b_coeffs amrlev
                (Function.update (op.m_b_coeffs amrlev) mglev
                  (Function.update (op.m_b_coeffs amrlev mglev) idim
                    (K.FillBoundary amrlev mglev (op.m_b_coeffs amrlev mglev idim)))) }) op) op)
        op2)

/-- The block that `prepareForSolve` (lines 692-714) and `update` (lines 1181-1203) share
word for word: it recomputes `m_is_singular`.  `std::find` over `m_lobc[0]` reaching `end()`
means that no direction of solve component `0` is declared Dirichlet. -/
def updateSingularFlags (op : MLEBABecLap D) : MLEBABecLap D :=
  let cleared : List Bool := List.replicate op.m_num_amr_levels false
  let itlo_at_end : Bool := !((List.finRange D).any
    (fun d => decide (op.m_lobc 0 d = LinOpBCType.Dirichlet)))
  let ithi_at_end : Bool := !((List.finRange D).any
    (fun d => decide (op.m_hibc 0 d = LinOpBCType.Dirichlet)))
  if itlo_at_end && ithi_at_end && !op.isEBDirichlet then
    { op with
      m_is_singular := (List.range op.m_num_amr_levels).foldl (fun sing alev =>
        if op.m_domain_covered alev then
          if op.m_a_scalar = 0 then
            sing.set alev true
          else
            let asum := (op.m_a_coeffs alev (op.m_num_mg_levels alev - 1)).sum
            let amax := (op.m_a_coeffs alev (op.m_num_mg_levels alev - 1)).norm0
            sing.set alev (decide (asum ≤ amax * (1 / 10 ^ 12)))
        else sing) cleared }
  else
    { op with m_is_singular := cleared }

/-- Averaging of the EB Dirichlet values across AMR levels in `prepareForSolve`
(lines 685-690).  The source tests `m_eb_phi[0]` only and dereferences `m_eb_phi[amrlev]`
and `m_eb_phi[amrlev-1]` without a test: a null pointer among them is the `error`
result. -/
def averageDownEBPhi (K : Collaborators D) (op : MLEBABecLap D) :
    Except String (MLEBABecLap D) :=
  if (op.m_eb_phi 0).isSome then
    (fineLevelsDown op.m_num_amr_levels).foldlM (fun op amrlev =>
      match op.m_eb_phi amrlev, op.m_eb_phi (amrlev - 1) with
      | some fine, some crse =>
        .ok { op with
          m_eb_phi := Function.update op.m_eb_phi (amrlev - 1)
            (some (K.EB_average_down_boundaries fine crse (fun _ => K.mg_coarsen_ratio) 0)) }
      | _, _ => .error "null pointer dereferenced: m_eb_phi") op
  else .ok op

/-- Member `prepareForSolve()`; a null pointer dereferenced on the way is the `error`
result. -/
def prepareForSolve (K : Collaborators D) (op : MLEBABecLap D) :
    Except String (MLEBABecLap D) :=
  let op1 := K.MLCellABecLap_prepareForSolve op
  match averageDownCoeffs K op1 with
  | .error e => .error e
  | .ok op2 =>
    match averageDownEBPhi K op2 with
    | .error e => .error e
    | .ok op3 =>
      let op4 := updateSingularFlags op3
      .ok { op4 with m_needs_update := false }

/-- Member `update()`; a null pointer dereferenced on the way is the `error` result. -/
def update (K : Collaborators D) (op : MLEBABecLap D) : Except String (MLEBABecLap D) :=
  let op1 := if K.MLCellABecLap_needsUpdate op then K.MLCellABecLap_update op else op
  match averageDownCoeffs K op1 with
  | .error e => .error e
  | .ok op2 =>
    let op3 := updateSingularFlags op2
    .ok { op3 with m_needs_update := false }

/-- The pointers that one call `averageDownCoeffsSameAmrLevel(amrlev, ...)` dereferences
without a test are not null: a non-null EB `B` coefficient on a multigrid level `mglev >= 1`
comes with a non-null EB `B` coefficient on the multigrid level `mglev - 1`. -/
def EBCoeffPointersOKAt (op : MLEBABecLap D) (amrlev : Nat) : Prop :=
  ∀ mglev, 1 ≤ mglev → mglev < op.m_num_mg_levels amrlev →
    (op.m_eb_b_coeffs amrlev mglev).isSome = true →
    (op.m_eb_b_coeffs amrlev (mglev - 1)).isSome = true

/-- The pointers that `averageDownCoeffs()` dereferences without a test are not null: on AMR
level `0` and on every other AMR level of the operator the condition of
`EBCoeffPointersOKAt` holds, and for every fine level a non-null EB `B` coefficient on its
coarsest multigrid level comes with a non-null EB `B` coefficient on multigrid level `0` of
the next coarser level. -/
def EBCoeffPointersOK (op : MLEBABecLap D) : Prop :=
  (∀ amrlev, amrlev = 0 ∨ amrlev < op.m_num_amr_levels → EBCoeffPointersOKAt op amrlev) ∧
  (∀ flev, 1 ≤ flev → flev < op.m_num_amr_levels →
    (op.m_eb_b_coeffs flev (op.m_num_mg_levels flev - 1)).isSome = true →
    (op.m_eb_b_coeffs (flev - 1) 0).isSome = true)

/-- The pointers that lines 685-690 of `prepareForSolve()` dereference without a test are
not null: when `m_eb_phi[0]` is set, `m_eb_phi` is set on every AMR level. -/
def EBPhiPointersOK (op : MLEBABecLap D) : Prop :=
  (op.m_eb_phi 0).isSome = true →
    ∀ lev, lev < op.m_num_amr_levels → (op.m_eb_phi lev).isSome = true

/-- The sizes and the null pattern of the EB pointers are the same in `t` as in `s`. -/
def SameShape (s t : MLEBABecLap D) : Prop :=
  t.m_num_amr_levels = s.m_num_amr_levels ∧ t.m_num_mg_levels = s.m_num_mg_levels ∧
    (∀ lev, (t.m_eb_phi lev).isSome = (s.m_eb_phi lev).isSome) ∧
    (∀ lev mglev, (t.m_eb_b_coeffs lev mglev).isSome = (s.m_eb_b_coeffs lev mglev).isSome)

/-- The members that the singularity block reads are the same in `t` as in `s`. -/
def SameSetup (s t : MLEBABecLap D) : Prop :=
  t.m_num_amr_levels = s.m_num_amr_levels ∧ t.m_lobc = s.m_lobc ∧ t.m_hibc = s.m_hibc ∧
    t.m_domain_covered = s.m_domain_covered ∧ t.m_a_scalar = s.m_a_scalar ∧
    t.isEBDirichlet = s.isEBDirichlet

/-- What the averaging member functions keep: the members that the singularity block reads,
the sizes and the null pattern of the EB pointers, and the flag `m_needs_update`. -/
def Stable (s t : MLEBABecLap D) : Prop :=
  SameSetup s t ∧ SameShape s t ∧ t.m_needs_update = s.m_needs_update

end MLEBABecLap

/-- A field with the single valid cell `(0,0,0)` and the value `v` everywhere. -/
def MultiFab.const (ncomp : Nat) (v : ℚ) : MultiFab := ⟨[(0, 0, 0)], ncomp, fun _ _ => v⟩

/-- An operator on one AMR level with one multigrid level and `ncomp` components: `alpha = 0`,
`beta = 1`, all coefficients `0`, every face declared Neumann, domain covered, no EB
Dirichlet data. -/
def MLEBABecLap.sample (D ncomp : Nat) : MLEBABecLap D where
  m_ncomp := ncomp
  m_num_amr_levels := 1
  m_num_mg_levels := fun _ => 1
  m_a_scalar := 0
  m_b_scalar := 1
  m_a_coeffs := fun _ _ => MultiFab.const 1 0
  m_b_coeffs := fun _ _ _ => MultiFab.const ncomp 0
  m_eb_phi := fun _ => none
  m_eb_b_coeffs := fun _ _ => none
  m_lobc := fun _ _ => LinOpBCType.Neumann
  m_hibc := fun _ _ => LinOpBCType.Neumann
  m_domain_covered := fun _ => true
  m_is_singular := []
  m_needs_update := true
  m_beta_loc := Location.FaceCenter
  m_phi_loc := Location.CellCenter

/-- Collaborators that leave every field as it is. -/
def Collaborators.idle (D : Nat) : Collaborators D where
  EB_average_down := fun _ crse _ _ _ => crse
  EB_average_down_faces := fun _ crse _ _ => crse
  EB_average_down_faces_geom := fun _ crse _ _ _ => crse
  EB_average_down_boundaries := fun _ crse _ _ => crse
  FillBoundary := fun _ _ mf => mf
  mg_coarsen_ratio := 2
  mg_coarsen_ratio_vec := fun _ _ => 2
  MLCellABecLap_prepareForSolve := fun op => op
  MLCellABecLap_needsUpdate := fun _ => false
  MLCellABecLap_update := fun op => op
  MLCellABecLap_define := fun op => op
  AMRRefRatio := fun _ _ => 2

/-- The sample operator with two components in which only the low face of direction `0` of
solve component `1` is declared Dirichlet; every face of component `0` is Neumann. -/
def MLEBABecLap.sampleMixed : MLEBABecLap 2 :=
  { MLEBABecLap.sample 2 2 with
    m_lobc := fun n d => if n = 1 ∧ d.val = 0 then LinOpBCType.Dirichlet
      else LinOpBCType.Neumann }

/-- The sample operator with the low face of direction `0` of solve component `0` declared
Dirichlet. -/
def MLEBABecLap.sampleDirichlet : MLEBABecLap 2 :=
  { MLEBABecLap.sample 2 1 with
    m_lobc := fun n d => if n = 0 ∧ d.val = 0 then LinOpBCType.Dirichlet
      else LinOpBCType.Neumann }

/-- The sample operator with `alpha = 1`; its `A` coefficient is identically `0`. -/
def MLEBABecLap.sampleReaction : MLEBABecLap 2 :=
  { MLEBABecLap.sample 2 1 with m_a_scalar := 1 }

/-- The sample operator with `alpha = 1` and the `A` coefficient identically `3`. -/
def MLEBABecLap.sampleReaction3 : MLEBABecLap 2 :=
  { MLEBABecLap.sample 2 1 with
    m_a_scalar := 1
    m_a_coeffs := fun _ _ => MultiFab.const 1 3 }

/-- The test `s / m <= tol` as the specification writes it: it needs the quotient, which
exists only for `m ≠ 0`. -/
def quotientAtMost (s m tol : ℚ) : Prop := m ≠ 0 ∧ s / m ≤ tol

/-- The flag that the singularity block writes for AMR level `k` when its loop reaches the
level; `t` is the operator on which the block runs. -/
def MLEBABecLap.singularFlag {D : Nat} (t : MLEBABecLap D) (k : Nat) : Bool :=
  decide ((∀ d, t.m_lobc 0 d ≠ LinOpBCType.Dirichlet) ∧
      (∀ d, t.m_hibc 0 d ≠ LinOpBCType.Dirichlet) ∧ t.isEBDirichlet = false) &&
    t.m_domain_covered k &&
    (decide (t.m_a_scalar = 0) ||
      decide ((t.m_a_coeffs k (t.m_num_mg_levels k - 1)).sum ≤
        (t.m_a_coeffs k (t.m_num_mg_levels k - 1)).norm0 * (1 / 10 ^ 12)))

section NormalizeKernel

variable {RT : Type} [Field RT]

/-- Kernel `mlalap_normalize`; the result is the array `x` after the in-place division. -/
def mlalap_normalize (box : Box 2) (x : Array4 RT) (a : Array4 RT)
    (dxinv : Fin 2 → RT) (alpha beta : RT) (ncomp : Int) : Array4 RT :=
  let dhx := beta * dxinv 0 * dxinv 0
  let dhy := beta * dxinv 1 * dxinv 1
  let lo := lbound box
  let hi := ubound box
  loopNest lo hi ncomp (fun i j n x =>
    Function.update x (i, j, 0, n)
      (x (i, j, 0, n) / (alpha * a (i, j, 0, n) + 2 * (dhx + dhy)))) x

/-- The inverse mesh spacings `dxinv = (1/hx, 1/hy)` of a grid with spacings `hx`, `hy`. -/
def invSpacing (hx hy : RT) : Fin 2 → RT := fun d => if d.val = 0 then 1 / hx else 1 / hy

/-- The unit impulse at a cell and component: `1` there and `0` everywhere else. -/
def unitImpulse (p : Int × Int × Int × Int) : Array4 RT := fun q => if q = p then 1 else 0

end NormalizeKernel

/-- Collaborators whose averaging routines return their fine source as it is, so that the
result of an averaging call shows which source it was given. -/
def Collaborators.probe (D : Nat) : Collaborators D :=
  { Collaborators.idle D with
    EB_average_down := fun fine _ _ _ _ => fine
    EB_average_down_faces := fun fine _ _ _ => fine
    EB_average_down_faces_geom := fun fine _ _ _ _ => fine
    EB_average_down_boundaries := fun fine _ _ _ => fine }

/-- An operator on two AMR levels with `alpha = 1`: level `0` has one multigrid level, level
`1` has two; the `B` coefficient of level `1` is `5` on its multigrid level `0` and `7` on its
multigrid level `1`, and `0` on AMR level `0`. -/
def MLEBABecLap.sampleTwoLevel : MLEBABecLap 2 :=
  { MLEBABecLap.sample 2 1 with
    m_num_amr_levels := 2
    m_num_mg_levels := fun lev => if lev = 1 then 2 else 1
    m_a_scalar := 1
    m_b_coeffs := fun lev mglev _ =>
      if lev = 1 then (if mglev = 0 then MultiFab.const 1 5 else MultiFab.const 1 7)
      else MultiFab.const 1 0 }

/-- The two-level sample operator with EB Dirichlet values on AMR level `0` only. -/
def MLEBABecLap.sampleCoarseEBOnly : MLEBABecLap 2 :=
  { MLEBABecLap.sampleTwoLevel with
    m_eb_phi := fun lev => if lev = 0 then some (MultiFab.const 1 0) else none }

/-- The two-level sample operator with an EB `B` coefficient on the coarsest multigrid level
of AMR level `1` only. -/
def MLEBABecLap.sampleFineEBOnly : MLEBABecLap 2 :=
  { MLEBABecLap.sampleTwoLevel with
    m_eb_b_coeffs := fun lev mglev =>
      if lev = 1 ∧ mglev = 1 then some (MultiFab.const 1 0) else none }

/-- Modelled from the spec: the static member `MultiFab::Copy(dst, src, srccomp, dstcomp,
numcomp, nghost)` of the field container, which is not among the sources, for `nghost = 0`
(the value every call in the sources passes): on the valid cells of `dst` the components
`dstcomp, ..., dstcomp + numcomp - 1` of `dst` receive the components
`srccomp, ..., srccomp + numcomp - 1` of `src`; everything else in `dst` is kept. -/
def MultiFab.Copy (dst src : MultiFab) (srccomp dstcomp numcomp : Nat) : MultiFab :=
  { dst with
    val := fun c n =>
      if c ∈ dst.cells ∧ dstcomp ≤ n ∧ n < dstcomp + numcomp then
        src.val c (n - dstcomp + srccomp)
      else dst.val c n }

namespace MLEBABecLap

variable {D : Nat}

/-- Member `setPhiOnCentroid()`. -/
def setPhiOnCentroid (op : MLEBABecLap D) : MLEBABecLap D :=
  { op with m_phi_loc := Location.CellCentroid }

/-- Overload `setACoeffs(int amrlev, const MultiFab& alpha)`. -/
def setACoeffsField (op : MLEBABecLap D) (amrlev : Nat) (alpha : MultiFab) : MLEBABecLap D :=
  { op with
    m_a_coeffs := Function.update op.m_a_coeffs amrlev
      (Function.update (op.m_a_coeffs amrlev) 0
        (MultiFab.Copy (op.m_a_coeffs amrlev 0) alpha 0 0 1))
    m_needs_update := true }

/-- Overload `setACoeffs(int amrlev, Real alpha)`. -/
def setACoeffsScalar (op : MLEBABecLap D) (amrlev : Nat) (alpha : ℚ) : MLEBABecLap D :=
  { op with
    m_a_coeffs := Function.update op.m_a_coeffs amrlev
      (Function.update (op.m_a_coeffs amrlev) 0 ((op.m_a_coeffs amrlev 0).setVal alpha))
    m_needs_update := true }

/-- Overload `setBCoeffs(int amrlev, const Array<MultiFab const*,AMREX_SPACEDIM>& beta,
Location a_beta_loc)`.  A failing `AMREX_ALWAYS_ASSERT` is the `error` result.  The two
branches differ in the source component of the copy: `icomp` when `beta[0]` has `ncomp`
components, `0` otherwise. -/
def setBCoeffsField (op : MLEBABecLap D) (amrlev : Nat) (beta : Fin D → MultiFab)
    (a_beta_loc : Location) (h0 : 0 < D) : Except String (MLEBABecLap D) :=
  let ncomp := op.getNComp
  let beta_ncomp := (beta ⟨0, h0⟩).nComp
  let op1 := { op with m_beta_loc := a_beta_loc }
  if beta_ncomp = 1 ∨ beta_ncomp = ncomp then
    let b :=
      if (beta ⟨0, h0⟩).nComp = ncomp then
        (List.finRange D).foldl (fun b idim =>
          (List.range ncomp).foldl (fun b icomp =>
            Function.update b idim (MultiFab.Copy (b idim) (beta idim) icomp icomp 1)) b)
          (op1.m_b_coeffs amrlev 0)
      else
        (List.finRange D).foldl (fun b idim =>
          (List.range ncomp).foldl (fun b icomp =>
            Function.update b idim (MultiFab.Copy (b idim) (beta idim) 0 icomp 1)) b)
          (op1.m_b_coeffs amrlev 0)
    .ok { op1 with
      m_b_coeffs := Function.update op1.m_b_coeffs amrlev
        (Function.update (op1.m_b_coeffs amrlev) 0 b)
      m_needs_update := true }
  else
    .error "Assertion failed: beta_ncomp == 1 || beta_ncomp == ncomp"

/-- Overload `setBCoeffs(int amrlev, Real beta)`. -/
def setBCoeffsScalar (op : MLEBABecLap D) (amrlev : Nat) (beta : ℚ) : MLEBABecLap D :=
  let b := (List.finRange D).foldl (fun b idim =>
    Function.update b idim ((b idim).setVal beta)) (op.m_b_coeffs amrlev 0)
  { op with
    m_b_coeffs := Function.update op.m_b_coeffs amrlev
      (Function.update (op.m_b_coeffs amrlev) 0 b)
    m_needs_update := true
    m_beta_loc := Location.FaceCenter }

end MLEBABecLap

/-! ### Embedded-boundary Dirichlet data -/

/-- The enumeration `FabType`: the aggregate cell type of a box. -/
inductive FabType where
  | covered
  | regular
  | singlevalued
  | multivalued
  deriving DecidableEq, Repr

/-- Modelled from the spec: the cell flags that the EB geometry collaborator supplies for one
level (`getMultiEBCellFlagFab()` of the factory, not among the sources).  The iterator
`MFIter` visits every valid cell once, in the tile box that holds it; `getType c` is the
aggregate type `getType(bx)` of the tile box `bx` that holds the cell `c`, and
`isSingleValued c`, `isCovered c` are the flag of the cell itself. -/
structure EBCellFlagFab where
  getType : Int × Int × Int → FabType
  isSingleValued : Int × Int × Int → Bool
  isCovered : Int × Int × Int → Bool

/-- What the embedded member functions take from outside the operator state when they handle
EB data: the flags of the level (`flags`, a null pointer when the factory is not an EB
factory), the valid cells of the grids `m_grids[amrlev][mglev]`, and the indeterminate
contents `fresh` of newly allocated storage. -/
structure EBSetup where
  flags : Option EBCellFlagFab
  m_grids : Nat → Nat → List (Int × Int × Int)
  fresh : Int × Int × Int → Nat → ℚ

/-- The local `t`: `(flags) ? (*flags)[mfi].getType(bx) : FabType::regular`. -/
def EBSetup.boxType (E : EBSetup) (c : Int × Int × Int) : FabType :=
  match E.flags with
  | some fl => fl.getType c
  | none => FabType.regular

/-- The test `flag(i,j,k).isSingleValued()`; without flags no cell is cut. -/
def EBSetup.isSingleValued (E : EBSetup) (c : Int × Int × Int) : Bool :=
  match E.flags with
  | some fl => fl.isSingleValued c
  | none => false

/-- The assignment `fab(i,j,k,n) = x` on the values of a field. -/
def setAt (v : Int × Int × Int → Nat → ℚ) (c : Int × Int × Int) (n : Nat) (x : ℚ) :
    Int × Int × Int → Nat → ℚ :=
  fun c1 n1 => if c1 = c ∧ n1 = n then x else v c1 n1

/-- The loop `for (MFIter mfi(...)) AMREX_HOST_DEVICE_PARALLEL_FOR_4D(bx, ncomp, i, j, k, n,
...)` over the valid cells and the components, threading the pair of output arrays. -/
def ebLoop {σ : Type} (cells : List (Int × Int × Int)) (ncomp : Nat)
    (body : Int × Int × Int → Nat → σ → σ) (s : σ) : σ :=
  cells.foldl (fun s c => (List.range ncomp).foldl (fun s n => body c n s) s) s

namespace MLEBABecLap

variable {D : Nat}

/-- The two lazy allocations that open each of the six `setEB...Dirichlet` overloads:
`m_eb_phi[amrlev]` when it is null, and `m_eb_b_coeffs[amrlev][mglev]` for every multigrid
level when `m_eb_b_coeffs[amrlev][0]` is null. -/
def allocateEBFields (E : EBSetup) (op : MLEBABecLap D) (amrlev : Nat) : MLEBABecLap D :=
  let ncomp := op.getNComp
  let op1 :=
    if (op.m_eb_phi amrlev).isNone then
      { op with
        m_eb_phi := Function.update op.m_eb_phi amrlev
          (some ⟨E.m_grids amrlev 0, ncomp, E.fresh⟩) }
    else op
  if (op1.m_eb_b_coeffs amrlev 0).isNone then
    (List.range (op1.m_num_mg_levels amrlev)).foldl (fun op mglev =>
      { op with
        m_eb_b_coeffs := Function.update op.m_eb_b_coeffs amrlev
          (Function.update (op.m_eb_b_coeffs amrlev) mglev
            (some ⟨E.m_grids amrlev mglev, ncomp, E.fresh⟩)) }) op1
  else op1

/-- The tail shared by the six overloads: the arrays written by the loop are the new
contents of `m_eb_phi[amrlev]` and `m_eb_b_coeffs[amrlev][0]`, and when `phi` lives on
centroids `m_eb_phi[amrlev]` gets `FillBoundary`. -/
def storeEBFields (K : Collaborators D) (op : MLEBABecLap D) (amrlev : Nat)
    (p b : MultiFab) (out : (Int × Int × Int → Nat → ℚ) × (Int × Int × Int → Nat → ℚ)) :
    MLEBABecLap D :=
  let p1 : MultiFab := { p with val := out.1 }
  let b1 : MultiFab := { b with val := out.2 }
  let p2 := if op.m_phi_loc = Location.CellCentroid then K.FillBoundary amrlev 0 p1 else p1
  { op with
    m_eb_phi := Function.update op.m_eb_phi amrlev (some p2)
    m_eb_b_coeffs := Function.update op.m_eb_b_coeffs amrlev
      (Function.update (op.m_eb_b_coeffs amrlev) 0 (some b1)) }

/-- Overload `setEBDirichlet(int amrlev, const MultiFab& phi, const MultiFab& beta)`.  The
loop runs over the valid cells of `phi`.  A failing `AMREX_ALWAYS_ASSERT` is the `error`
result; a null field after the allocations leaves the operator as it is. -/
def setEBDirichletField (K : Collaborators D) (E : EBSetup) (op : MLEBABecLap D)
    (amrlev : Nat) (phi beta : MultiFab) : Except String (MLEBABecLap D) :=
  let ncomp := op.getNComp
  let beta_ncomp := beta.nComp
  if beta_ncomp = 1 ∨ beta_ncomp = ncomp then
    let op1 := allocateEBFields E op amrlev
    match op1.m_eb_phi amrlev, op1.m_eb_b_coeffs amrlev 0 with
    | some p, some b =>
      let out := ebLoop phi.cells ncomp (fun c n s =>
        let t := E.boxType c
        if t = FabType.regular ∨ t = FabType.covered then
          (setAt s.1 c n 0, setAt s.2 c n 0)
        else if beta_ncomp = ncomp then
          if E.isSingleValued c then
            (setAt s.1 c n (phi.val c n), setAt s.2 c n (beta.val c n))
          else (setAt s.1 c n 0, setAt s.2 c n 0)
        else
          if E.isSingleValued c then
            (setAt s.1 c n (phi.val c n), setAt s.2 c n (beta.val c 0))
          else (setAt s.1 c n 0, setAt s.2 c n 0)) (p.val, b.val)
      .ok (storeEBFields K op1 amrlev p b out)
    | _, _ => .ok op1
  else
    .error "Assertion failed: beta_ncomp == 1 || beta_ncomp == ncomp"

/-- Overload `setEBDirichlet(int amrlev, const MultiFab& phi, Real beta)`. -/
def setEBDirichletScalar (K : Collaborators D) (E : EBSetup) (op : MLEBABecLap D)
    (amrlev : Nat) (phi : MultiFab) (beta : ℚ) : MLEBABecLap D :=
  let ncomp := op.getNComp
  let op1 := allocateEBFields E op amrlev
  match op1.m_eb_phi amrlev, op1.m_eb_b_coeffs amrlev 0 with
  | some p, some b =>
    let out := ebLoop phi.cells ncomp (fun c n s =>
      let t := E.boxType c
      if t = FabType.regular ∨ t = FabType.covered then
        (setAt s.1 c n 0, setAt s.2 c n 0)
      else
        if E.isSingleValued c then
          (setAt s.1 c n (phi.val c n), setAt s.2 c n beta)
        else (setAt s.1 c n 0, setAt s.2 c n 0)) (p.val, b.val)
    storeEBFields K op1 amrlev p b out
  | _, _ => op1

/-- Overload `setEBDirichlet(int amrlev, const MultiFab& phi, Vector<Real> const& hv_beta)`.
An index of `hv_beta` past its end reads `0`. -/
def setEBDirichletVector (K : Collaborators D) (E : EBSetup) (op : MLEBABecLap D)
    (amrlev : Nat) (phi : MultiFab) (hv_beta : List ℚ) : MLEBABecLap D :=
  let ncomp := op.getNComp
  let op1 := allocateEBFields E op amrlev
  match op1.m_eb_phi amrlev, op1.m_eb_b_coeffs amrlev 0 with
  | some p, some b =>
    let out := ebLoop phi.cells ncomp (fun c n s =>
      let t := E.boxType c
      if t = FabType.regular ∨ t = FabType.covered then
        (setAt s.1 c n 0, setAt s.2 c n 0)
      else
        if E.isSingleValued c then
          (setAt s.1 c n (phi.val c n), setAt s.2 c n (hv_beta.getD n 0))
        else (setAt s.1 c n 0, setAt s.2 c n 0)) (p.val, b.val)
    storeEBFields K op1 amrlev p b out
  | _, _ => op1

/-- Overload `setEBHomogDirichlet(int amrlev, const MultiFab& beta)`.  The loop runs over the
valid cells of `m_eb_phi[amrlev]`; for each tile the source first zeroes `phifab` and then
writes `betaout`, which per cell and component is the pair of assignments below. -/
def setEBHomogDirichletField (K : Collaborators D) (E : EBSetup) (op : MLEBABecLap D)
    (amrlev : Nat) (beta : MultiFab) : Except String (MLEBABecLap D) :=
  let ncomp := op.getNComp
  let beta_ncomp := beta.nComp
  if beta_ncomp = 1 ∨ beta_ncomp = ncomp then
    let op1 := allocateEBFields E op amrlev
    match op1.m_eb_phi amrlev, op1.m_eb_b_coeffs amrlev 0 with
    | some p, some b =>
      let out := ebLoop p.cells ncomp (fun c n s =>
        let t := E.boxType c
        let phifab := setAt s.1 c n 0
        if t = FabType.regular ∨ t = FabType.covered then
          (phifab, setAt s.2 c n 0)
        else if beta_ncomp = ncomp then
          if E.isSingleValued c then (phifab, setAt s.2 c n (beta.val c n))
          else (phifab, setAt s.2 c n 0)
        else
          if E.isSingleValued c then (phifab, setAt s.2 c n (beta.val c 0))
          else (phifab, setAt s.2 c n 0)) (p.val, b.val)
      .ok (storeEBFields K op1 amrlev p b out)
    | _, _ => .ok op1
  else
    .error "Assertion failed: beta_ncomp == 1 || beta_ncomp == ncomp"

/-- Overload `setEBHomogDirichlet(int amrlev, Real beta)`. -/
def setEBHomogDirichletScalar (K : Collaborators D) (E : EBSetup) (op : MLEBABecLap D)
    (amrlev : Nat) (beta : ℚ) : MLEBABecLap D :=
  let ncomp := op.getNComp
  let op1 := allocateEBFields E op amrlev
  match op1.m_eb_phi amrlev, op1.m_eb_b_coeffs amrlev 0 with
  | some p, some b =>
    let out := ebLoop p.cells ncomp (fun c n s =>
      let t := E.boxType c
      let phifab := setAt s.1 c n 0
      if t = FabType.regular ∨ t = FabType.covered then
        (phifab, setAt s.2 c n 0)
      else
        if E.isSingleValued c then (phifab, setAt s.2 c n beta)
        else (phifab, setAt s.2 c n 0)) (p.val, b.val)
    storeEBFields K op1 amrlev p b out
  | _, _ => op1

/-- Overload `setEBHomogDirichlet(int amrlev, Vector<Real> const& hv_beta)`.  An index of
`hv_beta` past its end reads `0`. -/
def setEBHomogDirichletVector (K : Collaborators D) (E : EBSetup) (op : MLEBABecLap D)
    (amrlev : Nat) (hv_beta : List ℚ) : MLEBABecLap D :=
  let ncomp := op.getNComp
  let op1 := allocateEBFields E op amrlev
  match op1.m_eb_phi amrlev, op1.m_eb_b_coeffs amrlev 0 with
  | some p, some b =>
    let out := ebLoop p.cells ncomp (fun c n s =>
      let t := E.boxType c
      let phifab := setAt s.1 c n 0
      if t = FabType.regular ∨ t = FabType.covered then
        (phifab, setAt s.2 c n 0)
      else
        if E.isSingleValued c then (phifab, setAt s.2 c n (hv_beta.getD n 0))
        else (phifab, setAt s.2 c n 0)) (p.val, b.val)
    storeEBFields K op1 amrlev p b out
  | _, _ => op1

end MLEBABecLap

/-- The branch a cell takes in the loops of the `setEB...Dirichlet` overloads: `true` when
the aggregate type of its box is neither regular nor covered and the flag of the cell is
SingleValued, so that the supplied values are copied; `false` when zeros are written. -/
def EBSetup.copies (E : EBSetup) (c : Int × Int × Int) : Bool :=
  !(decide (E.boxType c = FabType.regular ∨ E.boxType c = FabType.covered)) &&
    E.isSingleValued c

/-- The valid cells of `m_eb_phi[amrlev]` once it exists: those of the field already there,
or of the grids `m_grids[amrlev][0]` on which it is allocated. -/
def MLEBABecLap.ebPhiCells {D : Nat} (E : EBSetup) (op : MLEBABecLap D) (amrlev : Nat) :
    List (Int × Int × Int) :=
  match op.m_eb_phi amrlev with
  | some q => q.cells
  | none => E.m_grids amrlev 0

/-- Postcondition of the `setEB...Dirichlet` overloads on the operator `op1` they leave: the
EB value field and the EB coefficient field of the level exist, and on every cell of `cells`
and every component `n < ncomp` they hold `0` and `0` when the aggregate type of the box is
regular or covered or the cell is not SingleValued, and `phiIn c n` and `betaIn c n` when
the cell is SingleValued in a box that is neither regular nor covered. -/
def MLEBABecLap.StoresEB {D : Nat} (op1 : MLEBABecLap D) (E : EBSetup) (amrlev : Nat)
    (cells : List (Int × Int × Int)) (ncomp : Nat)
    (phiIn betaIn : Int × Int × Int → Nat → ℚ) : Prop :=
  ∃ p b, op1.m_eb_phi amrlev = some p ∧ op1.m_eb_b_coeffs amrlev 0 = some b ∧
    ∀ c ∈ cells, ∀ n, n < ncomp →
      ((E.boxType c = FabType.regular ∨ E.boxType c = FabType.covered ∨
          E.isSingleValued c = false) → p.val c n = 0 ∧ b.val c n = 0) ∧
      ((E.boxType c ≠ FabType.regular ∧ E.boxType c ≠ FabType.covered ∧
          E.isSingleValued c = true) → p.val c n = phiIn c n ∧ b.val c n = betaIn c n)

/-- The aggregate type of a box summarises the flags of its cells: a box whose type is
regular or covered holds no SingleValued cell. -/
def EBSetup.Consistent (E : EBSetup) : Prop :=
  ∀ c, (E.boxType c = FabType.regular ∨ E.boxType c = FabType.covered) →
    E.isSingleValued c = false

/-- Flags with a single cut cell `(0,0,0)` in a singlevalued box; every other cell is regular
in a regular box. -/
def EBCellFlagFab.sample : EBCellFlagFab where
  getType := fun c => if c = (0, 0, 0) then FabType.singlevalued else FabType.regular
  isSingleValued := fun c => decide (c = (0, 0, 0))
  isCovered := fun _ => false

/-- An EB setup with the sample flags on the two-cell grid `(0,0,0)`, `(1,0,0)`. -/
def EBSetup.sample : EBSetup where
  flags := some EBCellFlagFab.sample
  m_grids := fun _ _ => [(0, 0, 0), (1, 0, 0)]
  fresh := fun _ _ => 9

/-- A field on the two-cell grid `(0,0,0)`, `(1,0,0)` with the value `v` everywhere. -/
def MultiFab.pair (ncomp : Nat) (v : ℚ) : MultiFab :=
  ⟨[(0, 0, 0), (1, 0, 0)], ncomp, fun _ _ => v⟩

/-- Postcondition of the `setEBHomogDirichlet` overloads on the operator `op1` they leave:
the EB value field and the EB coefficient field of the level exist, and on every cell of
`cells` and every component `n < ncomp` the EB value is `0`, and the EB coefficient is
`betaIn c n` on a SingleValued cell and `0` on any other cell. -/
def MLEBABecLap.StoresHomogEB {D : Nat} (op1 : MLEBABecLap D) (E : EBSetup) (amrlev : Nat)
    (cells : List (Int × Int × Int)) (ncomp : Nat)
    (betaIn : Int × Int × Int → Nat → ℚ) : Prop :=
  ∃ p b, op1.m_eb_phi amrlev = some p ∧ op1.m_eb_b_coeffs amrlev 0 = some b ∧
    ∀ c ∈ cells, ∀ n, n < ncomp →
      p.val c n = 0 ∧
      (E.isSingleValued c = true → b.val c n = betaIn c n) ∧
      (E.isSingleValued c = false → b.val c n = 0)

/-! ### Transfer operators -/

/-- The test `flg(i,j,k).isCovered()`; without flags no cell is covered. -/
def EBSetup.isCovered (E : EBSetup) (c : Int × Int × Int) : Bool :=
  match E.flags with
  | some fl => fl.isCovered c
  | none => false

/-- Modelled from the spec: `amrex::coarsen(i, ratio)`, which is not among the sources: the
index of the coarse cell that holds the fine index `i`, the quotient rounded towards minus
infinity. -/
def coarsen (i : Int) (ratio : Int) : Int := i / ratio

/-- The coarse cell `(ic, jc, kc)` that `interpolation` reads for the fine cell
`(i, j, k)`. -/
def coarsenCell (c : Int × Int × Int) : Int × Int × Int :=
  (coarsen c.1 2, coarsen c.2.1 2, coarsen c.2.2 2)

/-- Modelled from the spec: `amrex::EB_average_down(S_fine, S_crse, scomp, ncomp, ratio)` on
regular (uncut) cells in three dimensions; the routine is not among the sources.  On every
valid coarse cell and every component from `scomp` to `scomp + ncomp - 1` the coarse value
becomes the plain average of the fine values over the `ratio[0] * ratio[1] * ratio[2]` fine
cells of the coarse cell. -/
def averageDownRegular (fine crse : MultiFab) (scomp ncomp : Nat) (ratio : Fin 3 → Int) :
    MultiFab :=
  { crse with
    val := fun C n =>
      if C ∈ crse.cells ∧ scomp ≤ n ∧ n < scomp + ncomp then
        ((intRange 0 (ratio 0 - 1)).map (fun di =>
          ((intRange 0 (ratio 1 - 1)).map (fun dj =>
            ((intRange 0 (ratio 2 - 1)).map (fun dk =>
              fine.val (ratio 0 * C.1 + di, ratio 1 * C.2.1 + dj, ratio 2 * C.2.2 + dk) n)).sum
            )).sum)).sum / ((ratio 0 * ratio 1 * ratio 2 : Int) : ℚ)
      else crse.val C n }

namespace MLEBABecLap

variable {D : Nat}

/-- Member `restriction(amrlev, cmglev, crse, fine)`; the result is the coarse field after
the call. -/
def restriction (K : Collaborators D) (op : MLEBABecLap D) (amrlev cmglev : Nat)
    (crse fine : MultiFab) : MultiFab :=
  let ratio : Fin D → Int :=
    if amrlev > 0 then (fun _ => K.mg_coarsen_ratio) else K.mg_coarsen_ratio_vec (cmglev - 1)
  let ncomp := op.getNComp
  K.EB_average_down fine crse 0 ncomp ratio

/-- Member `interpolation(amrlev, fmglev, fine, crse)`; the result is the fine field after
the call.  `E.flags` are the flags of the fine level; the loop runs over the valid cells of
`fine`. -/
def interpolation (E : EBSetup) (op : MLEBABecLap D) (fine crse : MultiFab) : MultiFab :=
  let ncomp := op.getNComp
  { fine with
    val := ebLoop fine.cells ncomp (fun c n ffab =>
      let fabtyp := E.boxType c
      if fabtyp = FabType.regular then
        setAt ffab c n (ffab c n + crse.val (coarsenCell c) n)
      else if fabtyp = FabType.singlevalued then
        if !E.isCovered c then
          setAt ffab c n (ffab c n + crse.val (coarsenCell c) n)
        else ffab
      else ffab) fine.val }

end MLEBABecLap

/-- The eight fine cells of the coarse cell `(0,0,0)`. -/
def blockCells : List (Int × Int × Int) :=
  [(0, 0, 0), (1, 0, 0), (0, 1, 0), (1, 1, 0), (0, 0, 1), (1, 0, 1), (0, 1, 1), (1, 1, 1)]

/-- The fine field with the value `v` on the eight fine cells of the coarse cell
`(0,0,0)`. -/
def MultiFab.block (v : ℚ) : MultiFab := ⟨blockCells, 1, fun _ _ => v⟩

/-- Collaborators whose `EB_average_down` is the plain average on regular cells, with
coarsening ratio `2`. -/
def Collaborators.regular : Collaborators 3 :=
  { Collaborators.idle 3 with EB_average_down := averageDownRegular }

/-- An EB setup without flags: every box is regular. -/
def EBSetup.noFlags : EBSetup where
  flags := none
  m_grids := fun _ _ => blockCells
  fresh := fun _ _ => 0

/-! ### The member functions that change the operator -/

/-- The sample operator with `m_needs_update` equal to `false`. -/
def MLEBABecLap.sampleClean : MLEBABecLap 2 :=
  { MLEBABecLap.sample 2 1 with m_needs_update := false }

section FluxKernels

variable {RT : Type} [Field RT]

/-- Kernel `mlalap_flux_x`; the result is the array `fx` after the call. -/
def mlalap_flux_x (box : Box 2) (fx : Array4 RT) (sol : Array4 RT) (fac : RT) (ncomp : Int) :
    Array4 RT :=
  let lo := lbound box
  let hi := ubound box
  loopNest lo hi ncomp (fun i j n fx =>
    Function.update fx (i, j, 0, n) (-fac * (sol (i, j, 0, n) - sol (i - 1, j, 0, n)))) fx

/-- Kernel `mlalap_flux_x_m` (radial metric); the result is the array `fx` after the call. -/
def mlalap_flux_x_m (box : Box 2) (fx : Array4 RT) (sol : Array4 RT) (fac dx probxlo : RT)
    (ncomp : Int) : Array4 RT :=
  let lo := lbound box
  let hi := ubound box
  loopNest lo hi ncomp (fun i j n fx =>
    let re := probxlo + (i : RT) * dx
    Function.update fx (i, j, 0, n) (-fac * re * (sol (i, j, 0, n) - sol (i - 1, j, 0, n)))) fx

/-- Kernel `mlalap_flux_xface`; the result is the array `fx` after the call. -/
def mlalap_flux_xface (box : Box 2) (fx : Array4 RT) (sol : Array4 RT) (fac : RT)
    (xlen : Int) (ncomp : Int) : Array4 RT :=
  let lo := lbound box
  let hi := ubound box
  (intRange 0 (ncomp - 1)).foldl (fun fx n =>
    (intRange lo.y hi.y).foldl (fun fx j =>
      let i := lo.x
      let fx1 := Function.update fx (i, j, 0, n)
        (-fac * (sol (i, j, 0, n) - sol (i - 1, j, 0, n)))
      let i := i + xlen
      Function.update fx1 (i, j, 0, n)
        (-fac * (sol (i, j, 0, n) - sol (i - 1, j, 0, n)))) fx) fx

/-- Kernel `mlalap_flux_y`; the result is the array `fy` after the call. -/
def mlalap_flux_y (box : Box 2) (fy : Array4 RT) (sol : Array4 RT) (fac : RT) (ncomp : Int) :
    Array4 RT :=
  let lo := lbound box
  let hi := ubound box
  loopNest lo hi ncomp (fun i j n fy =>
    Function.update fy (i, j, 0, n) (-fac * (sol (i, j, 0, n) - sol (i, j - 1, 0, n)))) fy

/-- Kernel `mlalap_flux_y_m` (radial metric); the result is the array `fy` after the call. -/
def mlalap_flux_y_m (box : Box 2) (fy : Array4 RT) (sol : Array4 RT) (fac dx probxlo : RT)
    (ncomp : Int) : Array4 RT :=
  let lo := lbound box
  let hi := ubound box
  loopNest lo hi ncomp (fun i j n fy =>
    let rc := probxlo + ((i : RT) + 1 / 2) * dx
    Function.update fy (i, j, 0, n) (-fac * rc * (sol (i, j, 0, n) - sol (i, j - 1, 0, n)))) fy

/-- Kernel `mlalap_flux_yface`; the result is the array `fy` after the call. -/
def mlalap_flux_yface (box : Box 2) (fy : Array4 RT) (sol : Array4 RT) (fac : RT)
    (ylen : Int) (ncomp : Int) : Array4 RT :=
  let lo := lbound box
  let hi := ubound box
  (intRange 0 (ncomp - 1)).foldl (fun fy n =>
    let j := lo.y
    let fy1 := (intRange lo.x hi.x).foldl (fun fy i =>
      Function.update fy (i, j, 0, n)
        (-fac * (sol (i, j, 0, n) - sol (i, j - 1, 0, n)))) fy
    let j := j + ylen
    (intRange lo.x hi.x).foldl (fun fy i =>
      Function.update fy (i, j, 0, n)
        (-fac * (sol (i, j, 0, n) - sol (i, j - 1, 0, n)))) fy1) fy

/-- Kernel `mlalap_gsrb_m` (radial metric); the result is the array `phi` after the in-place
sweep. -/
def mlalap_gsrb_m (box : Box 2) (phi : Array4 RT) (rhs : Array4 RT) (alpha dhx dhy : RT)
    (a : Array4 RT)
    (f0 : Array4 RT) (m0 : Array4 Int) (f1 : Array4 RT) (m1 : Array4 Int)
    (f2 : Array4 RT) (m2 : Array4 Int) (f3 : Array4 RT) (m3 : Array4 Int)
    (vbox : Box 2) (redblack : Int) (dx probxlo : RT) (ncomp : Int) : Array4 RT :=
  let lo := lbound box
  let hi := ubound box
  let vlo := lbound vbox
  let vhi := ubound vbox
  loopNest lo hi ncomp (fun i j n phi =>
    if (i + j + redblack).tmod 2 = 0 then
      let cf0 : RT := if i = vlo.x ∧ m0 (vlo.x - 1, j, 0, 0) > 0 then f0 (vlo.x, j, 0, n) else 0
      let cf1 : RT := if j = vlo.y ∧ m1 (i, vlo.y - 1, 0, 0) > 0 then f1 (i, vlo.y, 0, n) else 0
      let cf2 : RT := if i = vhi.x ∧ m2 (vhi.x + 1, j, 0, 0) > 0 then f2 (vhi.x, j, 0, n) else 0
      let cf3 : RT := if j = vhi.y ∧ m3 (i, vhi.y + 1, 0, 0) > 0 then f3 (i, vhi.y, 0, n) else 0
      let rel := probxlo + (i : RT) * dx
      let rer := probxlo + ((i : RT) + 1) * dx
      let rc := probxlo + ((i : RT) + 1 / 2) * dx
      let delta := dhx * (rel * cf0 + rer * cf2) + dhy * rc * (cf1 + cf3)
      let gamma := alpha * a (i, j, 0, n) * rc + dhx * (rel + rer) + dhy * (2 * rc)
      let rho := dhx * (rel * phi (i - 1, j, 0, n) + rer * phi (i + 1, j, 0, n))
        + dhy * rc * (phi (i, j - 1, 0, n) + phi (i, j + 1, 0, n))
      Function.update phi (i, j, 0, n)
        ((rhs (i, j, 0, n) + rho - phi (i, j, 0, n) * delta) / (gamma - delta))
    else phi) phi

/-- Value of the local `cf0` of `mlalap_gsrb` at cell `(i, j)`, component `n`. -/
def gsrbCf0 (f0 : Array4 RT) (m0 : Array4 Int) (vbox : Box 2) (i j n : Int) : RT :=
  if i = (lbound vbox).x ∧ m0 ((lbound vbox).x - 1, j, 0, 0) > 0
    then f0 ((lbound vbox).x, j, 0, n) else 0

/-- Value of the local `cf1` of `mlalap_gsrb` at cell `(i, j)`, component `n`. -/
def gsrbCf1 (f1 : Array4 RT) (m1 : Array4 Int) (vbox : Box 2) (i j n : Int) : RT :=
  if j = (lbound vbox).y ∧ m1 (i, (lbound vbox).y - 1, 0, 0) > 0
    then f1 (i, (lbound vbox).y, 0, n) else 0

/-- Value of the local `cf2` of `mlalap_gsrb` at cell `(i, j)`, component `n`. -/
def gsrbCf2 (f2 : Array4 RT) (m2 : Array4 Int) (vbox : Box 2) (i j n : Int) : RT :=
  if i = (ubound vbox).x ∧ m2 ((ubound vbox).x + 1, j, 0, 0) > 0
    then f2 ((ubound vbox).x, j, 0, n) else 0

/-- Value of the local `cf3` of `mlalap_gsrb` at cell `(i, j)`, component `n`. -/
def gsrbCf3 (f3 : Array4 RT) (m3 : Array4 Int) (vbox : Box 2) (i j n : Int) : RT :=
  if j = (ubound vbox).y ∧ m3 (i, (ubound vbox).y + 1, 0, 0) > 0
    then f3 (i, (ubound vbox).y, 0, n) else 0

/-- The value that the body of `mlalap_gsrb` assigns to `phi(i,j,0,n)`, computed from the
current contents `s` of `phi`. -/
def gsrbValue (rhs : Array4 RT) (alpha dhx dhy : RT) (a : Array4 RT)
    (f0 : Array4 RT) (m0 : Array4 Int) (f1 : Array4 RT) (m1 : Array4 Int)
    (f2 : Array4 RT) (m2 : Array4 Int) (f3 : Array4 RT) (m3 : Array4 Int)
    (vbox : Box 2) (s : Array4 RT) (i j n : Int) : RT :=
  (rhs (i, j, 0, n) + gsrbRho dhx dhy s i j n
      - s (i, j, 0, n) * gsrbDelta dhx dhy f0 m0 f1 m1 f2 m2 f3 m3 vbox i j n)
    / (gsrbGamma alpha dhx dhy a i j n - gsrbDelta dhx dhy f0 m0 f1 m1 f2 m2 f3 m3 vbox i j n)

/-- The value that the body of `mlalap_gsrb_m` assigns to `phi(i,j,0,n)`, computed from the
current contents `s` of `phi`. -/
def gsrbValue_m (rhs : Array4 RT) (alpha dhx dhy : RT) (a : Array4 RT)
    (f0 : Array4 RT) (m0 : Array4 Int) (f1 : Array4 RT) (m1 : Array4 Int)
    (f2 : Array4 RT) (m2 : Array4 Int) (f3 : Array4 RT) (m3 : Array4 Int)
    (vbox : Box 2) (dx probxlo : RT) (s : Array4 RT) (i j n : Int) : RT :=
  let rel := probxlo + (i : RT) * dx
  let rer := probxlo + ((i : RT) + 1) * dx
  let rc := probxlo + ((i : RT) + 1 / 2) * dx
  let delta := dhx * (rel * gsrbCf0 f0 m0 vbox i j n + rer * gsrbCf2 f2 m2 vbox i j n)
    + dhy * rc * (gsrbCf1 f1 m1 vbox i j n + gsrbCf3 f3 m3 vbox i j n)
  let gamma := alpha * a (i, j, 0, n) * rc + dhx * (rel + rer) + dhy * (2 * rc)
  let rho := dhx * (rel * s (i - 1, j, 0, n) + rer * s (i + 1, j, 0, n))
    + dhy * rc * (s (i, j - 1, 0, n) + s (i, j + 1, 0, n))
  (rhs (i, j, 0, n) + rho - s (i, j, 0, n) * delta) / (gamma - delta)

/-- One pass through the body of a red-black sweep at the cell `p = (i, j, k, n)`: when
`(i+j+redblack)%2 == 0` the entry `phi(i,j,0,n)` is overwritten with `val`, computed from the
current contents of `phi`. -/
def redblackVisit (redblack : Int) (val : Array4 RT → Int → Int → Int → RT)
    (phi : Array4 RT) (p : Int × Int × Int × Int) : Array4 RT :=
  if (p.1 + p.2.1 + redblack).tmod 2 = 0 then
    Function.update phi (p.1, p.2.1, 0, p.2.2.2) (val phi p.1 p.2.1 p.2.2.2)
  else phi

/-- The simultaneous update: every cell of `cells` with `(i+j+redblack)%2 == 0` gets `val`
computed from the field `phi` before the sweep; every other entry keeps its value. -/
def redblackSimultaneous (redblack : Int) (val : Array4 RT → Int → Int → Int → RT)
    (cells : List (Int × Int × Int × Int)) (phi : Array4 RT) : Array4 RT :=
  fun p => if p ∈ cells ∧ (p.1 + p.2.1 + redblack).tmod 2 = 0
    then val phi p.1 p.2.1 p.2.2.2 else phi p

end FluxKernels

/-! ### More of `AMReX_BCRec.H`: default constructor, `set`, equality -/

/-- The default constructor `BCRec()`: every entry of `bc` is `BCType::bogus`.  The argument
`bogus` is the integer code of that enumerator, whose header (`AMReX_BC_TYPES.H`) is not
among the sources. -/
def BCRec.defaultCtor {D : Nat} (bogus : Int) : BCRec D := ⟨fun _ => bogus⟩

/-- Member `set(face, bc_val)`. -/
def BCRec.set {D : Nat} (r : BCRec D) (face : Orientation D) (bc_val : Int) : BCRec D :=
  if face.isLow then r.setLo face.coordDir bc_val else r.setHi face.coordDir bc_val

/-- Member `operator==`: the loop `for (i = 0; i < 2*AMREX_SPACEDIM && retval; i++)
retval &= bc[i] == rhs.bc[i]`; once `retval` is `false` the loop condition fails and no
further entry is compared. -/
def BCRec.opEq {D : Nat} (r rhs : BCRec D) : Bool :=
  (List.finRange (2 * D)).foldl (fun retval i =>
    if retval then retval && decide (r.bc i = rhs.bc i) else retval) true

/-- Member `operator!=`: `!(*this == rhs)`. -/
def BCRec.opNe {D : Nat} (r rhs : BCRec D) : Bool := !(r.opEq rhs)

/-- The two-dimensional record with the codes `lo x, lo y, hi x, hi y`: the constructor
`BCRec(loX, loY, hiX, hiY)`. -/
def BCRec.ofCodes2 (loX loY hiX hiY : Int) : BCRec 2 :=
  ⟨fun i => if i.val = 0 then loX else if i.val = 1 then loY else if i.val = 2 then hiX
    else hiY⟩

/-- An operator with `alpha = 0` and two multigrid levels whose `A` coefficient is `3`
everywhere. -/
def MLEBABecLap.sampleZeroAlpha : MLEBABecLap 2 :=
  { MLEBABecLap.sample 2 1 with
    m_num_mg_levels := fun _ => 2
    m_a_coeffs := fun _ _ => MultiFab.const 1 3 }

/-! ### Boundary application and gradient (`applyBC`, `compGrad`) -/

/-- The enumeration `BCMode`. -/
inductive BCMode where
  | Homogeneous
  | Inhomogeneous
  deriving DecidableEq, Repr

/-- The enumeration `StateMode`. -/
inductive StateMode where
  | Solution
  | Correction
  deriving DecidableEq, Repr

/-- One pass of a loop `for (MFIter mfi(...); mfi.isValid(); ++mfi)`: the cells of the box
(`mfi.validbox()` or `mfi.tilebox()`), the faces of `mfi.nodaltilebox(idim)`, and the
aggregate type `(*flags)[mfi].getType(box)` that the cell flags give for the box. -/
structure TileBox (D : Nat) where
  cells : List (Int × Int × Int)
  nodaltilebox : Fin D → List (Int × Int × Int)
  getType : FabType

/-- What `applyBC` and `compGrad` take from outside the operator state; none of it is among
the sources.  The kernels are given as the new contents of the array they write. -/
structure BndryEnv (D : Nat) where
  /-- The member `maxorder` of the base class `MLLinOp`. -/
  maxorder : Int
  /-- Whether `BL_ASSERT` is checked (`AMREX_DEBUG` or `AMREX_USE_ASSERTION`); otherwise it
  expands to nothing. -/
  assertions : Bool
  /-- Whether `m_factory[amrlev][mglev]` is an EB factory, so that `flags` is not null. -/
  flags : Nat → Nat → Bool
  /-- The boxes that an `MFIter` over a field of the level visits. -/
  boxes : Nat → Nat → List (TileBox D)
  /-- Value `m_geom[amrlev][mglev].InvCellSize(idim)`. -/
  InvCellSize : Nat → Nat → Fin D → ℚ
  /-- The pointer `m_bndry_sol[amrlev].get()`: the boundary values per face, or null. -/
  m_bndry_sol : Nat → Option (Orientation D → Int × Int × Int → Nat → ℚ)
  /-- The array `foo` of the scratch `FArrayBox foofab`. -/
  foo : Int × Int × Int → Nat → ℚ
  /-- Call `in.FillBoundary(0, ncomp, m_geom[amrlev][mglev].periodicity(), cross)`. -/
  FillBoundaryCross : Nat → Nat → Nat → MultiFab → MultiFab
  /-- Kernels `mllinop_apply_bc_x`, `_y`, `_z` (selected by `idim`) on the cells adjacent to
  the box on one side (`0` low, `1` high), with the boundary values `bv`, `imaxorder`, the
  inverse spacing, `flagbc` and `icomp`; masks and boundary locations are those of the level
  and the box. -/
  mllinop_apply_bc : Nat → Nat → TileBox D → Fin D → Nat → (Int × Int × Int → Nat → ℚ) →
    Int → ℚ → Int → Nat → (Int × Int × Int → Nat → ℚ) → (Int × Int × Int → Nat → ℚ)
  /-- Kernels `mlebabeclap_apply_bc_x`, `_y`, `_z`, with the same arguments. -/
  mlebabeclap_apply_bc : Nat → Nat → TileBox D → Fin D → Nat →
    (Int × Int × Int → Nat → ℚ) →
    Int → ℚ → Int → Nat → (Int × Int × Int → Nat → ℚ) → (Int × Int × Int → Nat → ℚ)
  /-- Kernels `mlebabeclap_grad_x`, `_y`, `_z` on the faces of the box: the solution array,
  the inverse spacing, `ncomp`, `phi_on_centroid`, and the gradient array they write. -/
  mlebabeclap_grad : Nat → TileBox D → Fin D → (Int × Int × Int → Nat → ℚ) → ℚ → Nat →
    Bool → (Int × Int × Int → Nat → ℚ) → (Int × Int × Int → Nat → ℚ)
  /-- Kernels `mlebabeclap_grad_x_0`, `_y_0`, `_z_0` on the faces of the box. -/
  mlebabeclap_grad_0 : Nat → TileBox D → Fin D → (Int × Int × Int → Nat → ℚ) → ℚ → Nat →
    (Int × Int × Int → Nat → ℚ) → (Int × Int × Int → Nat → ℚ)

/-- The local `fabtyp`: `(flags) ? (*flags)[mfi].getType(box) : FabType::regular`. -/
def BndryEnv.fabtyp {D : Nat} (X : BndryEnv D) (amrlev mglev : Nat) (bx : TileBox D) :
    FabType :=
  if X.flags amrlev mglev then bx.getType else FabType.regular

/-- The cell `(i-1,j,k)`, `(i,j-1,k)` or `(i,j,k-1)` below the cell `c` in direction
`idim`. -/
def lowerCell (idim : Nat) (c : Int × Int × Int) : Int × Int × Int :=
  if idim = 0 then (c.1 - 1, c.2.1, c.2.2)
  else if idim = 1 then (c.1, c.2.1 - 1, c.2.2)
  else (c.1, c.2.1, c.2.2 - 1)

namespace MLEBABecLap

variable {D : Nat}

/-- Member `applyBC(amrlev, mglev, in, bc_mode, s_mode, bndry, skip_fillboundary)`; the
result is the field `in` after the call together with the new value of the mutable member
`m_is_eb_inhomog`, and a failed assertion is the `error` result.  The two `BL_ASSERT` are
checked only when assertions are compiled in. -/
def applyBC (X : BndryEnv D) (op : MLEBABecLap D) (amrlev mglev : Nat) (inp : MultiFab)
    (bc_mode : BCMode) (s_mode : StateMode)
    (bndry : Option (Orientation D → Int × Int × Int → Nat → ℚ))
    (skip_fillboundary : Bool) : Except String (MultiFab × Bool) :=
  if X.assertions = true ∧ ¬ (mglev = 0 ∨ bc_mode = BCMode.Homogeneous) then
    .error "Assertion failed: mglev == 0 || bc_mode == BCMode::Homogeneous"
  else if X.assertions = true ∧ ¬ (bndry.isSome = true ∨ bc_mode = BCMode.Homogeneous) then
    .error "Assertion failed: bndry != nullptr || bc_mode == BCMode::Homogeneous"
  else
    let ncomp := op.getNComp
    let in1 := if skip_fillboundary then inp else X.FillBoundaryCross amrlev mglev ncomp inp
    let m_is_inhomog : Int := if bc_mode = BCMode.Inhomogeneous then 1 else 0
    let flagbc := m_is_inhomog
    let m_is_eb_inhomog : Bool := decide (s_mode = StateMode.Solution)
    let imaxorder := X.maxorder
    if imaxorder ≤ 4 then
      let dx : Fin D → ℚ := X.InvCellSize amrlev mglev
      .ok ({ in1 with
        val := (X.boxes amrlev mglev).foldl (fun iofab vbx =>
          let fabtyp := X.fabtyp amrlev mglev vbx
          if fabtyp ≠ FabType.covered then
            (List.finRange D).foldl (fun iofab idim =>
              let olo : Orientation D := ⟨idim, Side.low⟩
              let ohi : Orientation D := ⟨idim, Side.high⟩
              let bvlo := match bndry with
                | some b => b olo
                | none => X.foo
              let bvhi := match bndry with
                | some b => b ohi
                | none => X.foo
              (List.range ncomp).foldl (fun iofab icomp =>
                if fabtyp = FabType.regular then
                  X.mllinop_apply_bc amrlev mglev vbx idim 1 bvhi imaxorder (dx idim) flagbc
                    icomp
                    (X.mllinop_apply_bc amrlev mglev vbx idim 0 bvlo imaxorder (dx idim)
                      flagbc icomp iofab)
                else
                  X.mlebabeclap_apply_bc amrlev mglev vbx idim 1 bvhi imaxorder (dx idim)
                    flagbc icomp
                    (X.mlebabeclap_apply_bc amrlev mglev vbx idim 0 bvlo imaxorder (dx idim)
                      flagbc icomp iofab)) iofab) iofab
          else iofab) in1.val }, m_is_eb_inhomog)
    else
      .error "MLEBABecLap::applyBC: maxorder too high"

/-- The body of the loop over boxes of `compGrad`: the new gradient arrays, or the abort.
The arrays `gx`, `gy`, `gz` are those of `grad[0]`, `grad[1]`, `grad[2]`; each is written by
its own loop over the faces `fbx`, `fby`, `fbz`. -/
def compGradBox (X : BndryEnv D) (op : MLEBABecLap D) (amrlev : Nat)
    (compute_grad_at_centroid : Bool) (s : Int × Int × Int → Nat → ℚ)
    (grad : Fin D → MultiFab) (bx : TileBox D) : Except String (Fin D → MultiFab) :=
  let ncomp := op.getNComp
  let mglev := 0
  let dxi : Fin D → ℚ := X.InvCellSize amrlev mglev
  let fabtyp := X.fabtyp amrlev mglev bx
  if fabtyp = FabType.covered then
    .ok (fun idim => { grad idim with
      val := ebLoop (bx.nodaltilebox idim) ncomp (fun c n g => setAt g c n 0)
        (grad idim).val })
  else if fabtyp = FabType.regular then
    .ok (fun idim => { grad idim with
      val := ebLoop (bx.nodaltilebox idim) ncomp
        (fun c n g => setAt g c n (dxi idim * (s c n - s (lowerCell idim.val c) n)))
        (grad idim).val })
  else if compute_grad_at_centroid then
    let phi_on_centroid : Bool := decide (op.m_phi_loc = Location.CellCentroid)
    if phi_on_centroid then
      .error "phi_on_centroid is still a WIP"
    else
      .ok (fun idim => { grad idim with
        val := X.mlebabeclap_grad amrlev bx idim s (dxi idim) ncomp phi_on_centroid
          (grad idim).val })
  else
    if op.m_phi_loc = Location.CellCenter then
      .ok (fun idim => { grad idim with
        val := X.mlebabeclap_grad_0 amrlev bx idim s (dxi idim) ncomp (grad idim).val })
    else
      .error "If computing the gradient at face centers we assume phi at cell centers"

/-- Member `compGrad(amrlev, grad, sol, grad_loc)`; the result is the gradient arrays after
the call.  `applyBC` is called with its default `skip_fillboundary = false`. -/
def compGrad (X : BndryEnv D) (op : MLEBABecLap D) (amrlev : Nat) (grad : Fin D → MultiFab)
    (sol : MultiFab) (grad_loc : Location) : Except String (Fin D → MultiFab) :=
  let compute_grad_at_centroid : Bool := decide (Location.FaceCentroid = grad_loc)
  let mglev := 0
  match applyBC X op amrlev mglev sol BCMode.Inhomogeneous StateMode.Solution
      (X.m_bndry_sol amrlev) false with
  | .error e => .error e
  | .ok sol1 =>
    (X.boxes amrlev mglev).foldlM
      (compGradBox X op amrlev compute_grad_at_centroid sol1.1.val) grad

end MLEBABecLap

/-- An environment with `maxorder = 3`, no assertions, EB flags present, two boxes (a regular
one with the cell `(0,0,0)` and a cut one with the cell `(1,0,0)`), unit inverse spacing and
kernels that leave their array as it is. -/
def BndryEnv.sample : BndryEnv 2 where
  maxorder := 3
  assertions := false
  flags := fun _ _ => true
  boxes := fun _ _ =>
    [⟨[(0, 0, 0)], fun _ => [(0, 0, 0), (1, 0, 0)], FabType.regular⟩,
     ⟨[(1, 0, 0)], fun _ => [(1, 0, 0), (2, 0, 0)], FabType.singlevalued⟩]
  InvCellSize := fun _ _ _ => 1
  m_bndry_sol := fun _ => none
  foo := fun _ _ => 0
  FillBoundaryCross := fun _ _ _ mf => mf
  mllinop_apply_bc := fun _ _ _ _ _ _ _ _ _ _ v => v
  mlebabeclap_apply_bc := fun _ _ _ _ _ _ _ _ _ _ v => v
  mlebabeclap_grad := fun _ _ _ _ _ _ _ v => v
  mlebabeclap_grad_0 := fun _ _ _ _ _ _ v => v

/-- The sample environment with `maxorder = 5` and assertions compiled in. -/
def BndryEnv.sampleHighOrder : BndryEnv 2 :=
  { BndryEnv.sample with maxorder := 5, assertions := true }

/-- The sample environment with two boxes none of which is cut: a covered one with the faces
`(0,0,0)` and `(1,0,0)` and a regular one with the faces `(5,0,0)` and `(6,0,0)`. -/
def BndryEnv.sampleUncut : BndryEnv 2 :=
  { BndryEnv.sample with
    boxes := fun _ _ =>
      [⟨[(0, 0, 0)], fun _ => [(0, 0, 0), (1, 0, 0)], FabType.covered⟩,
       ⟨[(5, 0, 0)], fun _ => [(5, 0, 0), (6, 0, 0)], FabType.regular⟩] }

/-- A one-component field on the cells `(4,0,0)` and `(5,0,0)` whose value at a cell is
three times its first index. -/
def MultiFab.ramp : MultiFab := ⟨[(4, 0, 0), (5, 0, 0)], 1, fun c _ => 3 * (c.1 : ℚ)⟩

/-! ## Lemmas on the loops of `BCRec` -/

theorem BCRec.ilo_ne_ihi {D : Nat} (a b : Fin D) : BCRec.ilo a ≠ BCRec.ihi b := by
  intro h
  have := congrArg Fin.val h
  simp [BCRec.ilo, BCRec.ihi] at this
  omega

theorem BCRec.ilo_inj {D : Nat} {a b : Fin D} (h : BCRec.ilo a = BCRec.ilo b) : a = b := by
  have := congrArg Fin.val h
  exact Fin.ext (by simpa [BCRec.ilo] using this)

theorem BCRec.ihi_inj {D : Nat} {a b : Fin D} (h : BCRec.ihi a = BCRec.ihi b) : a = b := by
  have := congrArg Fin.val h
  exact Fin.ext (by simpa [BCRec.ihi] using this)

/-- Every index of the member array is the low or the high index of a direction. -/
theorem BCRec.index_cases {D : Nat} (i : Fin (2 * D)) :
    (∃ d : Fin D, i = BCRec.ilo d) ∨ (∃ d : Fin D, i = BCRec.ihi d) := by
  by_cases h : i.val < D
  · exact Or.inl ⟨⟨i.val, h⟩, Fin.ext rfl⟩
  · refine Or.inr ⟨⟨i.val - D, by omega⟩, Fin.ext ?_⟩
    simp only [BCRec.ihi]
    omega

theorem BCRec.ofBoxStep_lo {D : Nat} (int_dir : Int) (bx domain : Box D) (ref r : BCRec D)
    (dir d : Fin D) :
    (BCRec.ofBoxStep int_dir bx domain ref r dir).lo d =
      if d = dir then
        (if bx.smallend d ≤ domain.smallend d then ref.lo d else int_dir)
      else r.lo d := by
  unfold BCRec.ofBoxStep BCRec.lo
  simp only
  rw [Function.update_noteq (BCRec.ilo_ne_ihi d dir)]
  by_cases h : d = dir
  · subst h; simp
  · have : BCRec.ilo d ≠ BCRec.ilo dir := fun e => h (BCRec.ilo_inj e)
    rw [Function.update_noteq this]; simp [h]

theorem BCRec.ofBoxStep_hi {D : Nat} (int_dir : Int) (bx domain : Box D) (ref r : BCRec D)
    (dir d : Fin D) :
    (BCRec.ofBoxStep int_dir bx domain ref r dir).hi d =
      if d = dir then
        (if bx.bigend d ≥ domain.bigend d then ref.hi d else int_dir)
      else r.hi d := by
  unfold BCRec.ofBoxStep BCRec.hi
  simp only
  by_cases h : d = dir
  · subst h; simp
  · have : BCRec.ihi d ≠ BCRec.ihi dir := fun e => h (BCRec.ihi_inj e)
    rw [Function.update_noteq this,
      Function.update_noteq (fun e => BCRec.ilo_ne_ihi dir d e.symm)]
    simp [h]

theorem BCRec.foldl_ofBoxStep_lo {D : Nat} (int_dir : Int) (bx domain : Box D) (ref : BCRec D)
    (l : List (Fin D)) (r : BCRec D) (d : Fin D) :
    (l.foldl (BCRec.ofBoxStep int_dir bx domain ref) r).lo d =
      if d ∈ l then
        (if bx.smallend d ≤ domain.smallend d then ref.lo d else int_dir)
      else r.lo d := by
  induction l generalizing r with
  | nil => simp
  | cons a t ih =>
    rw [List.foldl_cons, ih, BCRec.ofBoxStep_lo]
    by_cases h1 : d ∈ t
    · simp [h1]
    · by_cases h2 : d = a
      · simp [h2]
      · simp [h1, h2]

theorem BCRec.foldl_ofBoxStep_hi {D : Nat} (int_dir : Int) (bx domain : Box D) (ref : BCRec D)
    (l : List (Fin D)) (r : BCRec D) (d : Fin D) :
    (l.foldl (BCRec.ofBoxStep int_dir bx domain ref) r).hi d =
      if d ∈ l then
        (if bx.bigend d ≥ domain.bigend d then ref.hi d else int_dir)
      else r.hi d := by
  induction l generalizing r with
  | nil => simp
  | cons a t ih =>
    rw [List.foldl_cons, ih, BCRec.ofBoxStep_hi]
    by_cases h1 : d ∈ t
    · simp [h1]
    · by_cases h2 : d = a
      · simp [h2]
      · simp [h1, h2]

/-- Low face of the constructed record. -/
theorem BCRec.ofBox_lo {D : Nat} (int_dir : Int) (uninit : BCRec D) (bx domain : Box D)
    (ref : BCRec D) (d : Fin D) :
    (BCRec.ofBox int_dir uninit bx domain ref).lo d =
      if bx.smallend d ≤ domain.smallend d then ref.lo d else int_dir := by
  unfold BCRec.ofBox
  rw [BCRec.foldl_ofBoxStep_lo]
  simp [List.mem_finRange]

/-- High face of the constructed record. -/
theorem BCRec.ofBox_hi {D : Nat} (int_dir : Int) (uninit : BCRec D) (bx domain : Box D)
    (ref : BCRec D) (d : Fin D) :
    (BCRec.ofBox int_dir uninit bx domain ref).hi d =
      if bx.bigend d ≥ domain.bigend d then ref.hi d else int_dir := by
  unfold BCRec.ofBox
  rw [BCRec.foldl_ofBoxStep_hi]
  simp [List.mem_finRange]

theorem setBCStep_eq {D : Nat} (int_dir : Int) (bx domain : Box D) (ref : BCRec D) :
    setBCStep int_dir bx domain ref = BCRec.ofBoxStep int_dir bx domain ref := by
  funext r dir
  rfl

/-- The free function `setBC` computes what the constructor computes. -/
theorem setBC_eq_ofBox {D : Nat} (int_dir : Int) (bx domain : Box D) (ref r : BCRec D) :
    setBC int_dir bx domain ref r = BCRec.ofBox int_dir r bx domain ref := by
  unfold setBC BCRec.ofBox
  rw [setBCStep_eq]

/-! ## Lemmas on the loop of `setBoxBC` -/

theorem mem_orientations {D : Nat} (face : Orientation D) : face ∈ orientations D := by
  unfold orientations
  rcases face with ⟨d, s⟩
  cases s
  · apply List.mem_append_left; simp [List.mem_map, List.mem_finRange]
  · apply List.mem_append_right; simp [List.mem_map, List.mem_finRange]

theorem LinOpBCType.supported_eq_true_iff (t : LinOpBCType) :
    t.supported = true ↔
      (t = LinOpBCType.Dirichlet ∨ t = LinOpBCType.Neumann ∨ t = LinOpBCType.reflect_odd) := by
  cases t <;> simp [LinOpBCType.supported]

theorem LinOpBCType.supported_eq_false_iff (t : LinOpBCType) :
    t.supported = false ↔
      (t ≠ LinOpBCType.Dirichlet ∧ t ≠ LinOpBCType.Neumann ∧ t ≠ LinOpBCType.reflect_odd) := by
  cases t <;> simp [LinOpBCType.supported]

/-- What one pass of the loop body writes when it does not abort. -/
theorem setBoxBCFace_ok {D : Nat} (tags : LOTags) (a : BoxBCArgs D)
    (st : RealTuple D × BCTuple D) (face : Orientation D)
    (h : a.onDomainFace face → (a.declared face).supported = true) :
    setBoxBCFace tags a st face = .ok
      (Function.update st.1 face (a.blocOf face),
       Function.update st.2 face (a.tagOf tags face)) := by
  unfold setBoxBCFace BoxBCArgs.blocOf BoxBCArgs.tagOf
  by_cases hd : a.onDomainFace face
  · have hs := h hd
    have hd' : a.domain.face face = a.bx.face face ∧ a.is_periodic face.coordDir = 0 := hd
    simp only [hd', and_self, if_true, hd]
    unfold BoxBCArgs.declared at hs ⊢
    generalize (if face.isLow = true then a.lo face.coordDir else a.hi face.coordDir) = t at hs ⊢
    cases t <;> simp_all [LinOpBCType.supported, LOTags.ofType]
  · have hd' : ¬ (a.domain.face face = a.bx.face face ∧ a.is_periodic face.coordDir = 0) := hd
    simp only [hd', if_false, hd]

/-- One pass of the loop body aborts on a domain face with an unknown declared type. -/
theorem setBoxBCFace_abort {D : Nat} (tags : LOTags) (a : BoxBCArgs D)
    (st : RealTuple D × BCTuple D) (face : Orientation D)
    (h1 : a.onDomainFace face) (h2 : (a.declared face).supported = false) :
    setBoxBCFace tags a st face = .error "MLMGBndry::setBoxBC: Unknown LinOpBCType" := by
  unfold setBoxBCFace
  have hd' : a.domain.face face = a.bx.face face ∧ a.is_periodic face.coordDir = 0 := h1
  simp only [hd', and_self, if_true]
  unfold BoxBCArgs.declared at h2
  generalize (if face.isLow = true then a.lo face.coordDir else a.hi face.coordDir) = t at h2 ⊢
  cases t <;> simp_all [LinOpBCType.supported]

theorem foldlM_setBoxBCFace_ok {D : Nat} (tags : LOTags) (a : BoxBCArgs D)
    (l : List (Orientation D)) (st : RealTuple D × BCTuple D)
    (h : ∀ face ∈ l, a.onDomainFace face → (a.declared face).supported = true) :
    l.foldlM (setBoxBCFace tags a) st = .ok
      (fun face => if face ∈ l then a.blocOf face else st.1 face,
       fun face => if face ∈ l then a.tagOf tags face else st.2 face) := by
  induction l generalizing st with
  | nil => simp [pure, Except.pure]
  | cons f t ih =>
    rw [List.foldlM_cons, setBoxBCFace_ok tags a st f (h f (List.mem_cons_self _ _))]
    simp only [bind, Except.bind]
    rw [ih _ (fun face hf => h face (List.mem_cons_of_mem _ hf))]
    congr 2
    · funext face
      by_cases h1 : face ∈ t
      · simp [h1]
      · by_cases h2 : face = f
        · subst h2; simp [h1]
        · simp [h1, h2, Function.update_noteq h2]
    · funext face
      by_cases h1 : face ∈ t
      · simp [h1]
      · by_cases h2 : face = f
        · subst h2; simp [h1]
        · simp [h1, h2, Function.update_noteq h2]

theorem foldlM_setBoxBCFace_abort {D : Nat} (tags : LOTags) (a : BoxBCArgs D)
    (l : List (Orientation D)) (st : RealTuple D × BCTuple D)
    (h : ∃ face ∈ l, a.onDomainFace face ∧ (a.declared face).supported = false) :
    l.foldlM (setBoxBCFace tags a) st = .error "MLMGBndry::setBoxBC: Unknown LinOpBCType" := by
  induction l generalizing st with
  | nil => simp at h
  | cons f t ih =>
    rw [List.foldlM_cons]
    by_cases hf : a.onDomainFace f ∧ (a.declared f).supported = false
    · rw [setBoxBCFace_abort tags a st f hf.1 hf.2]; rfl
    · have hf' : a.onDomainFace f → (a.declared f).supported = true := by
        intro h1
        cases hs : (a.declared f).supported
        · exact absurd ⟨h1, hs⟩ hf
        · rfl
      rw [setBoxBCFace_ok tags a st f hf']
      simp only [bind, Except.bind]
      apply ih
      obtain ⟨face, hm, hbad⟩ := h
      rcases List.mem_cons.1 hm with rfl | hm'
      · exact absurd hbad hf
      · exact ⟨face, hm', hbad⟩

/-- The call returns the table of locations and tags when no domain face has an unknown
declared type. -/
theorem setBoxBC_ok {D : Nat} (tags : LOTags) (a : BoxBCArgs D) (bloc : RealTuple D)
    (bctag : BCTuple D)
    (h : ∀ face, a.onDomainFace face → (a.declared face).supported = true) :
    setBoxBC tags a bloc bctag = .ok (a.blocOf, a.tagOf tags) := by
  unfold setBoxBC
  rw [foldlM_setBoxBCFace_ok tags a _ _ (fun face _ => h face)]
  simp [mem_orientations]

/-- The call aborts when some domain face has an unknown declared type. -/
theorem setBoxBC_abort {D : Nat} (tags : LOTags) (a : BoxBCArgs D) (bloc : RealTuple D)
    (bctag : BCTuple D)
    (h : ∃ face, a.onDomainFace face ∧ (a.declared face).supported = false) :
    setBoxBC tags a bloc bctag = .error "MLMGBndry::setBoxBC: Unknown LinOpBCType" := by
  unfold setBoxBC
  obtain ⟨face, hf⟩ := h
  exact foldlM_setBoxBCFace_abort tags a _ _ ⟨face, mem_orientations face, hf⟩

/-- Either some domain face has an unknown declared type, or none has. -/
theorem BoxBCArgs.bad_or_good {D : Nat} (a : BoxBCArgs D) :
    (∃ face, a.onDomainFace face ∧ (a.declared face).supported = false) ∨
    (∀ face, a.onDomainFace face → (a.declared face).supported = true) := by
  by_cases h : ∃ face, a.onDomainFace face ∧ (a.declared face).supported = false
  · exact Or.inl h
  · refine Or.inr (fun face hd => ?_)
    cases hs : (a.declared face).supported
    · exact absurd ⟨face, hd, hs⟩ h
    · rfl

/-! ## Lemmas on the loop nest of the kernels -/

theorem mem_intRange (lo hi x : Int) : x ∈ intRange lo hi ↔ lo ≤ x ∧ x ≤ hi := by
  unfold intRange
  simp only [List.mem_map, List.mem_range]
  constructor
  · rintro ⟨k, hk, rfl⟩
    omega
  · rintro ⟨h1, h2⟩
    refine ⟨(x - lo).toNat, ?_, ?_⟩ <;> omega

theorem nodup_intRange (lo hi : Int) : (intRange lo hi).Nodup := by
  unfold intRange
  apply (List.nodup_range _).map
  intro a b h
  simp only at h
  omega

theorem foldl_flatMap_eq {α β σ : Type} (f : σ → β → σ) (g : α → List β) (l : List α) (s : σ) :
    (l.flatMap g).foldl f s = l.foldl (fun s a => (g a).foldl f s) s := by
  induction l generalizing s with
  | nil => rfl
  | cons a t ih => simp [List.flatMap_cons, List.foldl_append, ih]

theorem loopNest_eq_foldl {σ : Type} (lo hi : Dim3) (ncomp : Int)
    (body : Int → Int → Int → σ → σ) (s : σ) :
    loopNest lo hi ncomp body s =
      (loopCells lo hi ncomp).foldl (fun s p => body p.1 p.2.1 p.2.2.2 s) s := by
  unfold loopNest loopCells
  rw [foldl_flatMap_eq]
  congr 1
  funext s n
  rw [foldl_flatMap_eq]
  congr 1
  funext s j
  rw [List.foldl_map]

theorem mem_loopCells (lo hi : Dim3) (ncomp : Int) (p : Int × Int × Int × Int) :
    p ∈ loopCells lo hi ncomp ↔
      lo.x ≤ p.1 ∧ p.1 ≤ hi.x ∧ lo.y ≤ p.2.1 ∧ p.2.1 ≤ hi.y ∧ p.2.2.1 = 0 ∧
      0 ≤ p.2.2.2 ∧ p.2.2.2 < ncomp := by
  obtain ⟨i, j, k, n⟩ := p
  unfold loopCells
  simp only [List.mem_flatMap, List.mem_map, mem_intRange, Prod.mk.injEq]
  constructor
  · rintro ⟨n', hn, j', hj, i', hi', rfl, rfl, rfl, rfl⟩
    refine ⟨hi'.1, hi'.2, hj.1, hj.2, rfl, hn.1, by omega⟩
  · rintro ⟨h1, h2, h3, h4, h5, h6, h7⟩
    exact ⟨n, ⟨h6, by omega⟩, j, ⟨h3, h4⟩, i, ⟨h1, h2⟩, rfl, rfl, h5.symm, rfl⟩

theorem nodup_loopCells (lo hi : Dim3) (ncomp : Int) : (loopCells lo hi ncomp).Nodup := by
  unfold loopCells
  rw [List.nodup_flatMap]
  refine ⟨?_, ?_⟩
  · intro n _
    rw [List.nodup_flatMap]
    refine ⟨?_, ?_⟩
    · intro j _
      apply (nodup_intRange _ _).map
      intro a b h
      simpa using h
    · apply (nodup_intRange _ _).pairwise_of_forall_ne
      intro a _ b _ hab
      simp only [Function.onFun, List.Disjoint, List.mem_map]
      rintro p ⟨i, _, rfl⟩ ⟨i', _, h⟩
      simp only [Prod.mk.injEq] at h
      exact hab h.2.1.symm
  · apply (nodup_intRange _ _).pairwise_of_forall_ne
    intro a _ b _ hab
    simp only [Function.onFun, List.Disjoint, List.mem_flatMap, List.mem_map]
    rintro p ⟨j, _, i, _, rfl⟩ ⟨j', _, i', _, h⟩
    simp only [Prod.mk.injEq] at h
    exact hab h.2.2.2.symm

/-- A sweep that overwrites the visited keys of a list one after the other, each new value
computed from the current state, equals the simultaneous update from the initial state
whenever the new value at a key only reads that key and keys that are never written. -/
theorem foldl_update_pointwise {K V : Type} [DecidableEq K] (vis : K → Prop) [DecidablePred vis]
    (g : (K → V) → K → V) (s0 : K → V)
    (hloc : ∀ s k, vis k → s k = s0 k → (∀ p, ¬ vis p → s p = s0 p) → g s k = g s0 k)
    (l : List K) (hnd : l.Nodup) (s : K → V)
    (h1 : ∀ p, ¬ vis p → s p = s0 p) (h2 : ∀ p ∈ l, s p = s0 p) :
    l.foldl (fun s k => if vis k then Function.update s k (g s k) else s) s =
      fun p => if p ∈ l ∧ vis p then g s0 p else s p := by
  induction l generalizing s with
  | nil => simp
  | cons k t ih =>
    rw [List.foldl_cons]
    have hk : k ∉ t := (List.nodup_cons.1 hnd).1
    have hnt : t.Nodup := (List.nodup_cons.1 hnd).2
    by_cases hv : vis k
    · have hg : g s k = g s0 k := hloc s k hv (h2 k (List.mem_cons_self _ _)) h1
      simp only [hv, if_true]
      rw [ih hnt]
      · funext p
        by_cases hp : p = k
        · subst hp; simp [hk, hv, hg]
        · simp [hp, Function.update_noteq hp]
      · intro p hp
        have : p ≠ k := fun e => hp (e ▸ hv)
        rw [Function.update_noteq this]; exact h1 p hp
      · intro p hp
        have : p ≠ k := fun e => hk (e ▸ hp)
        rw [Function.update_noteq this]; exact h2 p (List.mem_cons_of_mem _ hp)
    · simp only [hv, if_false]
      rw [ih hnt s h1 (fun p hp => h2 p (List.mem_cons_of_mem _ hp))]
      funext p
      by_cases hp : p = k
      · subst hp; simp [hk, hv]
      · simp [hp]

section KernelLemmas

variable {RT : Type} [Field RT]

theorem loopNest_update_const {V : Type} (lo hi : Dim3) (ncomp : Int)
    (g : Int × Int × Int × Int → V) (s : Int × Int × Int × Int → V) :
    loopNest lo hi ncomp (fun i j n s => Function.update s (i, j, 0, n) (g (i, j, 0, n))) s =
      fun p => if p ∈ loopCells lo hi ncomp then g p else s p := by
  rw [loopNest_eq_foldl]
  have h := foldl_update_pointwise (fun _ : Int × Int × Int × Int => True) (fun _ p => g p) s
    (fun _ _ _ _ _ => rfl) (loopCells lo hi ncomp) (nodup_loopCells lo hi ncomp) s
    (fun p hp => absurd trivial hp) (fun _ _ => rfl)
  simp only [if_true, and_true] at h
  rw [← h]
  apply List.foldl_ext
  intro s p hp
  have : p.2.2.1 = 0 := ((mem_loopCells lo hi ncomp p).1 hp).2.2.2.2.1
  obtain ⟨i, j, k, n⟩ := p
  simp only at this
  subst this
  rfl

theorem mlalap_adotx_apply (box : Box 2) (y x a : Array4 RT) (dxinv : Fin 2 → RT)
    (alpha beta : RT) (ncomp : Int) (i j k n : Int) :
    mlalap_adotx box y x a dxinv alpha beta ncomp (i, j, k, n) =
      if (i, j, k, n) ∈ loopCells (lbound box) (ubound box) ncomp then
        alpha * a (i, j, 0, n) * x (i, j, 0, n)
        - beta * dxinv 0 * dxinv 0 * (x (i - 1, j, 0, n) - 2 * x (i, j, 0, n) + x (i + 1, j, 0, n))
        - beta * dxinv 1 * dxinv 1 * (x (i, j - 1, 0, n) - 2 * x (i, j, 0, n) + x (i, j + 1, 0, n))
      else y (i, j, k, n) := by
  unfold mlalap_adotx
  have h := loopNest_update_const (lbound box) (ubound box) ncomp
    (fun p : Int × Int × Int × Int =>
      alpha * a (p.1, p.2.1, 0, p.2.2.2) * x (p.1, p.2.1, 0, p.2.2.2)
        - beta * dxinv 0 * dxinv 0 * (x (p.1 - 1, p.2.1, 0, p.2.2.2)
            - 2 * x (p.1, p.2.1, 0, p.2.2.2) + x (p.1 + 1, p.2.1, 0, p.2.2.2))
        - beta * dxinv 1 * dxinv 1 * (x (p.1, p.2.1 - 1, 0, p.2.2.2)
            - 2 * x (p.1, p.2.1, 0, p.2.2.2) + x (p.1, p.2.1 + 1, 0, p.2.2.2))) y
  rw [h]

theorem mlalap_adotx_m_apply (box : Box 2) (y x a : Array4 RT) (dxinv : Fin 2 → RT)
    (alpha beta dx probxlo : RT) (ncomp : Int) (i j k n : Int) :
    mlalap_adotx_m box y x a dxinv alpha beta dx probxlo ncomp (i, j, k, n) =
      if (i, j, k, n) ∈ loopCells (lbound box) (ubound box) ncomp then
        alpha * a (i, j, 0, n) * x (i, j, 0, n) * (probxlo + ((i : RT) + 1 / 2) * dx)
        - beta * dxinv 0 * dxinv 0 *
            ((probxlo + ((i : RT) + 1) * dx) * (x (i + 1, j, 0, n) - x (i, j, 0, n))
              - (probxlo + (i : RT) * dx) * (x (i, j, 0, n) - x (i - 1, j, 0, n)))
        - beta * dxinv 1 * dxinv 1 * (probxlo + ((i : RT) + 1 / 2) * dx) *
            (x (i, j - 1, 0, n) - 2 * x (i, j, 0, n) + x (i, j + 1, 0, n))
      else y (i, j, k, n) := by
  unfold mlalap_adotx_m
  have h := loopNest_update_const (lbound box) (ubound box) ncomp
    (fun p : Int × Int × Int × Int =>
      alpha * a (p.1, p.2.1, 0, p.2.2.2) * x (p.1, p.2.1, 0, p.2.2.2)
          * (probxlo + ((p.1 : RT) + 1 / 2) * dx)
        - beta * dxinv 0 * dxinv 0 *
            ((probxlo + ((p.1 : RT) + 1) * dx)
                * (x (p.1 + 1, p.2.1, 0, p.2.2.2) - x (p.1, p.2.1, 0, p.2.2.2))
              - (probxlo + (p.1 : RT) * dx)
                * (x (p.1, p.2.1, 0, p.2.2.2) - x (p.1 - 1, p.2.1, 0, p.2.2.2)))
        - beta * dxinv 1 * dxinv 1 * (probxlo + ((p.1 : RT) + 1 / 2) * dx) *
            (x (p.1, p.2.1 - 1, 0, p.2.2.2)
              - 2 * x (p.1, p.2.1, 0, p.2.2.2) + x (p.1, p.2.1 + 1, 0, p.2.2.2))) y
  rw [h]

theorem tmod_two_eq_zero_iff (x : Int) : x.tmod 2 = 0 ↔ x % 2 = 0 :=
  ⟨fun h => Int.emod_eq_zero_of_dvd (Int.dvd_of_tmod_eq_zero h),
   fun h => Int.tmod_eq_zero_of_dvd (Int.dvd_of_emod_eq_zero h)⟩

/-- A single-colour sweep of `mlalap_gsrb` in closed form: every visited cell gets the value
computed from the field before the call. -/
theorem mlalap_gsrb_apply (box : Box 2) (phi rhs : Array4 RT) (alpha dhx dhy : RT)
    (a : Array4 RT)
    (f0 : Array4 RT) (m0 : Array4 Int) (f1 : Array4 RT) (m1 : Array4 Int)
    (f2 : Array4 RT) (m2 : Array4 Int) (f3 : Array4 RT) (m3 : Array4 Int)
    (vbox : Box 2) (redblack : Int) (ncomp : Int) (i j k n : Int) :
    mlalap_gsrb box phi rhs alpha dhx dhy a f0 m0 f1 m1 f2 m2 f3 m3 vbox redblack ncomp
        (i, j, k, n) =
      if (i, j, k, n) ∈ loopCells (lbound box) (ubound box) ncomp ∧
          (i + j + redblack).tmod 2 = 0 then
        (rhs (i, j, 0, n) + gsrbRho dhx dhy phi i j n
            - phi (i, j, 0, n) * gsrbDelta dhx dhy f0 m0 f1 m1 f2 m2 f3 m3 vbox i j n)
          / (gsrbGamma alpha dhx dhy a i j n
              - gsrbDelta dhx dhy f0 m0 f1 m1 f2 m2 f3 m3 vbox i j n)
      else phi (i, j, k, n) := by
  unfold mlalap_gsrb
  rw [loopNest_eq_foldl]
  have h := foldl_update_pointwise
    (fun p : Int × Int × Int × Int => (p.1 + p.2.1 + redblack).tmod 2 = 0)
    (fun s p => (rhs (p.1, p.2.1, 0, p.2.2.2) + gsrbRho dhx dhy s p.1 p.2.1 p.2.2.2
            - s p * gsrbDelta dhx dhy f0 m0 f1 m1 f2 m2 f3 m3 vbox p.1 p.2.1 p.2.2.2)
          / (gsrbGamma alpha dhx dhy a p.1 p.2.1 p.2.2.2
              - gsrbDelta dhx dhy f0 m0 f1 m1 f2 m2 f3 m3 vbox p.1 p.2.1 p.2.2.2)) phi
    (by
      intro s p hv hp hs
      obtain ⟨i, j, k, n⟩ := p
      simp only at hv
      have hv' := (tmod_two_eq_zero_iff _).1 hv
      have e1 : s (i - 1, j, 0, n) = phi (i - 1, j, 0, n) :=
        hs _ (by simp only [tmod_two_eq_zero_iff]; omega)
      have e2 : s (i + 1, j, 0, n) = phi (i + 1, j, 0, n) :=
        hs _ (by simp only [tmod_two_eq_zero_iff]; omega)
      have e3 : s (i, j - 1, 0, n) = phi (i, j - 1, 0, n) :=
        hs _ (by simp only [tmod_two_eq_zero_iff]; omega)
      have e4 : s (i, j + 1, 0, n) = phi (i, j + 1, 0, n) :=
        hs _ (by simp only [tmod_two_eq_zero_iff]; omega)
      simp only [gsrbRho, e1, e2, e3, e4, hp])
    (loopCells (lbound box) (ubound box) ncomp) (nodup_loopCells _ _ _) phi
    (fun _ _ => rfl) (fun _ _ => rfl)
  refine (congrFun (Eq.trans (List.foldl_ext _ _ _ ?_) h) (i, j, k, n)).trans ?_
  · intro s p hp
    have : p.2.2.1 = 0 := ((mem_loopCells _ _ ncomp p).1 hp).2.2.2.2.1
    obtain ⟨i, j, k, n⟩ := p
    simp only at this
    subst this
    rfl
  · by_cases hc : (i, j, k, n) ∈ loopCells (lbound box) (ubound box) ncomp ∧
        (i + j + redblack).tmod 2 = 0
    · have hk : k = 0 := ((mem_loopCells _ _ ncomp (i, j, k, n)).1 hc.1).2.2.2.2.1
      subst hk
      simp only [hc, and_self, if_true]
    · simp only [hc, if_false]

end KernelLemmas

/-! ## Evaluation of the four-cell scenario -/

theorem scenario_mem_cells (i : Int) :
    (i, (0 : Int), (0 : Int), (0 : Int)) ∈ loopCells (lbound scenarioBox) (ubound scenarioBox) 1
      ↔ 0 ≤ i ∧ i ≤ 3 := by
  rw [mem_loopCells]
  simp [lbound, ubound, scenarioBox, Box.rect]

theorem scenarioApplyBC_apply (phi : Array4 ℚ) (i : Int) :
    scenarioApplyBC phi (i, 0, 0, 0) =
      if i = 4 then -(phi (3, 0, 0, 0)) else if i = -1 then -(phi (0, 0, 0, 0))
      else phi (i, 0, 0, 0) := by
  unfold scenarioApplyBC
  simp [Function.update_apply]

theorem scenarioSmooth_apply (redblack : Int) (phi : Array4 ℚ) (i : Int) :
    scenarioSmooth redblack phi (i, 0, 0, 0) =
      if (0 ≤ i ∧ i ≤ 3) ∧ (i + 0 + redblack).tmod 2 = 0 then
        (1 + 16 * (scenarioApplyBC phi (i - 1, 0, 0, 0) + scenarioApplyBC phi (i + 1, 0, 0, 0))
          - scenarioApplyBC phi (i, 0, 0, 0) *
              (16 * ((if i = 0 then (-1 : ℚ) else 0) + (if i = 3 then (-1 : ℚ) else 0))))
        / (32 - 16 * ((if i = 0 then (-1 : ℚ) else 0) + (if i = 3 then (-1 : ℚ) else 0)))
      else scenarioApplyBC phi (i, 0, 0, 0) := by
  unfold scenarioSmooth
  rw [mlalap_gsrb_apply]
  simp only [scenario_mem_cells]
  simp only [gsrbRho, gsrbDelta, gsrbGamma, scenarioRhs, scenarioA, scenarioFx, scenarioFy,
    scenarioMaskX, scenarioMaskY, lbound, ubound, scenarioBox, Box.rect]
  norm_num

theorem scenario_phi1 :
    scenarioSmooth 0 scenarioPhi0 (0, 0, 0, 0) = 1 / 48 ∧
    scenarioSmooth 0 scenarioPhi0 (1, 0, 0, 0) = 0 ∧
    scenarioSmooth 0 scenarioPhi0 (2, 0, 0, 0) = 1 / 32 ∧
    scenarioSmooth 0 scenarioPhi0 (3, 0, 0, 0) = 0 := by
  refine ⟨?_, ?_, ?_, ?_⟩ <;>
  · rw [scenarioSmooth_apply]
    simp only [scenarioApplyBC_apply, scenarioPhi0]
    norm_num [Int.tmod]

theorem scenario_phi2 :
    scenarioSweepPair scenarioPhi0 (0, 0, 0, 0) = 1 / 48 ∧
    scenarioSweepPair scenarioPhi0 (1, 0, 0, 0) = 11 / 192 ∧
    scenarioSweepPair scenarioPhi0 (2, 0, 0, 0) = 1 / 32 ∧
    scenarioSweepPair scenarioPhi0 (3, 0, 0, 0) = 1 / 32 := by
  obtain ⟨h0, h1, h2, h3⟩ := scenario_phi1
  refine ⟨?_, ?_, ?_, ?_⟩ <;>
  · unfold scenarioSweepPair
    rw [scenarioSmooth_apply]
    simp only [scenarioApplyBC_apply]
    norm_num [Int.tmod, h0, h1, h2, h3, -Prod.mk_zero_zero]

theorem scenarioResidual_apply (phi : Array4 ℚ) (i : Int) (h1 : 0 ≤ i) (h2 : i ≤ 3) :
    scenarioResidual phi (i, 0, 0, 0) =
      1 + 16 * (scenarioApplyBC phi (i - 1, 0, 0, 0) - 2 * scenarioApplyBC phi (i, 0, 0, 0)
        + scenarioApplyBC phi (i + 1, 0, 0, 0)) := by
  unfold scenarioResidual
  rw [mlalap_adotx_apply, if_pos ((scenario_mem_cells i).2 ⟨h1, h2⟩)]
  simp only [scenarioRhs, scenarioA, scenarioDxinv]
  norm_num

theorem scenario_cells :
    loopCells (lbound scenarioBox) (ubound scenarioBox) 1 =
      [(0, 0, 0, 0), (1, 0, 0, 0), (2, 0, 0, 0), (3, 0, 0, 0)] := by
  decide

theorem scenario_residual_after :
    scenarioResidual (scenarioSweepPair scenarioPhi0) (0, 0, 0, 0) = 11 / 12 ∧
    scenarioResidual (scenarioSweepPair scenarioPhi0) (1, 0, 0, 0) = 0 ∧
    scenarioResidual (scenarioSweepPair scenarioPhi0) (2, 0, 0, 0) = 17 / 12 ∧
    scenarioResidual (scenarioSweepPair scenarioPhi0) (3, 0, 0, 0) = 0 := by
  obtain ⟨h0, h1, h2, h3⟩ := scenario_phi2
  refine ⟨?_, ?_, ?_, ?_⟩ <;>
  · rw [scenarioResidual_apply _ _ (by norm_num) (by norm_num)]
    simp only [scenarioApplyBC_apply]
    norm_num [h0, h1, h2, h3, -Prod.mk_zero_zero]

theorem scenario_residual_before (i : Int) (h1 : 0 ≤ i) (h2 : i ≤ 3) :
    scenarioResidual scenarioPhi0 (i, 0, 0, 0) = 1 := by
  rw [scenarioResidual_apply _ _ h1 h2]
  simp only [scenarioApplyBC_apply, scenarioPhi0]
  split_ifs <;> norm_num

theorem scenario_max_before : scenarioResidualMax scenarioPhi0 = 1 := by
  unfold scenarioResidualMax
  rw [scenario_cells]
  simp only [List.map, List.foldl]
  rw [scenario_residual_before 0 (by norm_num) (by norm_num),
    scenario_residual_before 1 (by norm_num) (by norm_num),
    scenario_residual_before 2 (by norm_num) (by norm_num),
    scenario_residual_before 3 (by norm_num) (by norm_num)]
  norm_num

theorem scenario_max_after : scenarioResidualMax (scenarioSweepPair scenarioPhi0) = 17 / 12 := by
  obtain ⟨h0, h1, h2, h3⟩ := scenario_residual_after
  unfold scenarioResidualMax
  rw [scenario_cells]
  simp only [List.map, List.foldl]
  rw [h0, h1, h2, h3]
  norm_num [abs_of_nonneg, max_def]

theorem scenario_sum_before : scenarioResidualSum scenarioPhi0 = 4 := by
  unfold scenarioResidualSum
  rw [scenario_cells]
  simp only [List.map, List.sum_cons, List.sum_nil]
  rw [scenario_residual_before 0 (by norm_num) (by norm_num),
    scenario_residual_before 1 (by norm_num) (by norm_num),
    scenario_residual_before 2 (by norm_num) (by norm_num),
    scenario_residual_before 3 (by norm_num) (by norm_num)]
  norm_num

theorem scenario_sum_after : scenarioResidualSum (scenarioSweepPair scenarioPhi0) = 7 / 3 := by
  obtain ⟨h0, h1, h2, h3⟩ := scenario_residual_after
  unfold scenarioResidualSum
  rw [scenario_cells]
  simp only [List.map, List.sum_cons, List.sum_nil]
  rw [h0, h1, h2, h3]
  norm_num [abs_of_nonneg]

/-! ## Lemmas on the operator -/

/-- A loop all of whose passes keep a property keeps it. -/
theorem foldl_keeps {σ α : Type} (P : σ → Prop) (f : σ → α → σ) (l : List α)
    (hstep : ∀ s a, P s → P (f s a)) (s : σ) (h : P s) : P (l.foldl f s) := by
  induction l generalizing s with
  | nil => exact h
  | cons a t ih => exact ih (f s a) (hstep s a h)

/-- The inner loop of the vector overload of `setBCoeffs`: after `n > 0` passes the field of
direction `idim` holds the last value `beta[n-1]` in every component. -/
theorem setVal_loop (beta : List ℚ) {D : Nat} (idim : Fin D) (n : Nat) (b : Fin D → MultiFab) :
    (List.range (n + 1)).foldl (fun b icomp =>
        Function.update b idim ((b idim).setVal (beta.getD icomp 0))) b
      = Function.update b idim ((b idim).setVal (beta.getD n 0)) := by
  induction n with
  | zero => rfl
  | succ k ih =>
    rw [List.range_succ, List.foldl_append, ih]
    simp [MultiFab.setVal]

theorem setVal_outer_loop {D : Nat} (g : MultiFab → MultiFab) (l : List (Fin D))
    (b : Fin D → MultiFab) (d : Fin D) :
    (l.foldl (fun b idim => Function.update b idim (g (b idim))) b) d =
      if d ∈ l then (l.foldl (fun b idim => Function.update b idim (g (b idim))) b) d
      else b d := by
  split
  · rfl
  · rename_i h
    induction l generalizing b with
    | nil => rfl
    | cons a t ih =>
      rw [List.foldl_cons, ih _ (fun hm => h (List.mem_cons_of_mem _ hm))]
      have : d ≠ a := fun e => h (e ▸ List.mem_cons_self _ _)
      rw [Function.update_noteq this]

/-- After the direction loop each direction holds a constant field when the pass writes a
constant field. -/
theorem setVal_directions {D : Nat} (v : ℚ) (l : List (Fin D)) (b : Fin D → MultiFab)
    (d : Fin D) (hd : d ∈ l) :
    ((l.foldl (fun b idim => Function.update b idim ((b idim).setVal v)) b) d).val
      = fun _ _ => v := by
  induction l generalizing b with
  | nil => simp at hd
  | cons a t ih =>
    rw [List.foldl_cons]
    by_cases ht : d ∈ t
    · exact ih _ ht
    · have hda : d = a := by
        rcases List.mem_cons.1 hd with h | h
        · exact h
        · exact absurd h ht
      subst hda
      rw [setVal_outer_loop (fun mf => mf.setVal v) t _ d, if_neg ht]
      simp [MultiFab.setVal]

/-- The vector overload of `setBCoeffs` leaves the last entry `beta[ncomp-1]` in every
component of every direction. -/
theorem MLEBABecLap.setBCoeffsVector_val {D : Nat} (op : MLEBABecLap D) (amrlev : Nat)
    (beta : List ℚ) (h : 0 < op.m_ncomp) (idim : Fin D) (cell : Int × Int × Int) (n : Nat) :
    ((op.setBCoeffsVector amrlev beta).m_b_coeffs amrlev 0 idim).val cell n
      = beta.getD (op.m_ncomp - 1) 0 := by
  obtain ⟨k, hk⟩ : ∃ k, op.m_ncomp = k + 1 := ⟨op.m_ncomp - 1, by omega⟩
  unfold MLEBABecLap.setBCoeffsVector MLEBABecLap.getNComp
  simp only [Function.update_same, hk]
  have hstep : (fun (b : Fin D → MultiFab) (idim : Fin D) =>
      (List.range (k + 1)).foldl (fun b icomp =>
        Function.update b idim ((b idim).setVal (beta.getD icomp 0))) b)
      = fun b idim => Function.update b idim ((b idim).setVal (beta.getD k 0)) := by
    funext b idim
    exact setVal_loop beta idim k b
  rw [hstep, setVal_directions _ _ _ idim (List.mem_finRange idim)]
  simp

/-- Writing `true` or a computed flag at the covered levels of the cleared vector. -/
theorem singular_loop (c : Nat → Bool) (v : Nat → Bool) (n : Nat) (l : List Bool)
    (hl : n ≤ l.length) (k : Nat) :
    ((List.range n).foldl (fun sing alev => if c alev then sing.set alev (v alev) else sing)
        l)[k]? = if k < n ∧ c k = true then some (v k) else l[k]? := by
  induction n with
  | zero => simp
  | succ m ih =>
    rw [List.range_succ, List.foldl_append, List.foldl_cons, List.foldl_nil]
    have hlen : ((List.range m).foldl
        (fun sing alev => if c alev then sing.set alev (v alev) else sing) l).length
          = l.length := by
      apply foldl_keeps (fun s : List Bool => s.length = l.length)
      · intro s a hs
        split
        · simpa using hs
        · exact hs
      · rfl
    by_cases hc : c m = true
    · rw [if_pos hc]
      by_cases hk : k = m
      · subst hk
        rw [List.getElem?_set_self (by omega)]
        simp [hc]
      · rw [List.getElem?_set_ne (fun e => hk e.symm), ih (by omega)]
        have : (k < m + 1 ∧ c k = true) ↔ (k < m ∧ c k = true) := by
          constructor
          · rintro ⟨h1, h2⟩; exact ⟨by omega, h2⟩
          · rintro ⟨h1, h2⟩; exact ⟨by omega, h2⟩
        simp only [this]
    · rw [if_neg hc, ih (by omega)]
      have : (k < m + 1 ∧ c k = true) ↔ (k < m ∧ c k = true) := by
        constructor
        · rintro ⟨h1, h2⟩
          refine ⟨?_, h2⟩
          rcases Nat.lt_succ_iff_lt_or_eq.1 h1 with h | h
          · exact h
          · exact absurd (h ▸ h2) hc
        · rintro ⟨h1, h2⟩; exact ⟨by omega, h2⟩
      simp only [this]

namespace MLEBABecLap

variable {D : Nat}

theorem SameSetup.refl (s : MLEBABecLap D) : SameSetup s s :=
  ⟨rfl, rfl, rfl, rfl, rfl, rfl⟩

theorem SameSetup.trans {s t u : MLEBABecLap D} (h1 : SameSetup s t) (h2 : SameSetup t u) :
    SameSetup s u :=
  ⟨h2.1.trans h1.1, h2.2.1.trans h1.2.1, h2.2.2.1.trans h1.2.2.1,
    h2.2.2.2.1.trans h1.2.2.2.1, h2.2.2.2.2.1.trans h1.2.2.2.2.1,
    h2.2.2.2.2.2.trans h1.2.2.2.2.2⟩

theorem SameShape.shape_refl (s : MLEBABecLap D) : SameShape s s :=
  ⟨rfl, rfl, fun _ => rfl, fun _ _ => rfl⟩

theorem SameShape.shape_trans {s t u : MLEBABecLap D} (h1 : SameShape s t) (h2 : SameShape t u) :
    SameShape s u :=
  ⟨h2.1.trans h1.1, h2.2.1.trans h1.2.1, fun lev => (h2.2.2.1 lev).trans (h1.2.2.1 lev),
    fun lev mglev => (h2.2.2.2 lev mglev).trans (h1.2.2.2 lev mglev)⟩

theorem Stable.stable_refl (s : MLEBABecLap D) : Stable s s :=
  ⟨SameSetup.refl s, SameShape.shape_refl s, rfl⟩

theorem Stable.stable_trans {s t u : MLEBABecLap D} (h1 : Stable s t) (h2 : Stable t u) :
    Stable s u :=
  ⟨h1.1.trans h2.1, h1.2.1.shape_trans h2.2.1, h2.2.2.trans h1.2.2⟩

/-- The null pattern decides whether the pointers that `averageDownCoeffs` dereferences are
set. -/
theorem EBCoeffPointersOKAt.at_of_shape {s t : MLEBABecLap D} (h : SameShape s t) (amrlev : Nat)
    (hs : EBCoeffPointersOKAt s amrlev) : EBCoeffPointersOKAt t amrlev := by
  intro mglev h1 h2 h3
  rw [h.2.1] at h2
  rw [h.2.2.2] at h3 ⊢
  exact hs mglev h1 h2 h3

theorem EBCoeffPointersOK.coeff_of_shape {s t : MLEBABecLap D} (h : SameShape s t)
    (hs : EBCoeffPointersOK s) : EBCoeffPointersOK t := by
  constructor
  · intro amrlev ha
    rw [h.1] at ha
    exact EBCoeffPointersOKAt.at_of_shape h amrlev (hs.1 amrlev ha)
  · intro flev h1 h2 h3
    rw [h.1] at h2
    rw [h.2.1, h.2.2.2] at h3
    rw [h.2.2.2]
    exact hs.2 flev h1 h2 h3

theorem EBPhiPointersOK.phi_of_shape {s t : MLEBABecLap D} (h : SameShape s t)
    (hs : EBPhiPointersOK s) : EBPhiPointersOK t := by
  intro h0 lev hlev
  rw [h.2.2.1] at h0 ⊢
  rw [h.1] at hlev
  exact hs h0 lev hlev

theorem mem_fineLevelsDown (n a : Nat) : a ∈ fineLevelsDown n ↔ 1 ≤ a ∧ a < n := by
  unfold fineLevelsDown
  simp only [List.mem_reverse, List.mem_map, List.mem_range]
  constructor
  · rintro ⟨m, hm, rfl⟩
    omega
  · rintro ⟨h1, h2⟩
    exact ⟨a - 1, by omega, by omega⟩

/-- A loop with abort all of whose returning passes keep a property keeps it when it
returns. -/
theorem foldlM_keeps {σ α : Type} (P : σ → Prop) (f : σ → α → Except String σ) (l : List α)
    (hstep : ∀ s a t, P s → f s a = .ok t → P t) (s r : σ) (hs : P s)
    (hr : l.foldlM f s = .ok r) : P r := by
  induction l generalizing s with
  | nil =>
    injection hr with hr
    exact hr ▸ hs
  | cons a t ih =>
    rw [List.foldlM_cons] at hr
    cases hfa : f s a with
    | error e =>
      rw [hfa] at hr
      cases hr
    | ok s1 =>
      rw [hfa] at hr
      exact ih s1 (hstep s a s1 hs hfa) hr

/-- A loop with abort returns when every pass returns under an invariant that it keeps. -/
theorem foldlM_returns {σ α : Type} (Inv : σ → Prop) (f : σ → α → Except String σ)
    (l : List α) (hstep : ∀ s a, a ∈ l → Inv s → ∃ t, f s a = .ok t ∧ Inv t) (s : σ)
    (hs : Inv s) : ∃ r, l.foldlM f s = .ok r ∧ Inv r := by
  induction l generalizing s with
  | nil => exact ⟨s, rfl, hs⟩
  | cons a t ih =>
    obtain ⟨s1, h1, hinv⟩ := hstep s a (List.mem_cons_self _ _) hs
    rw [List.foldlM_cons, h1]
    exact ih (fun s b hb => hstep s b (List.mem_cons_of_mem _ hb)) s1 hinv

/-- A returning pass of the loop of `averageDownCoeffsSameAmrLevel` keeps the members that the
singularity block reads, the null pattern and the flag. -/
theorem averageDownCoeffsSameAmrLevelPass_stable (K : Collaborators D) (amrlev : Nat)
    (op r : MLEBABecLap D) (mglev : Nat)
    (h : averageDownCoeffsSameAmrLevelPass K amrlev op mglev = .ok r) : Stable op r := by
  unfold averageDownCoeffsSameAmrLevelPass at h
  simp only at h
  split at h
  · cases h
  · rename_i eb heb
    injection h with h
    subst h
    refine ⟨⟨rfl, rfl, rfl, rfl, rfl, rfl⟩, ⟨rfl, rfl, fun _ => rfl, ?_⟩, rfl⟩
    intro lev m
    simp only
    by_cases hl : lev = amrlev
    · subst hl
      simp only [Function.update_same]
      split at heb
      · rename_i crse fine hc hf
        injection heb with heb
        rw [← heb]
        by_cases hm : m = mglev
        · subst hm
          simp [hc]
        · rw [Function.update_noteq hm]
      · cases heb
      · injection heb with heb
        rw [← heb]
    · rw [Function.update_noteq hl]

/-- A pass of the loop of `averageDownCoeffsSameAmrLevel` returns when the finer EB `B`
pointer is set whenever the coarser one is. -/
theorem averageDownCoeffsSameAmrLevelPass_returns (K : Collaborators D) (amrlev : Nat)
    (op : MLEBABecLap D) (mglev : Nat)
    (h : (op.m_eb_b_coeffs amrlev mglev).isSome = true →
      (op.m_eb_b_coeffs amrlev (mglev - 1)).isSome = true) :
    ∃ r, averageDownCoeffsSameAmrLevelPass K amrlev op mglev = .ok r := by
  unfold averageDownCoeffsSameAmrLevelPass
  simp only
  cases hc : op.m_eb_b_coeffs amrlev mglev with
  | none => exact ⟨_, rfl⟩
  | some crse =>
    rw [hc] at h
    obtain ⟨fine, hf⟩ := Option.isSome_iff_exists.1 (h rfl)
    rw [hf]
    exact ⟨_, rfl⟩

theorem averageDownCoeffsSameAmrLevel_stable (K : Collaborators D) (op r : MLEBABecLap D)
    (amrlev : Nat) (h : averageDownCoeffsSameAmrLevel K op amrlev = .ok r) : Stable op r :=
  foldlM_keeps (fun t => Stable op t) _ _
    (fun s a t hs hst => hs.stable_trans (averageDownCoeffsSameAmrLevelPass_stable K amrlev s t a hst))
    op r (Stable.stable_refl op) h

theorem averageDownCoeffsSameAmrLevel_setup (K : Collaborators D) (op r : MLEBABecLap D)
    (amrlev : Nat) (h : averageDownCoeffsSameAmrLevel K op amrlev = .ok r) : SameSetup op r :=
  (averageDownCoeffsSameAmrLevel_stable K op r amrlev h).1

/-- The call `averageDownCoeffsSameAmrLevel(amrlev, ...)` returns when the pointers it
dereferences are set. -/
theorem averageDownCoeffsSameAmrLevel_returns (K : Collaborators D) (op : MLEBABecLap D)
    (amrlev : Nat) (hptr : EBCoeffPointersOKAt op amrlev) :
    ∃ r, averageDownCoeffsSameAmrLevel K op amrlev = .ok r := by
  obtain ⟨r, hr, _⟩ := foldlM_returns (fun t => SameShape op t)
    (averageDownCoeffsSameAmrLevelPass K amrlev)
    ((List.range (op.m_num_mg_levels amrlev - 1)).map (fun m => m + 1))
    (by
      intro s a ha hs
      simp only [List.mem_map, List.mem_range] at ha
      obtain ⟨m, hm, rfl⟩ := ha
      have hok := EBCoeffPointersOKAt.at_of_shape hs amrlev hptr
      obtain ⟨t, ht⟩ := averageDownCoeffsSameAmrLevelPass_returns K amrlev s (m + 1)
        (hok (m + 1) (by omega) (by rw [hs.2.1]; omega))
      exact ⟨t, ht, hs.shape_trans (averageDownCoeffsSameAmrLevelPass_stable K amrlev s t _ ht).2.1⟩)
    op (SameShape.shape_refl op)
  exact ⟨r, hr⟩

/-- When `averageDownCoeffsToCoarseAmrLevel` returns, the members that the singularity block
reads, the null pattern and the flag are as before. -/
theorem averageDownCoeffsToCoarseAmrLevel_stable (K : Collaborators D) (op r : MLEBABecLap D)
    (flev : Nat) (h : averageDownCoeffsToCoarseAmrLevel K op flev = .ok r) : Stable op r := by
  unfold averageDownCoeffsToCoarseAmrLevel at h
  simp only at h
  split at h
  · cases h
  · rename_i eb heb
    injection h with h
    subst h
    refine ⟨⟨rfl, rfl, rfl, rfl, rfl, rfl⟩, ⟨rfl, rfl, fun _ => rfl, ?_⟩, rfl⟩
    intro lev mglev
    simp only
    by_cases hl : lev = flev - 1
    · subst hl
      simp only [Function.update_same]
      by_cases hm : mglev = 0
      · subst hm
        simp only [Function.update_same]
        split at heb
        · rename_i fine crse hf hc
          injection heb with heb
          rw [← heb, hc]
          rfl
        · cases heb
        · injection heb with heb
          rw [← heb]
      · rw [Function.update_noteq hm]
    · rw [Function.update_noteq hl]

/-- The call `averageDownCoeffsToCoarseAmrLevel(flev)` returns when the coarse EB `B`
pointer is set whenever the fine one is. -/
theorem averageDownCoeffsToCoarseAmrLevel_returns (K : Collaborators D) (op : MLEBABecLap D)
    (flev : Nat)
    (h : (op.m_eb_b_coeffs flev (op.m_num_mg_levels flev - 1)).isSome = true →
      (op.m_eb_b_coeffs (flev - 1) 0).isSome = true) :
    ∃ r, averageDownCoeffsToCoarseAmrLevel K op flev = .ok r := by
  unfold averageDownCoeffsToCoarseAmrLevel
  simp only
  cases hf : op.m_eb_b_coeffs flev (op.m_num_mg_levels flev - 1) with
  | none => exact ⟨_, rfl⟩
  | some fine =>
    rw [hf] at h
    obtain ⟨crse, hc⟩ := Option.isSome_iff_exists.1 (h rfl)
    rw [hc]
    exact ⟨_, rfl⟩

/-- The loop over boxes, multigrid levels and directions that closes `averageDownCoeffs`
(the calls of `FillBoundary`) writes `m_b_coeffs` only. -/
theorem fillBoundary_loop_stable (K : Collaborators D) (op : MLEBABecLap D) :
    Stable op ((List.range op.m_num_amr_levels).foldl (fun op amrlev =>
      (List.range (op.m_num_mg_levels amrlev)).foldl (fun op mglev =>
        (List.finRange D).foldl (fun op idim =>
          { op with
            m_b_coeffs := Function.update op.m_b_coeffs amrlev
              (Function.update (op.m_b_coeffs amrlev) mglev
                (Function.update (op.m_b_coeffs amrlev mglev) idim
                  (K.FillBoundary amrlev mglev (op.m_b_coeffs amrlev mglev idim)))) }) op) op)
      op) := by
  apply foldl_keeps (fun t => Stable op t)
  · intro s a hs
    apply foldl_keeps (fun t => Stable op t)
    · intro s a hs
      apply foldl_keeps (fun t => Stable op t)
      · intro s a hs
        exact hs.stable_trans ⟨⟨rfl, rfl, rfl, rfl, rfl, rfl⟩, ⟨rfl, rfl, fun _ => rfl,
          fun _ _ => rfl⟩, rfl⟩
      · exact hs
    · exact hs
  · exact Stable.stable_refl op

/-- What `averageDownCoeffs` is made of, when it returns. -/
theorem averageDownCoeffs_eq_ok (K : Collaborators D) (op r : MLEBABecLap D)
    (h : averageDownCoeffs K op = .ok r) :
    ∃ op1 op2, (fineLevelsDown op.m_num_amr_levels).foldlM (fun op amrlev =>
        match averageDownCoeffsSameAmrLevel K op amrlev with
        | .error e => Except.error e
        | .ok op1 => averageDownCoeffsToCoarseAmrLevel K op1 amrlev) op = .ok op1 ∧
      averageDownCoeffsSameAmrLevel K op1 0 = .ok op2 ∧ Stable op2 r := by
  unfold averageDownCoeffs at h
  split at h
  · cases h
  · rename_i op1 h1
    split at h
    · cases h
    · rename_i op2 h2
      injection h with h
      refine ⟨op1, op2, h1, h2, ?_⟩
      rw [← h]
      exact fillBoundary_loop_stable K _

/-- A returning pass of the loop over the fine levels in `averageDownCoeffs` keeps the
members that the singularity block reads, the null pattern and the flag. -/
theorem averageDownCoeffs_pass_stable (K : Collaborators D) (s t : MLEBABecLap D) (a : Nat)
    (h : (match averageDownCoeffsSameAmrLevel K s a with
      | .error e => Except.error e
      | .ok op1 => averageDownCoeffsToCoarseAmrLevel K op1 a) = .ok t) : Stable s t := by
  split at h
  · cases h
  · rename_i op1 h1
    exact (averageDownCoeffsSameAmrLevel_stable K s op1 a h1).stable_trans
      (averageDownCoeffsToCoarseAmrLevel_stable K op1 t a h)

theorem averageDownCoeffs_stable (K : Collaborators D) (op r : MLEBABecLap D)
    (h : averageDownCoeffs K op = .ok r) : Stable op r := by
  obtain ⟨op1, op2, h1, h2, h3⟩ := averageDownCoeffs_eq_ok K op r h
  have h4 : Stable op op1 :=
    foldlM_keeps (fun t => Stable op t) _ _
      (fun s a t hs hst => hs.stable_trans (averageDownCoeffs_pass_stable K s t a hst))
      op op1 (Stable.stable_refl op) h1
  exact (h4.stable_trans (averageDownCoeffsSameAmrLevel_stable K op1 op2 0 h2)).stable_trans h3

theorem averageDownCoeffs_setup (K : Collaborators D) (op r : MLEBABecLap D)
    (h : averageDownCoeffs K op = .ok r) : SameSetup op r :=
  (averageDownCoeffs_stable K op r h).1

/-- The call `averageDownCoeffs()` returns when the pointers it dereferences are set. -/
theorem averageDownCoeffs_returns (K : Collaborators D) (op : MLEBABecLap D)
    (hptr : EBCoeffPointersOK op) : ∃ r, averageDownCoeffs K op = .ok r := by
  obtain ⟨op1, h1, hst1⟩ := foldlM_returns (fun t => Stable op t)
    (fun op amrlev =>
      match averageDownCoeffsSameAmrLevel K op amrlev with
      | .error e => Except.error e
      | .ok op1 => averageDownCoeffsToCoarseAmrLevel K op1 amrlev)
    (fineLevelsDown op.m_num_amr_levels)
    (by
      intro s a ha hs
      obtain ⟨ha1, ha2⟩ := (mem_fineLevelsDown _ _).1 ha
      have hoks := EBCoeffPointersOK.coeff_of_shape hs.2.1 hptr
      obtain ⟨s1, hs1⟩ := averageDownCoeffsSameAmrLevel_returns K s a
        (hoks.1 a (Or.inr (by rw [hs.2.1.1]; exact ha2)))
      have hs2 := hs.stable_trans (averageDownCoeffsSameAmrLevel_stable K s s1 a hs1)
      have hok := EBCoeffPointersOK.coeff_of_shape hs2.2.1 hptr
      obtain ⟨t, ht⟩ := averageDownCoeffsToCoarseAmrLevel_returns K s1 a
        (hok.2 a ha1 (by rw [hs2.2.1.1]; exact ha2))
      refine ⟨t, ?_, hs2.stable_trans (averageDownCoeffsToCoarseAmrLevel_stable K _ t a ht)⟩
      simp only [hs1]
      exact ht)
    op (Stable.stable_refl op)
  obtain ⟨op2, h2⟩ := averageDownCoeffsSameAmrLevel_returns K op1 0
    ((EBCoeffPointersOK.coeff_of_shape hst1.2.1 hptr).1 0 (Or.inl rfl))
  unfold averageDownCoeffs
  simp only [h1, h2]
  exact ⟨_, rfl⟩

/-- When the averaging of the EB values returns, it has written `m_eb_phi` only, and the
null pattern is as before. -/
theorem averageDownEBPhi_stable (K : Collaborators D) (op r : MLEBABecLap D)
    (h : averageDownEBPhi K op = .ok r) :
    Stable op r ∧ r.m_a_coeffs = op.m_a_coeffs ∧ r.m_b_coeffs = op.m_b_coeffs ∧
      r.m_eb_b_coeffs = op.m_eb_b_coeffs := by
  unfold averageDownEBPhi at h
  split at h
  · refine foldlM_keeps (fun t => Stable op t ∧ t.m_a_coeffs = op.m_a_coeffs ∧
      t.m_b_coeffs = op.m_b_coeffs ∧ t.m_eb_b_coeffs = op.m_eb_b_coeffs) _ _ ?_ op r
      ⟨Stable.stable_refl op, rfl, rfl, rfl⟩ h
    intro s a t hs hst
    split at hst
    · rename_i fine crse hf hc
      injection hst with hst
      subst hst
      have hshape : ∀ lev, (Function.update s.m_eb_phi (a - 1)
          (some (K.EB_average_down_boundaries fine crse (fun _ => K.mg_coarsen_ratio) 0))
          lev).isSome = (s.m_eb_phi lev).isSome := by
        intro lev
        by_cases hl : lev = a - 1
        · subst hl
          simp [hc]
        · rw [Function.update_noteq hl]
      exact ⟨hs.1.stable_trans ⟨⟨rfl, rfl, rfl, rfl, rfl, hshape 0⟩,
        ⟨rfl, rfl, hshape, fun _ _ => rfl⟩, rfl⟩, hs.2.1, hs.2.2.1, hs.2.2.2⟩
    · cases hst
  · injection h with h
    subst h
    exact ⟨Stable.stable_refl _, rfl, rfl, rfl⟩

/-- The averaging of the EB values returns when the pointers it dereferences are set. -/
theorem averageDownEBPhi_returns (K : Collaborators D) (op : MLEBABecLap D)
    (hptr : EBPhiPointersOK op) : ∃ r, averageDownEBPhi K op = .ok r := by
  unfold averageDownEBPhi
  split
  · rename_i h0
    obtain ⟨r, hr, _⟩ := foldlM_returns (fun t => SameShape op t)
      (fun (op : MLEBABecLap D) amrlev =>
        match op.m_eb_phi amrlev, op.m_eb_phi (amrlev - 1) with
        | some fine, some crse =>
          (.ok { op with
            m_eb_phi := Function.update op.m_eb_phi (amrlev - 1)
              (some (K.EB_average_down_boundaries fine crse
                (fun _ => K.mg_coarsen_ratio) 0)) } : Except String (MLEBABecLap D))
        | _, _ => .error "null pointer dereferenced: m_eb_phi")
      (fineLevelsDown op.m_num_amr_levels)
      (by
        intro s a ha hs
        obtain ⟨ha1, ha2⟩ := (mem_fineLevelsDown _ _).1 ha
        have hok := EBPhiPointersOK.phi_of_shape hs hptr
        have h0s : (s.m_eb_phi 0).isSome = true := by rw [hs.2.2.1]; exact h0
        obtain ⟨fine, hf⟩ := Option.isSome_iff_exists.1
          (hok h0s a (by rw [hs.1]; exact ha2))
        obtain ⟨crse, hc⟩ := Option.isSome_iff_exists.1
          (hok h0s (a - 1) (by rw [hs.1]; omega))
        simp only [hf, hc]
        refine ⟨_, rfl, hs.shape_trans ⟨rfl, rfl, ?_, fun _ _ => rfl⟩⟩
        intro lev
        simp only
        by_cases hl : lev = a - 1
        · subst hl
          simp [hc]
        · rw [Function.update_noteq hl])
      op (SameShape.shape_refl op)
    exact ⟨r, hr⟩
  · exact ⟨_, rfl⟩

/-- What `prepareForSolve` is made of, when it returns. -/
theorem prepareForSolve_eq_ok (K : Collaborators D) (op r : MLEBABecLap D)
    (h : prepareForSolve K op = .ok r) :
    ∃ op2 op3, averageDownCoeffs K (K.MLCellABecLap_prepareForSolve op) = .ok op2 ∧
      averageDownEBPhi K op2 = .ok op3 ∧
      r = { updateSingularFlags op3 with m_needs_update := false } := by
  unfold prepareForSolve at h
  simp only at h
  split at h
  · cases h
  · rename_i op2 h2
    split at h
    · cases h
    · rename_i op3 h3
      injection h with h
      exact ⟨op2, op3, h2, h3, h.symm⟩

/-- What `update` is made of, when it returns. -/
theorem update_eq_ok (K : Collaborators D) (op r : MLEBABecLap D)
    (h : update K op = .ok r) :
    ∃ op2, averageDownCoeffs K
        (if K.MLCellABecLap_needsUpdate op then K.MLCellABecLap_update op else op) = .ok op2 ∧
      r = { updateSingularFlags op2 with m_needs_update := false } := by
  unfold update at h
  simp only at h
  split at h
  · cases h
  · rename_i op2 h2
    injection h with h
    exact ⟨op2, h2, h.symm⟩

/-- The call `prepareForSolve()` returns when the pointers it dereferences are set. -/
theorem prepareForSolve_returns (K : Collaborators D) (op : MLEBABecLap D)
    (hc : EBCoeffPointersOK (K.MLCellABecLap_prepareForSolve op))
    (hp : EBPhiPointersOK (K.MLCellABecLap_prepareForSolve op)) :
    ∃ r, prepareForSolve K op = .ok r := by
  obtain ⟨op2, h2⟩ := averageDownCoeffs_returns K _ hc
  obtain ⟨op3, h3⟩ := averageDownEBPhi_returns K op2
    (EBPhiPointersOK.phi_of_shape (averageDownCoeffs_stable K _ op2 h2).2.1 hp)
  unfold prepareForSolve
  simp only [h2, h3]
  exact ⟨_, rfl⟩

/-- The call `update()` returns when the pointers it dereferences are set. -/
theorem update_returns (K : Collaborators D) (op : MLEBABecLap D)
    (hc : EBCoeffPointersOK
      (if K.MLCellABecLap_needsUpdate op then K.MLCellABecLap_update op else op)) :
    ∃ r, update K op = .ok r := by
  obtain ⟨op2, h2⟩ := averageDownCoeffs_returns K _ hc
  unfold update
  simp only [h2]
  exact ⟨_, rfl⟩

theorem updateSingularFlags_get (op : MLEBABecLap D) (k : Nat) (hk : k < op.m_num_amr_levels) :
    (updateSingularFlags op).m_is_singular[k]? = some
      (decide ((∀ d, op.m_lobc 0 d ≠ LinOpBCType.Dirichlet) ∧
          (∀ d, op.m_hibc 0 d ≠ LinOpBCType.Dirichlet) ∧ op.isEBDirichlet = false) &&
        op.m_domain_covered k &&
        (decide (op.m_a_scalar = 0) ||
          decide ((op.m_a_coeffs k (op.m_num_mg_levels k - 1)).sum ≤
            (op.m_a_coeffs k (op.m_num_mg_levels k - 1)).norm0 * (1 / 10 ^ 12)))) := by
  unfold updateSingularFlags
  have hlo : (!((List.finRange D).any
      (fun d => decide (op.m_lobc 0 d = LinOpBCType.Dirichlet)))) =
      decide (∀ d, op.m_lobc 0 d ≠ LinOpBCType.Dirichlet) := by
    rw [Bool.eq_iff_iff]
    simp [List.any_eq_true, List.mem_finRange]
  have hhi : (!((List.finRange D).any
      (fun d => decide (op.m_hibc 0 d = LinOpBCType.Dirichlet)))) =
      decide (∀ d, op.m_hibc 0 d ≠ LinOpBCType.Dirichlet) := by
    rw [Bool.eq_iff_iff]
    simp [List.any_eq_true, List.mem_finRange]
  simp only [hlo, hhi]
  by_cases hnd : (∀ d, op.m_lobc 0 d ≠ LinOpBCType.Dirichlet) ∧
      (∀ d, op.m_hibc 0 d ≠ LinOpBCType.Dirichlet) ∧ op.isEBDirichlet = false
  · have hcond : (decide (∀ d, op.m_lobc 0 d ≠ LinOpBCType.Dirichlet) &&
        decide (∀ d, op.m_hibc 0 d ≠ LinOpBCType.Dirichlet) && !op.isEBDirichlet) = true := by
      simp [hnd.1, hnd.2.1, hnd.2.2]
    rw [if_pos hcond]
    simp only
    have hloop := singular_loop (fun alev => op.m_domain_covered alev)
      (fun alev => decide (op.m_a_scalar = 0) ||
        decide ((op.m_a_coeffs alev (op.m_num_mg_levels alev - 1)).sum ≤
          (op.m_a_coeffs alev (op.m_num_mg_levels alev - 1)).norm0 * (1 / 10 ^ 12)))
      op.m_num_amr_levels (List.replicate op.m_num_amr_levels false) (by simp) k
    have hbody : (fun (sing : List Bool) (alev : Nat) =>
        if op.m_domain_covered alev = true then
          if op.m_a_scalar = 0 then sing.set alev true
          else sing.set alev (decide ((op.m_a_coeffs alev (op.m_num_mg_levels alev - 1)).sum ≤
            (op.m_a_coeffs alev (op.m_num_mg_levels alev - 1)).norm0 * (1 / 10 ^ 12)))
        else sing) =
        (fun sing alev => if op.m_domain_covered alev = true then
          sing.set alev (decide (op.m_a_scalar = 0) ||
            decide ((op.m_a_coeffs alev (op.m_num_mg_levels alev - 1)).sum ≤
              (op.m_a_coeffs alev (op.m_num_mg_levels alev - 1)).norm0 * (1 / 10 ^ 12)))
          else sing) := by
      funext sing alev
      by_cases ha : op.m_a_scalar = 0
      · simp [ha]
      · simp [ha]
    rw [hbody, hloop]
    by_cases hc : op.m_domain_covered k = true
    · simp [hk, hc, hnd]
    · simp [hk, hc, List.getElem?_replicate]
  · have hcond : ¬ ((decide (∀ d, op.m_lobc 0 d ≠ LinOpBCType.Dirichlet) &&
        decide (∀ d, op.m_hibc 0 d ≠ LinOpBCType.Dirichlet) && !op.isEBDirichlet) = true) := by
      intro h
      apply hnd
      simp only [Bool.and_eq_true, decide_eq_true_eq, Bool.not_eq_true'] at h
      exact ⟨h.1.1, h.1.2, h.2⟩
    rw [if_neg hcond]
    simp [hk, hnd, List.getElem?_replicate]

theorem updateSingularFlags_length (op : MLEBABecLap D) :
    (updateSingularFlags op).m_is_singular.length = op.m_num_amr_levels := by
  unfold updateSingularFlags
  simp only
  split
  · simp only
    apply foldl_keeps (fun s : List Bool => s.length = op.m_num_amr_levels)
    · intro s a hs
      split
      · split <;> simpa using hs
      · exact hs
    · simp
  · simp

end MLEBABecLap

/-! ## Claims C1 and C2: `BCRec(bx, domain, ref)` -/

/-- C1: when in every direction the box lies strictly inside the domain
(`bx.lo[d] > dom.lo[d]` and `bx.hi[d] < dom.hi[d]`), all `2*Dim` entries of
`BCRec(bx, dom, ref)` are the interior code `BCType::int_dir`, whatever `ref` holds. -/
theorem BCRec.ofBox_interior {D : Nat} (int_dir : Int) (uninit : BCRec D) (bx domain : Box D)
    (ref : BCRec D)
    (h : ∀ d : Fin D, domain.smallend d < bx.smallend d ∧ bx.bigend d < domain.bigend d) :
    ∀ i : Fin (2 * D), (BCRec.ofBox int_dir uninit bx domain ref).bc i = int_dir := by
  intro i
  rcases BCRec.index_cases i with ⟨d, rfl⟩ | ⟨d, rfl⟩
  · have := BCRec.ofBox_lo int_dir uninit bx domain ref d
    rw [if_neg (by have := (h d).1; omega)] at this
    exact this
  · have := BCRec.ofBox_hi int_dir uninit bx domain ref d
    rw [if_neg (by have := (h d).2; omega)] at this
    exact this

/-- Instance of C1: the box `[1, 2]` inside the domain `[0, 3]`, reference codes `3` and
`4`, interior code `0`: both entries of the record are `0`. -/
theorem BCRec.ofBox_interior_witness :
    (BCRec.ofBox 0 (BCRec.ofCodes1 7 7) (Box.interval 1 2) (Box.interval 0 3)
        (BCRec.ofCodes1 3 4)).bc 0 = 0 ∧
    (BCRec.ofBox 0 (BCRec.ofCodes1 7 7) (Box.interval 1 2) (Box.interval 0 3)
        (BCRec.ofCodes1 3 4)).bc 1 = 0 :=
  ⟨BCRec.ofBox_interior 0 (BCRec.ofCodes1 7 7) (Box.interval 1 2) (Box.interval 0 3)
      (BCRec.ofCodes1 3 4) (by intro d; simp [Box.interval]) 0,
   BCRec.ofBox_interior 0 (BCRec.ofCodes1 7 7) (Box.interval 1 2) (Box.interval 0 3)
      (BCRec.ofCodes1 3 4) (by intro d; simp [Box.interval]) 1⟩

/-- Both faces of `BCRec(bx, domain, ref)` in the terms of the tests of the code, for any
two boxes: the low face is the low code of `ref` when the low bound of `bx` is at or below
the low bound of the domain and `int_dir` otherwise, the high face is the high code of `ref`
when the high bound of `bx` is at or above the high bound of the domain and `int_dir`
otherwise; the free function `setBC` writes the same two values. -/
theorem BCRec.ofBox_faces {D : Nat} (int_dir : Int) (uninit : BCRec D) (bx domain : Box D)
    (ref : BCRec D) (d : Fin D) :
    ((BCRec.ofBox int_dir uninit bx domain ref).lo d =
        if bx.smallend d ≤ domain.smallend d then ref.lo d else int_dir) ∧
    ((BCRec.ofBox int_dir uninit bx domain ref).hi d =
        if domain.bigend d ≤ bx.bigend d then ref.hi d else int_dir) ∧
    ((setBC int_dir bx domain ref uninit).lo d =
        if bx.smallend d ≤ domain.smallend d then ref.lo d else int_dir) ∧
    ((setBC int_dir bx domain ref uninit).hi d =
        if domain.bigend d ≤ bx.bigend d then ref.hi d else int_dir) := by
  rw [setBC_eq_ofBox]
  exact ⟨BCRec.ofBox_lo _ _ _ _ _ _, BCRec.ofBox_hi _ _ _ _ _ _,
    BCRec.ofBox_lo _ _ _ _ _ _, BCRec.ofBox_hi _ _ _ _ _ _⟩

/-- C2: for every box `bx` that lies in the domain (a sub-box of the containing domain),
every reference record `ref` and every direction `d`: the low face of
`BCRec(bx, domain, ref)` is the low code of `ref` in `d` if the low bound of `bx` in `d`
coincides with the low bound of the domain, and the interior code `int_dir` otherwise; the
high face is the high code of `ref` if the high bound of `bx` coincides with the high bound
of the domain, and `int_dir` otherwise.  The free function `setBC` writes the same two
values. -/
theorem BCRec.ofBox_coincide {D : Nat} (int_dir : Int) (uninit : BCRec D) (bx domain : Box D)
    (ref : BCRec D)
    (hsub : ∀ d : Fin D, domain.smallend d ≤ bx.smallend d ∧ bx.bigend d ≤ domain.bigend d)
    (d : Fin D) :
    ((BCRec.ofBox int_dir uninit bx domain ref).lo d =
        if bx.smallend d = domain.smallend d then ref.lo d else int_dir) ∧
    ((BCRec.ofBox int_dir uninit bx domain ref).hi d =
        if bx.bigend d = domain.bigend d then ref.hi d else int_dir) ∧
    ((setBC int_dir bx domain ref uninit).lo d =
        if bx.smallend d = domain.smallend d then ref.lo d else int_dir) ∧
    ((setBC int_dir bx domain ref uninit).hi d =
        if bx.bigend d = domain.bigend d then ref.hi d else int_dir) := by
  have hlo : (bx.smallend d ≤ domain.smallend d) ↔ (bx.smallend d = domain.smallend d) :=
    ⟨fun h => le_antisymm h (hsub d).1, fun h => le_of_eq h⟩
  have hhi : (domain.bigend d ≤ bx.bigend d) ↔ (bx.bigend d = domain.bigend d) :=
    ⟨fun h => le_antisymm (hsub d).2 h, fun h => le_of_eq h.symm⟩
  rw [setBC_eq_ofBox, BCRec.ofBox_lo, BCRec.ofBox_hi]
  by_cases h1 : bx.smallend d = domain.smallend d
  · by_cases h2 : bx.bigend d = domain.bigend d
    · simp [h1, h2]
    · have h2' : ¬ bx.bigend d ≥ domain.bigend d := fun h => h2 (hhi.1 h)
      simp [h1, h2, h2']
  · have h1' : ¬ bx.smallend d ≤ domain.smallend d := fun h => h1 (hlo.1 h)
    by_cases h2 : bx.bigend d = domain.bigend d
    · simp [h1, h1', h2]
    · have h2' : ¬ bx.bigend d ≥ domain.bigend d := fun h => h2 (hhi.1 h)
      simp [h1, h1', h2, h2']

/-- Instance of C2: the box `[0, 2]` in the domain `[0, 3]`, reference codes `3` and `4`,
interior code `0`: the low bounds coincide and the low face is `3`; the high bounds do not
and the high face is `0`. -/
theorem BCRec.ofBox_coincide_witness :
    ((BCRec.ofBox 0 (BCRec.ofCodes1 7 7) (Box.interval 0 2) (Box.interval 0 3)
        (BCRec.ofCodes1 3 4)).lo 0 =
      if (Box.interval 0 2).smallend 0 = (Box.interval 0 3).smallend 0
        then (BCRec.ofCodes1 3 4).lo 0 else 0) ∧
    ((BCRec.ofBox 0 (BCRec.ofCodes1 7 7) (Box.interval 0 2) (Box.interval 0 3)
        (BCRec.ofCodes1 3 4)).hi 0 =
      if (Box.interval 0 2).bigend 0 = (Box.interval 0 3).bigend 0
        then (BCRec.ofCodes1 3 4).hi 0 else 0) :=
  ⟨(BCRec.ofBox_coincide 0 (BCRec.ofCodes1 7 7) (Box.interval 0 2) (Box.interval 0 3)
      (BCRec.ofCodes1 3 4) (by intro d; simp [Box.interval]) 0).1,
   (BCRec.ofBox_coincide 0 (BCRec.ofCodes1 7 7) (Box.interval 0 2) (Box.interval 0 3)
      (BCRec.ofCodes1 3 4) (by intro d; simp [Box.interval]) 0).2.1⟩

/-! ## Claims C3 and C4: `MLMGBndry::setBoxBC` -/

/-- C3: postcondition of `setBoxBC`.  Whenever the call returns the tables
`(bloc1, bctag1)`, then for every face: if the face of the box coincides with the same face
of the domain and the direction is not periodic, the declared type of that side and direction
is one of Dirichlet, Neumann, reflect_odd, the tag is the matching one of
`AMREX_LO_DIRICHLET`, `AMREX_LO_NEUMANN`, `AMREX_LO_REFLECT_ODD`, and the location is the
domain location supplied for that side; otherwise the tag is `AMREX_LO_DIRICHLET`, whatever
was declared, and the location is `0.5*ratio*dx[dir]` when `ratio > 0` and
`interior_bloc[dir]` when `ratio <= 0`. -/
theorem setBoxBC_postcondition {D : Nat} (tags : LOTags) (a : BoxBCArgs D)
    (bloc bloc1 : RealTuple D) (bctag bctag1 : BCTuple D)
    (hret : setBoxBC tags a bloc bctag = .ok (bloc1, bctag1)) (face : Orientation D) :
    (a.onDomainFace face →
      ((a.declared face = LinOpBCType.Dirichlet ∧ bctag1 face = tags.AMREX_LO_DIRICHLET) ∨
       (a.declared face = LinOpBCType.Neumann ∧ bctag1 face = tags.AMREX_LO_NEUMANN) ∨
       (a.declared face = LinOpBCType.reflect_odd ∧
          bctag1 face = tags.AMREX_LO_REFLECT_ODD)) ∧
      bloc1 face = (if face.isLow then a.domain_bloc_lo face.coordDir
                    else a.domain_bloc_hi face.coordDir)) ∧
    (¬ a.onDomainFace face →
      bctag1 face = tags.AMREX_LO_DIRICHLET ∧
      bloc1 face = (if a.ratio > 0 then (1 / 2 : ℚ) * (a.ratio : ℚ) * a.dx face.coordDir
                    else a.interior_bloc face.coordDir)) := by
  rcases a.bad_or_good with hbad | hgood
  · rw [setBoxBC_abort tags a bloc bctag hbad] at hret
    cases hret
  · rw [setBoxBC_ok tags a bloc bctag hgood] at hret
    injection hret with hret
    injection hret with h1 h2
    subst h1 h2
    constructor
    · intro hd
      have hs := hgood face hd
      refine ⟨?_, by simp [BoxBCArgs.blocOf, hd]⟩
      simp only [BoxBCArgs.tagOf, hd, if_true]
      generalize a.declared face = t at hs ⊢
      cases t <;> simp_all [LinOpBCType.supported, LOTags.ofType]
    · intro hd
      simp [BoxBCArgs.blocOf, BoxBCArgs.tagOf, hd]

/-- Instance of C3: the sample arguments (box `[0, 3]` in the domain `[0, 7]`, ratio `2`,
spacing `1/4`).  The call returns; the low face lies on the domain boundary and gets the
Neumann tag, the high face is interior and gets the Dirichlet tag and the location
`0.5 * 2 * (1/4)` although an unknown type was declared for the high side. -/
theorem setBoxBC_postcondition_witness :
    setBoxBC LOTags.sample BoxBCArgs.sample (fun _ => 0) (fun _ => 0)
        = .ok (BoxBCArgs.sample.blocOf, BoxBCArgs.sample.tagOf LOTags.sample) ∧
      BoxBCArgs.sample.tagOf LOTags.sample ⟨0, Side.low⟩ = 102 ∧
      BoxBCArgs.sample.tagOf LOTags.sample ⟨0, Side.high⟩ = 101 ∧
      BoxBCArgs.sample.blocOf ⟨0, Side.high⟩ = (1 / 2 : ℚ) * 2 * (1 / 4) := by
  have hret : setBoxBC LOTags.sample BoxBCArgs.sample (fun _ => 0) (fun _ => 0)
      = .ok (BoxBCArgs.sample.blocOf, BoxBCArgs.sample.tagOf LOTags.sample) := by
    apply setBoxBC_ok
    rintro ⟨d, s⟩ hd
    cases s
    · rfl
    · have h7 := hd.1
      simp [BoxBCArgs.sample, Box.face, Orientation.isLow, Box.interval] at h7
  have hlo := setBoxBC_postcondition LOTags.sample BoxBCArgs.sample _ _ _ _ hret ⟨0, Side.low⟩
  have hhi := setBoxBC_postcondition LOTags.sample BoxBCArgs.sample _ _ _ _ hret ⟨0, Side.high⟩
  have h1 : BoxBCArgs.sample.onDomainFace ⟨0, Side.low⟩ := ⟨by decide, rfl⟩
  have h2 : ¬ BoxBCArgs.sample.onDomainFace ⟨0, Side.high⟩ := fun h => absurd h.1 (by decide)
  refine ⟨hret, ?_, (hhi.2 h2).1, ?_⟩
  · rcases (hlo.1 h1).1 with h | h | h
    · exact absurd h.1 (by decide)
    · exact h.2
    · exact absurd h.1 (by decide)
  · have := (hhi.2 h2).2
    simpa [BoxBCArgs.sample] using this

/-- C4: `setBoxBC` aborts with "Unknown LinOpBCType" if and only if some face of the box
coincides with the domain face in a non-periodic direction and has a declared type that is
none of Dirichlet, Neumann, reflect_odd; and when every such face has one of these three
types the call returns, whatever is declared on interior and periodic faces. -/
theorem setBoxBC_abort_iff {D : Nat} (tags : LOTags) (a : BoxBCArgs D)
    (bloc : RealTuple D) (bctag : BCTuple D) :
    (setBoxBC tags a bloc bctag = .error "MLMGBndry::setBoxBC: Unknown LinOpBCType" ↔
      ∃ face, a.onDomainFace face ∧
        a.declared face ≠ LinOpBCType.Dirichlet ∧ a.declared face ≠ LinOpBCType.Neumann ∧
        a.declared face ≠ LinOpBCType.reflect_odd) ∧
    ((∀ face, a.onDomainFace face →
        (a.declared face = LinOpBCType.Dirichlet ∨ a.declared face = LinOpBCType.Neumann ∨
          a.declared face = LinOpBCType.reflect_odd)) →
      ∃ out, setBoxBC tags a bloc bctag = .ok out) := by
  constructor
  · constructor
    · intro herr
      rcases a.bad_or_good with hbad | hgood
      · obtain ⟨face, hd, hs⟩ := hbad
        exact ⟨face, hd, (LinOpBCType.supported_eq_false_iff _).1 hs⟩
      · rw [setBoxBC_ok tags a bloc bctag hgood] at herr
        cases herr
    · rintro ⟨face, hd, hs⟩
      exact setBoxBC_abort tags a bloc bctag
        ⟨face, hd, (LinOpBCType.supported_eq_false_iff _).2 hs⟩
  · intro h
    exact ⟨_, setBoxBC_ok tags a bloc bctag
      (fun face hd => (LinOpBCType.supported_eq_true_iff _).2 (h face hd))⟩

/-! ## Claims C6, C7 and C8: the kernels on uniform fields and at a fixed point -/

section KernelClaims

variable {RT : Type} [Field RT]

/-- C6: for a field `x` equal to the constant `c` on the box and its one-cell neighbourhood and
`alpha = 1`, the Cartesian kernel `mlalap_adotx` returns `y(i,j,n) = a(i,j,n) * c` at every
cell of the box and every component, for every `beta` (in particular `beta = 0`). -/
theorem mlalap_adotx_uniform (box : Box 2) (y x a : Array4 RT) (dxinv : Fin 2 → RT)
    (beta : RT) (ncomp : Int) (c : RT)
    (hx : ∀ i j n : Int, (lbound box).x - 1 ≤ i → i ≤ (ubound box).x + 1 →
      (lbound box).y - 1 ≤ j → j ≤ (ubound box).y + 1 → x (i, j, 0, n) = c)
    (i j n : Int) (hi1 : (lbound box).x ≤ i) (hi2 : i ≤ (ubound box).x)
    (hj1 : (lbound box).y ≤ j) (hj2 : j ≤ (ubound box).y) (hn1 : 0 ≤ n) (hn2 : n < ncomp) :
    mlalap_adotx box y x a dxinv 1 beta ncomp (i, j, 0, n) = a (i, j, 0, n) * c := by
  rw [mlalap_adotx_apply]
  have hm : (i, j, (0 : Int), n) ∈ loopCells (lbound box) (ubound box) ncomp :=
    (mem_loopCells _ _ _ _).2 ⟨hi1, hi2, hj1, hj2, rfl, hn1, hn2⟩
  rw [if_pos hm]
  rw [hx i j n (by omega) (by omega) (by omega) (by omega),
    hx (i - 1) j n (by omega) (by omega) (by omega) (by omega),
    hx (i + 1) j n (by omega) (by omega) (by omega) (by omega),
    hx i (j - 1) n (by omega) (by omega) (by omega) (by omega),
    hx i (j + 1) n (by omega) (by omega) (by omega) (by omega)]
  ring

/-- Instance of C6: the box `[0,1] x [0,1]`, `x = 3` everywhere, `a(i,j) = i`, `beta = 5`,
inverse spacings `2`; the value at cell `(1, 1)` is `a * 3`. -/
theorem mlalap_adotx_uniform_witness :
    mlalap_adotx (Box.rect 0 0 1 1) (fun _ => 0) (fun _ => (3 : ℚ)) (fun p => (p.1 : ℚ))
        (fun _ => 2) 1 5 1 (1, 1, 0, 0) = ((1 : Int) : ℚ) * 3 :=
  mlalap_adotx_uniform (Box.rect 0 0 1 1) (fun _ => 0) (fun _ => (3 : ℚ)) (fun p => (p.1 : ℚ))
    (fun _ => 2) 5 1 3 (fun _ _ _ _ _ _ _ => rfl) 1 1 0
    (by decide) (by decide) (by decide) (by decide) (by decide) (by decide)

/-- C7 fails as stated: on the single cell `(0, 0)` with `x = 1`, `a = 1`, `alpha = 1`,
`beta = 0`, `dx = 1` and `probxlo = 0` the radial kernel returns `1/2`, the product of
`a * c = 1` with the radius `rc = 1/2` of the cell centre, and not `a * c`. -/
theorem mlalap_adotx_m_uniform_counterexample :
    ¬ (mlalap_adotx_m (Box.rect 0 0 0 0) (fun _ => 0) (fun _ => (1 : ℚ)) (fun _ => (1 : ℚ))
        (fun _ => 1) 1 0 1 0 1 (0, 0, 0, 0) = (1 : ℚ) * 1) := by
  rw [mlalap_adotx_m_apply]
  have hm : ((0 : Int), (0 : Int), (0 : Int), (0 : Int)) ∈
      loopCells (lbound (Box.rect 0 0 0 0)) (ubound (Box.rect 0 0 0 0)) 1 := by decide
  rw [if_pos hm]
  norm_num

/-- C7, amended: for a field `x` equal to the constant `c` on the box and its one-cell
neighbourhood and `alpha = 1`, the radial-metric kernel `mlalap_adotx_m` returns
`y(i,j,n) = a(i,j,n) * c * rc` with `rc = probxlo + (i + 0.5) * dx` at every cell of the box
and every component, for every `beta` (in particular `beta = 0`), `dx` and `probxlo`. -/
theorem mlalap_adotx_m_uniform (box : Box 2) (y x a : Array4 RT) (dxinv : Fin 2 → RT)
    (beta dx probxlo : RT) (ncomp : Int) (c : RT)
    (hx : ∀ i j n : Int, (lbound box).x - 1 ≤ i → i ≤ (ubound box).x + 1 →
      (lbound box).y - 1 ≤ j → j ≤ (ubound box).y + 1 → x (i, j, 0, n) = c)
    (i j n : Int) (hi1 : (lbound box).x ≤ i) (hi2 : i ≤ (ubound box).x)
    (hj1 : (lbound box).y ≤ j) (hj2 : j ≤ (ubound box).y) (hn1 : 0 ≤ n) (hn2 : n < ncomp) :
    mlalap_adotx_m box y x a dxinv 1 beta dx probxlo ncomp (i, j, 0, n) =
      a (i, j, 0, n) * c * (probxlo + ((i : RT) + 1 / 2) * dx) := by
  rw [mlalap_adotx_m_apply]
  have hm : (i, j, (0 : Int), n) ∈ loopCells (lbound box) (ubound box) ncomp :=
    (mem_loopCells _ _ _ _).2 ⟨hi1, hi2, hj1, hj2, rfl, hn1, hn2⟩
  rw [if_pos hm]
  rw [hx i j n (by omega) (by omega) (by omega) (by omega),
    hx (i - 1) j n (by omega) (by omega) (by omega) (by omega),
    hx (i + 1) j n (by omega) (by omega) (by omega) (by omega),
    hx i (j - 1) n (by omega) (by omega) (by omega) (by omega),
    hx i (j + 1) n (by omega) (by omega) (by omega) (by omega)]
  ring

/-- Instance of the amended C7: the box `[0,1] x [0,1]`, `x = 3` everywhere, `a = 2`,
`beta = 5`, `dx = 1/4`, `probxlo = 1`; at cell `(1, 1)` the radius is `1 + 1.5/4`. -/
theorem mlalap_adotx_m_uniform_witness :
    mlalap_adotx_m (Box.rect 0 0 1 1) (fun _ => 0) (fun _ => (3 : ℚ)) (fun _ => (2 : ℚ))
        (fun _ => 4) 1 5 (1 / 4) 1 1 (1, 1, 0, 0)
      = 2 * 3 * (1 + (((1 : Int) : ℚ) + 1 / 2) * (1 / 4)) :=
  mlalap_adotx_m_uniform (Box.rect 0 0 1 1) (fun _ => 0) (fun _ => (3 : ℚ)) (fun _ => (2 : ℚ))
    (fun _ => 4) 5 (1 / 4) 1 1 3 (fun _ _ _ _ _ _ _ => rfl) 1 1 0
    (by decide) (by decide) (by decide) (by decide) (by decide) (by decide)

/-- C8: fixed point of the smoother.  If at every visited cell of the box (a cell `(i, j)` of
the box and a component `n` with `(i + j + redblack) % 2 == 0`) `rhs` equals the operator
applied to `phi`, `alpha*a*phi - dhx*(phi(i-1,j) - 2*phi(i,j) + phi(i+1,j))
- dhy*(phi(i,j-1) - 2*phi(i,j) + phi(i,j+1))`, and `gamma - delta` is not zero there, then
`mlalap_gsrb` of any colour leaves `phi` unchanged at every cell, for all masks and
correction factors. -/
theorem mlalap_gsrb_fixed_point (box : Box 2) (phi rhs : Array4 RT) (alpha dhx dhy : RT)
    (a : Array4 RT)
    (f0 : Array4 RT) (m0 : Array4 Int) (f1 : Array4 RT) (m1 : Array4 Int)
    (f2 : Array4 RT) (m2 : Array4 Int) (f3 : Array4 RT) (m3 : Array4 Int)
    (vbox : Box 2) (redblack : Int) (ncomp : Int)
    (hrhs : ∀ i j n : Int, (lbound box).x ≤ i → i ≤ (ubound box).x →
      (lbound box).y ≤ j → j ≤ (ubound box).y → 0 ≤ n → n < ncomp →
      (i + j + redblack).tmod 2 = 0 →
      rhs (i, j, 0, n) = alpha * a (i, j, 0, n) * phi (i, j, 0, n)
        - dhx * (phi (i - 1, j, 0, n) - 2 * phi (i, j, 0, n) + phi (i + 1, j, 0, n))
        - dhy * (phi (i, j - 1, 0, n) - 2 * phi (i, j, 0, n) + phi (i, j + 1, 0, n)))
    (hden : ∀ i j n : Int, (lbound box).x ≤ i → i ≤ (ubound box).x →
      (lbound box).y ≤ j → j ≤ (ubound box).y → 0 ≤ n → n < ncomp →
      (i + j + redblack).tmod 2 = 0 →
      gsrbGamma alpha dhx dhy a i j n
        - gsrbDelta dhx dhy f0 m0 f1 m1 f2 m2 f3 m3 vbox i j n ≠ 0) :
    mlalap_gsrb box phi rhs alpha dhx dhy a f0 m0 f1 m1 f2 m2 f3 m3 vbox redblack ncomp
      = phi := by
  funext p
  obtain ⟨i, j, k, n⟩ := p
  rw [mlalap_gsrb_apply]
  split
  · rename_i hc
    obtain ⟨h1, h2, h3, h4, h5, h6, h7⟩ := (mem_loopCells _ _ _ _).1 hc.1
    simp only at h1 h2 h3 h4 h5 h6 h7
    subst h5
    have hd := hden i j n h1 h2 h3 h4 h6 h7 hc.2
    rw [div_eq_iff hd, hrhs i j n h1 h2 h3 h4 h6 h7 hc.2]
    unfold gsrbRho gsrbGamma
    ring
  · rfl

/-- Instance of C8: `phi = 1`, `a = 1`, `alpha = 1`, `dhx = dhy = 1`, `rhs = 1` (the operator
applied to the constant `1`), correction factors `1/2` under positive masks on the box
`[0,1] x [0,1]`; at every cell `gamma - delta = 5 - 1 = 4`. -/
theorem mlalap_gsrb_fixed_point_witness :
    mlalap_gsrb (Box.rect 0 0 1 1) (fun _ => (1 : ℚ)) (fun _ => 1) 1 1 1 (fun _ => 1)
        (fun _ => 1 / 2) (fun _ => 1) (fun _ => 1 / 2) (fun _ => 1)
        (fun _ => 1 / 2) (fun _ => 1) (fun _ => 1 / 2) (fun _ => 1)
        (Box.rect 0 0 1 1) 0 1
      = fun _ => 1 :=
  mlalap_gsrb_fixed_point (Box.rect 0 0 1 1) (fun _ => (1 : ℚ)) (fun _ => 1) 1 1 1 (fun _ => 1)
    (fun _ => 1 / 2) (fun _ => 1) (fun _ => 1 / 2) (fun _ => 1)
    (fun _ => 1 / 2) (fun _ => 1) (fun _ => 1 / 2) (fun _ => 1)
    (Box.rect 0 0 1 1) 0 1
    (by intros; norm_num)
    (by
      intro i j n h1 h2 h3 h4 _ _ _
      have e1 : (lbound (Box.rect 0 0 1 1)).x = 0 := rfl
      have e2 : (ubound (Box.rect 0 0 1 1)).x = 1 := rfl
      have e3 : (lbound (Box.rect 0 0 1 1)).y = 0 := rfl
      have e4 : (ubound (Box.rect 0 0 1 1)).y = 1 := rfl
      rw [e1] at h1; rw [e2] at h2; rw [e3] at h3; rw [e4] at h4
      simp only [gsrbGamma, gsrbDelta, e1, e2, e3, e4]
      have hi : i = 0 ∨ i = 1 := by omega
      have hj : j = 0 ∨ j = 1 := by omega
      rcases hi with rfl | rfl <;> rcases hj with rfl | rfl <;> norm_num)

end KernelClaims

/-! ## Claim C9: the four-cell Dirichlet scenario -/

/-- C9 fails as stated: after boundary application and one full red-black sweep pair from the
zero guess, the residual norm `max |rhs - adotx(phi)|` is not smaller than the initial
residual norm. -/
theorem scenario_residual_counterexample :
    ¬ (scenarioResidualMax (scenarioSweepPair scenarioPhi0) < scenarioResidualMax scenarioPhi0) := by
  rw [scenario_max_after, scenario_max_before]
  norm_num

/-- C9, amended: in the scenario the initial residual is `1` at every cell, with maximum `1`
and sum `4`; after boundary application and one full red-black sweep pair (colour 0, then
colour 1) the residual `rhs - adotx(phi)` is `11/12, 0, 17/12, 0` at the four cells: it
vanishes at the two cells of colour 1, its maximum `17/12` exceeds the initial `1`, and the
sum of its absolute values has dropped from `4` to `7/3`. -/
theorem scenario_residual_values :
    scenarioResidualMax scenarioPhi0 = 1 ∧ scenarioResidualSum scenarioPhi0 = 4 ∧
    scenarioResidual (scenarioSweepPair scenarioPhi0) (0, 0, 0, 0) = 11 / 12 ∧
    scenarioResidual (scenarioSweepPair scenarioPhi0) (1, 0, 0, 0) = 0 ∧
    scenarioResidual (scenarioSweepPair scenarioPhi0) (2, 0, 0, 0) = 17 / 12 ∧
    scenarioResidual (scenarioSweepPair scenarioPhi0) (3, 0, 0, 0) = 0 ∧
    scenarioResidualMax (scenarioSweepPair scenarioPhi0) = 17 / 12 ∧
    scenarioResidualSum (scenarioSweepPair scenarioPhi0) = 7 / 3 :=
  ⟨scenario_max_before, scenario_sum_before, scenario_residual_after.1,
    scenario_residual_after.2.1, scenario_residual_after.2.2.1, scenario_residual_after.2.2.2,
    scenario_max_after, scenario_sum_after⟩


/-! ## Claim C5: the per-component overload of `setBCoeffs` -/

/-- C5 is violated by the code.  On an operator with two components, after
`setBCoeffs(0, beta)` with `beta = (1, 2)` every component of the stored `B` coefficient of
every direction holds `beta[1] = 2` at every cell: `setVal(beta[icomp])` carries no component
argument, so each pass of the component loop overwrites all components.  Component `0` is
therefore `2` and not `beta[0] = 1`. -/
theorem MLEBABecLap.setBCoeffsVector_overwrites :
    (∀ (idim : Fin 2) (cell : Int × Int × Int) (n : Nat),
      (((MLEBABecLap.sample 2 2).setBCoeffsVector 0 [1, 2]).m_b_coeffs 0 0 idim).val cell n = 2)
    ∧ ([1, 2] : List ℚ).getD 0 0 = 1 := by
  refine ⟨fun idim cell n => ?_, rfl⟩
  rw [MLEBABecLap.setBCoeffsVector_val _ _ _ (by decide)]
  rfl

/-! ## Lemmas for the singularity detector -/

theorem foldl_max_ge (l : List ℚ) (m : ℚ) : m ≤ l.foldl max m := by
  induction l generalizing m with
  | nil => exact le_refl m
  | cons a t ih => exact le_trans (le_max_left m a) (ih (max m a))

/-- The max-norm of a field is not negative. -/
theorem MultiFab.norm0_nonneg (mf : MultiFab) : 0 ≤ mf.norm0 := by
  unfold MultiFab.norm0
  exact foldl_max_ge _ 0

namespace MLEBABecLap

variable {D : Nat}

/-- The vector of flags after the singularity block, as a whole. -/
theorem updateSingularFlags_eq (t : MLEBABecLap D) :
    (updateSingularFlags t).m_is_singular =
      (List.range t.m_num_amr_levels).map (fun k => t.singularFlag k) := by
  apply List.ext_getElem?
  intro k
  by_cases hk : k < t.m_num_amr_levels
  · rw [updateSingularFlags_get t k hk]
    simp [hk, singularFlag]
  · have h1 : (updateSingularFlags t).m_is_singular.length ≤ k := by
      rw [updateSingularFlags_length]; omega
    rw [List.getElem?_eq_none h1, List.getElem?_eq_none (by simpa using Nat.le_of_not_lt hk)]

theorem updateSingularFlags_a_coeffs (t : MLEBABecLap D) :
    (updateSingularFlags t).m_a_coeffs = t.m_a_coeffs ∧
    (updateSingularFlags t).m_num_mg_levels = t.m_num_mg_levels ∧
    (updateSingularFlags t).m_num_amr_levels = t.m_num_amr_levels := by
  unfold updateSingularFlags
  simp only
  split <;> exact ⟨rfl, rfl, rfl⟩

/-- The flag of a level depends on the operator only through the members that `SameSetup`
lists and through the coarsest `A` field of the level. -/
theorem singularFlag_congr {s t : MLEBABecLap D} (h : SameSetup s t) (k : Nat)
    (hA : t.m_a_coeffs k (t.m_num_mg_levels k - 1) = s.m_a_coeffs k (s.m_num_mg_levels k - 1)) :
    t.singularFlag k = s.singularFlag k := by
  obtain ⟨_, h2, h3, h4, h5, h6⟩ := h
  unfold singularFlag
  rw [h2, h3, h4, h5, h6, hA]

/-- The state on which the singularity block of a returning `prepareForSolve` ran: it has
the setup of the operator, and the call leaves its flags, `A` coefficients and sizes. -/
theorem prepareForSolve_flags (K : Collaborators D) (op r : MLEBABecLap D)
    (hprep : ∀ s, SameSetup s (K.MLCellABecLap_prepareForSolve s))
    (h : prepareForSolve K op = .ok r) :
    ∃ t, SameSetup op t ∧ r.m_is_singular = (updateSingularFlags t).m_is_singular ∧
      r.m_a_coeffs = t.m_a_coeffs ∧ r.m_num_mg_levels = t.m_num_mg_levels := by
  obtain ⟨op2, op3, h2, h3, hr⟩ := prepareForSolve_eq_ok K op r h
  refine ⟨op3, ((hprep op).trans (averageDownCoeffs_setup K _ op2 h2)).trans
    (averageDownEBPhi_stable K op2 op3 h3).1.1, ?_, ?_, ?_⟩
  · rw [hr]
  · rw [hr]
    exact (updateSingularFlags_a_coeffs op3).1
  · rw [hr]
    exact (updateSingularFlags_a_coeffs op3).2.1

/-- The state on which the singularity block of a returning `update` ran. -/
theorem update_flags (K : Collaborators D) (op r : MLEBABecLap D)
    (hupd : ∀ s, SameSetup s (K.MLCellABecLap_update s))
    (h : update K op = .ok r) :
    ∃ t, SameSetup op t ∧ r.m_is_singular = (updateSingularFlags t).m_is_singular ∧
      r.m_a_coeffs = t.m_a_coeffs ∧ r.m_num_mg_levels = t.m_num_mg_levels := by
  obtain ⟨op2, h2, hr⟩ := update_eq_ok K op r h
  have h0 : SameSetup op
      (if K.MLCellABecLap_needsUpdate op then K.MLCellABecLap_update op else op) := by
    split
    · exact hupd op
    · exact SameSetup.refl op
  refine ⟨op2, h0.trans (averageDownCoeffs_setup K _ op2 h2), ?_, ?_, ?_⟩
  · rw [hr]
  · rw [hr]
    exact (updateSingularFlags_a_coeffs op2).1
  · rw [hr]
    exact (updateSingularFlags_a_coeffs op2).2.1

/-- Without EB `B` coefficients `averageDownCoeffsSameAmrLevel` dereferences no EB
pointer. -/
theorem EBCoeffPointersOKAt.at_of_no_eb {op : MLEBABecLap D} (amrlev : Nat)
    (h : ∀ mglev, op.m_eb_b_coeffs amrlev mglev = none) : EBCoeffPointersOKAt op amrlev := by
  intro mglev _ _ h3
  rw [h] at h3
  cases h3

/-- The three places where a null pointer is dereferenced, on the sample operators: with EB
values on AMR level `0` only, `prepareForSolve()` reaches `*m_eb_phi[1]` (line 687); with an
EB `B` coefficient on multigrid level `1` of AMR level `1` only, the pass `mglev = 1` of
`averageDownCoeffsSameAmrLevel(1, ...)` reaches `*b_eb[0]` (line 647), and
`averageDownCoeffsToCoarseAmrLevel(1)` reaches `*crse_eb_b_coeffs` (line 672). -/
theorem null_pointer_examples :
    prepareForSolve (Collaborators.idle 2) sampleCoarseEBOnly
      = .error "null pointer dereferenced: m_eb_phi" ∧
    averageDownCoeffsSameAmrLevel (Collaborators.idle 2) sampleFineEBOnly 1
      = .error "null pointer dereferenced: b_eb[mglev-1]" ∧
    averageDownCoeffsToCoarseAmrLevel (Collaborators.idle 2) sampleFineEBOnly 1
      = .error "null pointer dereferenced: crse_eb_b_coeffs" ∧
    update (Collaborators.idle 2) sampleFineEBOnly
      = .error "null pointer dereferenced: b_eb[mglev-1]" :=
  ⟨rfl, rfl, rfl, rfl⟩

/-- With EB `B` coefficients on every multigrid level of every AMR level, every pointer that
`averageDownCoeffs` dereferences is set. -/
theorem EBCoeffPointersOK.of_all_eb {op : MLEBABecLap D}
    (h : ∀ lev mglev, (op.m_eb_b_coeffs lev mglev).isSome = true) : EBCoeffPointersOK op :=
  ⟨fun amrlev _ mglev _ _ _ => h amrlev (mglev - 1), fun flev _ _ _ => h (flev - 1) 0⟩

/-- Without EB `B` coefficients `averageDownCoeffs` dereferences no EB pointer. -/
theorem EBCoeffPointersOK.of_no_eb {op : MLEBABecLap D}
    (h : ∀ lev mglev, op.m_eb_b_coeffs lev mglev = none) : EBCoeffPointersOK op := by
  constructor
  · intro amrlev _
    exact EBCoeffPointersOKAt.at_of_no_eb amrlev (h amrlev)
  · intro flev _ _ h3
    rw [h] at h3
    cases h3

/-- Without EB Dirichlet values on level `0` lines 685-690 dereference no pointer. -/
theorem EBPhiPointersOK.of_not_dirichlet {op : MLEBABecLap D}
    (h : op.isEBDirichlet = false) : EBPhiPointersOK op := by
  intro h0
  unfold isEBDirichlet at h
  rw [h] at h0
  cases h0

end MLEBABecLap

namespace MLEBABecLap

variable {D : Nat}

/-- With a Dirichlet face in solve component `0` the flag of every level is `false`. -/
theorem singularFlag_of_dirichlet {s t : MLEBABecLap D} (h : SameSetup s t)
    (hdir : (∃ d, s.m_lobc 0 d = LinOpBCType.Dirichlet) ∨
      (∃ d, s.m_hibc 0 d = LinOpBCType.Dirichlet)) (k : Nat) :
    t.singularFlag k = false := by
  obtain ⟨_, h2, h3, _, _, _⟩ := h
  unfold singularFlag
  rw [h2, h3]
  have : ¬ ((∀ d, s.m_lobc 0 d ≠ LinOpBCType.Dirichlet) ∧
      (∀ d, s.m_hibc 0 d ≠ LinOpBCType.Dirichlet) ∧ t.isEBDirichlet = false) := by
    rintro ⟨h1, h2, _⟩
    rcases hdir with ⟨d, hd⟩ | ⟨d, hd⟩
    · exact h1 d hd
    · exact h2 d hd
  simp [this]

/-- Without Dirichlet data the flag of a level is its covered flag when `alpha = 0`. -/
theorem singularFlag_of_alpha_zero {s t : MLEBABecLap D} (h : SameSetup s t)
    (hlo : ∀ d, s.m_lobc 0 d ≠ LinOpBCType.Dirichlet)
    (hhi : ∀ d, s.m_hibc 0 d ≠ LinOpBCType.Dirichlet)
    (heb : s.isEBDirichlet = false) (halpha : s.m_a_scalar = 0) (k : Nat) :
    t.singularFlag k = s.m_domain_covered k := by
  obtain ⟨_, h2, h3, h4, h5, h6⟩ := h
  unfold singularFlag
  rw [h2, h3, h4, h5, h6, heb, halpha]
  simp [hlo, hhi]

/-- Without Dirichlet data and with `alpha ≠ 0` the flag of a level is its covered flag
together with the test `asum <= amax * 1e-12` on the coarsest `A` field of the level. -/
theorem singularFlag_of_alpha_ne_zero {s t : MLEBABecLap D} (h : SameSetup s t)
    (hlo : ∀ d, s.m_lobc 0 d ≠ LinOpBCType.Dirichlet)
    (hhi : ∀ d, s.m_hibc 0 d ≠ LinOpBCType.Dirichlet)
    (heb : s.isEBDirichlet = false) (halpha : s.m_a_scalar ≠ 0) (k : Nat) :
    t.singularFlag k = (s.m_domain_covered k &&
      decide ((t.m_a_coeffs k (t.m_num_mg_levels k - 1)).sum ≤
        (t.m_a_coeffs k (t.m_num_mg_levels k - 1)).norm0 * (1 / 10 ^ 12))) := by
  obtain ⟨_, h2, h3, h4, h5, h6⟩ := h
  unfold singularFlag
  rw [h2, h3, h4, h5, h6, heb]
  simp [hlo, hhi, halpha]

/-- On a single covered AMR level with `alpha = 0`, no Dirichlet face in solve component `0`
and no EB Dirichlet values, `prepareForSolve()` and `update()`, when they return, leave the
flags `(true)`; and they return when the EB `B` pointers that `averageDownCoeffs()`
dereferences are set. -/
theorem singular_single_level (K : Collaborators D) (op : MLEBABecLap D)
    (hprep : ∀ s, SameSetup s (K.MLCellABecLap_prepareForSolve s))
    (hupd : ∀ s, SameSetup s (K.MLCellABecLap_update s))
    (hlev : op.m_num_amr_levels = 1) (hcov : op.m_domain_covered 0 = true)
    (halpha : op.m_a_scalar = 0)
    (hlo : ∀ d, op.m_lobc 0 d ≠ LinOpBCType.Dirichlet)
    (hhi : ∀ d, op.m_hibc 0 d ≠ LinOpBCType.Dirichlet)
    (heb : op.isEBDirichlet = false) :
    (∀ r, prepareForSolve K op = .ok r → r.m_is_singular = [true]) ∧
    (∀ r, update K op = .ok r → r.m_is_singular = [true]) ∧
    (EBCoeffPointersOK (K.MLCellABecLap_prepareForSolve op) →
      ∃ r, prepareForSolve K op = .ok r ∧ r.m_is_singular = [true]) ∧
    (EBCoeffPointersOK
        (if K.MLCellABecLap_needsUpdate op then K.MLCellABecLap_update op else op) →
      ∃ r, update K op = .ok r ∧ r.m_is_singular = [true]) := by
  have key : ∀ t : MLEBABecLap D, SameSetup op t →
      (updateSingularFlags t).m_is_singular = [true] := by
    intro t ht
    rw [updateSingularFlags_eq, ht.1, hlev]
    simp only [singularFlag_of_alpha_zero ht hlo hhi heb halpha]
    show [op.m_domain_covered 0] = [true]
    rw [hcov]
  have hP : ∀ r, prepareForSolve K op = .ok r → r.m_is_singular = [true] := by
    intro r hr
    obtain ⟨t, ht, hflags, _, _⟩ := prepareForSolve_flags K op r hprep hr
    exact hflags.trans (key t ht)
  have hU : ∀ r, update K op = .ok r → r.m_is_singular = [true] := by
    intro r hr
    obtain ⟨t, ht, hflags, _, _⟩ := update_flags K op r hupd hr
    exact hflags.trans (key t ht)
  refine ⟨hP, hU, ?_, ?_⟩
  · intro hc
    obtain ⟨r, hr⟩ := prepareForSolve_returns K op hc
      (EBPhiPointersOK.of_not_dirichlet (by rw [(hprep op).2.2.2.2.2, heb]))
    exact ⟨r, hr, hP r hr⟩
  · intro hc
    obtain ⟨r, hr⟩ := update_returns K op hc
    exact ⟨r, hr, hU r hr⟩

end MLEBABecLap

/-! ## Claim C10: the singularity detector, positive case -/

/-- C10: on a single AMR level whose domain is covered, with `alpha` (`m_a_scalar`) equal to
`0`, no domain face of any component declared Dirichlet and no EB-Dirichlet data,
`prepareForSolve()` and `update()`, when they return, leave `m_is_singular` equal to the
one-entry vector `(true)`, so `is_singular[0] = true`; and they return, with this vector,
when the EB `B` pointers that `averageDownCoeffs()` dereferences without a test are set.
The base-class members `MLCellABecLap::prepareForSolve` and `MLCellABecLap::update`, which
are not among the sources, are assumed to keep the number of levels, the declared boundary
types, the covered flags, `alpha` and the presence of EB Dirichlet data. -/
theorem MLEBABecLap.singular_of_all_neumann {D : Nat} (K : Collaborators D)
    (op : MLEBABecLap D)
    (hprep : ∀ s, MLEBABecLap.SameSetup s (K.MLCellABecLap_prepareForSolve s))
    (hupd : ∀ s, MLEBABecLap.SameSetup s (K.MLCellABecLap_update s))
    (hlev : op.m_num_amr_levels = 1) (hcov : op.m_domain_covered 0 = true)
    (halpha : op.m_a_scalar = 0)
    (hlo : ∀ n d, op.m_lobc n d ≠ LinOpBCType.Dirichlet)
    (hhi : ∀ n d, op.m_hibc n d ≠ LinOpBCType.Dirichlet)
    (heb : op.isEBDirichlet = false) :
    (∀ r, MLEBABecLap.prepareForSolve K op = .ok r → r.m_is_singular = [true]) ∧
    (∀ r, MLEBABecLap.update K op = .ok r → r.m_is_singular = [true]) ∧
    (MLEBABecLap.EBCoeffPointersOK (K.MLCellABecLap_prepareForSolve op) →
      ∃ r, MLEBABecLap.prepareForSolve K op = .ok r ∧ r.m_is_singular = [true]) ∧
    (MLEBABecLap.EBCoeffPointersOK
        (if K.MLCellABecLap_needsUpdate op then K.MLCellABecLap_update op else op) →
      ∃ r, MLEBABecLap.update K op = .ok r ∧ r.m_is_singular = [true]) :=
  MLEBABecLap.singular_single_level K op hprep hupd hlev hcov halpha (hlo 0) (hhi 0) heb

/-- Instance of C10: the sample operator (one level, covered, `alpha = 0`, all faces
Neumann, no EB data) with collaborators that leave every field as it is: both calls return
with the flags `(true)`. -/
theorem MLEBABecLap.singular_of_all_neumann_witness :
    (∃ r, MLEBABecLap.prepareForSolve (Collaborators.idle 2) (MLEBABecLap.sample 2 1) = .ok r ∧
      r.m_is_singular = [true]) ∧
    (∃ r, MLEBABecLap.update (Collaborators.idle 2) (MLEBABecLap.sample 2 1) = .ok r ∧
      r.m_is_singular = [true]) :=
  ⟨(MLEBABecLap.singular_of_all_neumann (Collaborators.idle 2) (MLEBABecLap.sample 2 1)
      (fun s => MLEBABecLap.SameSetup.refl s) (fun s => MLEBABecLap.SameSetup.refl s)
      rfl rfl rfl (fun _ _ h => by cases h) (fun _ _ h => by cases h) rfl).2.2.1
      (MLEBABecLap.EBCoeffPointersOK.of_no_eb (fun _ _ => rfl)),
   (MLEBABecLap.singular_of_all_neumann (Collaborators.idle 2) (MLEBABecLap.sample 2 1)
      (fun s => MLEBABecLap.SameSetup.refl s) (fun s => MLEBABecLap.SameSetup.refl s)
      rfl rfl rfl (fun _ _ h => by cases h) (fun _ _ h => by cases h) rfl).2.2.2
      (MLEBABecLap.EBCoeffPointersOK.of_no_eb (fun _ _ => rfl))⟩

/-! ## Claim C11: the singularity detector, negative case -/

/-- C11 fails as stated: on the two-component sample operator the low face of direction `0`
is declared Dirichlet for solve component `1` while every face of component `0` is Neumann;
`prepareForSolve()` and `update()` return, look at `m_lobc[0]` and `m_hibc[0]` only, and
flag the single level singular. -/
theorem MLEBABecLap.singular_component_counterexample :
    MLEBABecLap.sampleMixed.m_lobc 1 0 = LinOpBCType.Dirichlet ∧
    ¬ ((∀ r, MLEBABecLap.prepareForSolve (Collaborators.idle 2) MLEBABecLap.sampleMixed
          = .ok r → ∀ flag ∈ r.m_is_singular, flag = false) ∧
       (∀ r, MLEBABecLap.update (Collaborators.idle 2) MLEBABecLap.sampleMixed
          = .ok r → ∀ flag ∈ r.m_is_singular, flag = false)) := by
  refine ⟨rfl, ?_⟩
  have hlo : ∀ d, MLEBABecLap.sampleMixed.m_lobc 0 d ≠ LinOpBCType.Dirichlet := by
    intro d h
    simp [MLEBABecLap.sampleMixed] at h
  have hhi : ∀ d, MLEBABecLap.sampleMixed.m_hibc 0 d ≠ LinOpBCType.Dirichlet := by
    intro d h
    cases h
  obtain ⟨r, hr, hflags⟩ := (MLEBABecLap.singular_single_level (Collaborators.idle 2)
    MLEBABecLap.sampleMixed (fun s => MLEBABecLap.SameSetup.refl s)
    (fun s => MLEBABecLap.SameSetup.refl s) rfl rfl rfl hlo hhi rfl).2.2.1
    (MLEBABecLap.EBCoeffPointersOK.of_no_eb (fun _ _ => rfl))
  intro h
  have := h.1 r hr true (by rw [hflags]; exact List.mem_singleton.2 rfl)
  cases this

/-- C11, amended: whenever at least one domain face of solve component `0` (an entry of
`m_lobc[0]` or of `m_hibc[0]`, any direction) is declared Dirichlet, `prepareForSolve()` and
`update()`, when they return, report `is_singular = false` on every AMR level, whatever
`alpha` and the `A` coefficients are; and they return whenever the EB pointers that they
dereference without a test are set.  The absent base-class members are assumed to keep the
members the block reads. -/
theorem MLEBABecLap.not_singular_of_dirichlet {D : Nat} (K : Collaborators D)
    (op : MLEBABecLap D)
    (hprep : ∀ s, MLEBABecLap.SameSetup s (K.MLCellABecLap_prepareForSolve s))
    (hupd : ∀ s, MLEBABecLap.SameSetup s (K.MLCellABecLap_update s))
    (hdir : (∃ d, op.m_lobc 0 d = LinOpBCType.Dirichlet) ∨
      (∃ d, op.m_hibc 0 d = LinOpBCType.Dirichlet)) :
    (∀ r, MLEBABecLap.prepareForSolve K op = .ok r →
      r.m_is_singular = List.replicate op.m_num_amr_levels false) ∧
    (∀ r, MLEBABecLap.update K op = .ok r →
      r.m_is_singular = List.replicate op.m_num_amr_levels false) ∧
    (MLEBABecLap.EBCoeffPointersOK (K.MLCellABecLap_prepareForSolve op) →
      MLEBABecLap.EBPhiPointersOK (K.MLCellABecLap_prepareForSolve op) →
      ∃ r, MLEBABecLap.prepareForSolve K op = .ok r ∧
        r.m_is_singular = List.replicate op.m_num_amr_levels false) ∧
    (MLEBABecLap.EBCoeffPointersOK
        (if K.MLCellABecLap_needsUpdate op then K.MLCellABecLap_update op else op) →
      ∃ r, MLEBABecLap.update K op = .ok r ∧
        r.m_is_singular = List.replicate op.m_num_amr_levels false) := by
  have key : ∀ t : MLEBABecLap D, MLEBABecLap.SameSetup op t →
      (MLEBABecLap.updateSingularFlags t).m_is_singular
        = List.replicate op.m_num_amr_levels false := by
    intro t ht
    rw [MLEBABecLap.updateSingularFlags_eq, ht.1]
    simp only [MLEBABecLap.singularFlag_of_dirichlet ht hdir]
    apply List.ext_getElem?
    intro k
    by_cases hk : k < op.m_num_amr_levels
    · simp [hk, List.getElem?_replicate]
    · simp [hk, List.getElem?_replicate]
  have hP : ∀ r, MLEBABecLap.prepareForSolve K op = .ok r →
      r.m_is_singular = List.replicate op.m_num_amr_levels false := by
    intro r hr
    obtain ⟨t, ht, hflags, _, _⟩ := MLEBABecLap.prepareForSolve_flags K op r hprep hr
    exact hflags.trans (key t ht)
  have hU : ∀ r, MLEBABecLap.update K op = .ok r →
      r.m_is_singular = List.replicate op.m_num_amr_levels false := by
    intro r hr
    obtain ⟨t, ht, hflags, _, _⟩ := MLEBABecLap.update_flags K op r hupd hr
    exact hflags.trans (key t ht)
  refine ⟨hP, hU, ?_, ?_⟩
  · intro hc hp
    obtain ⟨r, hr⟩ := MLEBABecLap.prepareForSolve_returns K op hc hp
    exact ⟨r, hr, hP r hr⟩
  · intro hc
    obtain ⟨r, hr⟩ := MLEBABecLap.update_returns K op hc
    exact ⟨r, hr, hU r hr⟩

/-- Instance of the amended C11: the sample operator with the low `x` face of component `0`
declared Dirichlet; both calls return with the flags `(false)`. -/
theorem MLEBABecLap.not_singular_of_dirichlet_witness :
    (∃ r, MLEBABecLap.prepareForSolve (Collaborators.idle 2) MLEBABecLap.sampleDirichlet
        = .ok r ∧
      r.m_is_singular = List.replicate MLEBABecLap.sampleDirichlet.m_num_amr_levels false) ∧
    (∃ r, MLEBABecLap.update (Collaborators.idle 2) MLEBABecLap.sampleDirichlet = .ok r ∧
      r.m_is_singular = List.replicate MLEBABecLap.sampleDirichlet.m_num_amr_levels false) :=
  ⟨(MLEBABecLap.not_singular_of_dirichlet (Collaborators.idle 2) MLEBABecLap.sampleDirichlet
      (fun s => MLEBABecLap.SameSetup.refl s) (fun s => MLEBABecLap.SameSetup.refl s)
      (Or.inl ⟨0, rfl⟩)).2.2.1
      (MLEBABecLap.EBCoeffPointersOK.of_no_eb (fun _ _ => rfl))
      (MLEBABecLap.EBPhiPointersOK.of_not_dirichlet rfl),
   (MLEBABecLap.not_singular_of_dirichlet (Collaborators.idle 2) MLEBABecLap.sampleDirichlet
      (fun s => MLEBABecLap.SameSetup.refl s) (fun s => MLEBABecLap.SameSetup.refl s)
      (Or.inl ⟨0, rfl⟩)).2.2.2
      (MLEBABecLap.EBCoeffPointersOK.of_no_eb (fun _ _ => rfl))⟩

/-! ## Claim C12: the singularity criterion with a reaction term -/

/-- For a positive max-norm the product test of the code is the quotient test of the
specification. -/
theorem quotientAtMost_iff (s m tol : ℚ) (hm : 0 < m) :
    quotientAtMost s m tol ↔ s ≤ m * tol := by
  unfold quotientAtMost
  constructor
  · rintro ⟨_, h⟩
    rw [div_le_iff₀ hm] at h
    linarith [mul_comm tol m]
  · intro h
    refine ⟨ne_of_gt hm, ?_⟩
    rw [div_le_iff₀ hm]
    linarith [mul_comm tol m]

/-- C12 fails as stated: on the sample operator with `alpha = 1` (one covered level, all
faces Neumann, no EB data) the `A` coefficient is identically `0`, so `sum(A) = max(A) = 0`
and the quotient `sum(A)/max(A)` does not exist; `prepareForSolve()` returns, having tested
`asum <= amax * 1e-12`, which is `0 <= 0`, and flags the level singular. -/
theorem MLEBABecLap.singular_quotient_counterexample :
    ¬ (∀ r, MLEBABecLap.prepareForSolve (Collaborators.idle 2) MLEBABecLap.sampleReaction
          = .ok r →
        (r.m_is_singular = [true] ↔
          quotientAtMost (r.m_a_coeffs 0 0).sum (r.m_a_coeffs 0 0).norm0 (1 / 10 ^ 12))) := by
  obtain ⟨r, hr⟩ := MLEBABecLap.prepareForSolve_returns (Collaborators.idle 2)
    MLEBABecLap.sampleReaction (MLEBABecLap.EBCoeffPointersOK.of_no_eb (fun _ _ => rfl))
    (MLEBABecLap.EBPhiPointersOK.of_not_dirichlet rfl)
  have hA : r.m_a_coeffs 0 0 = MultiFab.const 1 0 := by
    have h := congrArg (fun x : Except String (MLEBABecLap 2) =>
      match x with
      | .ok t => t.m_a_coeffs 0 0
      | .error _ => MultiFab.const 1 1) hr
    exact h.symm.trans rfl
  obtain ⟨t, ht, hflags, hta, htm⟩ := MLEBABecLap.prepareForSolve_flags
    (Collaborators.idle 2) MLEBABecLap.sampleReaction r
    (fun s => MLEBABecLap.SameSetup.refl s) hr
  have hm : r.m_num_mg_levels 0 - 1 = 0 := by
    have h := congrArg (fun x : Except String (MLEBABecLap 2) =>
      match x with
      | .ok t => t.m_num_mg_levels 0 - 1
      | .error _ => 1) hr
    exact h.symm.trans rfl
  have hp : r.m_is_singular = [true] := by
    rw [hflags, MLEBABecLap.updateSingularFlags_eq, ht.1]
    have hne : MLEBABecLap.sampleReaction.m_a_scalar ≠ 0 := by
      simp [MLEBABecLap.sampleReaction]
    simp only [MLEBABecLap.singularFlag_of_alpha_ne_zero ht
      (fun d h => by cases h) (fun d h => by cases h) rfl hne]
    have hr1 : List.range MLEBABecLap.sampleReaction.m_num_amr_levels = [0] := rfl
    rw [hr1]
    simp only [List.map_cons, List.map_nil, ← htm, ← hta, hm, hA]
    simp [MultiFab.sum, MultiFab.norm0, MultiFab.const, MLEBABecLap.sampleReaction,
      MLEBABecLap.sample]
  intro h
  have hq := (h r hr).1 hp
  rw [hA] at hq
  apply hq.1
  simp [MultiFab.norm0, MultiFab.const]

/-- C12, amended: for every AMR level `k`, when no face declares Dirichlet, no EB-Dirichlet
is active and `alpha != 0`, `prepareForSolve()` and `update()`, when they return, flag the
level singular if and only if the level is domain-covered and `sum(A) <= max(A) * 1e-12`,
where `A` is the `A` coefficient of the coarsest multigrid level of AMR level `k` after
averaging down; a level that is not domain-covered is never flagged.  They return whenever
the EB pointers that they dereference without a test are set.  Whenever `max(A) > 0` the
test is the quotient test `sum(A)/max(A) <= 1e-12`; when `A` is identically zero the
quotient does not exist and the level is flagged.  The absent base-class members are assumed
to keep the members the block reads. -/
theorem MLEBABecLap.singular_iff_reaction_negligible {D : Nat} (K : Collaborators D)
    (op : MLEBABecLap D)
    (hprep : ∀ s, MLEBABecLap.SameSetup s (K.MLCellABecLap_prepareForSolve s))
    (hupd : ∀ s, MLEBABecLap.SameSetup s (K.MLCellABecLap_update s))
    (hlo : ∀ n d, op.m_lobc n d ≠ LinOpBCType.Dirichlet)
    (hhi : ∀ n d, op.m_hibc n d ≠ LinOpBCType.Dirichlet)
    (heb : op.isEBDirichlet = false) (halpha : op.m_a_scalar ≠ 0)
    (k : Nat) (hk : k < op.m_num_amr_levels) :
    (∀ r, MLEBABecLap.prepareForSolve K op = .ok r →
      r.m_is_singular[k]? = some
        (op.m_domain_covered k &&
          decide ((r.m_a_coeffs k (r.m_num_mg_levels k - 1)).sum ≤
            (r.m_a_coeffs k (r.m_num_mg_levels k - 1)).norm0 * (1 / 10 ^ 12)))) ∧
    (∀ r, MLEBABecLap.update K op = .ok r →
      r.m_is_singular[k]? = some
        (op.m_domain_covered k &&
          decide ((r.m_a_coeffs k (r.m_num_mg_levels k - 1)).sum ≤
            (r.m_a_coeffs k (r.m_num_mg_levels k - 1)).norm0 * (1 / 10 ^ 12)))) ∧
    (MLEBABecLap.EBCoeffPointersOK (K.MLCellABecLap_prepareForSolve op) →
      ∃ r, MLEBABecLap.prepareForSolve K op = .ok r ∧
        r.m_is_singular[k]? = some
          (op.m_domain_covered k &&
            decide ((r.m_a_coeffs k (r.m_num_mg_levels k - 1)).sum ≤
              (r.m_a_coeffs k (r.m_num_mg_levels k - 1)).norm0 * (1 / 10 ^ 12)))) ∧
    (MLEBABecLap.EBCoeffPointersOK
        (if K.MLCellABecLap_needsUpdate op then K.MLCellABecLap_update op else op) →
      ∃ r, MLEBABecLap.update K op = .ok r ∧
        r.m_is_singular[k]? = some
          (op.m_domain_covered k &&
            decide ((r.m_a_coeffs k (r.m_num_mg_levels k - 1)).sum ≤
              (r.m_a_coeffs k (r.m_num_mg_levels k - 1)).norm0 * (1 / 10 ^ 12)))) ∧
    (∀ A : MultiFab, A.norm0 ≠ 0 →
      (A.sum ≤ A.norm0 * (1 / 10 ^ 12) ↔ A.sum / A.norm0 ≤ 1 / 10 ^ 12)) := by
  have key : ∀ t : MLEBABecLap D, MLEBABecLap.SameSetup op t →
      (MLEBABecLap.updateSingularFlags t).m_is_singular[k]? = some
        (op.m_domain_covered k &&
          decide ((t.m_a_coeffs k (t.m_num_mg_levels k - 1)).sum ≤
            (t.m_a_coeffs k (t.m_num_mg_levels k - 1)).norm0 * (1 / 10 ^ 12))) := by
    intro t ht
    rw [MLEBABecLap.updateSingularFlags_eq, ht.1]
    simp only [MLEBABecLap.singularFlag_of_alpha_ne_zero ht (hlo 0) (hhi 0) heb halpha]
    simp [hk]
  have hP : ∀ r, MLEBABecLap.prepareForSolve K op = .ok r →
      r.m_is_singular[k]? = some
        (op.m_domain_covered k &&
          decide ((r.m_a_coeffs k (r.m_num_mg_levels k - 1)).sum ≤
            (r.m_a_coeffs k (r.m_num_mg_levels k - 1)).norm0 * (1 / 10 ^ 12))) := by
    intro r hr
    obtain ⟨t, ht, hflags, hta, htm⟩ := MLEBABecLap.prepareForSolve_flags K op r hprep hr
    rw [hflags, hta, htm]
    exact key t ht
  have hU : ∀ r, MLEBABecLap.update K op = .ok r →
      r.m_is_singular[k]? = some
        (op.m_domain_covered k &&
          decide ((r.m_a_coeffs k (r.m_num_mg_levels k - 1)).sum ≤
            (r.m_a_coeffs k (r.m_num_mg_levels k - 1)).norm0 * (1 / 10 ^ 12))) := by
    intro r hr
    obtain ⟨t, ht, hflags, hta, htm⟩ := MLEBABecLap.update_flags K op r hupd hr
    rw [hflags, hta, htm]
    exact key t ht
  refine ⟨hP, hU, ?_, ?_, ?_⟩
  · intro hc
    obtain ⟨r, hr⟩ := MLEBABecLap.prepareForSolve_returns K op hc
      (MLEBABecLap.EBPhiPointersOK.of_not_dirichlet (by rw [(hprep op).2.2.2.2.2, heb]))
    exact ⟨r, hr, hP r hr⟩
  · intro hc
    obtain ⟨r, hr⟩ := MLEBABecLap.update_returns K op hc
    exact ⟨r, hr, hU r hr⟩
  · intro A hA
    have hpos : 0 < A.norm0 := lt_of_le_of_ne A.norm0_nonneg (Ne.symm hA)
    have := quotientAtMost_iff A.sum A.norm0 (1 / 10 ^ 12) hpos
    unfold quotientAtMost at this
    constructor
    · intro h
      exact (this.2 h).2
    · intro h
      exact this.1 ⟨hA, h⟩

/-- Instance of the amended C12: the sample operator with `alpha = 1` and `A = 3` on its
single cell: the call returns, and the flag of the covered level `0` is the outcome of the
test `sum(A) <= max(A) * 1e-12` on the `A` coefficient that the call leaves. -/
theorem MLEBABecLap.singular_iff_reaction_negligible_witness :
    ∃ r, MLEBABecLap.prepareForSolve (Collaborators.idle 2) MLEBABecLap.sampleReaction3
        = .ok r ∧
      r.m_is_singular[0]? = some
        (MLEBABecLap.sampleReaction3.m_domain_covered 0 &&
          decide ((r.m_a_coeffs 0 (r.m_num_mg_levels 0 - 1)).sum ≤
            (r.m_a_coeffs 0 (r.m_num_mg_levels 0 - 1)).norm0 * (1 / 10 ^ 12))) :=
  (MLEBABecLap.singular_iff_reaction_negligible (Collaborators.idle 2)
    MLEBABecLap.sampleReaction3
    (fun s => MLEBABecLap.SameSetup.refl s) (fun s => MLEBABecLap.SameSetup.refl s)
    (fun _ _ h => by cases h) (fun _ _ h => by cases h) rfl
    (by simp [MLEBABecLap.sampleReaction3]) 0 Nat.one_pos).2.2.1
    (MLEBABecLap.EBCoeffPointersOK.of_no_eb (fun _ _ => rfl))

/-! ## Claim C20: `mlalap_normalize` and the diagonal of `mlalap_adotx` -/

section NormalizeClaims

variable {RT : Type} [Field RT]

/-- The in-place loop of `mlalap_normalize` in closed form. -/
theorem mlalap_normalize_apply (box : Box 2) (x a : Array4 RT) (dxinv : Fin 2 → RT)
    (alpha beta : RT) (ncomp : Int) (p : Int × Int × Int × Int) :
    mlalap_normalize box x a dxinv alpha beta ncomp p =
      if p ∈ loopCells (lbound box) (ubound box) ncomp then
        x p / (alpha * a p + 2 * (beta * dxinv 0 * dxinv 0 + beta * dxinv 1 * dxinv 1))
      else x p := by
  unfold mlalap_normalize
  rw [loopNest_eq_foldl]
  have h := foldl_update_pointwise (fun _ : Int × Int × Int × Int => True)
    (fun (s : Array4 RT) q =>
      s q / (alpha * a q + 2 * (beta * dxinv 0 * dxinv 0 + beta * dxinv 1 * dxinv 1))) x
    (fun s k _ hk _ => by simp only [hk])
    (loopCells (lbound box) (ubound box) ncomp) (nodup_loopCells _ _ _) x
    (fun q hq => absurd trivial hq) (fun _ _ => rfl)
  simp only [if_true, and_true] at h
  refine (congrFun (Eq.trans (List.foldl_ext _ _ _ ?_) h) p).trans rfl
  intro s q hq
  have : q.2.2.1 = 0 := ((mem_loopCells _ _ ncomp q).1 hq).2.2.2.2.1
  obtain ⟨i, j, k, n⟩ := q
  simp only at this
  subst this
  rfl

/-- C20: on a grid with spacings `hx`, `hy` (so `dxinv = (1/hx, 1/hy)`), `mlalap_normalize`
divides the value of every cell `(i, j)` of the box and every component `n` by the local
operator diagonal `alpha*a(i,j,n) + beta*(2/hx^2 + 2/hy^2)`, and this divisor is the
coefficient of `x(i,j,n)` in the output of `mlalap_adotx` at `(i,j,n)`: applying
`mlalap_adotx` to the unit impulse at the cell yields the divisor there. -/
theorem mlalap_normalize_diagonal (box : Box 2) (x y a : Array4 RT) (hx hy alpha beta : RT)
    (ncomp : Int) (i j n : Int) (hi1 : (lbound box).x ≤ i) (hi2 : i ≤ (ubound box).x)
    (hj1 : (lbound box).y ≤ j) (hj2 : j ≤ (ubound box).y) (hn1 : 0 ≤ n) (hn2 : n < ncomp) :
    mlalap_normalize box x a (invSpacing hx hy) alpha beta ncomp (i, j, 0, n) =
        x (i, j, 0, n) / (alpha * a (i, j, 0, n) + beta * (2 / hx ^ 2 + 2 / hy ^ 2)) ∧
    mlalap_adotx box y (unitImpulse (i, j, 0, n)) a (invSpacing hx hy) alpha beta ncomp
        (i, j, 0, n) =
      alpha * a (i, j, 0, n) + beta * (2 / hx ^ 2 + 2 / hy ^ 2) := by
  have hm : (i, j, (0 : Int), n) ∈ loopCells (lbound box) (ubound box) ncomp :=
    (mem_loopCells _ _ _ _).2 ⟨hi1, hi2, hj1, hj2, rfl, hn1, hn2⟩
  have h0 : invSpacing hx hy 0 = 1 / hx := rfl
  have h1 : invSpacing hx hy 1 = 1 / hy := rfl
  constructor
  · rw [mlalap_normalize_apply, if_pos hm, h0, h1]
    congr 1
    simp only [div_eq_mul_inv]
    ring
  · rw [mlalap_adotx_apply, if_pos hm, h0, h1]
    have e0 : unitImpulse (i, j, 0, n) (i, j, 0, n) = (1 : RT) := by simp [unitImpulse]
    have e1 : unitImpulse (i, j, 0, n) (i - 1, j, 0, n) = (0 : RT) := by
      simp [unitImpulse]
    have e2 : unitImpulse (i, j, 0, n) (i + 1, j, 0, n) = (0 : RT) := by
      simp [unitImpulse]
    have e3 : unitImpulse (i, j, 0, n) (i, j - 1, 0, n) = (0 : RT) := by
      simp [unitImpulse]
    have e4 : unitImpulse (i, j, 0, n) (i, j + 1, 0, n) = (0 : RT) := by
      simp [unitImpulse]
    rw [e0, e1, e2, e3, e4]
    simp only [div_eq_mul_inv]
    ring

/-- Instance of C20: the box `[0,1] x [0,1]`, spacings `1/2` and `1/4`, `alpha = 3`,
`beta = 5`, `a = 2` and `x = 7` everywhere, at cell `(1, 0)`. -/
theorem mlalap_normalize_diagonal_witness :
    mlalap_normalize (Box.rect 0 0 1 1) (fun _ => (7 : ℚ)) (fun _ => 2)
        (invSpacing (1 / 2) (1 / 4)) 3 5 1 (1, 0, 0, 0) =
      7 / (3 * 2 + 5 * (2 / (1 / 2) ^ 2 + 2 / (1 / 4) ^ 2)) ∧
    mlalap_adotx (Box.rect 0 0 1 1) (fun _ => (0 : ℚ)) (unitImpulse (1, 0, 0, 0))
        (fun _ => 2) (invSpacing (1 / 2) (1 / 4)) 3 5 1 (1, 0, 0, 0) =
      3 * 2 + 5 * (2 / (1 / 2) ^ 2 + 2 / (1 / 4) ^ 2) :=
  mlalap_normalize_diagonal (Box.rect 0 0 1 1) (fun _ => (7 : ℚ)) (fun _ => 0) (fun _ => 2)
    (1 / 2) (1 / 4) 3 5 1 1 0 0
    (by decide) (by decide) (by decide) (by decide) (by decide) (by decide)

end NormalizeClaims

/-! ## Claim C16: averaging across AMR levels -/

/-- C16 fails as stated: on the two-level sample operator the fine AMR level `1` has two
multigrid levels with `B = 5` on multigrid level `0` and `B = 7` on multigrid level `1`.
With averaging routines that hand back their fine source, the claim would leave the
multigrid-level-`0` field (value `5`) in the coarse level; the call returns, having read
`back()`, the multigrid level `1`, and leaves the value `7`. -/
theorem MLEBABecLap.averageDownToCoarse_source_counterexample :
    (∃ r, MLEBABecLap.averageDownCoeffsToCoarseAmrLevel (Collaborators.probe 2)
        MLEBABecLap.sampleTwoLevel 1 = .ok r) ∧
    ¬ (∀ r, MLEBABecLap.averageDownCoeffsToCoarseAmrLevel (Collaborators.probe 2)
          MLEBABecLap.sampleTwoLevel 1 = .ok r →
        r.m_b_coeffs 0 0 =
          (Collaborators.probe 2).EB_average_down_faces_geom
            (MLEBABecLap.sampleTwoLevel.m_b_coeffs 1 0)
            (MLEBABecLap.sampleTwoLevel.m_b_coeffs 0 0)
            (fun _ => (Collaborators.probe 2).mg_coarsen_ratio) 0 0) := by
  have hret : ∃ r, MLEBABecLap.averageDownCoeffsToCoarseAmrLevel (Collaborators.probe 2)
      MLEBABecLap.sampleTwoLevel 1 = .ok r := ⟨_, rfl⟩
  refine ⟨hret, ?_⟩
  intro h
  obtain ⟨r, hr⟩ := hret
  have h1 := congrArg (fun b : Fin 2 → MultiFab => (b 0).val (0, 0, 0) 0) (h r hr)
  have e1 : (r.m_b_coeffs 0 0 0).val (0, 0, 0) 0 = 7 := by
    have h2 := congrArg (fun x : Except String (MLEBABecLap 2) =>
      match x with
      | .ok t => (t.m_b_coeffs 0 0 0).val (0, 0, 0) 0
      | .error _ => 0) hr
    exact h2.symm.trans rfl
  have e2 : (((Collaborators.probe 2).EB_average_down_faces_geom
      (MLEBABecLap.sampleTwoLevel.m_b_coeffs 1 0) (MLEBABecLap.sampleTwoLevel.m_b_coeffs 0 0)
      (fun _ => (Collaborators.probe 2).mg_coarsen_ratio) 0 0) 0).val (0, 0, 0) 0 = 5 := rfl
  simp only [e1, e2] at h1
  norm_num at h1

/-- C16, amended: for every fine level `flev > 0`, `averageDownCoeffsToCoarseAmrLevel(flev)`
takes as its source the coarsest multigrid level (`back()`, index
`m_num_mg_levels[flev] - 1`) of AMR level `flev`, writes multigrid level `0` of AMR level
`flev - 1`, and coarsens by `mg_coarsen_ratio`: the `B` coefficients always, the `A`
coefficient only when `alpha != 0`, the EB `B` coefficient only when the fine EB field
exists.  Every other `A`, `B` and EB `B` field keeps its value.  The call returns unless the
fine EB `B` field exists and the coarse one does not; then the coarse pointer, which the
source does not test, is dereferenced null. -/
theorem MLEBABecLap.averageDownToCoarse_spec {D : Nat} (K : Collaborators D)
    (op : MLEBABecLap D) (flev : Nat) (hflev : 0 < flev) :
    (((op.m_eb_b_coeffs flev (op.m_num_mg_levels flev - 1)).isSome = true →
        (op.m_eb_b_coeffs (flev - 1) 0).isSome = true) →
      ∃ r, MLEBABecLap.averageDownCoeffsToCoarseAmrLevel K op flev = .ok r ∧
        (r.m_b_coeffs (flev - 1) 0 =
          K.EB_average_down_faces_geom (op.m_b_coeffs flev (op.m_num_mg_levels flev - 1))
            (op.m_b_coeffs (flev - 1) 0) (fun _ => K.mg_coarsen_ratio) (flev - 1) 0) ∧
        (r.m_a_coeffs (flev - 1) 0 =
          if op.m_a_scalar ≠ 0 then
            K.EB_average_down (op.m_a_coeffs flev (op.m_num_mg_levels flev - 1))
              (op.m_a_coeffs (flev - 1) 0) 0 1 (fun _ => K.mg_coarsen_ratio)
          else op.m_a_coeffs (flev - 1) 0) ∧
        (∀ fine crse, op.m_eb_b_coeffs flev (op.m_num_mg_levels flev - 1) = some fine →
          op.m_eb_b_coeffs (flev - 1) 0 = some crse →
          r.m_eb_b_coeffs (flev - 1) 0 =
            some (K.EB_average_down_boundaries fine crse (fun _ => K.mg_coarsen_ratio) 0)) ∧
        (op.m_eb_b_coeffs flev (op.m_num_mg_levels flev - 1) = none →
          r.m_eb_b_coeffs (flev - 1) 0 = op.m_eb_b_coeffs (flev - 1) 0) ∧
        (∀ lev mglev, ¬ (lev = flev - 1 ∧ mglev = 0) →
          r.m_a_coeffs lev mglev = op.m_a_coeffs lev mglev ∧
          r.m_b_coeffs lev mglev = op.m_b_coeffs lev mglev ∧
          r.m_eb_b_coeffs lev mglev = op.m_eb_b_coeffs lev mglev)) ∧
    ((op.m_eb_b_coeffs flev (op.m_num_mg_levels flev - 1)).isSome = true →
      op.m_eb_b_coeffs (flev - 1) 0 = none →
      MLEBABecLap.averageDownCoeffsToCoarseAmrLevel K op flev =
        .error "null pointer dereferenced: crse_eb_b_coeffs") := by
  have _ := hflev
  have frame : ∀ (a : Nat → Nat → MultiFab) (x : MultiFab) (lev mglev : Nat),
      ¬ (lev = flev - 1 ∧ mglev = 0) →
      Function.update a (flev - 1) (Function.update (a (flev - 1)) 0 x) lev mglev
        = a lev mglev := by
    intro a x lev mglev hne
    by_cases hl : lev = flev - 1
    · subst hl
      have hm : mglev ≠ 0 := fun e => hne ⟨rfl, e⟩
      simp [Function.update_noteq hm]
    · simp [Function.update_noteq hl]
  have frameF : ∀ (a : Nat → Nat → Fin D → MultiFab) (x : Fin D → MultiFab) (lev mglev : Nat),
      ¬ (lev = flev - 1 ∧ mglev = 0) →
      Function.update a (flev - 1) (Function.update (a (flev - 1)) 0 x) lev mglev
        = a lev mglev := by
    intro a x lev mglev hne
    by_cases hl : lev = flev - 1
    · subst hl
      have hm : mglev ≠ 0 := fun e => hne ⟨rfl, e⟩
      simp [Function.update_noteq hm]
    · simp [Function.update_noteq hl]
  have frameO : ∀ (a : Nat → Nat → Option MultiFab) (x : Option MultiFab) (lev mglev : Nat),
      ¬ (lev = flev - 1 ∧ mglev = 0) →
      Function.update a (flev - 1) (Function.update (a (flev - 1)) 0 x) lev mglev
        = a lev mglev := by
    intro a x lev mglev hne
    by_cases hl : lev = flev - 1
    · subst hl
      have hm : mglev ≠ 0 := fun e => hne ⟨rfl, e⟩
      simp [Function.update_noteq hm]
    · simp [Function.update_noteq hl]
  constructor
  · intro hg
    unfold MLEBABecLap.averageDownCoeffsToCoarseAmrLevel
    simp only
    cases hf : op.m_eb_b_coeffs flev (op.m_num_mg_levels flev - 1) with
    | none =>
      refine ⟨_, rfl, by simp, by simp, ?_, ?_, ?_⟩
      · intro fine crse h1
        cases h1
      · intro _
        simp
      · intro lev mglev hne
        exact ⟨frame _ _ lev mglev hne, frameF _ _ lev mglev hne, frameO _ _ lev mglev hne⟩
    | some fine =>
      rw [hf] at hg
      obtain ⟨crse, hc⟩ := Option.isSome_iff_exists.1 (hg rfl)
      simp only [hc]
      refine ⟨_, rfl, by simp, by simp, ?_, ?_, ?_⟩
      · intro fine1 crse1 h1 h2
        cases h1
        cases h2
        simp
      · intro h1
        cases h1
      · intro lev mglev hne
        exact ⟨frame _ _ lev mglev hne, frameF _ _ lev mglev hne, frameO _ _ lev mglev hne⟩
  · intro hf hc
    obtain ⟨fine, hfine⟩ := Option.isSome_iff_exists.1 hf
    unfold MLEBABecLap.averageDownCoeffsToCoarseAmrLevel
    simp only [hfine, hc]

/-- Instance of the amended C16: the two-level sample operator and `flev = 1` with averaging
routines that hand back their fine source: the call returns and the coarse `B` field is the
multigrid-level-`1` field of the fine level. -/
theorem MLEBABecLap.averageDownToCoarse_spec_witness :
    ∃ r, MLEBABecLap.averageDownCoeffsToCoarseAmrLevel (Collaborators.probe 2)
        MLEBABecLap.sampleTwoLevel 1 = .ok r ∧
      r.m_b_coeffs (1 - 1) 0 =
        (Collaborators.probe 2).EB_average_down_faces_geom
          (MLEBABecLap.sampleTwoLevel.m_b_coeffs 1
            (MLEBABecLap.sampleTwoLevel.m_num_mg_levels 1 - 1))
          (MLEBABecLap.sampleTwoLevel.m_b_coeffs (1 - 1) 0)
          (fun _ => (Collaborators.probe 2).mg_coarsen_ratio) (1 - 1) 0 :=
  Exists.elim ((MLEBABecLap.averageDownToCoarse_spec (Collaborators.probe 2)
    MLEBABecLap.sampleTwoLevel 1 Nat.one_pos).1 (fun h => by cases h))
    (fun r hr => ⟨r, hr.1, hr.2.1⟩)

/-! ## Claims C17 and C19: the coefficient setters -/

/-- A loop over directions that replaces the field of each direction by a function of that
field. -/
theorem directions_loop {D : Nat} (H : Fin D → MultiFab → MultiFab) (l : List (Fin D))
    (hnd : l.Nodup) (b : Fin D → MultiFab) (d : Fin D) :
    (l.foldl (fun b idim => Function.update b idim (H idim (b idim))) b) d =
      if d ∈ l then H d (b d) else b d := by
  induction l generalizing b with
  | nil => simp
  | cons a t ih =>
    have ha : a ∉ t := (List.nodup_cons.1 hnd).1
    rw [List.foldl_cons, ih (List.nodup_cons.1 hnd).2]
    by_cases hda : d = a
    · subst hda
      simp [ha]
    · by_cases hdt : d ∈ t
      · simp [hdt, Function.update_noteq hda]
      · simp [hdt, hda, Function.update_noteq hda]

/-- A loop that keeps rewriting the field of one direction only changes that field. -/
theorem component_loop_lift {D : Nat} {ι : Type} (h : ι → MultiFab → MultiFab) (idim : Fin D)
    (l : List ι) (b : Fin D → MultiFab) :
    l.foldl (fun b i => Function.update b idim (h i (b idim))) b =
      Function.update b idim (l.foldl (fun mf i => h i mf) (b idim)) := by
  induction l generalizing b with
  | nil => simp
  | cons a t ih =>
    rw [List.foldl_cons, ih]
    simp

/-- The component loop of the field overload of `setBCoeffs` on one field: component `n`
below `m` receives component `f n` of the source on the valid cells. -/
theorem copy_loop (src : MultiFab) (f : Nat → Nat) (m : Nat) (mf : MultiFab) :
    ((List.range m).foldl (fun mf icomp => MultiFab.Copy mf src (f icomp) icomp 1) mf).cells
        = mf.cells ∧
    ((List.range m).foldl (fun mf icomp => MultiFab.Copy mf src (f icomp) icomp 1) mf).val
        = fun c n => if c ∈ mf.cells ∧ n < m then src.val c (f n) else mf.val c n := by
  induction m with
  | zero => simp
  | succ k ih =>
    rw [List.range_succ, List.foldl_append, List.foldl_cons, List.foldl_nil]
    generalize (List.range k).foldl
      (fun mf icomp => MultiFab.Copy mf src (f icomp) icomp 1) mf = M at ih ⊢
    obtain ⟨h1, h2⟩ := ih
    refine ⟨h1, ?_⟩
    funext c n
    show (if c ∈ M.cells ∧ k ≤ n ∧ n < k + 1 then src.val c (n - k + f k) else M.val c n) = _
    rw [h1, h2]
    by_cases hc : c ∈ mf.cells
    · by_cases hn : n = k
      · subst hn
        simp [hc]
      · by_cases hlt : n < k
        · have h3 : ¬ (k ≤ n ∧ n < k + 1) := by omega
          have h4 : n < k + 1 := by omega
          simp [hc, hlt, h3, h4]
        · have h3 : ¬ (k ≤ n ∧ n < k + 1) := by omega
          have h4 : ¬ n < k + 1 := by omega
          simp [hc, hlt, h3, h4]
    · simp [hc]

/-- The stored `B` field of a direction after the two loops of the field overload of
`setBCoeffs`. -/
theorem setBCoeffs_loops {D : Nat} (beta : Fin D → MultiFab) (f : Nat → Nat) (ncomp : Nat)
    (b : Fin D → MultiFab) (idim : Fin D) (c : Int × Int × Int) (n : Nat) :
    (((List.finRange D).foldl (fun b idim =>
        (List.range ncomp).foldl (fun b icomp =>
          Function.update b idim (MultiFab.Copy (b idim) (beta idim) (f icomp) icomp 1)) b)
        b) idim).val c n =
      if c ∈ (b idim).cells ∧ n < ncomp then (beta idim).val c (f n) else (b idim).val c n := by
  have hstep : (fun (b : Fin D → MultiFab) (idim : Fin D) =>
      (List.range ncomp).foldl (fun b icomp =>
        Function.update b idim (MultiFab.Copy (b idim) (beta idim) (f icomp) icomp 1)) b) =
      fun b idim => Function.update b idim
        ((List.range ncomp).foldl
          (fun mf icomp => MultiFab.Copy mf (beta idim) (f icomp) icomp 1) (b idim)) := by
    funext b idim
    exact component_loop_lift
      (fun icomp mf => MultiFab.Copy mf (beta idim) (f icomp) icomp 1) idim _ b
  rw [hstep, directions_loop
    (fun idim mf => (List.range ncomp).foldl
      (fun mf icomp => MultiFab.Copy mf (beta idim) (f icomp) icomp 1) mf)
    _ (List.nodup_finRange D) b idim, if_pos (List.mem_finRange idim)]
  rw [(copy_loop (beta idim) f ncomp (b idim)).2]

/-- The field overload of `setBCoeffs` leaves `m_needs_update` equal to `true` when it
returns. -/
theorem MLEBABecLap.setters_set_needs_update_aux {D : Nat} (op : MLEBABecLap D) (amrlev : Nat)
    (betaField : Fin D → MultiFab) (loc : Location) (h0 : 0 < D) :
    ∀ op1, op.setBCoeffsField amrlev betaField loc h0 = .ok op1 →
      op1.m_needs_update = true := by
  intro op1 h
  unfold MLEBABecLap.setBCoeffsField at h
  simp only at h
  split at h
  · injection h with h
    rw [← h]
  · cases h

/-- C17: every coefficient setter invalidates the operator.  After either overload of
`setACoeffs` (field, scalar) and after each of the three overloads of `setBCoeffs` (field,
scalar, per-component vector) returns, `m_needs_update` is `true`, whatever it was before the
call; the field overload of `setBCoeffs` returns when the count of `beta` is `1` or
`ncomp`. -/
theorem MLEBABecLap.setters_set_needs_update {D : Nat} (op : MLEBABecLap D) (amrlev : Nat)
    (alphaField : MultiFab) (alpha : ℚ) (betaField : Fin D → MultiFab) (loc : Location)
    (h0 : 0 < D) (beta : ℚ) (betaVec : List ℚ) :
    (op.setACoeffsField amrlev alphaField).m_needs_update = true ∧
    (op.setACoeffsScalar amrlev alpha).m_needs_update = true ∧
    (∀ op1, op.setBCoeffsField amrlev betaField loc h0 = .ok op1 →
      op1.m_needs_update = true) ∧
    (((betaField ⟨0, h0⟩).nComp = 1 ∨ (betaField ⟨0, h0⟩).nComp = op.getNComp) →
      ∃ op1, op.setBCoeffsField amrlev betaField loc h0 = .ok op1) ∧
    (op.setBCoeffsScalar amrlev beta).m_needs_update = true ∧
    (op.setBCoeffsVector amrlev betaVec).m_needs_update = true := by
  refine ⟨rfl, rfl, MLEBABecLap.setters_set_needs_update_aux op amrlev betaField loc h0,
    ?_, rfl, rfl⟩
  intro hok
  unfold MLEBABecLap.setBCoeffsField
  simp only
  rw [if_pos hok]
  exact ⟨_, rfl⟩

/-- C19: the field overload of `setBCoeffs` fails its assertion if and only if the component
count of the supplied `beta` (that of `beta[0]`) is neither `1` nor the `ncomp` of the
operator; otherwise it returns, and for every direction and every component `n < ncomp` the
stored `B` component `n` equals, on the valid cells, the supplied component `n` when the
counts match and the supplied component `0` when they do not (then `beta` has one
component). -/
theorem MLEBABecLap.setBCoeffsField_spec {D : Nat} (op : MLEBABecLap D) (amrlev : Nat)
    (beta : Fin D → MultiFab) (loc : Location) (h0 : 0 < D) :
    (op.setBCoeffsField amrlev beta loc h0 =
        .error "Assertion failed: beta_ncomp == 1 || beta_ncomp == ncomp" ↔
      ((beta ⟨0, h0⟩).nComp ≠ 1 ∧ (beta ⟨0, h0⟩).nComp ≠ op.getNComp)) ∧
    (((beta ⟨0, h0⟩).nComp = 1 ∨ (beta ⟨0, h0⟩).nComp = op.getNComp) →
      ∃ op1, op.setBCoeffsField amrlev beta loc h0 = .ok op1 ∧
        ∀ (idim : Fin D) (n : Nat), n < op.getNComp →
          ∀ c ∈ (op.m_b_coeffs amrlev 0 idim).cells,
            (op1.m_b_coeffs amrlev 0 idim).val c n =
              if (beta ⟨0, h0⟩).nComp = op.getNComp then (beta idim).val c n
              else (beta idim).val c 0) := by
  constructor
  · unfold MLEBABecLap.setBCoeffsField
    simp only
    constructor
    · intro h
      split at h
      · cases h
      · rename_i hn
        exact not_or.1 hn
    · intro h
      rw [if_neg (not_or.2 h)]
  · intro hok
    unfold MLEBABecLap.setBCoeffsField
    simp only
    rw [if_pos hok]
    refine ⟨_, rfl, ?_⟩
    intro idim n hn c hc
    simp only [Function.update_same]
    by_cases hm : (beta ⟨0, h0⟩).nComp = op.getNComp
    · rw [if_pos hm, if_pos hm, setBCoeffs_loops beta (fun i => i)]
      simp [hc, hn]
    · rw [if_neg hm, if_neg hm, setBCoeffs_loops beta (fun _ => 0)]
      simp [hc, hn]

/-! ## Lemmas on the `setEB...Dirichlet` overloads -/

/-- The component loop of one cell when the body writes values that depend on the cell and
the component only. -/
theorem ebLoop_inner (g1 g2 : Int × Int × Int → Nat → ℚ) (c : Int × Int × Int) (m : Nat)
    (s : (Int × Int × Int → Nat → ℚ) × (Int × Int × Int → Nat → ℚ)) :
    (List.range m).foldl (fun s n => (setAt s.1 c n (g1 c n), setAt s.2 c n (g2 c n))) s =
      (fun c1 n1 => if c1 = c ∧ n1 < m then g1 c1 n1 else s.1 c1 n1,
       fun c1 n1 => if c1 = c ∧ n1 < m then g2 c1 n1 else s.2 c1 n1) := by
  induction m with
  | zero => simp
  | succ k ih =>
    rw [List.range_succ, List.foldl_append, ih]
    simp only [List.foldl_cons, List.foldl_nil]
    congr 1 <;>
    · funext c1 n1
      by_cases hc : c1 = c
      · subst hc
        by_cases hn : n1 = k
        · subst hn; simp [setAt]
        · by_cases hlt : n1 < k
          · have : n1 < k + 1 := by omega
            simp [setAt, hn, hlt, this]
          · have : ¬ n1 < k + 1 := by omega
            simp [setAt, hn, hlt, this]
      · simp [setAt, hc]

/-- The loop over cells and components when the body writes values that depend on the cell
and the component only. -/
theorem ebLoop_rule (g1 g2 : Int × Int × Int → Nat → ℚ) (cells : List (Int × Int × Int))
    (ncomp : Nat) (s : (Int × Int × Int → Nat → ℚ) × (Int × Int × Int → Nat → ℚ)) :
    ebLoop cells ncomp (fun c n s => (setAt s.1 c n (g1 c n), setAt s.2 c n (g2 c n))) s =
      (fun c n => if c ∈ cells ∧ n < ncomp then g1 c n else s.1 c n,
       fun c n => if c ∈ cells ∧ n < ncomp then g2 c n else s.2 c n) := by
  unfold ebLoop
  induction cells generalizing s with
  | nil => simp
  | cons a t ih =>
    rw [List.foldl_cons, ebLoop_inner, ih]
    congr 1 <;>
    · funext c n
      by_cases hn : n < ncomp
      · by_cases ht : c ∈ t
        · simp [ht, hn]
        · by_cases ha : c = a
          · subst ha; simp [ht, hn]
          · simp [ht, ha, hn]
      · simp [hn]

theorem EBSetup.copies_eq_true_iff (E : EBSetup) (c : Int × Int × Int) :
    E.copies c = true ↔
      (E.boxType c ≠ FabType.regular ∧ E.boxType c ≠ FabType.covered ∧
        E.isSingleValued c = true) := by
  unfold EBSetup.copies
  simp only [Bool.and_eq_true, Bool.not_eq_true', decide_eq_false_iff_not, not_or]
  tauto

theorem EBSetup.copies_eq_false_iff (E : EBSetup) (c : Int × Int × Int) :
    E.copies c = false ↔
      (E.boxType c = FabType.regular ∨ E.boxType c = FabType.covered ∨
        E.isSingleValued c = false) := by
  rw [← Bool.not_eq_true, EBSetup.copies_eq_true_iff]
  cases h : E.isSingleValued c
  · simp
  · simp only [Bool.true_eq_false, or_false, not_and, not_true_eq_false, imp_false,
      not_not, ne_eq, and_true]
    tauto

namespace MLEBABecLap

variable {D : Nat}

/-- The allocation loop over the multigrid levels. -/
theorem allocate_loop (E : EBSetup) (ncomp : Nat) (amrlev : Nat) (m : Nat)
    (op : MLEBABecLap D) :
    let r := (List.range m).foldl (fun (op : MLEBABecLap D) mglev =>
      { op with
        m_eb_b_coeffs := Function.update op.m_eb_b_coeffs amrlev
          (Function.update (op.m_eb_b_coeffs amrlev) mglev
            (some ⟨E.m_grids amrlev mglev, ncomp, E.fresh⟩)) }) op
    r.m_eb_phi = op.m_eb_phi ∧ r.m_phi_loc = op.m_phi_loc ∧ r.m_ncomp = op.m_ncomp ∧
      r.m_needs_update = op.m_needs_update ∧
      (0 < m → (r.m_eb_b_coeffs amrlev 0).isSome = true) := by
  induction m with
  | zero => simp
  | succ k ih =>
    simp only at ih ⊢
    rw [List.range_succ, List.foldl_append, List.foldl_cons, List.foldl_nil]
    obtain ⟨h1, h2, h3, h4, h5⟩ := ih
    refine ⟨h1, h2, h3, h4, ?_⟩
    intro _
    by_cases hk : k = 0
    · subst hk
      simp
    · simp only [Function.update_same]
      rw [Function.update_noteq (Ne.symm hk)]
      exact h5 (Nat.pos_of_ne_zero hk)

/-- After the allocations both EB fields of the level exist (when the level has a multigrid
level), the EB value field has the cells `ebPhiCells`, and the location of `phi`, the number
of components and the update flag are as before. -/
theorem allocateEBFields_spec (E : EBSetup) (op : MLEBABecLap D) (amrlev : Nat)
    (hmg : 0 < op.m_num_mg_levels amrlev) :
    ∃ p b, (allocateEBFields E op amrlev).m_eb_phi amrlev = some p ∧
      (allocateEBFields E op amrlev).m_eb_b_coeffs amrlev 0 = some b ∧
      p.cells = ebPhiCells E op amrlev ∧
      (allocateEBFields E op amrlev).m_phi_loc = op.m_phi_loc ∧
      (allocateEBFields E op amrlev).getNComp = op.getNComp ∧
      (allocateEBFields E op amrlev).m_needs_update = op.m_needs_update := by
  unfold allocateEBFields
  simp only
  generalize hop1 : (if (op.m_eb_phi amrlev).isNone = true then
      ({ op with
        m_eb_phi := Function.update op.m_eb_phi amrlev
          (some ⟨E.m_grids amrlev 0, op.getNComp, E.fresh⟩) } : MLEBABecLap D)
    else op) = op1
  have hfacts : (∃ p, op1.m_eb_phi amrlev = some p ∧ p.cells = ebPhiCells E op amrlev) ∧
      op1.m_phi_loc = op.m_phi_loc ∧ op1.m_ncomp = op.m_ncomp ∧
      op1.m_needs_update = op.m_needs_update ∧
      op1.m_num_mg_levels = op.m_num_mg_levels := by
    rw [← hop1]
    cases hq : op.m_eb_phi amrlev with
    | none =>
      simp only [Option.isNone_none, if_true, Function.update_same]
      exact ⟨⟨_, rfl, by simp [ebPhiCells, hq]⟩, trivial,
        trivial, trivial, trivial⟩
    | some q =>
      simp only [Option.isNone_some, Bool.false_eq_true, if_false]
      exact ⟨⟨q, hq, by simp [ebPhiCells, hq]⟩, trivial,
        trivial, trivial, trivial⟩
  obtain ⟨⟨p, hp, hpc⟩, h2, h3, h4, h5⟩ := hfacts
  cases hb : op1.m_eb_b_coeffs amrlev 0 with
  | some b =>
    simp only [Option.isNone_some, Bool.false_eq_true, if_false]
    exact ⟨p, b, hp, hb, hpc, h2, h3, h4⟩
  | none =>
    simp only [Option.isNone_none, if_true]
    have hl := allocate_loop E op.getNComp amrlev (op1.m_num_mg_levels amrlev) op1
    simp only at hl
    obtain ⟨l1, l2, l3, l4, l5⟩ := hl
    have hsome := l5 (by rw [h5]; exact hmg)
    obtain ⟨b, hb'⟩ := Option.isSome_iff_exists.1 hsome
    refine ⟨p, b, ?_, hb', hpc, l2.trans h2, ?_, l4.trans h4⟩
    · rw [l1]; exact hp
    · show _ = op.m_ncomp
      exact l3.trans h3

/-- What `storeEBFields` leaves in the two EB fields of the level, on cells that
`FillBoundary` does not touch. -/
theorem storeEBFields_spec (K : Collaborators D) (op : MLEBABecLap D) (amrlev : Nat)
    (p b : MultiFab) (out : (Int × Int × Int → Nat → ℚ) × (Int × Int × Int → Nat → ℚ))
    (cells : List (Int × Int × Int))
    (hfill : ∀ mf c n, c ∈ cells → (K.FillBoundary amrlev 0 mf).val c n = mf.val c n) :
    ∃ p1 b1, (storeEBFields K op amrlev p b out).m_eb_phi amrlev = some p1 ∧
      (storeEBFields K op amrlev p b out).m_eb_b_coeffs amrlev 0 = some b1 ∧
      (∀ c ∈ cells, ∀ n, p1.val c n = out.1 c n) ∧ b1.val = out.2 ∧
      (storeEBFields K op amrlev p b out).m_needs_update = op.m_needs_update := by
  unfold storeEBFields
  simp only [Function.update_same]
  refine ⟨_, _, rfl, rfl, ?_, rfl, trivial⟩
  intro c hc n
  split
  · rw [hfill _ c n hc]
  · rfl

/-- The postcondition `StoresEB` for a loop whose body follows the rule "copy the supplied
values on a cut cell, write zeros elsewhere". -/
theorem storesEB_of_rule (K : Collaborators D) (E : EBSetup) (op1 : MLEBABecLap D)
    (amrlev : Nat) (p b : MultiFab) (cells : List (Int × Int × Int)) (ncomp : Nat)
    (phiIn betaIn : Int × Int × Int → Nat → ℚ)
    (hfill : ∀ mf c n, c ∈ cells → (K.FillBoundary amrlev 0 mf).val c n = mf.val c n) :
    StoresEB (storeEBFields K op1 amrlev p b
      (ebLoop cells ncomp (fun c n s =>
        (setAt s.1 c n (if E.copies c then phiIn c n else 0),
         setAt s.2 c n (if E.copies c then betaIn c n else 0))) (p.val, b.val)))
      E amrlev cells ncomp phiIn betaIn := by
  rw [ebLoop_rule (fun c n => if E.copies c then phiIn c n else 0)
    (fun c n => if E.copies c then betaIn c n else 0)]
  obtain ⟨p1, b1, h1, h2, h3, h4, _⟩ := storeEBFields_spec K op1 amrlev p b
    (fun c n => if c ∈ cells ∧ n < ncomp then (if E.copies c then phiIn c n else 0)
        else p.val c n,
     fun c n => if c ∈ cells ∧ n < ncomp then (if E.copies c then betaIn c n else 0)
        else b.val c n) cells hfill
  refine ⟨p1, b1, h1, h2, ?_⟩
  intro c hc n hn
  rw [h3 c hc n, h4]
  simp only [hc, hn, and_self, if_true]
  constructor
  · intro hz
    rw [(E.copies_eq_false_iff c).2 hz]
    simp
  · intro hz
    rw [(E.copies_eq_true_iff c).2 hz]
    simp

end MLEBABecLap

/-! ## Claims C14 and C15: `setEBDirichlet` and `setEBHomogDirichlet` -/

namespace MLEBABecLap

variable {D : Nat}

/-- With consistent flags the postcondition `StoresEB` for zero values is the postcondition
`StoresHomogEB`. -/
theorem storesHomogEB_of_storesEB (op1 : MLEBABecLap D) (E : EBSetup) (amrlev : Nat)
    (cells : List (Int × Int × Int)) (ncomp : Nat) (betaIn : Int × Int × Int → Nat → ℚ)
    (hcons : E.Consistent)
    (h : StoresEB op1 E amrlev cells ncomp (fun _ _ => 0) betaIn) :
    StoresHomogEB op1 E amrlev cells ncomp betaIn := by
  obtain ⟨p, b, hp, hb, hv⟩ := h
  refine ⟨p, b, hp, hb, ?_⟩
  intro c hc n hn
  obtain ⟨hz, hcopy⟩ := hv c hc n hn
  refine ⟨?_, ?_, ?_⟩
  · cases hsv : E.isSingleValued c
    · exact (hz (Or.inr (Or.inr hsv))).1
    · by_cases hreg : E.boxType c = FabType.regular ∨ E.boxType c = FabType.covered
      · rcases hreg with h1 | h1
        · exact (hz (Or.inl h1)).1
        · exact (hz (Or.inr (Or.inl h1))).1
      · exact (hcopy ⟨fun e => hreg (Or.inl e), fun e => hreg (Or.inr e), hsv⟩).1
  · intro hsv
    have hreg : ¬ (E.boxType c = FabType.regular ∨ E.boxType c = FabType.covered) := by
      intro hr
      have := hcons c hr
      rw [hsv] at this
      cases this
    exact (hcopy ⟨fun e => hreg (Or.inl e), fun e => hreg (Or.inr e), hsv⟩).2
  · intro hsv
    exact (hz (Or.inr (Or.inr hsv))).2

end MLEBABecLap

/-- C14: `setEBDirichlet`, all three overloads (`beta` a field, a scalar, or a per-component
vector).  After the call, for every cell of the boxes the loop visits (the valid cells of
`phi`) and every component `n < ncomp`: when the aggregate type of the box is regular or
covered, or the flag of the cell is not SingleValued, the stored EB Dirichlet value and the
stored EB coefficient are both `0`; when the cell is SingleValued (in a box that is neither
regular nor covered) the stored EB value is the supplied `phi(i,j,k,n)` and the stored EB
coefficient is the supplied `beta`: `beta(i,j,k,n)` for a field with `ncomp` components,
`beta(i,j,k,0)` for a one-component field, the scalar, or `beta[n]` for the vector.  The
field overload returns when the count of `beta` is `1` or `ncomp`.  The
level is assumed to have a multigrid level, and `FillBoundary`, which is not among the
sources, to leave the visited cells as they are. -/
theorem MLEBABecLap.setEBDirichlet_spec {D : Nat} (K : Collaborators D) (E : EBSetup)
    (op : MLEBABecLap D) (amrlev : Nat) (phi betaField : MultiFab) (beta : ℚ)
    (hv_beta : List ℚ) (hmg : 0 < op.m_num_mg_levels amrlev)
    (hfill : ∀ mf c n, c ∈ phi.cells → (K.FillBoundary amrlev 0 mf).val c n = mf.val c n) :
    ((betaField.nComp = 1 ∨ betaField.nComp = op.getNComp) →
      ∃ op1, MLEBABecLap.setEBDirichletField K E op amrlev phi betaField = .ok op1 ∧
        MLEBABecLap.StoresEB op1 E amrlev phi.cells op.getNComp phi.val
          (fun c n => if betaField.nComp = op.getNComp then betaField.val c n
            else betaField.val c 0)) ∧
    MLEBABecLap.StoresEB (MLEBABecLap.setEBDirichletScalar K E op amrlev phi beta)
      E amrlev phi.cells op.getNComp phi.val (fun _ _ => beta) ∧
    MLEBABecLap.StoresEB (MLEBABecLap.setEBDirichletVector K E op amrlev phi hv_beta)
      E amrlev phi.cells op.getNComp phi.val (fun _ n => hv_beta.getD n 0) := by
  obtain ⟨p, b, hp, hb, _, _, _, _⟩ := MLEBABecLap.allocateEBFields_spec E op amrlev hmg
  refine ⟨?_, ?_, ?_⟩
  · intro hok
    unfold MLEBABecLap.setEBDirichletField
    simp only [hp, hb]
    rw [if_pos hok]
    · refine ⟨_, rfl, ?_⟩
      have hbody : (fun (c : Int × Int × Int) (n : Nat)
          (s : (Int × Int × Int → Nat → ℚ) × (Int × Int × Int → Nat → ℚ)) =>
          if E.boxType c = FabType.regular ∨ E.boxType c = FabType.covered then
            (setAt s.1 c n 0, setAt s.2 c n 0)
          else if betaField.nComp = op.getNComp then
            if E.isSingleValued c = true then
              (setAt s.1 c n (phi.val c n), setAt s.2 c n (betaField.val c n))
            else (setAt s.1 c n 0, setAt s.2 c n 0)
          else
            if E.isSingleValued c = true then
              (setAt s.1 c n (phi.val c n), setAt s.2 c n (betaField.val c 0))
            else (setAt s.1 c n 0, setAt s.2 c n 0)) =
          (fun c n s =>
            (setAt s.1 c n (if E.copies c then phi.val c n else 0),
             setAt s.2 c n (if E.copies c then
               (if betaField.nComp = op.getNComp then betaField.val c n
                else betaField.val c 0) else 0))) := by
        funext c n s
        unfold EBSetup.copies
        by_cases ht : E.boxType c = FabType.regular ∨ E.boxType c = FabType.covered
        · simp [ht]
        · by_cases hsv : E.isSingleValued c = true
          · by_cases hm : betaField.nComp = op.getNComp <;> simp [ht, hsv, hm]
          · by_cases hm : betaField.nComp = op.getNComp <;> simp [ht, hsv, hm]
      rw [hbody]
      exact MLEBABecLap.storesEB_of_rule K E _ amrlev p b phi.cells op.getNComp phi.val _ hfill
  · unfold MLEBABecLap.setEBDirichletScalar
    simp only [hp, hb]
    have hbody : (fun (c : Int × Int × Int) (n : Nat)
        (s : (Int × Int × Int → Nat → ℚ) × (Int × Int × Int → Nat → ℚ)) =>
        if E.boxType c = FabType.regular ∨ E.boxType c = FabType.covered then
          (setAt s.1 c n 0, setAt s.2 c n 0)
        else
          if E.isSingleValued c = true then
            (setAt s.1 c n (phi.val c n), setAt s.2 c n beta)
          else (setAt s.1 c n 0, setAt s.2 c n 0)) =
        (fun c n s =>
          (setAt s.1 c n (if E.copies c then phi.val c n else 0),
           setAt s.2 c n (if E.copies c then beta else 0))) := by
      funext c n s
      unfold EBSetup.copies
      by_cases ht : E.boxType c = FabType.regular ∨ E.boxType c = FabType.covered
      · simp [ht]
      · by_cases hsv : E.isSingleValued c = true <;> simp [ht, hsv]
    rw [hbody]
    exact MLEBABecLap.storesEB_of_rule K E _ amrlev p b phi.cells op.getNComp phi.val
      (fun _ _ => beta) hfill
  · unfold MLEBABecLap.setEBDirichletVector
    simp only [hp, hb]
    have hbody : (fun (c : Int × Int × Int) (n : Nat)
        (s : (Int × Int × Int → Nat → ℚ) × (Int × Int × Int → Nat → ℚ)) =>
        if E.boxType c = FabType.regular ∨ E.boxType c = FabType.covered then
          (setAt s.1 c n 0, setAt s.2 c n 0)
        else
          if E.isSingleValued c = true then
            (setAt s.1 c n (phi.val c n), setAt s.2 c n (hv_beta.getD n 0))
          else (setAt s.1 c n 0, setAt s.2 c n 0)) =
        (fun c n s =>
          (setAt s.1 c n (if E.copies c then phi.val c n else 0),
           setAt s.2 c n (if E.copies c then hv_beta.getD n 0 else 0))) := by
      funext c n s
      unfold EBSetup.copies
      by_cases ht : E.boxType c = FabType.regular ∨ E.boxType c = FabType.covered
      · simp [ht]
      · by_cases hsv : E.isSingleValued c = true <;> simp [ht, hsv]
    rw [hbody]
    exact MLEBABecLap.storesEB_of_rule K E _ amrlev p b phi.cells op.getNComp phi.val
      (fun _ n => hv_beta.getD n 0) hfill

/-- Instance of C14: the sample operator (one component, `phi` on cell centres) on the
two-cell grid whose cell `(0,0,0)` is cut, `phi = 4`, `beta = 6` as a one-component field,
as a scalar and as a vector. -/
theorem MLEBABecLap.setEBDirichlet_spec_witness :
    (∃ op1, MLEBABecLap.setEBDirichletField (Collaborators.idle 2) EBSetup.sample
        (MLEBABecLap.sample 2 1) 0 (MultiFab.pair 1 4) (MultiFab.pair 1 6) = .ok op1 ∧
      MLEBABecLap.StoresEB op1 EBSetup.sample 0 (MultiFab.pair 1 4).cells
        (MLEBABecLap.sample 2 1).getNComp (MultiFab.pair 1 4).val
        (fun c n => if (MultiFab.pair 1 6).nComp = (MLEBABecLap.sample 2 1).getNComp
          then (MultiFab.pair 1 6).val c n else (MultiFab.pair 1 6).val c 0)) ∧
    MLEBABecLap.StoresEB (MLEBABecLap.setEBDirichletScalar (Collaborators.idle 2)
        EBSetup.sample (MLEBABecLap.sample 2 1) 0 (MultiFab.pair 1 4) 6)
      EBSetup.sample 0 (MultiFab.pair 1 4).cells (MLEBABecLap.sample 2 1).getNComp
      (MultiFab.pair 1 4).val (fun _ _ => 6) ∧
    MLEBABecLap.StoresEB (MLEBABecLap.setEBDirichletVector (Collaborators.idle 2)
        EBSetup.sample (MLEBABecLap.sample 2 1) 0 (MultiFab.pair 1 4) [6])
      EBSetup.sample 0 (MultiFab.pair 1 4).cells (MLEBABecLap.sample 2 1).getNComp
      (MultiFab.pair 1 4).val (fun _ n => ([6] : List ℚ).getD n 0) :=
  ⟨(MLEBABecLap.setEBDirichlet_spec (Collaborators.idle 2) EBSetup.sample
      (MLEBABecLap.sample 2 1) 0 (MultiFab.pair 1 4) (MultiFab.pair 1 6) 6 [6]
      Nat.one_pos (fun _ _ _ _ => rfl)).1 (Or.inl rfl),
    (MLEBABecLap.setEBDirichlet_spec (Collaborators.idle 2) EBSetup.sample
      (MLEBABecLap.sample 2 1) 0 (MultiFab.pair 1 4) (MultiFab.pair 1 6) 6 [6]
      Nat.one_pos (fun _ _ _ _ => rfl)).2⟩

/-- C15: `setEBHomogDirichlet`, all three overloads.  After the call, for every valid cell
(the cells of `m_eb_phi[amrlev]`, which the loop visits) and every component `n < ncomp`:
the stored EB Dirichlet value is `0` whatever the flag of the cell, and the stored EB
coefficient is the supplied `beta` (`beta(i,j,k,n)` for a field with `ncomp` components,
`beta(i,j,k,0)` for a one-component field, the scalar, or `beta[n]` for the vector) on a
SingleValued cell and `0` on every other cell.  The field overload returns when the count
of `beta` is `1` or `ncomp`.  The aggregate type of a box is assumed to
summarise the flags of its cells, the level to have a multigrid level, and `FillBoundary`,
which is not among the sources, to leave the valid cells as they are. -/
theorem MLEBABecLap.setEBHomogDirichlet_spec {D : Nat} (K : Collaborators D) (E : EBSetup)
    (op : MLEBABecLap D) (amrlev : Nat) (betaField : MultiFab) (beta : ℚ)
    (hv_beta : List ℚ) (hmg : 0 < op.m_num_mg_levels amrlev) (hcons : E.Consistent)
    (hfill : ∀ mf c n, c ∈ MLEBABecLap.ebPhiCells E op amrlev →
      (K.FillBoundary amrlev 0 mf).val c n = mf.val c n) :
    ((betaField.nComp = 1 ∨ betaField.nComp = op.getNComp) →
      ∃ op1, MLEBABecLap.setEBHomogDirichletField K E op amrlev betaField = .ok op1 ∧
        MLEBABecLap.StoresHomogEB op1 E amrlev (MLEBABecLap.ebPhiCells E op amrlev)
          op.getNComp
          (fun c n => if betaField.nComp = op.getNComp then betaField.val c n
            else betaField.val c 0)) ∧
    MLEBABecLap.StoresHomogEB (MLEBABecLap.setEBHomogDirichletScalar K E op amrlev beta)
      E amrlev (MLEBABecLap.ebPhiCells E op amrlev) op.getNComp (fun _ _ => beta) ∧
    MLEBABecLap.StoresHomogEB (MLEBABecLap.setEBHomogDirichletVector K E op amrlev hv_beta)
      E amrlev (MLEBABecLap.ebPhiCells E op amrlev) op.getNComp
      (fun _ n => hv_beta.getD n 0) := by
  obtain ⟨p, b, hp, hb, hpc, _, _, _⟩ := MLEBABecLap.allocateEBFields_spec E op amrlev hmg
  refine ⟨?_, ?_, ?_⟩
  · intro hok
    unfold MLEBABecLap.setEBHomogDirichletField
    simp only [hp, hb]
    rw [if_pos hok]
    · refine ⟨_, rfl, ?_⟩
      rw [hpc]
      have hbody : (fun (c : Int × Int × Int) (n : Nat)
          (s : (Int × Int × Int → Nat → ℚ) × (Int × Int × Int → Nat → ℚ)) =>
          if E.boxType c = FabType.regular ∨ E.boxType c = FabType.covered then
            (setAt s.1 c n 0, setAt s.2 c n 0)
          else if betaField.nComp = op.getNComp then
            if E.isSingleValued c = true then
              (setAt s.1 c n 0, setAt s.2 c n (betaField.val c n))
            else (setAt s.1 c n 0, setAt s.2 c n 0)
          else
            if E.isSingleValued c = true then
              (setAt s.1 c n 0, setAt s.2 c n (betaField.val c 0))
            else (setAt s.1 c n 0, setAt s.2 c n 0)) =
          (fun c n s =>
            (setAt s.1 c n (if E.copies c then (fun _ _ => (0 : ℚ)) c n else 0),
             setAt s.2 c n (if E.copies c then
               (if betaField.nComp = op.getNComp then betaField.val c n
                else betaField.val c 0) else 0))) := by
        funext c n s
        unfold EBSetup.copies
        by_cases ht : E.boxType c = FabType.regular ∨ E.boxType c = FabType.covered
        · simp [ht]
        · by_cases hsv : E.isSingleValued c = true
          · by_cases hm : betaField.nComp = op.getNComp <;> simp [ht, hsv, hm]
          · by_cases hm : betaField.nComp = op.getNComp <;> simp [ht, hsv, hm]
      rw [hbody]
      exact MLEBABecLap.storesHomogEB_of_storesEB _ E amrlev _ _ _ hcons
        (MLEBABecLap.storesEB_of_rule K E _ amrlev p b _ op.getNComp (fun _ _ => 0) _ hfill)
  · unfold MLEBABecLap.setEBHomogDirichletScalar
    simp only [hp, hb]
    rw [hpc]
    have hbody : (fun (c : Int × Int × Int) (n : Nat)
        (s : (Int × Int × Int → Nat → ℚ) × (Int × Int × Int → Nat → ℚ)) =>
        if E.boxType c = FabType.regular ∨ E.boxType c = FabType.covered then
          (setAt s.1 c n 0, setAt s.2 c n 0)
        else
          if E.isSingleValued c = true then (setAt s.1 c n 0, setAt s.2 c n beta)
          else (setAt s.1 c n 0, setAt s.2 c n 0)) =
        (fun c n s =>
          (setAt s.1 c n (if E.copies c then (fun _ _ => (0 : ℚ)) c n else 0),
           setAt s.2 c n (if E.copies c then beta else 0))) := by
      funext c n s
      unfold EBSetup.copies
      by_cases ht : E.boxType c = FabType.regular ∨ E.boxType c = FabType.covered
      · simp [ht]
      · by_cases hsv : E.isSingleValued c = true <;> simp [ht, hsv]
    rw [hbody]
    exact MLEBABecLap.storesHomogEB_of_storesEB _ E amrlev _ _ _ hcons
      (MLEBABecLap.storesEB_of_rule K E _ amrlev p b _ op.getNComp (fun _ _ => 0)
        (fun _ _ => beta) hfill)
  · unfold MLEBABecLap.setEBHomogDirichletVector
    simp only [hp, hb]
    rw [hpc]
    have hbody : (fun (c : Int × Int × Int) (n : Nat)
        (s : (Int × Int × Int → Nat → ℚ) × (Int × Int × Int → Nat → ℚ)) =>
        if E.boxType c = FabType.regular ∨ E.boxType c = FabType.covered then
          (setAt s.1 c n 0, setAt s.2 c n 0)
        else
          if E.isSingleValued c = true then
            (setAt s.1 c n 0, setAt s.2 c n (hv_beta.getD n 0))
          else (setAt s.1 c n 0, setAt s.2 c n 0)) =
        (fun c n s =>
          (setAt s.1 c n (if E.copies c then (fun _ _ => (0 : ℚ)) c n else 0),
           setAt s.2 c n (if E.copies c then hv_beta.getD n 0 else 0))) := by
      funext c n s
      unfold EBSetup.copies
      by_cases ht : E.boxType c = FabType.regular ∨ E.boxType c = FabType.covered
      · simp [ht]
      · by_cases hsv : E.isSingleValued c = true <;> simp [ht, hsv]
    rw [hbody]
    exact MLEBABecLap.storesHomogEB_of_storesEB _ E amrlev _ _ _ hcons
      (MLEBABecLap.storesEB_of_rule K E _ amrlev p b _ op.getNComp (fun _ _ => 0)
        (fun _ n => hv_beta.getD n 0) hfill)

/-- Instance of C15: the sample operator on the two-cell grid whose cell `(0,0,0)` is cut,
`beta = 6` as a one-component field, as a scalar and as a vector. -/
theorem MLEBABecLap.setEBHomogDirichlet_spec_witness :
    (∃ op1, MLEBABecLap.setEBHomogDirichletField (Collaborators.idle 2) EBSetup.sample
        (MLEBABecLap.sample 2 1) 0 (MultiFab.pair 1 6) = .ok op1 ∧
      MLEBABecLap.StoresHomogEB op1 EBSetup.sample 0
        (MLEBABecLap.ebPhiCells EBSetup.sample (MLEBABecLap.sample 2 1) 0)
        (MLEBABecLap.sample 2 1).getNComp
        (fun c n => if (MultiFab.pair 1 6).nComp = (MLEBABecLap.sample 2 1).getNComp
          then (MultiFab.pair 1 6).val c n else (MultiFab.pair 1 6).val c 0)) ∧
    MLEBABecLap.StoresHomogEB (MLEBABecLap.setEBHomogDirichletScalar (Collaborators.idle 2)
        EBSetup.sample (MLEBABecLap.sample 2 1) 0 6)
      EBSetup.sample 0 (MLEBABecLap.ebPhiCells EBSetup.sample (MLEBABecLap.sample 2 1) 0)
      (MLEBABecLap.sample 2 1).getNComp (fun _ _ => 6) ∧
    MLEBABecLap.StoresHomogEB (MLEBABecLap.setEBHomogDirichletVector (Collaborators.idle 2)
        EBSetup.sample (MLEBABecLap.sample 2 1) 0 [6])
      EBSetup.sample 0 (MLEBABecLap.ebPhiCells EBSetup.sample (MLEBABecLap.sample 2 1) 0)
      (MLEBABecLap.sample 2 1).getNComp (fun _ n => ([6] : List ℚ).getD n 0) :=
  ⟨(MLEBABecLap.setEBHomogDirichlet_spec (Collaborators.idle 2) EBSetup.sample
        (MLEBABecLap.sample 2 1) 0 (MultiFab.pair 1 6) 6 [6] Nat.one_pos
        (by
          intro c hc
          show EBCellFlagFab.sample.isSingleValued c = false
          have hne : c ≠ (0, 0, 0) := by
            intro e
            subst e
            rcases hc with h | h
            · exact absurd h (by decide)
            · exact absurd h (by decide)
          exact decide_eq_false hne)
        (fun _ _ _ _ => rfl)).1 (Or.inl rfl),
    (MLEBABecLap.setEBHomogDirichlet_spec (Collaborators.idle 2) EBSetup.sample
        (MLEBABecLap.sample 2 1) 0 (MultiFab.pair 1 6) 6 [6] Nat.one_pos
        (by
          intro c hc
          show EBCellFlagFab.sample.isSingleValued c = false
          have hne : c ≠ (0, 0, 0) := by
            intro e
            subst e
            rcases hc with h | h
            · exact absurd h (by decide)
            · exact absurd h (by decide)
          exact decide_eq_false hne)
        (fun _ _ _ _ => rfl)).2⟩

/-! ## Claim C13: restriction followed by interpolation -/

/-- The component loop of one cell when the body adds to the cell. -/
theorem ebLoop_add_inner (g : Int × Int × Int → Nat → ℚ) (cond : Prop) [Decidable cond]
    (c : Int × Int × Int) (m : Nat) (s : Int × Int × Int → Nat → ℚ) :
    (List.range m).foldl (fun f n => if cond then setAt f c n (f c n + g c n) else f) s =
      fun c1 n1 => if c1 = c ∧ n1 < m ∧ cond then s c1 n1 + g c1 n1 else s c1 n1 := by
  induction m with
  | zero => simp
  | succ k ih =>
    rw [List.range_succ, List.foldl_append, ih]
    simp only [List.foldl_cons, List.foldl_nil]
    by_cases hcond : cond
    · simp only [hcond, if_true, and_true]
      funext c1 n1
      by_cases hc : c1 = c
      · subst hc
        by_cases hn : n1 = k
        · subst hn; simp [setAt]
        · by_cases hlt : n1 < k
          · have : n1 < k + 1 := by omega
            simp [setAt, hn, hlt, this]
          · have : ¬ n1 < k + 1 := by omega
            simp [setAt, hn, hlt, this]
      · simp [setAt, hc]
    · simp [hcond]

/-- The loop over cells and components when the body adds to the visited cell: every
visited cell that meets the condition receives the addend once. -/
theorem ebLoop_add (g : Int × Int × Int → Nat → ℚ) (cond : Int × Int × Int → Prop)
    [DecidablePred cond] (cells : List (Int × Int × Int)) (hnd : cells.Nodup) (ncomp : Nat)
    (s : Int × Int × Int → Nat → ℚ) :
    ebLoop cells ncomp (fun c n f => if cond c then setAt f c n (f c n + g c n) else f) s =
      fun c n => if c ∈ cells ∧ n < ncomp ∧ cond c then s c n + g c n else s c n := by
  unfold ebLoop
  induction cells generalizing s with
  | nil => simp
  | cons a t ih =>
    have ha : a ∉ t := (List.nodup_cons.1 hnd).1
    rw [List.foldl_cons, ebLoop_add_inner, ih (List.nodup_cons.1 hnd).2]
    funext c n
    by_cases hca : c = a
    · subst hca
      simp [ha]
    · by_cases hct : c ∈ t
      · simp [hct, hca]
      · simp [hct, hca]

theorem intRange_zero_one : intRange 0 (2 - 1) = [0, 1] := by decide

/-- The plain average with ratio `2` of a field that is constant on the fine cells of each
coarse cell is the value of the field on any fine cell of the coarse cell. -/
theorem averageDownRegular_block (fine crse : MultiFab) (ncomp : Nat)
    (hconst : ∀ c1 c2 n, coarsenCell c1 = coarsenCell c2 → fine.val c1 n = fine.val c2 n)
    (c : Int × Int × Int) (n : Nat) (hn : n < ncomp) (hc : coarsenCell c ∈ crse.cells) :
    (averageDownRegular fine crse 0 ncomp (fun _ => 2)).val (coarsenCell c) n
      = fine.val c n := by
  unfold averageDownRegular
  simp only [hc, Nat.zero_le, Nat.zero_add, hn, and_self, if_true, intRange_zero_one]
  have key : ∀ di dj dk : Int, (di = 0 ∨ di = 1) → (dj = 0 ∨ dj = 1) → (dk = 0 ∨ dk = 1) →
      fine.val (2 * (coarsenCell c).1 + di, 2 * (coarsenCell c).2.1 + dj,
        2 * (coarsenCell c).2.2 + dk) n = fine.val c n := by
    intro di dj dk h1 h2 h3
    apply hconst
    obtain ⟨i, j, k⟩ := c
    simp only [coarsenCell, coarsen, Prod.mk.injEq]
    refine ⟨?_, ?_, ?_⟩ <;> rcases h1 with rfl | rfl <;> rcases h2 with rfl | rfl <;>
      rcases h3 with rfl | rfl <;> omega
  simp only [List.map_cons, List.map_nil, List.sum_cons, List.sum_nil]
  rw [key 0 0 0 (Or.inl rfl) (Or.inl rfl) (Or.inl rfl),
    key 0 0 1 (Or.inl rfl) (Or.inl rfl) (Or.inr rfl),
    key 0 1 0 (Or.inl rfl) (Or.inr rfl) (Or.inl rfl),
    key 0 1 1 (Or.inl rfl) (Or.inr rfl) (Or.inr rfl),
    key 1 0 0 (Or.inr rfl) (Or.inl rfl) (Or.inl rfl),
    key 1 0 1 (Or.inr rfl) (Or.inl rfl) (Or.inr rfl),
    key 1 1 0 (Or.inr rfl) (Or.inr rfl) (Or.inl rfl),
    key 1 1 1 (Or.inr rfl) (Or.inr rfl) (Or.inr rfl)]
  norm_num
  ring

/-- The in-place loop of `interpolation` in closed form: a visited cell of a regular box,
or a visited cell that is not covered in a singlevalued box, receives the value of its
coarse cell once. -/
theorem MLEBABecLap.interpolation_apply {D : Nat} (E : EBSetup) (op : MLEBABecLap D)
    (fine crse : MultiFab) (hnd : fine.cells.Nodup) (c : Int × Int × Int) (n : Nat) :
    (MLEBABecLap.interpolation E op fine crse).val c n =
      if c ∈ fine.cells ∧ n < op.getNComp ∧
          (E.boxType c = FabType.regular ∨
            (E.boxType c = FabType.singlevalued ∧ E.isCovered c = false)) then
        fine.val c n + crse.val (coarsenCell c) n
      else fine.val c n := by
  unfold MLEBABecLap.interpolation
  simp only
  have hbody : (fun (c : Int × Int × Int) (n : Nat) (ffab : Int × Int × Int → Nat → ℚ) =>
      if E.boxType c = FabType.regular then
        setAt ffab c n (ffab c n + crse.val (coarsenCell c) n)
      else if E.boxType c = FabType.singlevalued then
        if (!E.isCovered c) = true then
          setAt ffab c n (ffab c n + crse.val (coarsenCell c) n)
        else ffab
      else ffab) =
      (fun c n f =>
        if (E.boxType c = FabType.regular ∨
            (E.boxType c = FabType.singlevalued ∧ E.isCovered c = false)) then
          setAt f c n (f c n + (fun c n => crse.val (coarsenCell c) n) c n)
        else f) := by
    funext c n f
    by_cases h1 : E.boxType c = FabType.regular
    · simp [h1]
    · by_cases h2 : E.boxType c = FabType.singlevalued
      · cases h3 : E.isCovered c <;> simp [h1, h2, h3]
      · simp [h1, h2]
  rw [hbody, ebLoop_add (fun c n => crse.val (coarsenCell c) n) _ fine.cells hnd]

/-- Restriction of a block-constant fine field with ratio `2` on regular cells, followed by
interpolation into a field `tgt`: every visited cell of `tgt` in a regular box receives the
fine value in addition to what it holds. -/
theorem MLEBABecLap.interpolation_restriction (K : Collaborators 3) (E : EBSetup)
    (op : MLEBABecLap 3) (amrlev cmglev : Nat) (crse fine tgt : MultiFab)
    (hK : K.EB_average_down = averageDownRegular)
    (hratio : (if amrlev > 0 then (fun _ => K.mg_coarsen_ratio)
      else K.mg_coarsen_ratio_vec (cmglev - 1)) = fun _ => 2)
    (hconst : ∀ c1 c2 n, coarsenCell c1 = coarsenCell c2 → fine.val c1 n = fine.val c2 n)
    (hnd : tgt.cells.Nodup) (c : Int × Int × Int) (n : Nat) (hc : c ∈ tgt.cells)
    (hn : n < op.getNComp) (hreg : E.boxType c = FabType.regular)
    (hcrse : coarsenCell c ∈ crse.cells) :
    (MLEBABecLap.interpolation E op tgt
        (MLEBABecLap.restriction K op amrlev cmglev crse fine)).val c n
      = tgt.val c n + fine.val c n := by
  rw [MLEBABecLap.interpolation_apply E op tgt _ hnd, if_pos ⟨hc, hn, Or.inl hreg⟩]
  unfold MLEBABecLap.restriction
  simp only
  rw [hK, hratio, averageDownRegular_block fine crse op.getNComp hconst c n hn hcrse]

/-- C13 fails as stated: the fine field `1` on the eight fine cells of the coarse cell
`(0,0,0)`, all regular, is restricted with ratio `2` to the coarse value `1`; interpolation
of that coarse field onto the original fine field adds it and leaves `2`, not the original
`1`. -/
theorem MLEBABecLap.round_trip_counterexample :
    ¬ ((MLEBABecLap.interpolation EBSetup.noFlags (MLEBABecLap.sample 3 1) (MultiFab.block 1)
          (MLEBABecLap.restriction Collaborators.regular (MLEBABecLap.sample 3 1) 0 1
            (MultiFab.const 1 0) (MultiFab.block 1))).val (0, 0, 0) 0
        = (MultiFab.block 1).val (0, 0, 0) 0) := by
  rw [MLEBABecLap.interpolation_restriction Collaborators.regular EBSetup.noFlags
    (MLEBABecLap.sample 3 1) 0 1 (MultiFab.const 1 0) (MultiFab.block 1) (MultiFab.block 1)
    rfl rfl (fun _ _ _ _ => rfl) (by decide) (0, 0, 0) 0 (by decide) Nat.one_pos rfl
    (by decide)]
  show ¬ ((1 : ℚ) + 1 = 1)
  norm_num

/-- C13, amended: on regular (uncut) boxes with coarsening ratio `2`, for every fine field
that is constant on the fine cells of each coarse cell, restriction (the plain average of the
fine field) followed by `MLEBABecLap::interpolation` adds the coarse value to the field it
interpolates into: onto the original fine field the result is twice the original, and onto
the zeroed fine field (the correction a multigrid cycle interpolates into) the result is the
original fine field exactly. -/
theorem MLEBABecLap.round_trip_adds (K : Collaborators 3) (E : EBSetup)
    (op : MLEBABecLap 3) (amrlev cmglev : Nat) (crse fine : MultiFab)
    (hK : K.EB_average_down = averageDownRegular)
    (hratio : (if amrlev > 0 then (fun _ => K.mg_coarsen_ratio)
      else K.mg_coarsen_ratio_vec (cmglev - 1)) = fun _ => 2)
    (hconst : ∀ c1 c2 n, coarsenCell c1 = coarsenCell c2 → fine.val c1 n = fine.val c2 n)
    (hnd : fine.cells.Nodup) (c : Int × Int × Int) (n : Nat) (hc : c ∈ fine.cells)
    (hn : n < op.getNComp) (hreg : E.boxType c = FabType.regular)
    (hcrse : coarsenCell c ∈ crse.cells) :
    (MLEBABecLap.interpolation E op fine
        (MLEBABecLap.restriction K op amrlev cmglev crse fine)).val c n
      = 2 * fine.val c n ∧
    (MLEBABecLap.interpolation E op (fine.setVal 0)
        (MLEBABecLap.restriction K op amrlev cmglev crse fine)).val c n
      = fine.val c n := by
  constructor
  · rw [MLEBABecLap.interpolation_restriction K E op amrlev cmglev crse fine fine hK hratio
      hconst hnd c n hc hn hreg hcrse]
    ring
  · rw [MLEBABecLap.interpolation_restriction K E op amrlev cmglev crse fine (fine.setVal 0)
      hK hratio hconst hnd c n hc hn hreg hcrse]
    simp [MultiFab.setVal]

/-- Instance of the amended C13: the fine field `3` on the eight fine cells of the coarse
cell `(0,0,0)`, at the fine cell `(1,0,1)`. -/
theorem MLEBABecLap.round_trip_adds_witness :
    (MLEBABecLap.interpolation EBSetup.noFlags (MLEBABecLap.sample 3 1) (MultiFab.block 3)
        (MLEBABecLap.restriction Collaborators.regular (MLEBABecLap.sample 3 1) 0 1
          (MultiFab.const 1 0) (MultiFab.block 3))).val (1, 0, 1) 0
      = 2 * (MultiFab.block 3).val (1, 0, 1) 0 ∧
    (MLEBABecLap.interpolation EBSetup.noFlags (MLEBABecLap.sample 3 1)
        ((MultiFab.block 3).setVal 0)
        (MLEBABecLap.restriction Collaborators.regular (MLEBABecLap.sample 3 1) 0 1
          (MultiFab.const 1 0) (MultiFab.block 3))).val (1, 0, 1) 0
      = (MultiFab.block 3).val (1, 0, 1) 0 :=
  MLEBABecLap.round_trip_adds Collaborators.regular EBSetup.noFlags (MLEBABecLap.sample 3 1)
    0 1 (MultiFab.const 1 0) (MultiFab.block 3) rfl rfl (fun _ _ _ _ => rfl) (by decide)
    (1, 0, 1) 0 (by decide) Nat.one_pos rfl (by decide)

/-! ## Claim C18: the needs-update flag -/

namespace MLEBABecLap

variable {D : Nat}

end MLEBABecLap

/-- Instance of C17 on the sample operator whose flag is `false` before the calls. -/
theorem MLEBABecLap.setters_set_needs_update_witness :
    MLEBABecLap.sampleClean.m_needs_update = false ∧
    ((MLEBABecLap.sampleClean.setACoeffsField 0 (MultiFab.const 1 3)).m_needs_update = true ∧
    (MLEBABecLap.sampleClean.setACoeffsScalar 0 3).m_needs_update = true ∧
    (∀ op1, MLEBABecLap.sampleClean.setBCoeffsField 0 (fun _ => MultiFab.const 1 5)
        Location.FaceCenter (by decide : 0 < 2) = .ok op1 →
      op1.m_needs_update = true) ∧
    (((fun _ => MultiFab.const 1 5 : Fin 2 → MultiFab) ⟨0, by decide⟩).nComp = 1 ∨
        ((fun _ => MultiFab.const 1 5 : Fin 2 → MultiFab) ⟨0, by decide⟩).nComp
          = MLEBABecLap.sampleClean.getNComp →
      ∃ op1, MLEBABecLap.sampleClean.setBCoeffsField 0 (fun _ => MultiFab.const 1 5)
        Location.FaceCenter (by decide : 0 < 2) = .ok op1) ∧
    (MLEBABecLap.sampleClean.setBCoeffsScalar 0 5).m_needs_update = true ∧
    (MLEBABecLap.sampleClean.setBCoeffsVector 0 [5]).m_needs_update = true) :=
  ⟨rfl, MLEBABecLap.setters_set_needs_update MLEBABecLap.sampleClean 0 (MultiFab.const 1 3) 3
    (fun _ => MultiFab.const 1 5) Location.FaceCenter (by decide) 5 [5]⟩

/-- Instance of C19: a one-component `beta` given to a two-component operator is accepted
and its component `0` is stored in both components. -/
theorem MLEBABecLap.setBCoeffsField_spec_witness :
    ∃ op1, (MLEBABecLap.sample 2 2).setBCoeffsField 0 (fun _ => MultiFab.const 1 5)
        Location.FaceCenter (by decide : 0 < 2) = .ok op1 ∧
      ∀ (idim : Fin 2) (n : Nat), n < (MLEBABecLap.sample 2 2).getNComp →
        ∀ c ∈ ((MLEBABecLap.sample 2 2).m_b_coeffs 0 0 idim).cells,
          (op1.m_b_coeffs 0 0 idim).val c n =
            if ((fun _ => MultiFab.const 1 5 : Fin 2 → MultiFab) ⟨0, by decide⟩).nComp
                = (MLEBABecLap.sample 2 2).getNComp
            then ((fun _ => MultiFab.const 1 5 : Fin 2 → MultiFab) idim).val c n
            else ((fun _ => MultiFab.const 1 5 : Fin 2 → MultiFab) idim).val c 0 :=
  (MLEBABecLap.setBCoeffsField_spec (MLEBABecLap.sample 2 2) 0 (fun _ => MultiFab.const 1 5)
    Location.FaceCenter (by decide)).2 (Or.inl rfl)

/-- The four neighbours of a cell of one colour have the other colour. -/
theorem neighbours_other_colour (redblack i j : Int) (h : (i + j + redblack).tmod 2 = 0) :
    ¬ ((i - 1 + j + redblack).tmod 2 = 0) ∧ ¬ ((i + 1 + j + redblack).tmod 2 = 0) ∧
    ¬ ((i + (j - 1) + redblack).tmod 2 = 0) ∧ ¬ ((i + (j + 1) + redblack).tmod 2 = 0) := by
  simp only [tmod_two_eq_zero_iff] at h ⊢
  omega

/-- A red-black sweep over any duplicate-free list of cells of the plane `k = 0`, in the
order of the list, equals the simultaneous update, when the new value at a cell reads the
field only at the cell and at its four neighbours. -/
theorem redblack_sweep {RT : Type} (redblack : Int) (val : Array4 RT → Int → Int → Int → RT)
    (hval : ∀ (s t : Array4 RT) (i j n : Int), s (i, j, 0, n) = t (i, j, 0, n) →
      s (i - 1, j, 0, n) = t (i - 1, j, 0, n) → s (i + 1, j, 0, n) = t (i + 1, j, 0, n) →
      s (i, j - 1, 0, n) = t (i, j - 1, 0, n) → s (i, j + 1, 0, n) = t (i, j + 1, 0, n) →
      val s i j n = val t i j n)
    (l : List (Int × Int × Int × Int)) (hnd : l.Nodup) (hk : ∀ p ∈ l, p.2.2.1 = 0)
    (phi : Array4 RT) :
    l.foldl (redblackVisit redblack val) phi = redblackSimultaneous redblack val l phi := by
  have h := foldl_update_pointwise
    (fun p : Int × Int × Int × Int => (p.1 + p.2.1 + redblack).tmod 2 = 0 ∧ p.2.2.1 = 0)
    (fun s p => val s p.1 p.2.1 p.2.2.2) phi
    (by
      intro s p hv hp hs
      obtain ⟨i, j, k, n⟩ := p
      simp only at hv ⊢
      obtain ⟨hv, hk0⟩ := hv
      subst hk0
      obtain ⟨n1, n2, n3, n4⟩ := neighbours_other_colour redblack i j hv
      exact hval s phi i j n hp (hs _ (fun e => n1 e.1)) (hs _ (fun e => n2 e.1))
        (hs _ (fun e => n3 e.1)) (hs _ (fun e => n4 e.1)))
    l hnd phi (fun _ _ => rfl) (fun _ _ => rfl)
  refine (Eq.trans (List.foldl_ext _ _ _ ?_) h).trans ?_
  · intro s p hp
    have hk0 : p.2.2.1 = 0 := hk p hp
    obtain ⟨i, j, k, n⟩ := p
    simp only at hk0
    subst hk0
    simp only [redblackVisit, and_true]
  · funext p
    unfold redblackSimultaneous
    by_cases hp : p ∈ l
    · simp only [hp, hk p hp, and_true, true_and]
    · simp only [hp, false_and, if_false]

/-- An entry that is not a visited cell of the sweep keeps its value. -/
theorem redblackSimultaneous_frame {RT : Type} (redblack : Int) (val : Array4 RT → Int → Int → Int → RT)
    (lo hi : Dim3) (ncomp : Int) (phi : Array4 RT) (i j k n : Int)
    (h : ¬ (lo.x ≤ i ∧ i ≤ hi.x ∧ lo.y ≤ j ∧ j ≤ hi.y) ∨ (i + j + redblack) % 2 = 1) :
    redblackSimultaneous redblack val (loopCells lo hi ncomp) phi (i, j, k, n) =
      phi (i, j, k, n) := by
  unfold redblackSimultaneous
  rw [if_neg]
  rintro ⟨hm, hpar⟩
  have hm' := (mem_loopCells lo hi ncomp (i, j, k, n)).1 hm
  simp only at hm' hpar
  rw [tmod_two_eq_zero_iff] at hpar
  rcases h with h | h
  · exact h ⟨hm'.1, hm'.2.1, hm'.2.2.1, hm'.2.2.2.1⟩
  · omega

section SweepLemmas

variable {RT : Type} [Field RT]

/-- The value written by `mlalap_gsrb` reads `phi` at the cell and its four neighbours
only. -/
theorem gsrbValue_reads (rhs : Array4 RT) (alpha dhx dhy : RT) (a : Array4 RT)
    (f0 : Array4 RT) (m0 : Array4 Int) (f1 : Array4 RT) (m1 : Array4 Int)
    (f2 : Array4 RT) (m2 : Array4 Int) (f3 : Array4 RT) (m3 : Array4 Int)
    (vbox : Box 2) (s t : Array4 RT) (i j n : Int)
    (h0 : s (i, j, 0, n) = t (i, j, 0, n))
    (h1 : s (i - 1, j, 0, n) = t (i - 1, j, 0, n)) (h2 : s (i + 1, j, 0, n) = t (i + 1, j, 0, n))
    (h3 : s (i, j - 1, 0, n) = t (i, j - 1, 0, n))
    (h4 : s (i, j + 1, 0, n) = t (i, j + 1, 0, n)) :
    gsrbValue rhs alpha dhx dhy a f0 m0 f1 m1 f2 m2 f3 m3 vbox s i j n =
      gsrbValue rhs alpha dhx dhy a f0 m0 f1 m1 f2 m2 f3 m3 vbox t i j n := by
  simp only [gsrbValue, gsrbRho, h0, h1, h2, h3, h4]

/-- The value written by `mlalap_gsrb_m` reads `phi` at the cell and its four neighbours
only. -/
theorem gsrbValue_m_reads (rhs : Array4 RT) (alpha dhx dhy : RT) (a : Array4 RT)
    (f0 : Array4 RT) (m0 : Array4 Int) (f1 : Array4 RT) (m1 : Array4 Int)
    (f2 : Array4 RT) (m2 : Array4 Int) (f3 : Array4 RT) (m3 : Array4 Int)
    (vbox : Box 2) (dx probxlo : RT) (s t : Array4 RT) (i j n : Int)
    (h0 : s (i, j, 0, n) = t (i, j, 0, n))
    (h1 : s (i - 1, j, 0, n) = t (i - 1, j, 0, n)) (h2 : s (i + 1, j, 0, n) = t (i + 1, j, 0, n))
    (h3 : s (i, j - 1, 0, n) = t (i, j - 1, 0, n))
    (h4 : s (i, j + 1, 0, n) = t (i, j + 1, 0, n)) :
    gsrbValue_m rhs alpha dhx dhy a f0 m0 f1 m1 f2 m2 f3 m3 vbox dx probxlo s i j n =
      gsrbValue_m rhs alpha dhx dhy a f0 m0 f1 m1 f2 m2 f3 m3 vbox dx probxlo t i j n := by
  simp only [gsrbValue_m, h0, h1, h2, h3, h4]

/-- The loop nest of `mlalap_gsrb` is the sequence of visits of its cells in loop order. -/
theorem mlalap_gsrb_eq_foldl (box : Box 2) (phi rhs : Array4 RT) (alpha dhx dhy : RT)
    (a : Array4 RT)
    (f0 : Array4 RT) (m0 : Array4 Int) (f1 : Array4 RT) (m1 : Array4 Int)
    (f2 : Array4 RT) (m2 : Array4 Int) (f3 : Array4 RT) (m3 : Array4 Int)
    (vbox : Box 2) (redblack : Int) (ncomp : Int) :
    mlalap_gsrb box phi rhs alpha dhx dhy a f0 m0 f1 m1 f2 m2 f3 m3 vbox redblack ncomp =
      (loopCells (lbound box) (ubound box) ncomp).foldl
        (redblackVisit redblack
          (gsrbValue rhs alpha dhx dhy a f0 m0 f1 m1 f2 m2 f3 m3 vbox)) phi := by
  unfold mlalap_gsrb
  rw [loopNest_eq_foldl]
  rfl

/-- The loop nest of `mlalap_gsrb_m` is the sequence of visits of its cells in loop order. -/
theorem mlalap_gsrb_m_eq_foldl (box : Box 2) (phi rhs : Array4 RT) (alpha dhx dhy : RT)
    (a : Array4 RT)
    (f0 : Array4 RT) (m0 : Array4 Int) (f1 : Array4 RT) (m1 : Array4 Int)
    (f2 : Array4 RT) (m2 : Array4 Int) (f3 : Array4 RT) (m3 : Array4 Int)
    (vbox : Box 2) (redblack : Int) (dx probxlo : RT) (ncomp : Int) :
    mlalap_gsrb_m box phi rhs alpha dhx dhy a f0 m0 f1 m1 f2 m2 f3 m3 vbox redblack dx probxlo
        ncomp =
      (loopCells (lbound box) (ubound box) ncomp).foldl
        (redblackVisit redblack
          (gsrbValue_m rhs alpha dhx dhy a f0 m0 f1 m1 f2 m2 f3 m3 vbox dx probxlo)) phi := by
  unfold mlalap_gsrb_m
  rw [loopNest_eq_foldl]
  rfl

/-- The cells of the loop nest lie in the plane `k = 0`. -/
theorem loopCells_plane (lo hi : Dim3) (ncomp : Int) :
    ∀ p ∈ loopCells lo hi ncomp, p.2.2.1 = 0 :=
  fun p hp => ((mem_loopCells lo hi ncomp p).1 hp).2.2.2.2.1

/-- A single-colour sweep of `mlalap_gsrb_m` in closed form. -/
theorem mlalap_gsrb_m_apply (box : Box 2) (phi rhs : Array4 RT) (alpha dhx dhy : RT)
    (a : Array4 RT)
    (f0 : Array4 RT) (m0 : Array4 Int) (f1 : Array4 RT) (m1 : Array4 Int)
    (f2 : Array4 RT) (m2 : Array4 Int) (f3 : Array4 RT) (m3 : Array4 Int)
    (vbox : Box 2) (redblack : Int) (dx probxlo : RT) (ncomp : Int) :
    mlalap_gsrb_m box phi rhs alpha dhx dhy a f0 m0 f1 m1 f2 m2 f3 m3 vbox redblack dx probxlo
        ncomp =
      redblackSimultaneous redblack
        (gsrbValue_m rhs alpha dhx dhy a f0 m0 f1 m1 f2 m2 f3 m3 vbox dx probxlo)
        (loopCells (lbound box) (ubound box) ncomp) phi := by
  rw [mlalap_gsrb_m_eq_foldl]
  exact redblack_sweep redblack _
    (gsrbValue_m_reads rhs alpha dhx dhy a f0 m0 f1 m1 f2 m2 f3 m3 vbox dx probxlo)
    _ (nodup_loopCells _ _ _) (loopCells_plane _ _ _) phi

/-- A single-colour sweep of `mlalap_gsrb` as a simultaneous update. -/
theorem mlalap_gsrb_simultaneous (box : Box 2) (phi rhs : Array4 RT) (alpha dhx dhy : RT)
    (a : Array4 RT)
    (f0 : Array4 RT) (m0 : Array4 Int) (f1 : Array4 RT) (m1 : Array4 Int)
    (f2 : Array4 RT) (m2 : Array4 Int) (f3 : Array4 RT) (m3 : Array4 Int)
    (vbox : Box 2) (redblack : Int) (ncomp : Int) :
    mlalap_gsrb box phi rhs alpha dhx dhy a f0 m0 f1 m1 f2 m2 f3 m3 vbox redblack ncomp =
      redblackSimultaneous redblack
        (gsrbValue rhs alpha dhx dhy a f0 m0 f1 m1 f2 m2 f3 m3 vbox)
        (loopCells (lbound box) (ubound box) ncomp) phi := by
  rw [mlalap_gsrb_eq_foldl]
  exact redblack_sweep redblack _
    (gsrbValue_reads rhs alpha dhx dhy a f0 m0 f1 m1 f2 m2 f3 m3 vbox)
    _ (nodup_loopCells _ _ _) (loopCells_plane _ _ _) phi

theorem mlalap_gsrb_visited_value (box : Box 2) (phi rhs : Array4 RT) (alpha dhx dhy : RT)
    (a : Array4 RT)
    (f0 : Array4 RT) (m0 : Array4 Int) (f1 : Array4 RT) (m1 : Array4 Int)
    (f2 : Array4 RT) (m2 : Array4 Int) (f3 : Array4 RT) (m3 : Array4 Int)
    (vbox : Box 2) (redblack : Int) (ncomp : Int) (i j n : Int)
    (hcell : (i, j, 0, n) ∈ loopCells (lbound box) (ubound box) ncomp)
    (hcol : (i + j + redblack) % 2 = 0) :
    mlalap_gsrb box phi rhs alpha dhx dhy a f0 m0 f1 m1 f2 m2 f3 m3 vbox redblack ncomp
        (i, j, 0, n) =
      (rhs (i, j, 0, n) + gsrbRho dhx dhy phi i j n
          - phi (i, j, 0, n) * (dhx * (gsrbCf0 f0 m0 vbox i j n + gsrbCf2 f2 m2 vbox i j n)
              + dhy * (gsrbCf1 f1 m1 vbox i j n + gsrbCf3 f3 m3 vbox i j n)))
        / (alpha * a (i, j, 0, n) + 2 * (dhx + dhy)
            - (dhx * (gsrbCf0 f0 m0 vbox i j n + gsrbCf2 f2 m2 vbox i j n)
              + dhy * (gsrbCf1 f1 m1 vbox i j n + gsrbCf3 f3 m3 vbox i j n))) := by
  rw [mlalap_gsrb_apply, if_pos ⟨hcell, (tmod_two_eq_zero_iff _).2 hcol⟩]
  rfl

end SweepLemmas

/-- The simultaneous update depends on the set of cells only, not on their order. -/
theorem redblackSimultaneous_perm {RT : Type} (redblack : Int)
    (val : Array4 RT → Int → Int → Int → RT) (l1 l2 : List (Int × Int × Int × Int))
    (h : l1.Perm l2) (phi : Array4 RT) :
    redblackSimultaneous redblack val l1 phi = redblackSimultaneous redblack val l2 phi := by
  funext p
  unfold redblackSimultaneous
  simp only [h.mem_iff]

/-! ## Claim C21: the cells a sweep leaves alone -/

/-- C21: `mlalap_gsrb` and `mlalap_gsrb_m` with colour parameter `redblack` change `phi` only
at cells `(i,j)` of the box with `i + j + redblack` even: an entry `(i,j,k,n)` whose cell
lies outside the box, or whose `i + j + redblack` is odd (indices of either sign), keeps
its value. -/
theorem mlalap_gsrb_frame {RT : Type} [Field RT] (box : Box 2) (phi rhs : Array4 RT)
    (alpha dhx dhy : RT) (a : Array4 RT)
    (f0 : Array4 RT) (m0 : Array4 Int) (f1 : Array4 RT) (m1 : Array4 Int)
    (f2 : Array4 RT) (m2 : Array4 Int) (f3 : Array4 RT) (m3 : Array4 Int)
    (vbox : Box 2) (redblack : Int) (dx probxlo : RT) (ncomp : Int) (i j k n : Int)
    (h : ¬ ((lbound box).x ≤ i ∧ i ≤ (ubound box).x ∧ (lbound box).y ≤ j ∧ j ≤ (ubound box).y)
      ∨ (i + j + redblack) % 2 = 1) :
    mlalap_gsrb box phi rhs alpha dhx dhy a f0 m0 f1 m1 f2 m2 f3 m3 vbox redblack ncomp
        (i, j, k, n) = phi (i, j, k, n) ∧
    mlalap_gsrb_m box phi rhs alpha dhx dhy a f0 m0 f1 m1 f2 m2 f3 m3 vbox redblack dx probxlo
        ncomp (i, j, k, n) = phi (i, j, k, n) := by
  rw [mlalap_gsrb_simultaneous, mlalap_gsrb_m_apply]
  exact ⟨redblackSimultaneous_frame redblack _ _ _ ncomp phi i j k n h,
    redblackSimultaneous_frame redblack _ _ _ ncomp phi i j k n h⟩

/-- Instance of C21: in the box `[-2,2] × [-2,2]` with `redblack = 0` the cell `(-1, 0)` has
`i + j + redblack = -1`, which is odd, and keeps its value. -/
theorem mlalap_gsrb_frame_witness :
    mlalap_gsrb (Box.rect (-2) (-2) 2 2) scenarioPhi0 scenarioRhs 1 16 16 scenarioRhs
        scenarioFx scenarioMaskX scenarioFx scenarioMaskX
        scenarioFx scenarioMaskX scenarioFx scenarioMaskX (Box.rect (-2) (-2) 2 2) 0 1
        (-1, 0, 0, 0) = scenarioPhi0 (-1, 0, 0, 0) ∧
    mlalap_gsrb_m (Box.rect (-2) (-2) 2 2) scenarioPhi0 scenarioRhs 1 16 16 scenarioRhs
        scenarioFx scenarioMaskX scenarioFx scenarioMaskX
        scenarioFx scenarioMaskX scenarioFx scenarioMaskX (Box.rect (-2) (-2) 2 2) 0
        (1 / 4) 1 1 (-1, 0, 0, 0) = scenarioPhi0 (-1, 0, 0, 0) :=
  mlalap_gsrb_frame (Box.rect (-2) (-2) 2 2) scenarioPhi0 scenarioRhs 1 16 16 scenarioRhs
    scenarioFx scenarioMaskX scenarioFx scenarioMaskX
    scenarioFx scenarioMaskX scenarioFx scenarioMaskX (Box.rect (-2) (-2) 2 2) 0
    (1 / 4) 1 1 (-1) 0 0 0 (Or.inr (by decide))

/-! ## Claim C27: the boundary-correction term -/

/-- C27: in `mlalap_gsrb` each of `cf0`, `cf1`, `cf2`, `cf3` is `0` unless the visited cell
lies on the low-x (low-y, high-x, high-y) face of `vbox` and the mask of the ghost cell just
across that face is positive, and then it is the corresponding `f` value; the update of a
visited cell uses `delta = dhx*(cf0+cf2) + dhy*(cf1+cf3)`; and for a visited cell strictly
inside `vbox`, or when the four masks are `<= 0`, the update is
`phi = (rhs + rho)/gamma` with `gamma = alpha*a + 2*(dhx + dhy)`. -/
theorem mlalap_gsrb_delta {RT : Type} [Field RT] (box : Box 2) (phi rhs : Array4 RT)
    (alpha dhx dhy : RT) (a : Array4 RT)
    (f0 : Array4 RT) (m0 : Array4 Int) (f1 : Array4 RT) (m1 : Array4 Int)
    (f2 : Array4 RT) (m2 : Array4 Int) (f3 : Array4 RT) (m3 : Array4 Int)
    (vbox : Box 2) (redblack : Int) (ncomp : Int) (i j n : Int)
    (hcell : (i, j, 0, n) ∈ loopCells (lbound box) (ubound box) ncomp)
    (hcol : (i + j + redblack) % 2 = 0) :
    ((i = (lbound vbox).x ∧ m0 ((lbound vbox).x - 1, j, 0, 0) > 0 →
        gsrbCf0 f0 m0 vbox i j n = f0 ((lbound vbox).x, j, 0, n)) ∧
      (¬ (i = (lbound vbox).x ∧ m0 ((lbound vbox).x - 1, j, 0, 0) > 0) →
        gsrbCf0 f0 m0 vbox i j n = 0)) ∧
    ((j = (lbound vbox).y ∧ m1 (i, (lbound vbox).y - 1, 0, 0) > 0 →
        gsrbCf1 f1 m1 vbox i j n = f1 (i, (lbound vbox).y, 0, n)) ∧
      (¬ (j = (lbound vbox).y ∧ m1 (i, (lbound vbox).y - 1, 0, 0) > 0) →
        gsrbCf1 f1 m1 vbox i j n = 0)) ∧
    ((i = (ubound vbox).x ∧ m2 ((ubound vbox).x + 1, j, 0, 0) > 0 →
        gsrbCf2 f2 m2 vbox i j n = f2 ((ubound vbox).x, j, 0, n)) ∧
      (¬ (i = (ubound vbox).x ∧ m2 ((ubound vbox).x + 1, j, 0, 0) > 0) →
        gsrbCf2 f2 m2 vbox i j n = 0)) ∧
    ((j = (ubound vbox).y ∧ m3 (i, (ubound vbox).y + 1, 0, 0) > 0 →
        gsrbCf3 f3 m3 vbox i j n = f3 (i, (ubound vbox).y, 0, n)) ∧
      (¬ (j = (ubound vbox).y ∧ m3 (i, (ubound vbox).y + 1, 0, 0) > 0) →
        gsrbCf3 f3 m3 vbox i j n = 0)) ∧
    (mlalap_gsrb box phi rhs alpha dhx dhy a f0 m0 f1 m1 f2 m2 f3 m3 vbox redblack ncomp
        (i, j, 0, n) =
      (rhs (i, j, 0, n) + gsrbRho dhx dhy phi i j n
          - phi (i, j, 0, n) * (dhx * (gsrbCf0 f0 m0 vbox i j n + gsrbCf2 f2 m2 vbox i j n)
              + dhy * (gsrbCf1 f1 m1 vbox i j n + gsrbCf3 f3 m3 vbox i j n)))
        / (alpha * a (i, j, 0, n) + 2 * (dhx + dhy)
            - (dhx * (gsrbCf0 f0 m0 vbox i j n + gsrbCf2 f2 m2 vbox i j n)
              + dhy * (gsrbCf1 f1 m1 vbox i j n + gsrbCf3 f3 m3 vbox i j n)))) ∧
    ((((lbound vbox).x < i ∧ i < (ubound vbox).x ∧ (lbound vbox).y < j ∧ j < (ubound vbox).y) ∨
        (m0 ((lbound vbox).x - 1, j, 0, 0) ≤ 0 ∧ m1 (i, (lbound vbox).y - 1, 0, 0) ≤ 0 ∧
          m2 ((ubound vbox).x + 1, j, 0, 0) ≤ 0 ∧ m3 (i, (ubound vbox).y + 1, 0, 0) ≤ 0)) →
      mlalap_gsrb box phi rhs alpha dhx dhy a f0 m0 f1 m1 f2 m2 f3 m3 vbox redblack ncomp
          (i, j, 0, n) =
        (rhs (i, j, 0, n) + gsrbRho dhx dhy phi i j n)
          / (alpha * a (i, j, 0, n) + 2 * (dhx + dhy))) := by
  have hv := mlalap_gsrb_visited_value box phi rhs alpha dhx dhy a f0 m0 f1 m1 f2 m2 f3 m3
    vbox redblack ncomp i j n hcell hcol
  refine ⟨⟨fun h => if_pos h, fun h => if_neg h⟩, ⟨fun h => if_pos h, fun h => if_neg h⟩,
    ⟨fun h => if_pos h, fun h => if_neg h⟩, ⟨fun h => if_pos h, fun h => if_neg h⟩, hv, ?_⟩
  intro h
  have c0 : gsrbCf0 f0 m0 vbox i j n = 0 :=
    if_neg (by rcases h with h | h <;> omega)
  have c1 : gsrbCf1 f1 m1 vbox i j n = 0 :=
    if_neg (by rcases h with h | h <;> omega)
  have c2 : gsrbCf2 f2 m2 vbox i j n = 0 :=
    if_neg (by rcases h with h | h <;> omega)
  have c3 : gsrbCf3 f3 m3 vbox i j n = 0 :=
    if_neg (by rcases h with h | h <;> omega)
  rw [hv, c0, c1, c2, c3]
  simp

/-- Instance of C27: the box `[0,2] × [0,2]` with `redblack = 0`, all masks positive; the
visited cell `(1,1)` is strictly inside `vbox` and is updated to `(rhs + rho)/gamma`. -/
theorem mlalap_gsrb_delta_witness :
    mlalap_gsrb (Box.rect 0 0 2 2) scenarioPhi0 scenarioRhs 1 16 16 scenarioRhs
        scenarioFx scenarioMaskX scenarioFx scenarioMaskX
        scenarioFx scenarioMaskX scenarioFx scenarioMaskX (Box.rect 0 0 2 2) 0 1
        (1, 1, 0, 0) =
      (scenarioRhs (1, 1, 0, 0) + gsrbRho 16 16 scenarioPhi0 1 1 0)
        / (1 * scenarioRhs (1, 1, 0, 0) + 2 * (16 + 16)) :=
  (mlalap_gsrb_delta (Box.rect 0 0 2 2) scenarioPhi0 scenarioRhs 1 16 16 scenarioRhs
    scenarioFx scenarioMaskX scenarioFx scenarioMaskX
    scenarioFx scenarioMaskX scenarioFx scenarioMaskX (Box.rect 0 0 2 2) 0 1 1 1 0
    ((mem_loopCells _ _ _ _).2 (by decide)) (by decide)).2.2.2.2.2
    (Or.inl (by decide))

/-! ## Claim C29: a single-colour sweep does not depend on the visiting order -/

/-- C29: in one call of `mlalap_gsrb` (or `mlalap_gsrb_m`) the value written at a visited
cell reads `phi` only at the cell and at its four neighbours, the four neighbours have the
opposite parity and keep their value, and so the sequential in-place loop of the kernel, and
the same visits made in any other order of the cells and components, equal the simultaneous
update in which every visited cell is computed from the field before the call. -/
theorem mlalap_gsrb_order_independent {RT : Type} [Field RT] (box : Box 2)
    (phi rhs : Array4 RT) (alpha dhx dhy : RT) (a : Array4 RT)
    (f0 : Array4 RT) (m0 : Array4 Int) (f1 : Array4 RT) (m1 : Array4 Int)
    (f2 : Array4 RT) (m2 : Array4 Int) (f3 : Array4 RT) (m3 : Array4 Int)
    (vbox : Box 2) (redblack : Int) (dx probxlo : RT) (ncomp : Int)
    (order : List (Int × Int × Int × Int))
    (horder : order.Perm (loopCells (lbound box) (ubound box) ncomp)) :
    (mlalap_gsrb box phi rhs alpha dhx dhy a f0 m0 f1 m1 f2 m2 f3 m3 vbox redblack ncomp =
        (loopCells (lbound box) (ubound box) ncomp).foldl
          (redblackVisit redblack
            (gsrbValue rhs alpha dhx dhy a f0 m0 f1 m1 f2 m2 f3 m3 vbox)) phi ∧
      order.foldl
          (redblackVisit redblack
            (gsrbValue rhs alpha dhx dhy a f0 m0 f1 m1 f2 m2 f3 m3 vbox)) phi =
        redblackSimultaneous redblack
          (gsrbValue rhs alpha dhx dhy a f0 m0 f1 m1 f2 m2 f3 m3 vbox)
          (loopCells (lbound box) (ubound box) ncomp) phi ∧
      mlalap_gsrb box phi rhs alpha dhx dhy a f0 m0 f1 m1 f2 m2 f3 m3 vbox redblack ncomp =
        order.foldl
          (redblackVisit redblack
            (gsrbValue rhs alpha dhx dhy a f0 m0 f1 m1 f2 m2 f3 m3 vbox)) phi) ∧
    (mlalap_gsrb_m box phi rhs alpha dhx dhy a f0 m0 f1 m1 f2 m2 f3 m3 vbox redblack dx
          probxlo ncomp =
        (loopCells (lbound box) (ubound box) ncomp).foldl
          (redblackVisit redblack
            (gsrbValue_m rhs alpha dhx dhy a f0 m0 f1 m1 f2 m2 f3 m3 vbox dx probxlo)) phi ∧
      order.foldl
          (redblackVisit redblack
            (gsrbValue_m rhs alpha dhx dhy a f0 m0 f1 m1 f2 m2 f3 m3 vbox dx probxlo)) phi =
        redblackSimultaneous redblack
          (gsrbValue_m rhs alpha dhx dhy a f0 m0 f1 m1 f2 m2 f3 m3 vbox dx probxlo)
          (loopCells (lbound box) (ubound box) ncomp) phi ∧
      mlalap_gsrb_m box phi rhs alpha dhx dhy a f0 m0 f1 m1 f2 m2 f3 m3 vbox redblack dx
          probxlo ncomp =
        order.foldl
          (redblackVisit redblack
            (gsrbValue_m rhs alpha dhx dhy a f0 m0 f1 m1 f2 m2 f3 m3 vbox dx probxlo)) phi) ∧
    (∀ (s t : Array4 RT) (i j n : Int), s (i, j, 0, n) = t (i, j, 0, n) →
      s (i - 1, j, 0, n) = t (i - 1, j, 0, n) → s (i + 1, j, 0, n) = t (i + 1, j, 0, n) →
      s (i, j - 1, 0, n) = t (i, j - 1, 0, n) → s (i, j + 1, 0, n) = t (i, j + 1, 0, n) →
      gsrbValue rhs alpha dhx dhy a f0 m0 f1 m1 f2 m2 f3 m3 vbox s i j n =
          gsrbValue rhs alpha dhx dhy a f0 m0 f1 m1 f2 m2 f3 m3 vbox t i j n ∧
        gsrbValue_m rhs alpha dhx dhy a f0 m0 f1 m1 f2 m2 f3 m3 vbox dx probxlo s i j n =
          gsrbValue_m rhs alpha dhx dhy a f0 m0 f1 m1 f2 m2 f3 m3 vbox dx probxlo t i j n) ∧
    (∀ (i j n : Int) (q : Int × Int × Int × Int), (i + j + redblack) % 2 = 0 →
      q = (i - 1, j, 0, n) ∨ q = (i + 1, j, 0, n) ∨ q = (i, j - 1, 0, n) ∨
        q = (i, j + 1, 0, n) →
      (q.1 + q.2.1 + redblack) % 2 = 1 ∧
      mlalap_gsrb box phi rhs alpha dhx dhy a f0 m0 f1 m1 f2 m2 f3 m3 vbox redblack ncomp q
        = phi q ∧
      mlalap_gsrb_m box phi rhs alpha dhx dhy a f0 m0 f1 m1 f2 m2 f3 m3 vbox redblack dx
        probxlo ncomp q = phi q) := by
  have hnd : order.Nodup := horder.nodup_iff.2 (nodup_loopCells _ _ _)
  have hk : ∀ p ∈ order, p.2.2.1 = 0 :=
    fun p hp => loopCells_plane _ _ _ p (horder.mem_iff.1 hp)
  have e1 := redblack_sweep redblack _
    (gsrbValue_reads rhs alpha dhx dhy a f0 m0 f1 m1 f2 m2 f3 m3 vbox) order hnd hk phi
  have e2 := redblack_sweep redblack _
    (gsrbValue_m_reads rhs alpha dhx dhy a f0 m0 f1 m1 f2 m2 f3 m3 vbox dx probxlo)
    order hnd hk phi
  rw [redblackSimultaneous_perm redblack _ _ _ horder] at e1 e2
  refine ⟨⟨mlalap_gsrb_eq_foldl _ _ _ _ _ _ _ _ _ _ _ _ _ _ _ _ _ _, e1, ?_⟩,
    ⟨mlalap_gsrb_m_eq_foldl _ _ _ _ _ _ _ _ _ _ _ _ _ _ _ _ _ _ _ _, e2, ?_⟩, ?_, ?_⟩
  · rw [e1]
    exact mlalap_gsrb_simultaneous _ _ _ _ _ _ _ _ _ _ _ _ _ _ _ _ _ _
  · rw [e2]
    exact mlalap_gsrb_m_apply _ _ _ _ _ _ _ _ _ _ _ _ _ _ _ _ _ _ _ _
  · intro s t i j n h0 h1 h2 h3 h4
    exact ⟨gsrbValue_reads _ _ _ _ _ _ _ _ _ _ _ _ _ _ s t i j n h0 h1 h2 h3 h4,
      gsrbValue_m_reads _ _ _ _ _ _ _ _ _ _ _ _ _ _ _ _ s t i j n h0 h1 h2 h3 h4⟩
  · intro i j n q hcol hq
    have hodd : (q.1 + q.2.1 + redblack) % 2 = 1 := by
      rcases hq with rfl | rfl | rfl | rfl <;> simp only <;> omega
    obtain ⟨qi, qj, qk, qn⟩ := q
    refine ⟨hodd, ?_, ?_⟩
    · rw [mlalap_gsrb_simultaneous]
      exact redblackSimultaneous_frame redblack _ _ _ ncomp phi qi qj qk qn (Or.inr hodd)
    · rw [mlalap_gsrb_m_apply]
      exact redblackSimultaneous_frame redblack _ _ _ ncomp phi qi qj qk qn (Or.inr hodd)

/-- Instance of C29: on the box `[0,2] × [0,2]` the visits made in the reverse of the loop
order give the simultaneous update, and so does the kernel. -/
theorem mlalap_gsrb_order_independent_witness :
    (loopCells (lbound (Box.rect 0 0 2 2)) (ubound (Box.rect 0 0 2 2)) 1).reverse.foldl
        (redblackVisit 0
          (gsrbValue scenarioRhs 1 16 16 scenarioRhs scenarioFx scenarioMaskX
            scenarioFx scenarioMaskX scenarioFx scenarioMaskX scenarioFx scenarioMaskX
            (Box.rect 0 0 2 2))) scenarioPhi0 =
      redblackSimultaneous 0
        (gsrbValue scenarioRhs 1 16 16 scenarioRhs scenarioFx scenarioMaskX
          scenarioFx scenarioMaskX scenarioFx scenarioMaskX scenarioFx scenarioMaskX
          (Box.rect 0 0 2 2))
        (loopCells (lbound (Box.rect 0 0 2 2)) (ubound (Box.rect 0 0 2 2)) 1) scenarioPhi0 ∧
    mlalap_gsrb (Box.rect 0 0 2 2) scenarioPhi0 scenarioRhs 1 16 16 scenarioRhs
        scenarioFx scenarioMaskX scenarioFx scenarioMaskX
        scenarioFx scenarioMaskX scenarioFx scenarioMaskX (Box.rect 0 0 2 2) 0 1 =
      (loopCells (lbound (Box.rect 0 0 2 2)) (ubound (Box.rect 0 0 2 2)) 1).reverse.foldl
        (redblackVisit 0
          (gsrbValue scenarioRhs 1 16 16 scenarioRhs scenarioFx scenarioMaskX
            scenarioFx scenarioMaskX scenarioFx scenarioMaskX scenarioFx scenarioMaskX
            (Box.rect 0 0 2 2))) scenarioPhi0 :=
  (mlalap_gsrb_order_independent (Box.rect 0 0 2 2) scenarioPhi0 scenarioRhs 1 16 16
    scenarioRhs scenarioFx scenarioMaskX scenarioFx scenarioMaskX
    scenarioFx scenarioMaskX scenarioFx scenarioMaskX (Box.rect 0 0 2 2) 0 (1 / 4) 1 1
    (loopCells (lbound (Box.rect 0 0 2 2)) (ubound (Box.rect 0 0 2 2)) 1).reverse
    (List.reverse_perm _)).1.2

/-! ## Flux kernels: closed forms -/

/-- A sequence of writes whose values do not depend on the array: afterwards every key of
the list holds its value and every other key is as before. -/
theorem foldl_update_list {K V : Type} [DecidableEq K] (g : K → V) (l : List K) (s : K → V) :
    l.foldl (fun s k => Function.update s k (g k)) s = fun p => if p ∈ l then g p else s p := by
  induction l generalizing s with
  | nil => simp
  | cons k t ih =>
    rw [List.foldl_cons, ih]
    funext p
    by_cases hp : p = k
    · subst hp
      by_cases ht : p ∈ t <;> simp [ht]
    · simp [hp, Function.update_noteq hp]

section FluxLemmas

variable {RT : Type} [Field RT]

theorem mlalap_flux_x_apply (box : Box 2) (fx sol : Array4 RT) (fac : RT) (ncomp : Int)
    (i j k n : Int) :
    mlalap_flux_x box fx sol fac ncomp (i, j, k, n) =
      if (i, j, k, n) ∈ loopCells (lbound box) (ubound box) ncomp then
        -fac * (sol (i, j, 0, n) - sol (i - 1, j, 0, n))
      else fx (i, j, k, n) := by
  unfold mlalap_flux_x
  have h := loopNest_update_const (lbound box) (ubound box) ncomp
    (fun p : Int × Int × Int × Int =>
      -fac * (sol (p.1, p.2.1, 0, p.2.2.2) - sol (p.1 - 1, p.2.1, 0, p.2.2.2))) fx
  rw [h]

theorem mlalap_flux_x_m_apply (box : Box 2) (fx sol : Array4 RT) (fac dx probxlo : RT)
    (ncomp : Int) (i j k n : Int) :
    mlalap_flux_x_m box fx sol fac dx probxlo ncomp (i, j, k, n) =
      if (i, j, k, n) ∈ loopCells (lbound box) (ubound box) ncomp then
        -fac * (probxlo + (i : RT) * dx) * (sol (i, j, 0, n) - sol (i - 1, j, 0, n))
      else fx (i, j, k, n) := by
  unfold mlalap_flux_x_m
  have h := loopNest_update_const (lbound box) (ubound box) ncomp
    (fun p : Int × Int × Int × Int =>
      -fac * (probxlo + (p.1 : RT) * dx)
        * (sol (p.1, p.2.1, 0, p.2.2.2) - sol (p.1 - 1, p.2.1, 0, p.2.2.2))) fx
  rw [h]

theorem mlalap_flux_y_apply (box : Box 2) (fy sol : Array4 RT) (fac : RT) (ncomp : Int)
    (i j k n : Int) :
    mlalap_flux_y box fy sol fac ncomp (i, j, k, n) =
      if (i, j, k, n) ∈ loopCells (lbound box) (ubound box) ncomp then
        -fac * (sol (i, j, 0, n) - sol (i, j - 1, 0, n))
      else fy (i, j, k, n) := by
  unfold mlalap_flux_y
  have h := loopNest_update_const (lbound box) (ubound box) ncomp
    (fun p : Int × Int × Int × Int =>
      -fac * (sol (p.1, p.2.1, 0, p.2.2.2) - sol (p.1, p.2.1 - 1, 0, p.2.2.2))) fy
  rw [h]

theorem mlalap_flux_y_m_apply (box : Box 2) (fy sol : Array4 RT) (fac dx probxlo : RT)
    (ncomp : Int) (i j k n : Int) :
    mlalap_flux_y_m box fy sol fac dx probxlo ncomp (i, j, k, n) =
      if (i, j, k, n) ∈ loopCells (lbound box) (ubound box) ncomp then
        -fac * (probxlo + ((i : RT) + 1 / 2) * dx) * (sol (i, j, 0, n) - sol (i, j - 1, 0, n))
      else fy (i, j, k, n) := by
  unfold mlalap_flux_y_m
  have h := loopNest_update_const (lbound box) (ubound box) ncomp
    (fun p : Int × Int × Int × Int =>
      -fac * (probxlo + ((p.1 : RT) + 1 / 2) * dx)
        * (sol (p.1, p.2.1, 0, p.2.2.2) - sol (p.1, p.2.1 - 1, 0, p.2.2.2))) fy
  rw [h]

/-- Kernel `mlalap_flux_xface` in closed form. -/
theorem mlalap_flux_xface_apply (box : Box 2) (fx sol : Array4 RT) (fac : RT)
    (xlen ncomp : Int) (i j k n : Int) :
    mlalap_flux_xface box fx sol fac xlen ncomp (i, j, k, n) =
      if k = 0 ∧ 0 ≤ n ∧ n < ncomp ∧ (lbound box).y ≤ j ∧ j ≤ (ubound box).y ∧
          (i = (lbound box).x ∨ i = (lbound box).x + xlen) then
        -fac * (sol (i, j, 0, n) - sol (i - 1, j, 0, n))
      else fx (i, j, k, n) := by
  have h := foldl_update_list
    (fun p : Int × Int × Int × Int =>
      -fac * (sol (p.1, p.2.1, 0, p.2.2.2) - sol (p.1 - 1, p.2.1, 0, p.2.2.2)))
    ((intRange 0 (ncomp - 1)).flatMap (fun n =>
      (intRange (lbound box).y (ubound box).y).flatMap (fun j =>
        [((lbound box).x, j, 0, n), ((lbound box).x + xlen, j, 0, n)]))) fx
  rw [foldl_flatMap_eq] at h
  have h2 : mlalap_flux_xface box fx sol fac xlen ncomp = _ := Eq.trans ?_ h
  · have hm : (i, j, k, n) ∈ (intRange 0 (ncomp - 1)).flatMap (fun n =>
        (intRange (lbound box).y (ubound box).y).flatMap (fun j =>
          [((lbound box).x, j, 0, n), ((lbound box).x + xlen, j, 0, n)])) ↔
        (k = 0 ∧ 0 ≤ n ∧ n < ncomp ∧ (lbound box).y ≤ j ∧ j ≤ (ubound box).y ∧
          (i = (lbound box).x ∨ i = (lbound box).x + xlen)) := by
      simp only [List.mem_flatMap, mem_intRange, List.mem_cons, List.mem_singleton,
        List.not_mem_nil, or_false, Prod.mk.injEq]
      constructor
      · rintro ⟨n', hn, j', hj, h | h⟩
        · obtain ⟨rfl, rfl, rfl, rfl⟩ := h
          exact ⟨rfl, hn.1, by omega, hj.1, hj.2, Or.inl rfl⟩
        · obtain ⟨rfl, rfl, rfl, rfl⟩ := h
          exact ⟨rfl, hn.1, by omega, hj.1, hj.2, Or.inr rfl⟩
      · rintro ⟨rfl, h1, h2, h3, h4, h5⟩
        refine ⟨n, ⟨h1, by omega⟩, j, ⟨h3, h4⟩, ?_⟩
        rcases h5 with rfl | rfl
        · exact Or.inl ⟨rfl, rfl, rfl, rfl⟩
        · exact Or.inr ⟨rfl, rfl, rfl, rfl⟩
    rw [h2]
    by_cases hc : (k = 0 ∧ 0 ≤ n ∧ n < ncomp ∧ (lbound box).y ≤ j ∧ j ≤ (ubound box).y ∧
        (i = (lbound box).x ∨ i = (lbound box).x + xlen))
    · rw [if_pos hc]
      exact if_pos (hm.2 hc)
    · rw [if_neg hc]
      exact if_neg (mt hm.1 hc)
  · unfold mlalap_flux_xface
    simp only
    congr 1
    funext s n
    rw [foldl_flatMap_eq]
    rfl

/-- Kernel `mlalap_flux_yface` in closed form. -/
theorem mlalap_flux_yface_apply (box : Box 2) (fy sol : Array4 RT) (fac : RT)
    (ylen ncomp : Int) (i j k n : Int) :
    mlalap_flux_yface box fy sol fac ylen ncomp (i, j, k, n) =
      if k = 0 ∧ 0 ≤ n ∧ n < ncomp ∧ (lbound box).x ≤ i ∧ i ≤ (ubound box).x ∧
          (j = (lbound box).y ∨ j = (lbound box).y + ylen) then
        -fac * (sol (i, j, 0, n) - sol (i, j - 1, 0, n))
      else fy (i, j, k, n) := by
  have h := foldl_update_list
    (fun p : Int × Int × Int × Int =>
      -fac * (sol (p.1, p.2.1, 0, p.2.2.2) - sol (p.1, p.2.1 - 1, 0, p.2.2.2)))
    ((intRange 0 (ncomp - 1)).flatMap (fun n =>
      (intRange (lbound box).x (ubound box).x).map (fun i => (i, (lbound box).y, 0, n)) ++
      (intRange (lbound box).x (ubound box).x).map
        (fun i => (i, (lbound box).y + ylen, 0, n)))) fy
  rw [foldl_flatMap_eq] at h
  have h2 : mlalap_flux_yface box fy sol fac ylen ncomp = _ := Eq.trans ?_ h
  · have hm : (i, j, k, n) ∈ (intRange 0 (ncomp - 1)).flatMap (fun n =>
        (intRange (lbound box).x (ubound box).x).map (fun i => (i, (lbound box).y, 0, n)) ++
        (intRange (lbound box).x (ubound box).x).map
          (fun i => (i, (lbound box).y + ylen, 0, n))) ↔
        (k = 0 ∧ 0 ≤ n ∧ n < ncomp ∧ (lbound box).x ≤ i ∧ i ≤ (ubound box).x ∧
          (j = (lbound box).y ∨ j = (lbound box).y + ylen)) := by
      simp only [List.mem_flatMap, mem_intRange, List.mem_append, List.mem_map,
        Prod.mk.injEq]
      constructor
      · rintro ⟨n', hn, h | h⟩
        · obtain ⟨i', hi', rfl, rfl, rfl, rfl⟩ := h
          exact ⟨rfl, hn.1, by omega, hi'.1, hi'.2, Or.inl rfl⟩
        · obtain ⟨i', hi', rfl, rfl, rfl, rfl⟩ := h
          exact ⟨rfl, hn.1, by omega, hi'.1, hi'.2, Or.inr rfl⟩
      · rintro ⟨rfl, h1, h2, h3, h4, h5⟩
        refine ⟨n, ⟨h1, by omega⟩, ?_⟩
        rcases h5 with rfl | rfl
        · exact Or.inl ⟨i, ⟨h3, h4⟩, rfl, rfl, rfl, rfl⟩
        · exact Or.inr ⟨i, ⟨h3, h4⟩, rfl, rfl, rfl, rfl⟩
    rw [h2]
    by_cases hc : (k = 0 ∧ 0 ≤ n ∧ n < ncomp ∧ (lbound box).x ≤ i ∧ i ≤ (ubound box).x ∧
        (j = (lbound box).y ∨ j = (lbound box).y + ylen))
    · rw [if_pos hc]
      exact if_pos (hm.2 hc)
    · rw [if_neg hc]
      exact if_neg (mt hm.1 hc)
  · unfold mlalap_flux_yface
    simp only
    congr 1
    funext s n
    rw [List.foldl_append, List.foldl_map, List.foldl_map]

end FluxLemmas

/-! ## Claim C22: the endpoint-only flux kernels -/

/-- C22: `mlalap_flux_xface` writes, for each row `j` in `[lo.y, hi.y]` and each component,
exactly the entries `fx(lo.x, j)` and `fx(lo.x + xlen, j)`, with the value
`-fac*(sol(i,j) - sol(i-1,j))`, which is the value `mlalap_flux_x` produces at a face of
its box, and leaves every other entry of `fx` unchanged; `mlalap_flux_yface` does the same
for the rows `lo.y` and `lo.y + ylen`, with the value of `mlalap_flux_y`. -/
theorem mlalap_flux_face_spec {RT : Type} [Field RT] (box : Box 2) (fx fy sol : Array4 RT)
    (fac : RT) (xlen ylen ncomp : Int) (i j k n : Int) :
    (mlalap_flux_xface box fx sol fac xlen ncomp (i, j, k, n) =
      if k = 0 ∧ 0 ≤ n ∧ n < ncomp ∧ (lbound box).y ≤ j ∧ j ≤ (ubound box).y ∧
          (i = (lbound box).x ∨ i = (lbound box).x + xlen) then
        -fac * (sol (i, j, 0, n) - sol (i - 1, j, 0, n))
      else fx (i, j, k, n)) ∧
    (mlalap_flux_yface box fy sol fac ylen ncomp (i, j, k, n) =
      if k = 0 ∧ 0 ≤ n ∧ n < ncomp ∧ (lbound box).x ≤ i ∧ i ≤ (ubound box).x ∧
          (j = (lbound box).y ∨ j = (lbound box).y + ylen) then
        -fac * (sol (i, j, 0, n) - sol (i, j - 1, 0, n))
      else fy (i, j, k, n)) ∧
    (∀ (fbox : Box 2) (f0 : Array4 RT) (fcomp : Int),
      (i, j, 0, n) ∈ loopCells (lbound fbox) (ubound fbox) fcomp →
      (0 ≤ n ∧ n < ncomp ∧ (lbound box).y ≤ j ∧ j ≤ (ubound box).y ∧
          (i = (lbound box).x ∨ i = (lbound box).x + xlen) →
        mlalap_flux_xface box fx sol fac xlen ncomp (i, j, 0, n) =
          mlalap_flux_x fbox f0 sol fac fcomp (i, j, 0, n)) ∧
      (0 ≤ n ∧ n < ncomp ∧ (lbound box).x ≤ i ∧ i ≤ (ubound box).x ∧
          (j = (lbound box).y ∨ j = (lbound box).y + ylen) →
        mlalap_flux_yface box fy sol fac ylen ncomp (i, j, 0, n) =
          mlalap_flux_y fbox f0 sol fac fcomp (i, j, 0, n))) := by
  refine ⟨mlalap_flux_xface_apply box fx sol fac xlen ncomp i j k n,
    mlalap_flux_yface_apply box fy sol fac ylen ncomp i j k n, ?_⟩
  intro fbox f0 fcomp hmem
  constructor
  · intro h
    rw [mlalap_flux_xface_apply, if_pos ⟨rfl, h⟩, mlalap_flux_x_apply, if_pos hmem]
  · intro h
    rw [mlalap_flux_yface_apply, if_pos ⟨rfl, h⟩, mlalap_flux_y_apply, if_pos hmem]

/-- Instance of C22: on the box `[0,3] × [0,1]` with `xlen = 3` the entry at the face
`(3, 1)` written by `mlalap_flux_xface` is the entry `mlalap_flux_x` writes there, and with
`ylen = 1` the entry at the face `(2, 1)` written by `mlalap_flux_yface` is the entry
`mlalap_flux_y` writes there. -/
theorem mlalap_flux_face_spec_witness :
    mlalap_flux_xface (Box.rect 0 0 3 1) scenarioPhi0 scenarioFx 2 3 1 (3, 1, 0, 0) =
      mlalap_flux_x (Box.rect 0 0 3 1) scenarioPhi0 scenarioFx 2 1 (3, 1, 0, 0) ∧
    mlalap_flux_yface (Box.rect 0 0 3 1) scenarioPhi0 scenarioFx 2 1 1 (2, 1, 0, 0) =
      mlalap_flux_y (Box.rect 0 0 3 1) scenarioPhi0 scenarioFx 2 1 (2, 1, 0, 0) :=
  ⟨((mlalap_flux_face_spec (Box.rect 0 0 3 1) scenarioPhi0 scenarioPhi0 scenarioFx 2 3 1 1
      3 1 0 0).2.2 (Box.rect 0 0 3 1) scenarioPhi0 1
      ((mem_loopCells _ _ _ _).2 (by decide))).1 (by decide),
   ((mlalap_flux_face_spec (Box.rect 0 0 3 1) scenarioPhi0 scenarioPhi0 scenarioFx 2 3 1 1
      2 1 0 0).2.2 (Box.rect 0 0 3 1) scenarioPhi0 1
      ((mem_loopCells _ _ _ _).2 (by decide))).2 (by decide)⟩

/-! ## Claim C28: conservation form of the operator -/

/-- C28: at every cell of the box, `mlalap_adotx` is the reaction term plus the discrete
divergence of the face fluxes that `mlalap_flux_x` and `mlalap_flux_y` compute with
`fac = beta*dxinv[0]` and `fac = beta*dxinv[1]`:
`y(i,j) = alpha*a(i,j)*x(i,j) + dxinv[0]*(fx(i+1,j) - fx(i,j)) + dxinv[1]*(fy(i,j+1) - fy(i,j))`;
and `mlalap_adotx_m` is related in the same way to `mlalap_flux_x_m` and `mlalap_flux_y_m`,
with the reaction term weighted by `rc`.  The flux boxes are any boxes that hold the faces
of the cell. -/
theorem mlalap_adotx_conservation {RT : Type} [Field RT] (box xbox ybox : Box 2)
    (y fx fy x a : Array4 RT) (dxinv : Fin 2 → RT) (alpha beta dx probxlo : RT)
    (ncomp xcomp ycomp : Int) (i j n : Int)
    (hcell : (i, j, 0, n) ∈ loopCells (lbound box) (ubound box) ncomp)
    (hx0 : (i, j, 0, n) ∈ loopCells (lbound xbox) (ubound xbox) xcomp)
    (hx1 : (i + 1, j, 0, n) ∈ loopCells (lbound xbox) (ubound xbox) xcomp)
    (hy0 : (i, j, 0, n) ∈ loopCells (lbound ybox) (ubound ybox) ycomp)
    (hy1 : (i, j + 1, 0, n) ∈ loopCells (lbound ybox) (ubound ybox) ycomp) :
    mlalap_adotx box y x a dxinv alpha beta ncomp (i, j, 0, n) =
      alpha * a (i, j, 0, n) * x (i, j, 0, n)
        + dxinv 0 * (mlalap_flux_x xbox fx x (beta * dxinv 0) xcomp (i + 1, j, 0, n)
            - mlalap_flux_x xbox fx x (beta * dxinv 0) xcomp (i, j, 0, n))
        + dxinv 1 * (mlalap_flux_y ybox fy x (beta * dxinv 1) ycomp (i, j + 1, 0, n)
            - mlalap_flux_y ybox fy x (beta * dxinv 1) ycomp (i, j, 0, n)) ∧
    mlalap_adotx_m box y x a dxinv alpha beta dx probxlo ncomp (i, j, 0, n) =
      alpha * a (i, j, 0, n) * x (i, j, 0, n) * (probxlo + ((i : RT) + 1 / 2) * dx)
        + dxinv 0 * (mlalap_flux_x_m xbox fx x (beta * dxinv 0) dx probxlo xcomp
              (i + 1, j, 0, n)
            - mlalap_flux_x_m xbox fx x (beta * dxinv 0) dx probxlo xcomp (i, j, 0, n))
        + dxinv 1 * (mlalap_flux_y_m ybox fy x (beta * dxinv 1) dx probxlo ycomp
              (i, j + 1, 0, n)
            - mlalap_flux_y_m ybox fy x (beta * dxinv 1) dx probxlo ycomp (i, j, 0, n)) := by
  constructor
  · rw [mlalap_adotx_apply, if_pos hcell, mlalap_flux_x_apply, if_pos hx1,
      mlalap_flux_x_apply, if_pos hx0, mlalap_flux_y_apply, if_pos hy1,
      mlalap_flux_y_apply, if_pos hy0]
    simp only [add_sub_cancel_right]
    ring
  · rw [mlalap_adotx_m_apply, if_pos hcell, mlalap_flux_x_m_apply, if_pos hx1,
      mlalap_flux_x_m_apply, if_pos hx0, mlalap_flux_y_m_apply, if_pos hy1,
      mlalap_flux_y_m_apply, if_pos hy0]
    simp only [add_sub_cancel_right]
    push_cast
    ring

/-- Instance of C28: the cell `(0,0)` of the box `[0,1] × [0,1]`, fluxes on the boxes
`[0,2] × [0,1]` and `[0,1] × [0,2]` of its faces, inverse spacings `4` and `0`. -/
theorem mlalap_adotx_conservation_witness :
    mlalap_adotx (Box.rect 0 0 1 1) scenarioPhi0 scenarioFx scenarioRhs scenarioDxinv 3 5 1
        (0, 0, 0, 0) =
      3 * scenarioRhs (0, 0, 0, 0) * scenarioFx (0, 0, 0, 0)
        + scenarioDxinv 0 *
            (mlalap_flux_x (Box.rect 0 0 2 1) scenarioPhi0 scenarioFx (5 * scenarioDxinv 0) 1
                (0 + 1, 0, 0, 0)
              - mlalap_flux_x (Box.rect 0 0 2 1) scenarioPhi0 scenarioFx (5 * scenarioDxinv 0) 1
                (0, 0, 0, 0))
        + scenarioDxinv 1 *
            (mlalap_flux_y (Box.rect 0 0 1 2) scenarioPhi0 scenarioFx (5 * scenarioDxinv 1) 1
                (0, 0 + 1, 0, 0)
              - mlalap_flux_y (Box.rect 0 0 1 2) scenarioPhi0 scenarioFx (5 * scenarioDxinv 1) 1
                (0, 0, 0, 0)) :=
  (mlalap_adotx_conservation (Box.rect 0 0 1 1) (Box.rect 0 0 2 1) (Box.rect 0 0 1 2)
    scenarioPhi0 scenarioPhi0 scenarioPhi0 scenarioFx scenarioRhs scenarioDxinv 3 5 (1 / 4) 1
    1 1 1 0 0 0
    ((mem_loopCells _ _ _ _).2 (by decide)) ((mem_loopCells _ _ _ _).2 (by decide))
    ((mem_loopCells _ _ _ _).2 (by decide)) ((mem_loopCells _ _ _ _).2 (by decide))
    ((mem_loopCells _ _ _ _).2 (by decide))).1

/-! ## Claim C25: the `A` coefficient across multigrid levels -/

/-- The `A` coefficients that a returning pass of the loop of `averageDownCoeffsSameAmrLevel`
leaves. -/
theorem MLEBABecLap.averageDownCoeffsSameAmrLevelPass_a {D : Nat} (K : Collaborators D)
    (amrlev : Nat) (op r : MLEBABecLap D) (mglev : Nat)
    (h : MLEBABecLap.averageDownCoeffsSameAmrLevelPass K amrlev op mglev = .ok r) :
    r.m_a_scalar = op.m_a_scalar ∧
    r.m_a_coeffs = Function.update op.m_a_coeffs amrlev
      (if op.m_a_scalar = 0 then
        Function.update (op.m_a_coeffs amrlev) mglev ((op.m_a_coeffs amrlev mglev).setVal 0)
      else Function.update (op.m_a_coeffs amrlev) mglev
        (K.EB_average_down (op.m_a_coeffs amrlev (mglev - 1)) (op.m_a_coeffs amrlev mglev) 0 1
          (if amrlev > 0 then (fun _ => K.mg_coarsen_ratio)
            else K.mg_coarsen_ratio_vec (mglev - 1)))) := by
  unfold MLEBABecLap.averageDownCoeffsSameAmrLevelPass at h
  simp only at h
  split at h
  · cases h
  · injection h with h
    subst h
    exact ⟨rfl, rfl⟩

/-- The `A` coefficients that the loop of `averageDownCoeffsSameAmrLevel` leaves when its
first `k` passes (multigrid levels `1, ..., k`) return. -/
theorem MLEBABecLap.sameAmrLevel_a_loop {D : Nat} (K : Collaborators D) (amrlev : Nat)
    (op : MLEBABecLap D) (k : Nat) :
    ∀ r : MLEBABecLap D,
      ((List.range k).map (fun m => m + 1)).foldlM
        (MLEBABecLap.averageDownCoeffsSameAmrLevelPass K amrlev) op = .ok r →
      r.m_a_scalar = op.m_a_scalar ∧
      (∀ m, m = 0 ∨ k < m → r.m_a_coeffs amrlev m = op.m_a_coeffs amrlev m) ∧
      (∀ m, 1 ≤ m → m ≤ k →
        r.m_a_coeffs amrlev m =
          if op.m_a_scalar = 0 then (op.m_a_coeffs amrlev m).setVal 0
          else K.EB_average_down (r.m_a_coeffs amrlev (m - 1)) (op.m_a_coeffs amrlev m) 0 1
            (if amrlev > 0 then (fun _ => K.mg_coarsen_ratio)
              else K.mg_coarsen_ratio_vec (m - 1))) := by
  induction k with
  | zero =>
    intro r hr
    injection hr with hr
    subst hr
    refine ⟨rfl, fun _ _ => rfl, ?_⟩
    intro m h1 h2
    omega
  | succ k ih =>
    intro r hr
    rw [List.range_succ, List.map_append, List.foldlM_append] at hr
    cases hM : ((List.range k).map (fun m => m + 1)).foldlM
        (MLEBABecLap.averageDownCoeffsSameAmrLevelPass K amrlev) op with
    | error e =>
      rw [hM] at hr
      cases hr
    | ok M =>
      rw [hM] at hr
      simp only [List.map_cons, List.map_nil, List.foldlM_cons, List.foldlM_nil, bind,
        Except.bind, pure, Except.pure] at hr
      obtain ⟨h1, h2, h3⟩ := ih M hM
      cases hP : MLEBABecLap.averageDownCoeffsSameAmrLevelPass K amrlev M (k + 1) with
      | error e =>
        rw [hP] at hr
        cases hr
      | ok r1 =>
        rw [hP] at hr
        injection hr with hr
        subst hr
        obtain ⟨ha, hb⟩ := MLEBABecLap.averageDownCoeffsSameAmrLevelPass_a K amrlev M r1
          (k + 1) hP
        refine ⟨ha.trans h1, ?_, ?_⟩
        · intro m hm
          have hne : m ≠ k + 1 := by omega
          rw [hb]
          simp only [Function.update_same]
          split
          · rw [Function.update_noteq hne]
            exact h2 m (by omega)
          · rw [Function.update_noteq hne]
            exact h2 m (by omega)
        · intro m hm1 hm2
          rw [hb]
          simp only [Function.update_same]
          by_cases hm : m = k + 1
          · subst hm
            have hprev : k + 1 - 1 ≠ k + 1 := by omega
            rw [h1]
            by_cases ha0 : op.m_a_scalar = 0
            · simp only [ha0, if_true, Function.update_same]
              rw [h2 (k + 1) (Or.inr (Nat.lt_succ_self k))]
            · simp only [ha0, if_false, Function.update_same]
              rw [Function.update_noteq hprev, h2 (k + 1) (Or.inr (Nat.lt_succ_self k))]
          · have hprev : m - 1 ≠ k + 1 := by omega
            rw [h1]
            by_cases ha0 : op.m_a_scalar = 0
            · simp only [ha0, if_true]
              rw [Function.update_noteq hm]
              have := h3 m hm1 (by omega)
              rw [if_pos ha0] at this
              exact this
            · simp only [ha0, if_false]
              rw [Function.update_noteq hm, Function.update_noteq hprev]
              have := h3 m hm1 (by omega)
              rw [if_neg ha0] at this
              exact this

/-- C25: when `alpha` (`m_a_scalar`) is `0`, `averageDownCoeffsSameAmrLevel` leaves the `A`
coefficient identically zero at every multigrid level `mglev >= 1` of the AMR level,
whatever the finest level holds; when `alpha != 0` the `A` coefficient of level `mglev` is
`EB_average_down` of the `A` coefficient of level `mglev - 1` (as the call leaves it), with
the ratio of the level.  Level `0` is left as it is.  This holds of every result of the
call, and the call returns when the EB `B` pointers that it dereferences without a test are
set. -/
theorem MLEBABecLap.averageDownSameAmrLevel_a_spec {D : Nat} (K : Collaborators D)
    (op : MLEBABecLap D) (amrlev : Nat) :
    (∀ r, MLEBABecLap.averageDownCoeffsSameAmrLevel K op amrlev = .ok r →
      (op.m_a_scalar = 0 →
        ∀ mglev, 1 ≤ mglev → mglev < op.m_num_mg_levels amrlev →
          ∀ c n, (r.m_a_coeffs amrlev mglev).val c n = 0) ∧
      (op.m_a_scalar ≠ 0 →
        ∀ mglev, 1 ≤ mglev → mglev < op.m_num_mg_levels amrlev →
          r.m_a_coeffs amrlev mglev =
            K.EB_average_down (r.m_a_coeffs amrlev (mglev - 1))
              (op.m_a_coeffs amrlev mglev) 0 1
              (if amrlev > 0 then (fun _ => K.mg_coarsen_ratio)
                else K.mg_coarsen_ratio_vec (mglev - 1))) ∧
      r.m_a_coeffs amrlev 0 = op.m_a_coeffs amrlev 0) ∧
    (MLEBABecLap.EBCoeffPointersOKAt op amrlev →
      ∃ r, MLEBABecLap.averageDownCoeffsSameAmrLevel K op amrlev = .ok r) := by
  refine ⟨?_, MLEBABecLap.averageDownCoeffsSameAmrLevel_returns K op amrlev⟩
  intro r hr
  obtain ⟨_, h2, h3⟩ := MLEBABecLap.sameAmrLevel_a_loop K amrlev op
    (op.m_num_mg_levels amrlev - 1) r hr
  refine ⟨?_, ?_, h2 0 (Or.inl rfl)⟩
  · intro ha mglev hm1 hm2 c n
    rw [h3 mglev hm1 (by omega), if_pos ha]
    rfl
  · intro ha mglev hm1 hm2
    rw [h3 mglev hm1 (by omega), if_neg ha]

/-- Instance of C25: with `alpha = 0` and the `A` coefficient `3` on both multigrid levels,
the call returns and level `1` is zero afterwards; with `alpha = 1` on the two-level sample
operator, the call returns and level `1` of AMR level `1` is the average of its level
`0`. -/
theorem MLEBABecLap.averageDownSameAmrLevel_a_spec_witness :
    (∃ r, MLEBABecLap.averageDownCoeffsSameAmrLevel (Collaborators.probe 2)
        MLEBABecLap.sampleZeroAlpha 0 = .ok r ∧
      (r.m_a_coeffs 0 1).val (0, 0, 0) 0 = 0) ∧
    (∃ r, MLEBABecLap.averageDownCoeffsSameAmrLevel (Collaborators.probe 2)
        MLEBABecLap.sampleTwoLevel 1 = .ok r ∧
      r.m_a_coeffs 1 1 =
        (Collaborators.probe 2).EB_average_down (r.m_a_coeffs 1 (1 - 1))
          (MLEBABecLap.sampleTwoLevel.m_a_coeffs 1 1) 0 1
          (if 1 > 0 then (fun _ => (Collaborators.probe 2).mg_coarsen_ratio)
            else (Collaborators.probe 2).mg_coarsen_ratio_vec (1 - 1))) :=
  ⟨Exists.elim ((MLEBABecLap.averageDownSameAmrLevel_a_spec (Collaborators.probe 2)
      MLEBABecLap.sampleZeroAlpha 0).2
      (MLEBABecLap.EBCoeffPointersOKAt.at_of_no_eb 0 (fun _ => rfl)))
    (fun r hr => ⟨r, hr, ((MLEBABecLap.averageDownSameAmrLevel_a_spec (Collaborators.probe 2)
      MLEBABecLap.sampleZeroAlpha 0).1 r hr).1 rfl 1 (le_refl 1) (by decide) (0, 0, 0) 0⟩),
   Exists.elim ((MLEBABecLap.averageDownSameAmrLevel_a_spec (Collaborators.probe 2)
      MLEBABecLap.sampleTwoLevel 1).2
      (MLEBABecLap.EBCoeffPointersOKAt.at_of_no_eb 1 (fun _ => rfl)))
    (fun r hr => ⟨r, hr, ((MLEBABecLap.averageDownSameAmrLevel_a_spec (Collaborators.probe 2)
      MLEBABecLap.sampleTwoLevel 1).1 r hr).2.1 (by decide) 1 (le_refl 1) (by decide)⟩)⟩

/-! ## Claims C23 and C24: equality and setters of `BCRec` -/

/-- The loop of `operator==` started with the value `init` of `retval`. -/
theorem BCRec.opEq_loop {D : Nat} (r rhs : BCRec D) (l : List (Fin (2 * D))) (init : Bool) :
    l.foldl (fun retval i =>
        if retval then retval && decide (r.bc i = rhs.bc i) else retval) init =
      (init && l.all (fun i => decide (r.bc i = rhs.bc i))) := by
  induction l generalizing init with
  | nil => simp
  | cons i t ih =>
    rw [List.foldl_cons, ih]
    cases init <;> simp

theorem BCRec.opEq_iff {D : Nat} (r rhs : BCRec D) :
    r.opEq rhs = true ↔ ∀ i : Fin (2 * D), r.bc i = rhs.bc i := by
  unfold BCRec.opEq
  rw [BCRec.opEq_loop]
  simp [List.all_eq_true]

/-- C23: `a == b` is `true` if and only if all `2*Dim` integer codes of `a` and `b` are
equal (the low and the high code of every direction); `a != b` is the negation of `a == b`,
so it is `true` exactly when some code differs; and a default-constructed `BCRec` has
`BCType::bogus` on every face. -/
theorem BCRec.equality_spec {D : Nat} (a b : BCRec D) (bogus : Int) :
    (a.opEq b = true ↔ ∀ i : Fin (2 * D), a.bc i = b.bc i) ∧
    (a.opEq b = true ↔ ∀ dir : Fin D, a.lo dir = b.lo dir ∧ a.hi dir = b.hi dir) ∧
    a.opNe b = !(a.opEq b) ∧
    (a.opNe b = true ↔ ∃ i : Fin (2 * D), a.bc i ≠ b.bc i) ∧
    (∀ dir : Fin D, (BCRec.defaultCtor bogus : BCRec D).lo dir = bogus ∧
      (BCRec.defaultCtor bogus : BCRec D).hi dir = bogus) := by
  refine ⟨BCRec.opEq_iff a b, ?_, rfl, ?_, fun _ => ⟨rfl, rfl⟩⟩
  · rw [BCRec.opEq_iff]
    constructor
    · intro h dir
      exact ⟨h _, h _⟩
    · intro h i
      rcases BCRec.index_cases i with ⟨d, rfl⟩ | ⟨d, rfl⟩
      · exact (h d).1
      · exact (h d).2
  · unfold BCRec.opNe
    rw [Bool.not_eq_true', ← Bool.not_eq_true, BCRec.opEq_iff]
    push_neg
    rfl

/-- Instance of C23: two records that differ in the high code of direction `y` only are not
equal, and each is equal to itself. -/
theorem BCRec.equality_spec_witness :
    (BCRec.ofCodes2 1 2 3 4).opEq (BCRec.ofCodes2 1 2 3 5) = false ∧
    (BCRec.ofCodes2 1 2 3 4).opNe (BCRec.ofCodes2 1 2 3 5) = true ∧
    (BCRec.ofCodes2 1 2 3 4).opEq (BCRec.ofCodes2 1 2 3 4) = true :=
  ⟨Bool.eq_false_iff.2 (fun h =>
      absurd ((BCRec.equality_spec (BCRec.ofCodes2 1 2 3 4) (BCRec.ofCodes2 1 2 3 5) 0).1.1 h
        ⟨3, by decide⟩) (by decide)),
    (BCRec.equality_spec (BCRec.ofCodes2 1 2 3 4) (BCRec.ofCodes2 1 2 3 5) 0).2.2.2.1.2
      ⟨⟨3, by decide⟩, by decide⟩,
    (BCRec.equality_spec (BCRec.ofCodes2 1 2 3 4) (BCRec.ofCodes2 1 2 3 4) 0).1.2
      (fun _ => rfl)⟩

/-- C24: the setters change one face.  After `setLo(dir, v)`, `lo(dir) == v` and the other
`2*Dim - 1` codes are unchanged; after `setHi(dir, v)`, `hi(dir) == v` and the other codes
are unchanged; and `set(face, v)` is `setLo(face.coordDir(), v)` for a low face and
`setHi(face.coordDir(), v)` for a high face. -/
theorem BCRec.setters_spec {D : Nat} (r : BCRec D) (dir : Fin D) (v : Int)
    (face : Orientation D) :
    ((r.setLo dir v).lo dir = v ∧
      (∀ i : Fin (2 * D), i ≠ BCRec.ilo dir → (r.setLo dir v).bc i = r.bc i) ∧
      (∀ d : Fin D, d ≠ dir → (r.setLo dir v).lo d = r.lo d) ∧
      (∀ d : Fin D, (r.setLo dir v).hi d = r.hi d)) ∧
    ((r.setHi dir v).hi dir = v ∧
      (∀ i : Fin (2 * D), i ≠ BCRec.ihi dir → (r.setHi dir v).bc i = r.bc i) ∧
      (∀ d : Fin D, d ≠ dir → (r.setHi dir v).hi d = r.hi d) ∧
      (∀ d : Fin D, (r.setHi dir v).lo d = r.lo d)) ∧
    (face.side = Side.low → r.set face v = r.setLo face.coordDir v) ∧
    (face.side = Side.high → r.set face v = r.setHi face.coordDir v) := by
  refine ⟨⟨?_, ?_, ?_, ?_⟩, ⟨?_, ?_, ?_, ?_⟩, ?_, ?_⟩
  · simp [BCRec.setLo, BCRec.lo]
  · intro i hi
    simp [BCRec.setLo, Function.update_noteq hi]
  · intro d hd
    have : BCRec.ilo d ≠ BCRec.ilo dir := fun e => hd (BCRec.ilo_inj e)
    simp [BCRec.setLo, BCRec.lo, Function.update_noteq this]
  · intro d
    have : BCRec.ihi d ≠ BCRec.ilo dir := fun e => BCRec.ilo_ne_ihi dir d e.symm
    simp [BCRec.setLo, BCRec.hi, Function.update_noteq this]
  · simp [BCRec.setHi, BCRec.hi]
  · intro i hi
    simp [BCRec.setHi, Function.update_noteq hi]
  · intro d hd
    have : BCRec.ihi d ≠ BCRec.ihi dir := fun e => hd (BCRec.ihi_inj e)
    simp [BCRec.setHi, BCRec.hi, Function.update_noteq this]
  · intro d
    have : BCRec.ilo d ≠ BCRec.ihi dir := BCRec.ilo_ne_ihi d dir
    simp [BCRec.setHi, BCRec.lo, Function.update_noteq this]
  · intro h
    simp [BCRec.set, Orientation.isLow, h]
  · intro h
    simp [BCRec.set, Orientation.isLow, h]

/-- Instance of C24: on the record with codes `1, 2, 3, 4`, `setLo(1, 9)` leaves the code of
the low `x` face, and `set` with the high `y` face is `setHi(1, 9)`. -/
theorem BCRec.setters_spec_witness :
    ((BCRec.ofCodes2 1 2 3 4).setLo 1 9).lo 0 = (BCRec.ofCodes2 1 2 3 4).lo 0 ∧
    (BCRec.ofCodes2 1 2 3 4).set ⟨1, Side.high⟩ 9 = (BCRec.ofCodes2 1 2 3 4).setHi 1 9 :=
  ⟨(BCRec.setters_spec (BCRec.ofCodes2 1 2 3 4) 1 9 ⟨1, Side.high⟩).1.2.2.1 0 (by decide),
   (BCRec.setters_spec (BCRec.ofCodes2 1 2 3 4) 1 9 ⟨1, Side.high⟩).2.2.2 rfl⟩

/-! ## Claim C26: the bound on the stencil order in `applyBC` -/

/-- C26: whenever `maxorder > 4`, `applyBC` ends in a fatal error, whatever the boundary
kernels are, so no kernel output is kept; when the two `BL_ASSERT` of the function hold or
are compiled out, the error is "MLEBABecLap::applyBC: maxorder too high"; and for
`maxorder <= 4` this check never fires: the result is not that error, and when the two
`BL_ASSERT` hold or are compiled out the call returns. -/
theorem MLEBABecLap.applyBC_maxorder {D : Nat} (X : BndryEnv D) (op : MLEBABecLap D)
    (amrlev mglev : Nat) (inp : MultiFab) (bc_mode : BCMode) (s_mode : StateMode)
    (bndry : Option (Orientation D → Int × Int × Int → Nat → ℚ))
    (skip_fillboundary : Bool) :
    (4 < X.maxorder →
      ∃ e, MLEBABecLap.applyBC X op amrlev mglev inp bc_mode s_mode bndry skip_fillboundary
        = .error e) ∧
    (4 < X.maxorder →
      (X.assertions = true → (mglev = 0 ∨ bc_mode = BCMode.Homogeneous) ∧
        (bndry.isSome = true ∨ bc_mode = BCMode.Homogeneous)) →
      MLEBABecLap.applyBC X op amrlev mglev inp bc_mode s_mode bndry skip_fillboundary
        = .error "MLEBABecLap::applyBC: maxorder too high") ∧
    (X.maxorder ≤ 4 →
      MLEBABecLap.applyBC X op amrlev mglev inp bc_mode s_mode bndry skip_fillboundary
        ≠ .error "MLEBABecLap::applyBC: maxorder too high") ∧
    (X.maxorder ≤ 4 →
      (X.assertions = true → (mglev = 0 ∨ bc_mode = BCMode.Homogeneous) ∧
        (bndry.isSome = true ∨ bc_mode = BCMode.Homogeneous)) →
      ∃ r, MLEBABecLap.applyBC X op amrlev mglev inp bc_mode s_mode bndry skip_fillboundary
        = .ok r) := by
  refine ⟨?_, ?_, ?_, ?_⟩
  · intro h
    unfold MLEBABecLap.applyBC
    split
    · exact ⟨_, rfl⟩
    · split
      · exact ⟨_, rfl⟩
      · simp only
        rw [if_neg (not_le.2 h)]
        exact ⟨_, rfl⟩
  · intro h hpre
    unfold MLEBABecLap.applyBC
    rw [if_neg (fun hc => hc.2 (hpre hc.1).1), if_neg (fun hc => hc.2 (hpre hc.1).2)]
    simp only
    rw [if_neg (not_le.2 h)]
  · intro h
    unfold MLEBABecLap.applyBC
    split
    · intro hc
      injection hc with hc
      exact absurd hc (by decide)
    · split
      · intro hc
        injection hc with hc
        exact absurd hc (by decide)
      · simp only
        rw [if_pos h]
        intro hc
        cases hc
  · intro h hpre
    unfold MLEBABecLap.applyBC
    rw [if_neg (fun hc => hc.2 (hpre hc.1).1), if_neg (fun hc => hc.2 (hpre hc.1).2)]
    simp only
    rw [if_pos h]
    exact ⟨_, rfl⟩

/-- Instance of C26: with `maxorder = 5` and assertions compiled in, a homogeneous call on
multigrid level `0` ends in the "maxorder too high" error; with `maxorder = 3` the call
returns. -/
theorem MLEBABecLap.applyBC_maxorder_witness :
    MLEBABecLap.applyBC BndryEnv.sampleHighOrder (MLEBABecLap.sample 2 1) 0 0
        (MultiFab.const 1 0) BCMode.Homogeneous StateMode.Solution none false
      = .error "MLEBABecLap::applyBC: maxorder too high" ∧
    (∃ r, MLEBABecLap.applyBC BndryEnv.sample (MLEBABecLap.sample 2 1) 0 0
        (MultiFab.const 1 0) BCMode.Inhomogeneous StateMode.Solution none false = .ok r) :=
  ⟨(MLEBABecLap.applyBC_maxorder BndryEnv.sampleHighOrder (MLEBABecLap.sample 2 1) 0 0
      (MultiFab.const 1 0) BCMode.Homogeneous StateMode.Solution none false).2.1
      (by decide) (fun _ => ⟨Or.inl rfl, Or.inr rfl⟩),
   (MLEBABecLap.applyBC_maxorder BndryEnv.sample (MLEBABecLap.sample 2 1) 0 0
      (MultiFab.const 1 0) BCMode.Inhomogeneous StateMode.Solution none false).2.2.2
      (by decide) (fun h => absurd h (by decide))⟩

/-! ## Claim C30: the dispatch of `compGrad` on the type of the box -/

/-- The component loop of one cell when the body writes a value that depends on the cell and
the component only. -/
theorem ebLoop_set_inner (v : Int × Int × Int → Nat → ℚ) (c : Int × Int × Int) (m : Nat)
    (s : Int × Int × Int → Nat → ℚ) :
    (List.range m).foldl (fun g n => setAt g c n (v c n)) s =
      fun c1 n1 => if c1 = c ∧ n1 < m then v c1 n1 else s c1 n1 := by
  induction m with
  | zero => simp
  | succ k ih =>
    rw [List.range_succ, List.foldl_append, ih]
    simp only [List.foldl_cons, List.foldl_nil]
    funext c1 n1
    by_cases hc : c1 = c
    · subst hc
      by_cases hn : n1 = k
      · subst hn; simp [setAt]
      · by_cases hlt : n1 < k
        · have : n1 < k + 1 := by omega
          simp [setAt, hn, hlt, this]
        · have : ¬ n1 < k + 1 := by omega
          simp [setAt, hn, hlt, this]
    · simp [setAt, hc]

/-- The loop over cells and components when the body writes a value that depends on the cell
and the component only. -/
theorem ebLoop_set (v : Int × Int × Int → Nat → ℚ) (cells : List (Int × Int × Int))
    (ncomp : Nat) (s : Int × Int × Int → Nat → ℚ) :
    ebLoop cells ncomp (fun c n g => setAt g c n (v c n)) s =
      fun c n => if c ∈ cells ∧ n < ncomp then v c n else s c n := by
  unfold ebLoop
  induction cells generalizing s with
  | nil => simp
  | cons a t ih =>
    rw [List.foldl_cons, ebLoop_set_inner, ih]
    funext c n
    by_cases hn : n < ncomp
    · by_cases ht : c ∈ t
      · simp [ht, hn]
      · by_cases ha : c = a
        · subst ha; simp [ht, hn]
        · simp [ht, ha, hn]
    · simp [hn]

/-- A loop with abort over a list: when every pass either returns or aborts with the same
message `e`, whatever the state, and some element of the list aborts, the loop aborts with
`e`. -/
theorem foldlM_abort {σ α : Type} (f : σ → α → Except String σ) (e : String)
    (bad : α → Prop)
    (hbad : ∀ s a, bad a → f s a = .error e)
    (hgood : ∀ s a, ¬ bad a → ∃ s1, f s a = .ok s1)
    (l : List α) (hl : ∃ a ∈ l, bad a) (s : σ) :
    l.foldlM f s = .error e := by
  induction l generalizing s with
  | nil =>
    obtain ⟨a, ha, _⟩ := hl
    cases ha
  | cons a t ih =>
    rw [List.foldlM_cons]
    by_cases ha : bad a
    · rw [hbad s a ha]
      rfl
    · obtain ⟨s1, hs1⟩ := hgood s a ha
      rw [hs1]
      obtain ⟨b, hb, hbb⟩ := hl
      have hbt : b ∈ t := by
        rcases List.mem_cons.1 hb with h | h
        · subst h; exact absurd hbb ha
        · exact h
      exact ih ⟨b, hbt, hbb⟩ s1

/-- On a box that is covered or regular the body of the loop of `compGrad` returns. -/
theorem MLEBABecLap.compGradBox_returns {D : Nat} (X : BndryEnv D) (op : MLEBABecLap D)
    (amrlev : Nat) (cgc : Bool) (s : Int × Int × Int → Nat → ℚ) (grad : Fin D → MultiFab)
    (bx : TileBox D)
    (h : ¬ (X.fabtyp amrlev 0 bx ≠ FabType.covered ∧ X.fabtyp amrlev 0 bx ≠ FabType.regular)) :
    ∃ g, MLEBABecLap.compGradBox X op amrlev cgc s grad bx = .ok g := by
  unfold MLEBABecLap.compGradBox
  simp only
  by_cases hc : X.fabtyp amrlev 0 bx = FabType.covered
  · rw [if_pos hc]
    exact ⟨_, rfl⟩
  · rw [if_neg hc]
    have hr : X.fabtyp amrlev 0 bx = FabType.regular := by
      by_contra hr
      exact h ⟨hc, hr⟩
    rw [if_pos hr]
    exact ⟨_, rfl⟩

/-- On a cut box, with `phi` on cell centroids, the body of the loop of `compGrad` aborts. -/
theorem MLEBABecLap.compGradBox_aborts {D : Nat} (X : BndryEnv D) (op : MLEBABecLap D)
    (amrlev : Nat) (grad_loc : Location) (s : Int × Int × Int → Nat → ℚ)
    (grad : Fin D → MultiFab) (bx : TileBox D)
    (h : X.fabtyp amrlev 0 bx ≠ FabType.covered ∧ X.fabtyp amrlev 0 bx ≠ FabType.regular) :
    MLEBABecLap.compGradBox X op.setPhiOnCentroid amrlev
        (decide (Location.FaceCentroid = grad_loc)) s grad bx =
      .error (if grad_loc = Location.FaceCentroid then "phi_on_centroid is still a WIP"
        else "If computing the gradient at face centers we assume phi at cell centers") := by
  unfold MLEBABecLap.compGradBox
  simp only
  rw [if_neg h.1, if_neg h.2]
  by_cases hg : grad_loc = Location.FaceCentroid
  · subst hg
    simp [MLEBABecLap.setPhiOnCentroid]
  · have hg' : ¬ (Location.FaceCentroid = grad_loc) := fun e => hg e.symm
    simp [MLEBABecLap.setPhiOnCentroid, hg, hg']

/-- On a box that is covered or regular the body of the loop of `compGrad` returns, and the
gradient it leaves is the value of the branch on the faces of the box and the old gradient
elsewhere. -/
theorem MLEBABecLap.compGradBox_value {D : Nat} (X : BndryEnv D) (op : MLEBABecLap D)
    (amrlev : Nat) (cgc : Bool) (s : Int × Int × Int → Nat → ℚ) (grad : Fin D → MultiFab)
    (bx : TileBox D)
    (h : X.fabtyp amrlev 0 bx = FabType.covered ∨ X.fabtyp amrlev 0 bx = FabType.regular) :
    ∃ g, MLEBABecLap.compGradBox X op amrlev cgc s grad bx = .ok g ∧
      ∀ (idim : Fin D) (c : Int × Int × Int) (n : Nat),
        (g idim).val c n =
          if c ∈ bx.nodaltilebox idim ∧ n < op.getNComp then
            (if X.fabtyp amrlev 0 bx = FabType.covered then 0
              else X.InvCellSize amrlev 0 idim * (s c n - s (lowerCell idim.val c) n))
          else (grad idim).val c n := by
  unfold MLEBABecLap.compGradBox
  simp only
  by_cases hc : X.fabtyp amrlev 0 bx = FabType.covered
  · rw [if_pos hc]
    refine ⟨_, rfl, ?_⟩
    intro idim c n
    simp only [ebLoop_set, if_pos hc]
  · have hr : X.fabtyp amrlev 0 bx = FabType.regular := h.resolve_left hc
    rw [if_neg hc, if_pos hr]
    refine ⟨_, rfl, ?_⟩
    intro idim c n
    simp only [ebLoop_set, if_neg hc]

/-- The loop over boxes of `compGrad` when no box is cut: it returns, and a face that the
boxes holding it agree on has the value of these boxes; a face in no box, and a component
beyond `ncomp`, keep their value. -/
theorem MLEBABecLap.compGrad_loop_value {D : Nat} (X : BndryEnv D) (op : MLEBABecLap D)
    (amrlev : Nat) (cgc : Bool) (s : Int × Int × Int → Nat → ℚ) (l : List (TileBox D))
    (hl : ∀ b ∈ l, X.fabtyp amrlev 0 b = FabType.covered ∨
      X.fabtyp amrlev 0 b = FabType.regular) (grad : Fin D → MultiFab) :
    ∃ g, l.foldlM (MLEBABecLap.compGradBox X op amrlev cgc s) grad = .ok g ∧
      ∀ (idim : Fin D) (c : Int × Int × Int) (n : Nat),
        (∀ y : ℚ, n < op.getNComp → (∃ b ∈ l, c ∈ b.nodaltilebox idim) →
          (∀ b ∈ l, c ∈ b.nodaltilebox idim →
            (if X.fabtyp amrlev 0 b = FabType.covered then 0
              else X.InvCellSize amrlev 0 idim * (s c n - s (lowerCell idim.val c) n)) = y) →
          (g idim).val c n = y) ∧
        ((¬ n < op.getNComp ∨ ∀ b ∈ l, c ∉ b.nodaltilebox idim) →
          (g idim).val c n = (grad idim).val c n) := by
  induction l generalizing grad with
  | nil =>
    refine ⟨grad, rfl, ?_⟩
    intro idim c n
    refine ⟨?_, fun _ => rfl⟩
    rintro y _ ⟨b, hb, _⟩
    cases hb
  | cons b t ih =>
    obtain ⟨g1, hg1, hv1⟩ := MLEBABecLap.compGradBox_value X op amrlev cgc s grad b
      (hl b (List.mem_cons_self _ _))
    obtain ⟨g, hg, hv⟩ := ih (fun b1 hb1 => hl b1 (List.mem_cons_of_mem _ hb1)) g1
    refine ⟨g, ?_, ?_⟩
    · rw [List.foldlM_cons, hg1]
      exact hg
    · intro idim c n
      constructor
      · intro y hn hex hall
        by_cases ht : ∃ b1 ∈ t, c ∈ b1.nodaltilebox idim
        · exact (hv idim c n).1 y hn ht
            (fun b1 hb1 hc1 => hall b1 (List.mem_cons_of_mem _ hb1) hc1)
        · have hb : c ∈ b.nodaltilebox idim := by
            obtain ⟨b1, hb1, hc1⟩ := hex
            rcases List.mem_cons.1 hb1 with h | h
            · subst h
              exact hc1
            · exact absurd ⟨b1, h, hc1⟩ ht
          rw [(hv idim c n).2 (Or.inr (fun b1 hb1 hc1 => ht ⟨b1, hb1, hc1⟩)), hv1 idim c n,
            if_pos ⟨hb, hn⟩]
          exact hall b (List.mem_cons_self _ _) hb
      · intro h
        have h1 : ¬ n < op.getNComp ∨ ∀ b1 ∈ t, c ∉ b1.nodaltilebox idim := by
          rcases h with h | h
          · exact Or.inl h
          · exact Or.inr (fun b1 hb1 => h b1 (List.mem_cons_of_mem _ hb1))
        have h2 : ¬ (c ∈ b.nodaltilebox idim ∧ n < op.getNComp) := by
          rintro ⟨hc, hn⟩
          rcases h with h | h
          · exact h hn
          · exact h b (List.mem_cons_self _ _) hc
        rw [(hv idim c n).2 h1, hv1 idim c n, if_neg h2]

/-- A loop with abort that returns has run its passes one after the other: at every position
of the list the passes before it have returned, the pass at the position has returned, and
the passes after it lead to the result. -/
theorem foldlM_split {σ α : Type} (f : σ → α → Except String σ) (pre post : List α) (b : α)
    (s r : σ) (h : (pre ++ b :: post).foldlM f s = .ok r) :
    ∃ s0 s1, pre.foldlM f s = .ok s0 ∧ f s0 b = .ok s1 ∧ post.foldlM f s1 = .ok r := by
  rw [List.foldlM_append] at h
  cases h0 : pre.foldlM f s with
  | error e =>
    rw [h0] at h
    cases h
  | ok s0 =>
    rw [h0] at h
    simp only [bind, Except.bind] at h
    rw [List.foldlM_cons] at h
    cases h1 : f s0 b with
    | error e =>
      rw [h1] at h
      cases h
    | ok s1 =>
      rw [h1] at h
      exact ⟨s0, s1, rfl, h1, h⟩

/-- The call of `applyBC` that opens `compGrad` returns when `maxorder` is at most `4` and,
where assertions are compiled in, the boundary register of the level is set. -/
theorem MLEBABecLap.applyBC_returns {D : Nat} (X : BndryEnv D) (op : MLEBABecLap D)
    (amrlev : Nat) (sol : MultiFab)
    (ha : X.assertions = true → (X.m_bndry_sol amrlev).isSome = true)
    (hm : X.maxorder ≤ 4) :
    ∃ r, MLEBABecLap.applyBC X op amrlev 0 sol BCMode.Inhomogeneous StateMode.Solution
      (X.m_bndry_sol amrlev) false = .ok r := by
  unfold MLEBABecLap.applyBC
  have h1 : ¬ (X.assertions = true ∧
      ¬ ((0 : Nat) = 0 ∨ BCMode.Inhomogeneous = BCMode.Homogeneous)) := by
    rintro ⟨_, h⟩
    exact h (Or.inl rfl)
  have h2 : ¬ (X.assertions = true ∧
      ¬ ((X.m_bndry_sol amrlev).isSome = true ∨
        BCMode.Inhomogeneous = BCMode.Homogeneous)) := by
    rintro ⟨h, h3⟩
    exact h3 (Or.inl (ha h))
  rw [if_neg h1, if_neg h2]
  simp only
  rw [if_pos hm]
  exact ⟨_, rfl⟩

/-- C30: the dispatch of `compGrad` on the type of the box.  On a covered box every gradient
value on the faces of the box is set to `0`; on a regular box the gradient in direction
`idim` is `dxi*(s(i,j,k,n) - s(i-1,j,k,n))` (the lower neighbour being taken in direction
`idim`); and on a cut box (neither covered nor regular), once `setPhiOnCentroid` has placed
`phi` on cell centroids, the pass aborts for every `grad_loc`: with "phi_on_centroid is
still a WIP" for `FaceCentroid` and with the assertion that `phi` lives at cell centers for
any other value.  Hence `compGrad` itself aborts whenever one of its boxes is cut, and
with that message when the preceding `applyBC` returns.  A call of `compGrad` that returns
has run `applyBC` and then the pass of every box of the level, in order, on the field that
`applyBC` left.  When no box of the level is cut, `compGrad` aborts exactly as `applyBC`
does and otherwise returns; in its result a face all of whose boxes are covered holds `0`, a
face all of whose boxes are regular holds `dxi*(s(i,j,k,n) - s(i-1,j,k,n))` with `s` the
field that `applyBC` left, and a face of no box and a component beyond `ncomp` hold their
old value.  The opening `applyBC` returns when `maxorder` is at most `4` and, where
assertions are compiled in, the boundary register of the level is set. -/
theorem MLEBABecLap.compGrad_dispatch {D : Nat} (X : BndryEnv D) (op : MLEBABecLap D)
    (amrlev : Nat) (grad : Fin D → MultiFab) (sol : MultiFab) (grad_loc : Location)
    (cgc : Bool) (s : Int × Int × Int → Nat → ℚ) (bx : TileBox D) :
    (X.fabtyp amrlev 0 bx = FabType.covered →
      ∃ g, MLEBABecLap.compGradBox X op amrlev cgc s grad bx = .ok g ∧
        ∀ (idim : Fin D) (c : Int × Int × Int) (n : Nat),
          c ∈ bx.nodaltilebox idim → n < op.getNComp → (g idim).val c n = 0) ∧
    (X.fabtyp amrlev 0 bx = FabType.regular →
      ∃ g, MLEBABecLap.compGradBox X op amrlev cgc s grad bx = .ok g ∧
        ∀ (idim : Fin D) (c : Int × Int × Int) (n : Nat),
          c ∈ bx.nodaltilebox idim → n < op.getNComp →
          (g idim).val c n =
            X.InvCellSize amrlev 0 idim * (s c n - s (lowerCell idim.val c) n)) ∧
    (X.fabtyp amrlev 0 bx ≠ FabType.covered ∧ X.fabtyp amrlev 0 bx ≠ FabType.regular →
      MLEBABecLap.compGradBox X op.setPhiOnCentroid amrlev
          (decide (Location.FaceCentroid = grad_loc)) s grad bx =
        .error (if grad_loc = Location.FaceCentroid then "phi_on_centroid is still a WIP"
          else "If computing the gradient at face centers we assume phi at cell centers")) ∧
    ((∃ b ∈ X.boxes amrlev 0,
        X.fabtyp amrlev 0 b ≠ FabType.covered ∧ X.fabtyp amrlev 0 b ≠ FabType.regular) →
      (∃ e, MLEBABecLap.compGrad X op.setPhiOnCentroid amrlev grad sol grad_loc
        = .error e) ∧
      (∀ r, MLEBABecLap.applyBC X op.setPhiOnCentroid amrlev 0 sol BCMode.Inhomogeneous
          StateMode.Solution (X.m_bndry_sol amrlev) false = .ok r →
        MLEBABecLap.compGrad X op.setPhiOnCentroid amrlev grad sol grad_loc =
          .error (if grad_loc = Location.FaceCentroid then "phi_on_centroid is still a WIP"
            else
              "If computing the gradient at face centers we assume phi at cell centers"))) ∧
    (∀ g, MLEBABecLap.compGrad X op amrlev grad sol grad_loc = .ok g →
      ∃ r, MLEBABecLap.applyBC X op amrlev 0 sol BCMode.Inhomogeneous StateMode.Solution
          (X.m_bndry_sol amrlev) false = .ok r ∧
        ∀ pre b post, X.boxes amrlev 0 = pre ++ b :: post →
          ∃ g0 g1,
            pre.foldlM (MLEBABecLap.compGradBox X op amrlev
              (decide (Location.FaceCentroid = grad_loc)) r.1.val) grad = .ok g0 ∧
            MLEBABecLap.compGradBox X op amrlev (decide (Location.FaceCentroid = grad_loc))
              r.1.val g0 b = .ok g1 ∧
            post.foldlM (MLEBABecLap.compGradBox X op amrlev
              (decide (Location.FaceCentroid = grad_loc)) r.1.val) g1 = .ok g) ∧
    ((∀ b ∈ X.boxes amrlev 0, X.fabtyp amrlev 0 b = FabType.covered ∨
        X.fabtyp amrlev 0 b = FabType.regular) →
      (∀ e, MLEBABecLap.applyBC X op amrlev 0 sol BCMode.Inhomogeneous StateMode.Solution
          (X.m_bndry_sol amrlev) false = .error e →
        MLEBABecLap.compGrad X op amrlev grad sol grad_loc = .error e) ∧
      (∀ r, MLEBABecLap.applyBC X op amrlev 0 sol BCMode.Inhomogeneous StateMode.Solution
          (X.m_bndry_sol amrlev) false = .ok r →
        ∃ g, MLEBABecLap.compGrad X op amrlev grad sol grad_loc = .ok g ∧
          ∀ (idim : Fin D) (c : Int × Int × Int) (n : Nat),
            (n < op.getNComp → (∃ b ∈ X.boxes amrlev 0, c ∈ b.nodaltilebox idim) →
              ((∀ b ∈ X.boxes amrlev 0, c ∈ b.nodaltilebox idim →
                  X.fabtyp amrlev 0 b = FabType.covered) →
                (g idim).val c n = 0) ∧
              ((∀ b ∈ X.boxes amrlev 0, c ∈ b.nodaltilebox idim →
                  X.fabtyp amrlev 0 b = FabType.regular) →
                (g idim).val c n =
                  X.InvCellSize amrlev 0 idim *
                    (r.1.val c n - r.1.val (lowerCell idim.val c) n))) ∧
            ((¬ n < op.getNComp ∨ ∀ b ∈ X.boxes amrlev 0, c ∉ b.nodaltilebox idim) →
              (g idim).val c n = (grad idim).val c n))) ∧
    ((X.assertions = true → (X.m_bndry_sol amrlev).isSome = true) → X.maxorder ≤ 4 →
      ∃ r, MLEBABecLap.applyBC X op amrlev 0 sol BCMode.Inhomogeneous StateMode.Solution
        (X.m_bndry_sol amrlev) false = .ok r) := by
  refine ⟨?_, ?_, MLEBABecLap.compGradBox_aborts X op amrlev grad_loc s grad bx, ?_, ?_, ?_,
    MLEBABecLap.applyBC_returns X op amrlev sol⟩
  · intro hc
    unfold MLEBABecLap.compGradBox
    simp only
    rw [if_pos hc]
    refine ⟨_, rfl, ?_⟩
    intro idim c n hmem hn
    simp only [ebLoop_set]
    rw [if_pos ⟨hmem, hn⟩]
  · intro hr
    have hc : X.fabtyp amrlev 0 bx ≠ FabType.covered := by
      rw [hr]
      decide
    unfold MLEBABecLap.compGradBox
    simp only
    rw [if_neg hc, if_pos hr]
    refine ⟨_, rfl, ?_⟩
    intro idim c n hmem hn
    simp only [ebLoop_set]
    rw [if_pos ⟨hmem, hn⟩]
  · intro hcut
    have hloop : ∀ r : MultiFab × Bool,
        (X.boxes amrlev 0).foldlM
          (MLEBABecLap.compGradBox X op.setPhiOnCentroid amrlev
            (decide (Location.FaceCentroid = grad_loc)) r.1.val) grad =
        .error (if grad_loc = Location.FaceCentroid then "phi_on_centroid is still a WIP"
          else "If computing the gradient at face centers we assume phi at cell centers") :=
      fun r => foldlM_abort _ _
        (fun b => X.fabtyp amrlev 0 b ≠ FabType.covered ∧
          X.fabtyp amrlev 0 b ≠ FabType.regular)
        (fun g b hb => MLEBABecLap.compGradBox_aborts X op amrlev grad_loc r.1.val g b hb)
        (fun g b hb => MLEBABecLap.compGradBox_returns X op.setPhiOnCentroid amrlev _
          r.1.val g b hb)
        _ hcut grad
    constructor
    · unfold MLEBABecLap.compGrad
      simp only
      split
      · exact ⟨_, rfl⟩
      · rename_i r _
        exact ⟨_, hloop r⟩
    · intro r hr
      unfold MLEBABecLap.compGrad
      simp only
      rw [hr]
      exact hloop r
  · intro g hg
    unfold MLEBABecLap.compGrad at hg
    simp only at hg
    split at hg
    · cases hg
    · rename_i r hr
      refine ⟨r, hr, ?_⟩
      intro pre b post hsplit
      rw [hsplit] at hg
      exact foldlM_split _ pre post b grad g hg
  · intro hl
    constructor
    · intro e he
      unfold MLEBABecLap.compGrad
      simp only
      rw [he]
    · intro r hr
      obtain ⟨g, hg, hv⟩ := MLEBABecLap.compGrad_loop_value X op amrlev
        (decide (Location.FaceCentroid = grad_loc)) r.1.val (X.boxes amrlev 0) hl grad
      refine ⟨g, ?_, ?_⟩
      · unfold MLEBABecLap.compGrad
        simp only
        rw [hr]
        exact hg
      · intro idim c n
        refine ⟨?_, (hv idim c n).2⟩
        intro hn hex
        constructor
        · intro hall
          refine (hv idim c n).1 0 hn hex ?_
          intro b hb hc
          rw [if_pos (hall b hb hc)]
        · intro hall
          refine (hv idim c n).1 _ hn hex ?_
          intro b hb hc
          have hne : X.fabtyp amrlev 0 b ≠ FabType.covered := by
            rw [hall b hb hc]
            decide
          rw [if_neg hne]

/-- Instance of C30.  On the sample environment without cut boxes `compGrad` returns: the
face `(0,0,0)` of the covered box holds `0`, the face `(5,0,0)` of the regular box holds
`1 * (15 - 12) = 3` in direction `0`, and the face `(9,0,0)`, which is in no box, keeps the
value `7`.  On the sample environment whose second box is cut, with `phi` on cell centroids,
`compGrad` aborts with the message of the branch, for `FaceCentroid` and for
`FaceCenter`. -/
theorem MLEBABecLap.compGrad_dispatch_witness :
    (∃ g, MLEBABecLap.compGrad BndryEnv.sampleUncut (MLEBABecLap.sample 2 1) 0
        (fun _ => MultiFab.const 1 7) MultiFab.ramp Location.FaceCenter = .ok g ∧
      (g 0).val (0, 0, 0) 0 = 0 ∧ (g 0).val (5, 0, 0) 0 = 3 ∧ (g 0).val (9, 0, 0) 0 = 7) ∧
    MLEBABecLap.compGrad BndryEnv.sample (MLEBABecLap.sample 2 1).setPhiOnCentroid 0
        (fun _ => MultiFab.const 1 0) (MultiFab.const 1 0) Location.FaceCentroid =
      .error "phi_on_centroid is still a WIP" ∧
    MLEBABecLap.compGrad BndryEnv.sample (MLEBABecLap.sample 2 1).setPhiOnCentroid 0
        (fun _ => MultiFab.const 1 0) (MultiFab.const 1 0) Location.FaceCenter =
      .error "If computing the gradient at face centers we assume phi at cell centers" := by
  refine ⟨?_,
    ((MLEBABecLap.compGrad_dispatch BndryEnv.sample (MLEBABecLap.sample 2 1) 0
      (fun _ => MultiFab.const 1 0) (MultiFab.const 1 0) Location.FaceCentroid true
      (fun _ _ => 0) ⟨[], fun _ => [], FabType.regular⟩).2.2.2.1
      ⟨⟨[(1, 0, 0)], fun _ => [(1, 0, 0), (2, 0, 0)], FabType.singlevalued⟩,
        List.mem_cons_of_mem _ (List.mem_cons_self _ _), by decide, by decide⟩).2 _ rfl,
    ((MLEBABecLap.compGrad_dispatch BndryEnv.sample (MLEBABecLap.sample 2 1) 0
      (fun _ => MultiFab.const 1 0) (MultiFab.const 1 0) Location.FaceCenter true
      (fun _ _ => 0) ⟨[], fun _ => [], FabType.regular⟩).2.2.2.1
      ⟨⟨[(1, 0, 0)], fun _ => [(1, 0, 0), (2, 0, 0)], FabType.singlevalued⟩,
        List.mem_cons_of_mem _ (List.mem_cons_self _ _), by decide, by decide⟩).2 _ rfl⟩
  have T := MLEBABecLap.compGrad_dispatch BndryEnv.sampleUncut (MLEBABecLap.sample 2 1) 0
    (fun _ => MultiFab.const 1 7) MultiFab.ramp Location.FaceCenter true
    (fun _ _ => 0) ⟨[], fun _ => [], FabType.regular⟩
  have hboxes : BndryEnv.sampleUncut.boxes 0 0 =
      [⟨[(0, 0, 0)], fun _ => [(0, 0, 0), (1, 0, 0)], FabType.covered⟩,
       ⟨[(5, 0, 0)], fun _ => [(5, 0, 0), (6, 0, 0)], FabType.regular⟩] := rfl
  have huncut : ∀ b ∈ BndryEnv.sampleUncut.boxes 0 0,
      BndryEnv.sampleUncut.fabtyp 0 0 b = FabType.covered ∨
      BndryEnv.sampleUncut.fabtyp 0 0 b = FabType.regular := by
    intro b hb
    rw [hboxes] at hb
    simp only [List.mem_cons, List.mem_singleton, List.not_mem_nil, or_false] at hb
    rcases hb with rfl | rfl
    · exact Or.inl rfl
    · exact Or.inr rfl
  obtain ⟨r, hr⟩ := T.2.2.2.2.2.2 (fun h => by cases h) (by decide)
  have hrval : r.1.val = MultiFab.ramp.val := by
    have h := congrArg (fun x : Except String (MultiFab × Bool) =>
      match x with
      | .ok t => t.1.val
      | .error _ => MultiFab.ramp.val) hr
    exact h.symm.trans rfl
  obtain ⟨g, hg, hv⟩ := (T.2.2.2.2.2.1 huncut).2 r hr
  clear T
  refine ⟨g, hg, ?_, ?_, ?_⟩
  · refine ((hv 0 (0, 0, 0) 0).1 Nat.one_pos
      ⟨_, List.mem_cons_self _ _, List.mem_cons_self _ _⟩).1 ?_
    intro b hb hc
    rw [hboxes] at hb
    simp only [List.mem_cons, List.mem_singleton, List.not_mem_nil, or_false] at hb
    rcases hb with rfl | rfl
    · rfl
    · exact absurd hc (by decide)
  · have h5 := ((hv 0 (5, 0, 0) 0).1 Nat.one_pos
      ⟨_, List.mem_cons_of_mem _ (List.mem_cons_self _ _), List.mem_cons_self _ _⟩).2 (by
        intro b hb hc
        rw [hboxes] at hb
        simp only [List.mem_cons, List.mem_singleton, List.not_mem_nil, or_false] at hb
        rcases hb with rfl | rfl
        · exact absurd hc (by decide)
        · rfl)
    rw [h5, hrval]
    show (1 : ℚ) * (3 * ((5 : Int) : ℚ) - 3 * (((5 : Int) - 1 : Int) : ℚ)) = 3
    norm_num
  · have h9 := (hv 0 (9, 0, 0) 0).2 (Or.inr (by
      intro b hb hc
      rw [hboxes] at hb
      simp only [List.mem_cons, List.mem_singleton, List.not_mem_nil, or_false] at hb
      rcases hb with rfl | rfl
      · exact absurd hc (by decide)
      · exact absurd hc (by decide)))
    rw [h9]
    rfl

end amrex
